import Mathlib

/-!
Chaos scenario engine: report, scenario model, runner, registries, actions, assertions
and the argument parser of the `assert` command.

A shallow embedding of `chaos/internal/report/report.go`,
`chaos/internal/scenario/scenario.go`, `chaos/internal/scenario/runner.go`,
`chaos/internal/actions/registry.go`, `chaos/internal/asserts/registry.go`,
`chaos/internal/driver/driver.go`, `chaos/internal/actions/partition.go`,
`chaos/internal/actions/kill_leader.go`, `chaos/internal/asserts/api_healthy.go`,
`chaos/internal/asserts/leader_elected.go` and `parseAssertArgs` of
`chaos/internal/cli/assert.go`.

Conventions of the embedding:

* a Go `error` is an `Option String` (`none` is `nil`, `some msg` carries `err.Error()`);
* a `map[string]any` is an association list read by its first matching key;
* `time.Time` and `time.Duration` are integers (a zero `Time` is `0`);
* everything outside the engine (the driver, the remote nodes, the clock, the
  cancellation of the run context) is a world `W` that the capabilities and the
  clock read and transform; the engine itself is a deterministic function of it;
* a nil-pointer dereference is the result `none`;
* the runner records what it does in a trace: every `r.log` line of the source and
  every call it makes to the world, with the outcome of the call; an action records
  the calls it makes to the driver and to its sessions in the same way;
* functions of the Go standard library are parameters (`time.ParseDuration`,
  `(time.Duration).String`) or, where a claim turns on what they compute
  (`strings.ToUpper`, `strings.ToLower`, `fmt.Sscanf`), definitions that say which part
  of their behaviour they cover.
-/

namespace Chaos

/-! ## Values and maps -/

/-- Go `error`. -/
abbrev Error := Option String

/-- The dynamic values stored in a `map[string]any`: strings, bools, ints,
`time.Duration`s and, for the details of an assertion result, a `map[string]string`. -/
inductive Value where
  | str (s : String)
  | bool (b : Bool)
  | int (i : Int)
  | dur (d : Int)
  | strs (m : List (String × String))
  deriving DecidableEq, Repr

/-- Go `map[string]any`. -/
abbrev Dict := List (String × Value)

/-- Read `m[k]`. -/
def Dict.get (m : Dict) (k : String) : Option Value :=
  (m.find? (fun kv => kv.1 == k)).map (fun kv => kv.2)

/-- Write `m[k] = v`. -/
def Dict.set (m : Dict) (k : String) (v : Value) : Dict :=
  (k, v) :: m.filter (fun kv => !(kv.1 == k))

/-- Read `s, _ := m[k].(string)`: the empty string when absent or not a string. -/
def Dict.getString (m : Dict) (k : String) : String :=
  match m.get k with
  | some (Value.str s) => s
  | _ => ""

/-! ## report.go -/

/-- Go `report.EventType`, a string type. -/
abbrev EventType := String

def EventStart : EventType := "start"
def EventSuccess : EventType := "success"
def EventFailure : EventType := "failure"
def EventError : EventType := "error"
def EventCleanup : EventType := "cleanup"
def EventInfo : EventType := "info"

/-- Go `report.Event`; the field `Type` is written `Type_`. -/
structure Event where
  Time : Int
  Type_ : EventType
  Step : String
  Message : String
  Duration : Int
  Details : Dict
  deriving DecidableEq, Repr

/-- Go `report.Stats`. The counters never exceed the length of the event slice,
so the machine width of `int` plays no part. -/
structure Stats where
  TotalSteps : Int
  SuccessSteps : Int
  FailedSteps : Int
  CleanupSteps : Int
  deriving DecidableEq, Repr

/-- Go `report.Report`. -/
structure Report where
  Scenario : String
  Description : String
  StartTime : Int
  EndTime : Int
  Duration : Int
  Success : Bool
  Error : Error
  ErrorMsg : String
  Events : List Event
  Stats : Stats
  deriving DecidableEq, Repr

/-- Go `report.NewReport`; `now` is the reading of `time.Now()`. -/
def NewReport (scenario : String) (now : Int) : Report :=
  { Scenario := scenario
    Description := ""
    StartTime := now
    EndTime := 0
    Duration := 0
    Success := false
    Error := none
    ErrorMsg := ""
    Events := []
    Stats := { TotalSteps := 0, SuccessSteps := 0, FailedSteps := 0, CleanupSteps := 0 } }

/-- The `switch e.Type` of `AddEvent`, after `TotalSteps++`. -/
def Stats.bump (s : Stats) (t : EventType) : Stats :=
  let s1 := { s with TotalSteps := s.TotalSteps + 1 }
  if t = EventSuccess then { s1 with SuccessSteps := s1.SuccessSteps + 1 }
  else if t = EventFailure ∨ t = EventError then { s1 with FailedSteps := s1.FailedSteps + 1 }
  else if t = EventCleanup then { s1 with CleanupSteps := s1.CleanupSteps + 1 }
  else s1

/-- Go `(*Report).AddEvent`; `now` is the reading of `time.Now()` used when the
event carries a zero time. -/
def Report.AddEvent (r : Report) (e : Event) (now : Int) : Report :=
  let e1 := if e.Time = 0 then { e with Time := now } else e
  { r with Events := r.Events ++ [e1], Stats := r.Stats.bump e1.Type_ }

/-! ## scenario.go -/

/-- Go `scenario.OnErrorBehavior`, a string type. -/
abbrev OnErrorBehavior := String

def OnErrorFail : OnErrorBehavior := "fail"
def OnErrorContinue : OnErrorBehavior := "continue"
def OnErrorCleanup : OnErrorBehavior := "cleanup"

/-- Go `scenario.Step`. -/
structure Step where
  Name : String
  Action : String
  Assert : String
  Wait : Int
  Args : Dict
  OnError : OnErrorBehavior
  Retries : Int
  Timeout : Int
  deriving DecidableEq, Repr

/-- Go `scenario.Scenario`. -/
structure Scenario where
  Name : String
  Description : String
  Tags : List String
  Timeout : Int
  Steps : List Step
  Cleanup : List Step
  Metadata : List (String × String)
  deriving DecidableEq, Repr

/-- Go `(*Step).StepType`. -/
def Step.StepType (s : Step) : String :=
  if s.Action ≠ "" then "action"
  else if s.Assert ≠ "" then "assert"
  else if s.Wait > 0 then "wait"
  else "unknown"

/-- Go `(*Step).Validate`. -/
def Step.Validate (s : Step) : Error :=
  let stepType := s.StepType
  if stepType = "unknown" then
    some "step must have action, assert, or wait"
  else if s.OnError ≠ "" ∧ s.OnError ≠ OnErrorFail ∧ s.OnError ≠ OnErrorContinue
      ∧ s.OnError ≠ OnErrorCleanup then
    some ("invalid on_error value: " ++ s.OnError)
  else
    none

/-- The `for i, step := range` loops of `Scenario.Validate`: the first step that
fails validation gives the error, wrapped with its position. -/
def Scenario.validateSteps (label : String) : Nat → List Step → Error
  | _, [] => none
  | i, step :: rest =>
    match step.Validate with
    | some err =>
      some (label ++ toString (i + 1) ++ " (" ++ step.Name ++ "): " ++ err)
    | none => Scenario.validateSteps label (i + 1) rest

/-- Go `(*Scenario).Validate`. -/
def Scenario.Validate (s : Scenario) : Error :=
  if s.Name = "" then some "scenario name is required"
  else if s.Steps.length = 0 then some "scenario must have at least one step"
  else
    match Scenario.validateSteps "step " 0 s.Steps with
    | some err => some err
    | none => Scenario.validateSteps "cleanup step " 0 s.Cleanup

/-! ## driver.go, action.go, assert.go, registry.go: what the runner uses of them -/

/-- Go `driver.Node`. -/
structure Node where
  Name : String
  PublicIP : String
  PrivateIP : String
  Role : String
  Index : Int
  Labels : List (String × String)
  deriving DecidableEq, Repr

/-- Go `driver.Cluster`. -/
structure Cluster where
  Name : String
  Servers : List Node
  Clients : List Node
  deriving DecidableEq, Repr

/-- Go `context.Context` as the runner shapes it: the timeouts wrapped around the
caller's context by `context.WithTimeout`, innermost first. Whether it is done is
decided by the world. -/
abbrev Context := List Int

/-- Go `context.WithTimeout`. -/
def WithTimeout (ctx : Context) (d : Int) : Context := d :: ctx

/-- Go `*driver.ActionContext`. `addr` is the identity of the pointer (one fresh
address per `NewActionContext`); the `Driver` field is part of the world. -/
structure ActionContext where
  addr : Nat
  Cluster : Cluster
  State : Dict
  deriving DecidableEq, Repr

/-- Go `driver.NewActionContext`, allocated at `addr`. -/
def NewActionContext (cluster : Cluster) (addr : Nat) : ActionContext :=
  { addr := addr, Cluster := cluster, State := [] }

/-- Go `*driver.AssertContext`; the `Driver` field is part of the world. -/
structure AssertContext where
  Cluster : Cluster
  deriving DecidableEq, Repr

/-- Go `driver.NewAssertContext`. -/
def NewAssertContext (cluster : Cluster) : AssertContext :=
  { Cluster := cluster }

/-- Go `asserts.Result`. -/
structure AssertResult where
  Assertion : String
  Success : Bool
  Message : String
  Duration : Int
  Attempts : Int
  Details : Dict
  deriving DecidableEq, Repr

/-- Go `actions.Action`, over a world `W`. `Execute` returns the state map it leaves
in the action context together with its error; `Rollback` returns its error. -/
structure Action (W : Type) where
  Name : String
  Execute : Context → ActionContext → Dict → W → (Dict × Error) × W
  Rollback : Context → ActionContext → W → Error × W

/-- Go `asserts.Assertion`, over a world `W`. The result pointer is taken to be
non-nil; the runner reads it only when the error is nil. -/
structure Assertion (W : Type) where
  Name : String
  Check : Context → AssertContext → Dict → W → (AssertResult × Error) × W

/-- Go `actions.Registry` and `asserts.Registry`: the map from name to capability. -/
structure Registry (α : Type) where
  entries : List (String × α)

/-- Go `(*Registry).Get`; `kind` is "action" or "assertion". -/
def Registry.Get {α : Type} (r : Registry α) (kind : String) (name : String) :
    Except String α :=
  match r.entries.find? (fun kv => kv.1 == name) with
  | some kv => Except.ok kv.2
  | none => Except.error (kind ++ " \"" ++ name ++ "\" not found")

/-! ## runner.go -/

/-- The lines written by `r.log`, one constructor per format string, holding the
arguments of the call. -/
inductive LogLine where
  | starting (name : String)
  | step (i : Nat) (name : String)
  | failedContinuing (err : Error)
  | failedRunningCleanup (err : Error)
  | failedAborting (err : Error)
  | completed
  | retry (attempt : Nat) (retries : Nat)
  | waiting (d : Int)
  | runningCleanup
  | cleanupStep (i : Nat) (name : String)
  | cleanupStepFailed (err : Error)
  | cannotFind (name : String)
  | rollingBack (name : String)
  | rollbackFailed (err : String)
  deriving DecidableEq, Repr

/-- What the runner did, in order: its log lines and its calls into the world, each
call with its outcome (`ok` is "returned a nil error", for `check` also
"reported Success"). -/
inductive Op where
  | log (line : LogLine)
  | done (cancelled : Bool)
  | execute (addr : Nat) (action : String) (ok : Bool)
  | check (assertion : String) (ok : Bool)
  | wait (d : Int) (ok : Bool)
  | sleep
  | rollback (addr : Nat) (action : String) (ok : Bool)
  deriving DecidableEq, Repr

/-- Go `scenario.Runner` with what it reaches through package globals: the driver is
the world, `actions` and `asserts` are the two default registries, and the last four
fields are the clock and the context as the runner uses them. -/
structure Runner (W : Type) where
  cluster : Cluster
  verbose : Bool
  actions : Registry (Action W)
  asserts : Registry (Assertion W)
  /-- Reading of `time.Now()`. -/
  now : W → Int
  /-- The non-blocking `select` on `ctx.Done()`: is the context done? -/
  done : Context → W → Bool × W
  /-- The blocking `select` of a wait step: `none` when the timer fires first,
  `some ctx.Err()` when the context is done first. -/
  waitFor : Context → Int → W → Error × W
  /-- The call `time.Sleep(time.Second)`. -/
  sleep : W → W

/-- The state of the machine a run threads through: the world, the next fresh
action-context address, and the trace so far. -/
structure Mach (W : Type) where
  world : W
  heap : Nat
  trace : List Op

/-- Append one entry to the trace. -/
def Mach.emit {W : Type} (m : Mach W) (op : Op) : Mach W :=
  { m with trace := m.trace ++ [op] }

/-- Go `(*Runner).log`. The line is recorded whether or not `verbose` is set; the
flag only decides whether it is printed. -/
def Runner.log {W : Type} (_r : Runner W) (m : Mach W) (line : LogLine) : Mach W :=
  m.emit (Op.log line)

/-- Go `scenario.StepResult`. -/
structure StepResult where
  Success : Bool
  Message : String
  Duration : Int
  deriving DecidableEq, Repr

/-- Go `(*StepResult).EventType`. -/
def StepResult.EventType (r : StepResult) : EventType :=
  if r.Success then EventSuccess else EventFailure

/-- Go `(*Runner).executeAction`. -/
def Runner.executeAction {W : Type} (r : Runner W) (ctx : Context) (step : Step)
    (m : Mach W) : (StepResult × Option ActionContext × Error) × Mach W :=
  match r.actions.Get "action" step.Action with
  | Except.error err =>
    (({ Success := false, Message := err, Duration := 0 }, none, some err), m)
  | Except.ok action =>
    let actx := NewActionContext r.cluster m.heap
    let out := action.Execute ctx actx step.Args m.world
    let actx1 := { actx with State := out.1.1 }
    let m1 : Mach W := { world := out.2, heap := m.heap + 1, trace := m.trace }
    match out.1.2 with
    | some err =>
      (({ Success := false, Message := err, Duration := 0 }, some actx1, some err),
        m1.emit (Op.execute actx.addr step.Action false))
    | none =>
      let actx2 := { actx1 with State := actx1.State.set "_action_name" (Value.str step.Action) }
      (({ Success := true, Message := "Executed " ++ step.Action, Duration := 0 },
          some actx2, none),
        m1.emit (Op.execute actx.addr step.Action true))

/-- Go `(*Runner).executeAssert`. -/
def Runner.executeAssert {W : Type} (r : Runner W) (ctx : Context) (step : Step)
    (m : Mach W) : (StepResult × Error) × Mach W :=
  match r.asserts.Get "assertion" step.Assert with
  | Except.error err =>
    (({ Success := false, Message := err, Duration := 0 }, some err), m)
  | Except.ok assertion =>
    let actx := NewAssertContext r.cluster
    let out := assertion.Check ctx actx step.Args m.world
    let m1 : Mach W := { m with world := out.2 }
    match out.1.2 with
    | some err =>
      (({ Success := false, Message := err, Duration := 0 }, some err),
        m1.emit (Op.check step.Assert false))
    | none =>
      (({ Success := out.1.1.Success, Message := out.1.1.Message, Duration := 0 }, none),
        m1.emit (Op.check step.Assert out.1.1.Success))

/-- Go `(*Runner).executeWait`. -/
def Runner.executeWait {W : Type} (r : Runner W) (ctx : Context) (step : Step)
    (m : Mach W) : (StepResult × Error) × Mach W :=
  let m0 := r.log m (LogLine.waiting step.Wait)
  let out := r.waitFor ctx step.Wait m0.world
  let m1 : Mach W := { m0 with world := out.2 }
  match out.1 with
  | some err =>
    (({ Success := false, Message := "Wait interrupted", Duration := 0 }, some err),
      m1.emit (Op.wait step.Wait false))
  | none =>
    (({ Success := true, Message := "Waited " ++ toString step.Wait, Duration := 0 }, none),
      m1.emit (Op.wait step.Wait true))

/-- The variables `result`, `actx` and `err` of `executeStep`, nil before the first
attempt and kept from one attempt to the next. -/
structure StepVars where
  result : Option StepResult
  actx : Option ActionContext
  err : Error
  deriving DecidableEq, Repr

/-- The `switch step.StepType()` of one attempt of `executeStep`: an action attempt
assigns all three variables, an assertion or a wait assigns `result` and `err`, an
unknown step type assigns `err` only. -/
def Runner.dispatch {W : Type} (r : Runner W) (ctx : Context) (step : Step)
    (v : StepVars) (m : Mach W) : StepVars × Mach W :=
  if step.StepType = "action" then
    let out := r.executeAction ctx step m
    ({ result := some out.1.1, actx := out.1.2.1, err := out.1.2.2 }, out.2)
  else if step.StepType = "assert" then
    let out := r.executeAssert ctx step m
    ({ v with result := some out.1.1, err := out.1.2 }, out.2)
  else if step.StepType = "wait" then
    let out := r.executeWait ctx step m
    ({ v with result := some out.1.1, err := out.1.2 }, out.2)
  else
    ({ v with err := some "unknown step type" }, m)

/-- The test `err == nil && result.Success` that ends the attempts: `none` when it
dereferences a nil `result`. -/
def StepVars.succeeded (v : StepVars) : Option Bool :=
  match v.err with
  | some _ => some false
  | none =>
    match v.result with
    | none => none
    | some res => some res.Success

/-- The loop `for attempt := 1; attempt <= retries; attempt++` of `executeStep`, with
`k` iterations left (the attempt number is `retries - k + 1`). -/
def Runner.attempts {W : Type} (r : Runner W) (ctx : Context) (step : Step)
    (retries : Nat) : Nat → StepVars → Mach W → Option (StepVars × Mach W)
  | 0, v, m => some (v, m)
  | k + 1, v, m =>
    let attempt := retries - k
    let out := r.dispatch ctx step v m
    match out.1.succeeded with
    | none => none
    | some true => some out
    | some false =>
      if attempt < retries then
        let m1 := r.log out.2 (LogLine.retry attempt retries)
        let m2 : Mach W := ({ m1 with world := r.sleep m1.world }).emit Op.sleep
        Runner.attempts r ctx step retries k out.1 m2
      else
        Runner.attempts r ctx step retries k out.1 out.2

/-- Go `(*Runner).executeStep`; `none` when `result.Duration` is assigned through a
nil `result`. The argument map of the step is taken not to be changed by the
capability. -/
def Runner.executeStep {W : Type} (r : Runner W) (ctx0 : Context) (step : Step)
    (m : Mach W) : Option ((StepResult × Option ActionContext × Error) × Mach W) :=
  let ctx := if step.Timeout > 0 then WithTimeout ctx0 step.Timeout else ctx0
  let start := r.now m.world
  let retries := if step.Retries < 1 then 1 else step.Retries
  match r.attempts ctx step retries.toNat retries.toNat
      { result := none, actx := none, err := none } m with
  | none => none
  | some out =>
    match out.1.result with
    | none => none
    | some res =>
      some (({ res with Duration := r.now out.2.world - start }, out.1.actx, out.1.err), out.2)

/-- The first loop of `runCleanup`: the explicit cleanup steps, `i` counting them. -/
def Runner.cleanupSteps {W : Type} (r : Runner W) (ctx : Context) :
    Nat → List Step → Report → Mach W → Option (Report × Mach W)
  | _, [], rep, m => some (rep, m)
  | i, step :: rest, rep, m =>
    let m0 := r.log m (LogLine.cleanupStep (i + 1) step.Name)
    match r.executeStep ctx step m0 with
    | none => none
    | some out =>
      let rep1 := rep.AddEvent
        { Time := r.now out.2.world, Type_ := EventCleanup, Step := step.Name,
          Message := out.1.1.Message, Duration := out.1.1.Duration, Details := [] }
        (r.now out.2.world)
      let m1 := match out.1.2.2 with
        | some err => r.log out.2 (LogLine.cleanupStepFailed (some err))
        | none => out.2
      Runner.cleanupSteps r ctx (i + 1) rest rep1 m1

/-- The second loop of `runCleanup`, `for i := len(executedActions) - 1; i >= 0; i--`,
over the retained action contexts listed last first. -/
def Runner.rollbacks {W : Type} (r : Runner W) (ctx : Context) :
    List ActionContext → Report → Mach W → Report × Mach W
  | [], rep, m => (rep, m)
  | actx :: rest, rep, m =>
    let actionName := actx.State.getString "_action_name"
    if actionName = "" then Runner.rollbacks r ctx rest rep m
    else
      match r.actions.Get "action" actionName with
      | Except.error _ =>
        Runner.rollbacks r ctx rest rep (r.log m (LogLine.cannotFind actionName))
      | Except.ok action =>
        let m0 := r.log m (LogLine.rollingBack actionName)
        let out := action.Rollback ctx actx m0.world
        let m1 : Mach W := { m0 with world := out.2 }
        match out.1 with
        | some err =>
          let m2 := r.log (m1.emit (Op.rollback actx.addr actionName false))
            (LogLine.rollbackFailed err)
          let rep1 := rep.AddEvent
            { Time := r.now m2.world, Type_ := EventError, Step := "rollback-" ++ actionName,
              Message := err, Duration := 0, Details := [] }
            (r.now m2.world)
          Runner.rollbacks r ctx rest rep1 m2
        | none =>
          let m2 := m1.emit (Op.rollback actx.addr actionName true)
          let rep1 := rep.AddEvent
            { Time := r.now m2.world, Type_ := EventCleanup, Step := "rollback-" ++ actionName,
              Message := "Rollback successful", Duration := 0, Details := [] }
            (r.now m2.world)
          Runner.rollbacks r ctx rest rep1 m2

/-- Go `(*Runner).runCleanup`. -/
def Runner.runCleanup {W : Type} (r : Runner W) (ctx : Context) (cleanupSteps : List Step)
    (executedActions : List ActionContext) (rep : Report) (m : Mach W) :
    Option (Report × Mach W) :=
  let m0 := r.log m LogLine.runningCleanup
  match r.cleanupSteps ctx 0 cleanupSteps rep m0 with
  | none => none
  | some out => some (r.rollbacks ctx executedActions.reverse out.1 out.2)

/-- The variables of `Run` that its main loop reads and writes. -/
structure LoopState (W : Type) where
  rep : Report
  executedActions : List ActionContext
  runCleanup : Bool
  m : Mach W

/-- What `Run` returns: the report, the error, and the machine it leaves. -/
structure RunResult (W : Type) where
  rep : Report
  err : Error
  m : Mach W

/-- How an iteration of the main loop of `Run` ends: it goes on to the next
iteration (`next`, also after `continue`), leaves the loop (`brk`), or returns from
`Run` (`ret`). -/
inductive Flow (W : Type) where
  | next (s : LoopState W)
  | brk (s : LoopState W)
  | ret (res : RunResult W)

/-- The `select` that opens an iteration of the main loop of `Run`: when the context
is done it appends the "Context cancelled" event and sets `runCleanup`. -/
def Runner.poll {W : Type} (r : Runner W) (ctx : Context) (step : Step)
    (s : LoopState W) : LoopState W :=
  let d := r.done ctx s.m.world
  let m0 : Mach W := ({ s.m with world := d.2 }).emit (Op.done d.1)
  if d.1 then
    { s with
      rep := s.rep.AddEvent
        { Time := r.now m0.world, Type_ := EventError, Step := step.Name,
          Message := "Context cancelled", Duration := 0, Details := [] }
        (r.now m0.world)
      runCleanup := true
      m := m0 }
  else { s with m := m0 }

/-- The call `r.executeStep(ctx, &step)` of iteration `i` of the main loop, made in
the state the `select` leaves. -/
def Runner.attempt {W : Type} (r : Runner W) (ctx : Context) (i : Nat) (step : Step)
    (s : LoopState W) : Option ((StepResult × Option ActionContext × Error) × Mach W) :=
  r.executeStep ctx step (r.log (r.poll ctx step s).m (LogLine.step (i + 1) step.Name))

/-- The statement `if actx != nil { executedActions = append(executedActions, actx) }`
of `Run`. -/
def retain (executedActions : List ActionContext) (actx : Option ActionContext) :
    List ActionContext :=
  match actx with
  | some a => executedActions ++ [a]
  | none => executedActions

/-- The `rep.AddEvent` call of `Run` for the result `executeStep` returned. -/
def Runner.record {W : Type} (r : Runner W) (rep : Report) (step : Step)
    (out : (StepResult × Option ActionContext × Error) × Mach W) : Report :=
  rep.AddEvent
    { Time := r.now out.2.world, Type_ := out.1.1.EventType, Step := step.Name,
      Message := out.1.1.Message, Duration := out.1.1.Duration, Details := [] }
    (r.now out.2.world)

/-- One iteration of `for i, step := range scenario.Steps` in `Run`. -/
def Runner.iter {W : Type} (r : Runner W) (ctx : Context) (scenario : Scenario)
    (i : Nat) (step : Step) (s : LoopState W) : Option (Flow W) :=
  let s0 := r.poll ctx step s
  if s0.runCleanup then some (Flow.brk s0)
  else
    match r.attempt ctx i step s with
    | none => none
    | some out =>
      let result := out.1.1
      let err := out.1.2.2
      let executed := retain s0.executedActions out.1.2.1
      let rep1 := r.record s0.rep step out
      if err ≠ none ∨ result.Success = false then
        if step.OnError = OnErrorContinue then
          some (Flow.next
            { rep := rep1, executedActions := executed, runCleanup := s0.runCleanup,
              m := r.log out.2 (LogLine.failedContinuing err) })
        else if step.OnError = OnErrorCleanup then
          some (Flow.next
            { rep := rep1, executedActions := executed, runCleanup := true,
              m := r.log out.2 (LogLine.failedRunningCleanup err) })
        else
          let m2 := r.log out.2 (LogLine.failedAborting err)
          let rep2 := { rep1 with Success := false, Error := err }
          match r.runCleanup ctx scenario.Cleanup executed rep2 m2 with
          | none => none
          | some fin => some (Flow.ret { rep := fin.1, err := err, m := fin.2 })
      else
        some (Flow.next
          { rep := rep1, executedActions := executed, runCleanup := s0.runCleanup,
            m := out.2 })

/-- The main loop of `Run` over the steps that are left, `i` being the index of the
first of them: `next` when the range is exhausted. -/
def Runner.runSteps {W : Type} (r : Runner W) (ctx : Context) (scenario : Scenario) :
    Nat → List Step → LoopState W → Option (Flow W)
  | _, [], s => some (Flow.next s)
  | i, step :: rest, s =>
    match r.iter ctx scenario i step s with
    | some (Flow.next s1) => Runner.runSteps r ctx scenario (i + 1) rest s1
    | other => other

/-- The state in which `Run` enters its main loop. -/
def Runner.enter {W : Type} (r : Runner W) (scenario : Scenario) (w : W) : LoopState W :=
  { rep := { NewReport scenario.Name (r.now w) with Description := scenario.Description }
    executedActions := []
    runCleanup := false
    m := r.log { world := w, heap := 0, trace := [] } (LogLine.starting scenario.Name) }

/-- The context of the run: the caller's, under the scenario timeout when there is one. -/
def Runner.runCtx (ctx0 : Context) (scenario : Scenario) : Context :=
  if scenario.Timeout > 0 then WithTimeout ctx0 scenario.Timeout else ctx0

/-- The end of `Run` once the main loop is left without returning: teardown, then
`rep.Success = true`. -/
def Runner.finish {W : Type} (r : Runner W) (ctx : Context) (scenario : Scenario)
    (s : LoopState W) : Option (RunResult W) :=
  match r.runCleanup ctx scenario.Cleanup s.executedActions s.rep s.m with
  | none => none
  | some fin =>
    some { rep := { fin.1 with Success := true }, err := none,
           m := r.log fin.2 LogLine.completed }

/-- Go `(*Runner).Run`, started in the world `w` under the caller's context `ctx0`;
`none` when the run ends in a nil-pointer dereference. -/
def Runner.Run {W : Type} (r : Runner W) (ctx0 : Context) (scenario : Scenario) (w : W) :
    Option (RunResult W) :=
  let ctx := Runner.runCtx ctx0 scenario
  match r.runSteps ctx scenario 0 scenario.Steps (r.enter scenario w) with
  | none => none
  | some (Flow.ret res) => some res
  | some (Flow.next s) => r.finish ctx scenario s
  | some (Flow.brk s) => r.finish ctx scenario s

/-! ## Vocabulary for stating properties of a run -/

/-- A step whose `StepType` is action, assert or wait. -/
def Step.known (s : Step) : Bool := s.StepType != "unknown"

/-- The `AddEvent` calls of a list of events, each with the clock reading of its call. -/
def Report.addEvents (r : Report) (es : List (Event × Int)) : Report :=
  es.foldl (fun acc p => acc.AddEvent p.1 p.2) r

/-- The number of events of a given type. -/
def countType (t : EventType) (es : List Event) : Int :=
  (es.countP (fun e => e.Type_ == t) : Nat)

/-- The step-start line "Step i: name", when the entry is one. -/
def Op.stepMark : Op → Option (Nat × String)
  | Op.log (LogLine.step i name) => some (i, name)
  | _ => none

/-- The line "Cleanup step i: name", when the entry is one. -/
def Op.cleanupMark : Op → Option (Nat × String)
  | Op.log (LogLine.cleanupStep i name) => some (i, name)
  | _ => none

/-- The `Execute` call, when the entry is one: address of the action context, name of
the action, and whether the call returned nil. -/
def Op.executeCall : Op → Option (Nat × String × Bool)
  | Op.execute addr name ok => some (addr, name, ok)
  | _ => none

/-- The `Rollback` call, when the entry is one. -/
def Op.rollbackCall : Op → Option (Nat × String × Bool)
  | Op.rollback addr name ok => some (addr, name, ok)
  | _ => none

/-- The step-start lines "Step i: name" of a trace, in order. -/
def stepMarks (t : List Op) : List (Nat × String) := t.filterMap Op.stepMark

/-- The lines "Cleanup step i: name" of a trace, in order. -/
def cleanupMarks (t : List Op) : List (Nat × String) := t.filterMap Op.cleanupMark

/-- The `Execute` calls of a trace, in order. -/
def executeOps (t : List Op) : List (Nat × String × Bool) := t.filterMap Op.executeCall

/-- The `Rollback` calls of a trace, in order. -/
def rollbackOps (t : List Op) : List (Nat × String × Bool) := t.filterMap Op.rollbackCall

/-- The numbered names the log gives to a list of steps, the first being number
`i + 1`. -/
def marksFrom : Nat → List Step → List (Nat × String)
  | _, [] => []
  | i, step :: rest => (i + 1, step.Name) :: marksFrom (i + 1) rest

/-- Trace entries written while a step is executed: capability calls, waits, retry
pauses and their log lines. -/
def Op.isStepOp : Op → Bool
  | Op.execute _ _ _ => true
  | Op.check _ _ => true
  | Op.wait _ _ => true
  | Op.sleep => true
  | Op.log (LogLine.retry _ _) => true
  | Op.log (LogLine.waiting _) => true
  | _ => false

/-- Trace entries of the main loop of `Run`, before any teardown. -/
def Op.isMainOp : Op → Bool
  | Op.done _ => true
  | Op.log (LogLine.starting _) => true
  | Op.log (LogLine.step _ _) => true
  | Op.log (LogLine.failedContinuing _) => true
  | Op.log (LogLine.failedRunningCleanup _) => true
  | Op.log (LogLine.failedAborting _) => true
  | op => op.isStepOp

/-- Trace entries of the explicit cleanup steps of a teardown. -/
def Op.isCleanupOp : Op → Bool
  | Op.log (LogLine.cleanupStep _ _) => true
  | Op.log (LogLine.cleanupStepFailed _) => true
  | op => op.isStepOp

/-- Trace entries of the rollback loop of a teardown, and the closing line of `Run`. -/
def Op.isRollbackOp : Op → Bool
  | Op.rollback _ _ _ => true
  | Op.log (LogLine.cannotFind _) => true
  | Op.log (LogLine.rollingBack _) => true
  | Op.log (LogLine.rollbackFailed _) => true
  | Op.log LogLine.completed => true
  | _ => false

/-- The trace `t` holds exactly one teardown, made of the cleanup steps `cleanup` in
declared order followed by the rollbacks: it splits into main-loop entries, the line
"Running cleanup...", the entries of the cleanup steps (one numbered line per declared
step, no rollback among them), and the entries of the rollback loop. -/
def TeardownOnce (cleanup : List Step) (t : List Op) : Prop :=
  ∃ pre cl rb, t = pre ++ Op.log LogLine.runningCleanup :: (cl ++ rb)
    ∧ (∀ op ∈ pre, op.isMainOp = true)
    ∧ (∀ op ∈ cl, op.isCleanupOp = true)
    ∧ cleanupMarks cl = marksFrom 0 cleanup
    ∧ (∀ op ∈ rb, op.isRollbackOp = true)

/-- Iteration `i` of the main loop, entered in state `s`, executes `step` and the step
fails: the context is not done, `runCleanup` is not set, and `executeStep` returns an
error or a result without `Success`. -/
def Runner.failsAt {W : Type} (r : Runner W) (ctx : Context) (i : Nat) (step : Step)
    (s : LoopState W) : Bool :=
  !(r.poll ctx step s).runCleanup &&
    match r.attempt ctx i step s with
    | some out => out.1.2.2.isSome || !out.1.1.Success
    | none => false

/-- The error `executeStep` returns in iteration `i` entered in state `s`. -/
def Runner.attemptErr {W : Type} (r : Runner W) (ctx : Context) (i : Nat) (step : Step)
    (s : LoopState W) : Error :=
  match r.attempt ctx i step s with
  | some out => out.1.2.2
  | none => none

/-- The run of `scenario` from world `w` reaches `step`, the step after the steps
`pre`, with its main loop in state `s`. -/
def Runner.Reaches {W : Type} (r : Runner W) (ctx0 : Context) (scenario : Scenario) (w : W)
    (pre : List Step) (step : Step) (s : LoopState W) : Prop :=
  (∃ post, scenario.Steps = pre ++ step :: post)
    ∧ r.runSteps (Runner.runCtx ctx0 scenario) scenario 0 pre (r.enter scenario w)
        = some (Flow.next s)

/-- The counters of a report agree with its event list. -/
def Report.StatsAgree (r : Report) : Prop :=
  r.Stats.TotalSteps = r.Events.length
    ∧ r.Stats.SuccessSteps = countType EventSuccess r.Events
    ∧ r.Stats.FailedSteps = countType EventFailure r.Events + countType EventError r.Events
    ∧ r.Stats.CleanupSteps = countType EventCleanup r.Events

/-- The trace `t2` extends the trace `t1` by entries that all satisfy `P`. -/
def Ext (P : Op → Bool) (t1 t2 : List Op) : Prop :=
  ∃ d, t2 = t1 ++ d ∧ ∀ op ∈ d, P op = true

/-- What the variables of `executeStep` satisfy once an attempt has assigned `result`:
the step type is known, an error comes with a result without `Success`, and a result
without `Success` comes without an error only from an assertion. -/
def StepVars.Good (step : Step) (v : StepVars) : Prop :=
  ∀ res, v.result = some res →
    step.StepType ≠ "unknown"
      ∧ (v.err ≠ none → res.Success = false)
      ∧ (v.err = none → res.Success = false → step.StepType = "assert")

/-- The report `b` is the report `a` after more events, all of a type satisfying `P`:
the verdict is untouched, earlier events are kept, and counters that agreed with the
events still agree. -/
def Report.Grows (P : EventType → Bool) (a b : Report) : Prop :=
  b.Success = a.Success ∧ b.Error = a.Error ∧ (a.StatsAgree → b.StatsAgree)
    ∧ ∃ evs, b.Events = a.Events ++ evs ∧ ∀ e ∈ evs, P e.Type_ = true

/-- The event the rollback loop appends for a `Rollback` call of the trace. -/
def rollbackEvent (op : Nat × String × Bool) : EventType × String :=
  (if op.2.2 then EventCleanup else EventError, "rollback-" ++ op.2.1)

/-- The retained action contexts the rollback loop calls `Rollback` on: those whose
state names a registered action under "_action_name". -/
def Runner.rollsBack {W : Type} (r : Runner W) (actx : ActionContext) : Bool :=
  actx.State.getString "_action_name" != "" &&
    match r.actions.Get "action" (actx.State.getString "_action_name") with
    | Except.ok _ => true
    | Except.error _ => false

/-- Some `Rollback` call of the trace returned an error. -/
def hasFailedRollback (t : List Op) : Bool :=
  (rollbackOps t).any (fun op => !op.2.2)

/-- The event types a teardown with rollback entries `rb` appends: cleanup events, and
error events when some rollback failed. -/
def teardownType (rb : List Op) (t : EventType) : Bool :=
  t == EventCleanup || (t == EventError && hasFailedRollback rb)

/-- What a teardown that starts from report `rep`, machine trace `t0` and retained
action contexts `executed` leaves as report `rep1` and trace `t1`. -/
def TeardownFrom {W : Type} (r : Runner W) (cleanup : List Step)
    (executed : List ActionContext) (rep : Report) (t0 : List Op) (rep1 : Report)
    (t1 : List Op) : Prop :=
  ∃ cl rb, t1 = t0 ++ Op.log LogLine.runningCleanup :: (cl ++ rb)
    ∧ (∀ op ∈ cl, op.isCleanupOp = true)
    ∧ cleanupMarks cl = marksFrom 0 cleanup
    ∧ (∀ op ∈ rb, op.isRollbackOp = true)
    ∧ (rollbackOps rb).map (fun op => (op.1, op.2.1))
        = (executed.reverse.filter r.rollsBack).map
            (fun a => (a.addr, a.State.getString "_action_name"))
    ∧ Report.Grows (teardownType rb) rep rep1

/-- The event types of the main loop. -/
def isMainType (t : EventType) : Bool :=
  t == EventSuccess || t == EventFailure || t == EventError

/-- The result `out` of `executeStep` counts as a failure in `Run`:
`err != nil || !result.Success`. -/
def failed {W : Type} (out : (StepResult × Option ActionContext × Error) × Mach W) : Bool :=
  out.1.2.2.isSome || !out.1.1.Success

/-- What the main loop, entered in state `s` over steps the log numbers `marks`,
leaves when it ends with the given flow: on `next` every step was executed and one
event appended for each; on `brk` only main-loop entries and events were added; on
`ret` a report marked failed with the returned error went through one teardown. -/
def Flow.Shape {W : Type} (r : Runner W) (cleanup : List Step) (s : LoopState W)
    (marks : List (Nat × String)) : Flow W → Prop
  | Flow.next s1 =>
    Ext Op.isMainOp s.m.trace s1.m.trace
      ∧ stepMarks s1.m.trace = stepMarks s.m.trace ++ marks
      ∧ Report.Grows isMainType s.rep s1.rep
      ∧ s1.rep.Events.length = s.rep.Events.length + marks.length
  | Flow.brk s1 =>
    Ext Op.isMainOp s.m.trace s1.m.trace ∧ Report.Grows isMainType s.rep s1.rep
  | Flow.ret res =>
    ∃ executed rep0 t0, Ext Op.isMainOp s.m.trace t0
      ∧ rep0.Success = false ∧ rep0.Error = res.err
      ∧ (s.rep.StatsAgree → rep0.StatsAgree)
      ∧ (∃ evs, rep0.Events = s.rep.Events ++ evs)
      ∧ TeardownFrom r cleanup executed rep0 t0 res.rep res.m.trace

/-- The end of `Run` after its main loop ended with the given flow. -/
def Runner.complete {W : Type} (r : Runner W) (ctx : Context) (scenario : Scenario) :
    Option (Flow W) → Option (RunResult W)
  | none => none
  | some (Flow.ret res) => some res
  | some (Flow.next s) => r.finish ctx scenario s
  | some (Flow.brk s) => r.finish ctx scenario s

/-- The state the main loop is in while every step so far succeeded: `runCleanup` is
not set and every event recorded is a success event. -/
def AllPassed {W : Type} (s : LoopState W) : Prop :=
  s.runCleanup = false ∧ ∀ e ∈ s.rep.Events, e.Type_ = EventSuccess

/-! ## A small cluster of capabilities for concrete runs -/

/-- An action that succeeds and rolls back cleanly. -/
def Demo.okAction : Action Unit :=
  { Name := "ok"
    Execute := fun _ a _ w => ((a.State.set "node" (Value.str "server-0"), none), w)
    Rollback := fun _ _ w => (none, w) }

/-- An action whose `Execute` fails after recording what it touched. -/
def Demo.badAction : Action Unit :=
  { Name := "bad"
    Execute := fun _ a _ w => ((a.State.set "node" (Value.str "server-1"), some "boom"), w)
    Rollback := fun _ _ w => (none, w) }

/-- An action that succeeds but whose `Rollback` fails. -/
def Demo.stuckAction : Action Unit :=
  { Name := "stuck"
    Execute := fun _ a _ w => ((a.State, none), w)
    Rollback := fun _ _ w => (some "cannot restart", w) }

/-- An assertion that reports `Success = false` without an error. -/
def Demo.noAssertion : Assertion Unit :=
  { Name := "no"
    Check := fun _ _ _ w =>
      (({ Assertion := "no", Success := false, Message := "not yet", Duration := 0,
          Attempts := 1, Details := [] }, none), w) }

/-- An assertion that reports `Success = true`. -/
def Demo.yesAssertion : Assertion Unit :=
  { Name := "yes"
    Check := fun _ _ _ w =>
      (({ Assertion := "yes", Success := true, Message := "fine", Duration := 0,
          Attempts := 1, Details := [] }, none), w) }

/-- A runner over these capabilities whose context is done from the start when
`cancelled` is set and never otherwise. -/
def Demo.runner (cancelled : Bool) : Runner Unit :=
  { cluster := { Name := "demo", Servers := [], Clients := [] }
    verbose := false
    actions := { entries := [("ok", Demo.okAction), ("bad", Demo.badAction),
      ("stuck", Demo.stuckAction)] }
    asserts := { entries := [("no", Demo.noAssertion), ("yes", Demo.yesAssertion)] }
    now := fun _ => 0
    done := fun _ w => (cancelled, w)
    waitFor := fun _ _ w => (none, w)
    sleep := fun w => w }

/-- An action step. -/
def Demo.act (action : String) (onError : OnErrorBehavior) : Step :=
  { Name := "run-" ++ action, Action := action, Assert := "", Wait := 0, Args := [],
    OnError := onError, Retries := 0, Timeout := 0 }

/-- An assertion step with two attempts. -/
def Demo.check (assertion : String) (onError : OnErrorBehavior) : Step :=
  { Name := "check-" ++ assertion, Action := "", Assert := assertion, Wait := 0, Args := [],
    OnError := onError, Retries := 2, Timeout := 0 }

/-- A scenario with the given steps and cleanup steps. -/
def Demo.scenario (steps cleanup : List Step) : Scenario :=
  { Name := "demo", Description := "", Tags := [], Timeout := 0, Steps := steps,
    Cleanup := cleanup, Metadata := [] }

/-! ## registry.go of actions and of asserts: registering and listing -/

/-- Go `NewRegistry`. -/
def NewRegistry {α : Type} : Registry α := { entries := [] }

/-- Go `(*Registry).Register` for the capability `x` whose `Name()` is `name`: the
error it returns and the registry it leaves; `kind` is "action" or "assertion". -/
def Registry.Register {α : Type} (r : Registry α) (kind : String) (name : String) (x : α) :
    Error × Registry α :=
  if r.entries.any (fun kv => kv.1 == name) then
    (some (kind ++ " \"" ++ name ++ "\" already registered"), r)
  else
    (none, { entries := r.entries ++ [(name, x)] })

/-- Go `(*actions.Registry).Register`. -/
def Registry.RegisterAction {W : Type} (r : Registry (Action W)) (action : Action W) :
    Error × Registry (Action W) :=
  r.Register "action" action.Name action

/-- Go `(*asserts.Registry).Register`. -/
def Registry.RegisterAssertion {W : Type} (r : Registry (Assertion W))
    (assertion : Assertion W) : Error × Registry (Assertion W) :=
  r.Register "assertion" assertion.Name assertion

/-- Go `(*Registry).All`, in the order of registration (the source leaves the order
open). -/
def Registry.All {α : Type} (r : Registry α) : List α :=
  r.entries.map Prod.snd

/-- The action registry after `Register` was called on a new registry for each of
`xs` in turn, whatever each call returned. -/
def actionsAfter {W : Type} (xs : List (Action W)) : Registry (Action W) :=
  xs.foldl (fun r a => (r.RegisterAction a).2) NewRegistry

/-- The assertion registry after `Register` was called on a new registry for each of
`xs` in turn, whatever each call returned. -/
def assertsAfter {W : Type} (xs : List (Assertion W)) : Registry (Assertion W) :=
  xs.foldl (fun r a => (r.RegisterAssertion a).2) NewRegistry

/-- The registry after `Register` was called on `r` for each of `xs` in turn. -/
def registerAll {α : Type} (kind : String) (nameOf : α → String) (r : Registry α)
    (xs : List α) : Registry α :=
  xs.foldl (fun acc x => (acc.Register kind (nameOf x) x).2) r

/-- Go `(*Registry).List`: the keys of the map, put in order by `sort.Strings`, which
compares strings byte by byte (on UTF-8 the order of the lists of characters). -/
def Registry.List {α : Type} (r : Registry α) : List String :=
  (r.entries.map Prod.fst).insertionSort (fun a b => a.toList ≤ b.toList)

/-- A step with all three discriminators set: an action, an assertion and a wait. -/
def Demo.crowded : Step :=
  { Name := "crowded", Action := "kill-leader", Assert := "leader-elected", Wait := 5,
    Args := [], OnError := "", Retries := 0, Timeout := 0 }

/-! ## Vocabulary for the attempts of `executeStep` -/

/-- The number of attempts `executeStep` allows a step: `retries`, or 1 when
`retries < 1`. -/
def Step.budget (step : Step) : Nat :=
  (if step.Retries < 1 then 1 else step.Retries).toNat

/-- The context `executeStep` runs the attempts of a step under: the caller's, under
the step timeout when there is one. -/
def Step.context (step : Step) (ctx0 : Context) : Context :=
  if step.Timeout > 0 then WithTimeout ctx0 step.Timeout else ctx0

/-- The pause of `executeStep` after a failed attempt that is not the last: the line
"Retry attempt/retries after failure", then `time.Sleep(time.Second)`. -/
def Runner.pause {W : Type} (r : Runner W) (retries attempt : Nat) (m : Mach W) : Mach W :=
  Mach.emit { r.log m (LogLine.retry attempt retries) with
    world := r.sleep (r.log m (LogLine.retry attempt retries)).world } Op.sleep

/-- The variables and the machine of `executeStep` when attempt number `j + 1` starts
after `j` failed attempts, each followed by a pause. -/
def Runner.beforeAttempt {W : Type} (r : Runner W) (ctx0 : Context) (step : Step)
    (m : Mach W) : Nat → StepVars × Mach W
  | 0 => ({ result := none, actx := none, err := none }, m)
  | j + 1 =>
    ((r.dispatch (step.context ctx0) step (Runner.beforeAttempt r ctx0 step m j).1
        (Runner.beforeAttempt r ctx0 step m j).2).1,
      r.pause step.budget (j + 1)
        (r.dispatch (step.context ctx0) step (Runner.beforeAttempt r ctx0 step m j).1
          (Runner.beforeAttempt r ctx0 step m j).2).2)

/-- The variables and the machine that attempt number `j + 1` leaves, when the `j`
attempts before it failed. -/
def Runner.attemptNo {W : Type} (r : Runner W) (ctx0 : Context) (step : Step) (m : Mach W)
    (j : Nat) : StepVars × Mach W :=
  r.dispatch (step.context ctx0) step (r.beforeAttempt ctx0 step m j).1
    (r.beforeAttempt ctx0 step m j).2

/-- A pause in a trace. -/
def Op.isSleep : Op → Bool
  | Op.sleep => true
  | _ => false

/-- A call of a capability in a trace: `Execute`, `Check`, or the wait of a wait
step. -/
def Op.isCall : Op → Bool
  | Op.execute _ _ _ => true
  | Op.check _ _ => true
  | Op.wait _ _ => true
  | _ => false

/-- The step names a capability that `executeStep` can call: a registered action, a
registered assertion, or a wait. -/
def Runner.resolves {W : Type} (r : Runner W) (step : Step) : Bool :=
  if step.StepType = "action" then
    match r.actions.Get "action" step.Action with
    | Except.ok _ => true
    | Except.error _ => false
  else if step.StepType = "assert" then
    match r.asserts.Get "assertion" step.Assert with
    | Except.ok _ => true
    | Except.error _ => false
  else step.StepType = "wait"

/-- The number of pauses in a trace. -/
def sleepCount (t : List Op) : Nat := t.countP Op.isSleep

/-- The number of capability calls in a trace. -/
def callCount (t : List Op) : Nat := t.countP Op.isCall

/-- The step names an action or an assertion that is not registered: `Get` fails with
its "not found" error at every attempt. -/
def Runner.unregistered {W : Type} (r : Runner W) (step : Step) : Bool :=
  if step.StepType = "action" then
    match r.actions.Get "action" step.Action with
    | Except.ok _ => false
    | Except.error _ => true
  else if step.StepType = "assert" then
    match r.asserts.Get "assertion" step.Assert with
    | Except.ok _ => false
    | Except.error _ => true
  else false

/-- The step is a wait whose `select` finds the context done whenever it is made: the
context is cancelled. -/
def Runner.interrupted {W : Type} (r : Runner W) (ctx : Context) (step : Step) : Prop :=
  step.StepType = "wait" ∧ ∀ w, (r.waitFor ctx step.Wait w).1 ≠ none

/-- The number of lines "Retry attempt/retries after failure" in a trace. -/
def retryCount (t : List Op) : Nat :=
  t.countP (fun op => match op with
    | Op.log (LogLine.retry _ _) => true
    | _ => false)

/-- An action over a world that counts its calls: `Execute` fails on the first two
calls and succeeds from the third on. -/
def Demo.flakyAction : Action Nat :=
  { Name := "flaky"
    Execute := fun _ a _ w =>
      ((a.State.set "calls" (Value.int (w + 1)), if w < 2 then some "not ready" else none),
        w + 1)
    Rollback := fun _ _ w => (none, w) }

/-- A runner over the counting world with the one action `flaky` and no assertion; its
context is cancelled from the start when `cancelled` is set (every `select` finds it
done) and never otherwise. -/
def Demo.counting (cancelled : Bool) : Runner Nat :=
  { cluster := { Name := "demo", Servers := [], Clients := [] }
    verbose := false
    actions := { entries := [("flaky", Demo.flakyAction)] }
    asserts := { entries := [] }
    now := fun w => w
    done := fun _ w => (cancelled, w)
    waitFor := fun _ _ w => (if cancelled then some "context canceled" else none, w)
    sleep := fun w => w }

/-- An action step with the given number of retries. -/
def Demo.retrying (action : String) (retries : Int) : Step :=
  { Name := "retry-" ++ action, Action := action, Assert := "", Wait := 0, Args := [],
    OnError := "", Retries := retries, Timeout := 0 }

/-- A wait step of five seconds with three retries. -/
def Demo.pausing : Step :=
  { Name := "pause", Action := "", Assert := "", Wait := 5000000000, Args := [],
    OnError := "", Retries := 3, Timeout := 0 }

/-- The machine a run starts from in the counting world. -/
def Demo.fresh : Mach Nat := { world := 0, heap := 0, trace := [] }

/-- An action over a world that records the state map every `Rollback` receives:
`Execute` stores the key "touched", `Rollback` appends the state it is passed to the
world. -/
def Demo.probeAction : Action (List Dict) :=
  { Name := "probe"
    Execute := fun _ a _ w => ((a.State.set "touched" (Value.str "server-0"), none), w)
    Rollback := fun _ a w => (none, w ++ [a.State]) }

/-- A runner over the recording world with the one action `probe`. -/
def Demo.probing : Runner (List Dict) :=
  { cluster := { Name := "demo", Servers := [], Clients := [] }
    verbose := false
    actions := { entries := [("probe", Demo.probeAction)] }
    asserts := { entries := [] }
    now := fun _ => 0
    done := fun _ w => (false, w)
    waitFor := fun _ _ w => (none, w)
    sleep := fun w => w }

/-- A retained action context at address 0 with the given state. -/
def Demo.retained (state : Dict) : ActionContext :=
  { addr := 0, Cluster := { Name := "demo", Servers := [], Clients := [] }, State := state }

/-! ## driver.go: the driver and its sessions, as the actions use them -/

/-- What `RunWithSudo` returns: `stdout`, `stderr`, the exit code and the error. -/
structure CmdResult where
  stdout : String
  stderr : String
  exitCode : Int
  err : Error
  deriving DecidableEq, Repr

/-- Go `driver.Driver` over a world `W`, with the `driver.SSHClient` it hands out: a
session is known by the node it was opened to, `RunWithSudo` and `Close` are the
methods of that session. -/
structure Driver (W : Type) where
  /-- The call `drv.SSH(ctx, node)`: the error of opening the session. -/
  SSH : Context → Node → W → Error × W
  /-- The call `client.RunWithSudo(ctx, cmd)` on the session to a node. -/
  RunWithSudo : Context → Node → String → W → CmdResult × W
  /-- The call `client.Close()` on the session to a node; its error is never read. -/
  Close : Node → W → W
  /-- The call `drv.GetNomadLeader(ctx, cluster)`. -/
  GetNomadLeader : Context → Cluster → W → Except String Node × W

/-- What an action did to the remote nodes, in order, each call with its outcome: for
`ssh`, `ok` is "returned a nil error"; for `run`, "returned a nil error and the exit
code 0". -/
inductive RemoteOp where
  | ssh (node : Node) (ok : Bool)
  | run (node : Node) (cmd : String) (ok : Bool)
  | close (node : Node)
  | leader (ok : Bool)
  deriving DecidableEq, Repr

/-- The world of the driver together with the record of the calls made to it. -/
structure Remote (W : Type) where
  world : W
  ops : List RemoteOp

/-- The call `drv.SSH(ctx, node)`, recorded. -/
def Remote.dial {W : Type} (s : Remote W) (drv : Driver W) (ctx : Context) (node : Node) :
    Error × Remote W :=
  let out := drv.SSH ctx node s.world
  (out.1, { world := out.2, ops := s.ops ++ [RemoteOp.ssh node out.1.isNone] })

/-- The call `client.RunWithSudo(ctx, cmd)` on the session to `node`, recorded. -/
def Remote.runWithSudo {W : Type} (s : Remote W) (drv : Driver W) (ctx : Context) (node : Node)
    (cmd : String) : CmdResult × Remote W :=
  let out := drv.RunWithSudo ctx node cmd s.world
  (out.1, { world := out.2,
            ops := s.ops ++ [RemoteOp.run node cmd (out.1.err.isNone && out.1.exitCode == 0)] })

/-- The deferred call `client.Close()` on the session to `node`, recorded. -/
def Remote.hangUp {W : Type} (s : Remote W) (drv : Driver W) (node : Node) : Remote W :=
  { world := drv.Close node s.world, ops := s.ops ++ [RemoteOp.close node] }

/-- The verb `%q` of `fmt` on a string that holds no double quote, backslash or
non-printing character: the string between double quotes. -/
def quote (s : String) : String := "\"" ++ s ++ "\""

/-- Go `(*Cluster).ServerByName`. -/
def Cluster.ServerByName (c : Cluster) (name : String) : Except String Node :=
  match c.Servers.find? (fun n => n.Name == name) with
  | some n => Except.ok n
  | none => Except.error ("server " ++ quote name ++ " not found")

/-! ## partition.go -/

/-- The loop `for _, rule := range rules` of `addPartitionRules`: it returns at the
first command that fails. -/
def PartitionAction.addLoop {W : Type} (drv : Driver W) (ctx : Context) (node : Node) :
    List String → Remote W → Error × Remote W
  | [], s => (none, s)
  | rule :: rest, s =>
    let out := s.runWithSudo drv ctx node rule
    match out.1.err with
    | some err => (some ("executing " ++ quote rule ++ ": " ++ err), out.2)
    | none =>
      if out.1.exitCode ≠ 0 then
        (some ("iptables failed (exit " ++ toString out.1.exitCode ++ "): " ++ out.1.stderr),
          out.2)
      else PartitionAction.addLoop drv ctx node rest out.2

/-- Go `(*PartitionAction).addPartitionRules`. -/
def PartitionAction.addPartitionRules {W : Type} (drv : Driver W) (ctx : Context)
    (node : Node) (blockIP : String) (s : Remote W) : Error × Remote W :=
  let conn := s.dial drv ctx node
  match conn.1 with
  | some err => (some ("connecting to " ++ node.Name ++ ": " ++ err), conn.2)
  | none =>
    let out := PartitionAction.addLoop drv ctx node
      ["iptables -I INPUT -s " ++ blockIP ++ " -j DROP -m comment --comment chaos-partition",
        "iptables -I OUTPUT -d " ++ blockIP ++ " -j DROP -m comment --comment chaos-partition"]
      conn.2
    (out.1, out.2.hangUp drv node)

/-- The loop `for _, rule := range rules` of `removePartitionRules`: it goes on after a
command that fails and keeps the last error. -/
def PartitionAction.removeLoop {W : Type} (drv : Driver W) (ctx : Context) (node : Node) :
    List String → Error → Remote W → Error × Remote W
  | [], lastErr, s => (lastErr, s)
  | rule :: rest, lastErr, s =>
    let out := s.runWithSudo drv ctx node rule
    match out.1.err with
    | some err =>
      PartitionAction.removeLoop drv ctx node rest
        (some ("executing " ++ quote rule ++ ": " ++ err)) out.2
    | none =>
      if out.1.exitCode ≠ 0 then
        PartitionAction.removeLoop drv ctx node rest
          (some ("iptables failed (exit " ++ toString out.1.exitCode ++ "): " ++ out.1.stderr))
          out.2
      else PartitionAction.removeLoop drv ctx node rest lastErr out.2

/-- Go `(*PartitionAction).removePartitionRules`. -/
def PartitionAction.removePartitionRules {W : Type} (drv : Driver W) (ctx : Context)
    (node : Node) (blockIP : String) (s : Remote W) : Error × Remote W :=
  let conn := s.dial drv ctx node
  match conn.1 with
  | some err => (some ("connecting to " ++ node.Name ++ ": " ++ err), conn.2)
  | none =>
    let out := PartitionAction.removeLoop drv ctx node
      ["iptables -D INPUT -s " ++ blockIP ++ " -j DROP -m comment --comment chaos-partition",
        "iptables -D OUTPUT -d " ++ blockIP ++ " -j DROP -m comment --comment chaos-partition"]
      none conn.2
    (out.1, out.2.hangUp drv node)

/-- The five writes "Store state for rollback" of `Execute`. -/
def PartitionAction.record (state : Dict) (source target : Node) (bidirectional : Bool) :
    Dict :=
  ((((state.set "source_node" (Value.str source.Name)).set "target_node"
    (Value.str target.Name)).set "source_ip" (Value.str source.PrivateIP)).set "target_ip"
    (Value.str target.PrivateIP)).set "bidirectional" (Value.bool bidirectional)

/-- The part of `Execute` after the state is stored: the rules on the source, then on
the target when the partition is bidirectional. -/
def PartitionAction.apply {W : Type} (drv : Driver W) (ctx : Context) (source target : Node)
    (bidirectional : Bool) (s : Remote W) : Error × Remote W :=
  let a1 := PartitionAction.addPartitionRules drv ctx source target.PrivateIP s
  match a1.1 with
  | some err => (some ("adding rules on " ++ source.Name ++ ": " ++ err), a1.2)
  | none =>
    if bidirectional then
      let a2 := PartitionAction.addPartitionRules drv ctx target source.PrivateIP a1.2
      match a2.1 with
      | some err =>
        let rm := PartitionAction.removePartitionRules drv ctx source target.PrivateIP a2.2
        (some ("adding rules on " ++ target.Name ++ ": " ++ err), rm.2)
      | none => (none, a2.2)
    else (none, a1.2)

/-- The lines "Bidirectional by default" of `Execute`: `true` unless the argument
"bidirectional" is a bool, and then that bool. -/
def PartitionAction.bidirectional (args : Dict) : Bool :=
  match args.get "bidirectional" with
  | some (Value.bool b) => b
  | _ => true

/-- Go `(*PartitionAction).Execute`: the state map it leaves in the action context, its
error, and the remote world it leaves. -/
def PartitionAction.Execute {W : Type} (drv : Driver W) (ctx : Context)
    (actx : ActionContext) (args : Dict) (s : Remote W) : (Dict × Error) × Remote W :=
  match args.get "source" with
  | some (Value.str sourceArg) =>
    match args.get "target" with
    | some (Value.str targetArg) =>
      let bidirectional := PartitionAction.bidirectional args
      match actx.Cluster.ServerByName sourceArg with
      | Except.error err => ((actx.State, some ("finding source node: " ++ err)), s)
      | Except.ok source =>
        match actx.Cluster.ServerByName targetArg with
        | Except.error err => ((actx.State, some ("finding target node: " ++ err)), s)
        | Except.ok target =>
          let out := PartitionAction.apply drv ctx source target bidirectional s
          ((PartitionAction.record actx.State source target bidirectional, out.1), out.2)
    | _ => ((actx.State, some "target node is required"), s)
  | _ => ((actx.State, some "source node is required"), s)

/-- Go `(*PartitionAction).Rollback`. -/
def PartitionAction.Rollback {W : Type} (drv : Driver W) (ctx : Context)
    (actx : ActionContext) (s : Remote W) : Error × Remote W :=
  let sourceName := actx.State.getString "source_node"
  let targetName := actx.State.getString "target_node"
  let sourceIP := actx.State.getString "source_ip"
  let targetIP := actx.State.getString "target_ip"
  let bidirectional :=
    match actx.State.get "bidirectional" with
    | some (Value.bool b) => b
    | _ => false
  if sourceName = "" ∨ targetName = "" then (some "partition state not recorded", s)
  else
    match actx.Cluster.ServerByName sourceName with
    | Except.error err => (some ("finding source node: " ++ err), s)
    | Except.ok source =>
      match actx.Cluster.ServerByName targetName with
      | Except.error err => (some ("finding target node: " ++ err), s)
      | Except.ok target =>
        let r1 := PartitionAction.removePartitionRules drv ctx source targetIP s
        match r1.1 with
        | some err => (some ("removing rules on " ++ source.Name ++ ": " ++ err), r1.2)
        | none =>
          if bidirectional then
            let r2 := PartitionAction.removePartitionRules drv ctx target sourceIP r1.2
            match r2.1 with
            | some err => (some ("removing rules on " ++ target.Name ++ ": " ++ err), r2.2)
            | none => (none, r2.2)
          else (none, r1.2)

/-- The partition action as the registry holds it, over a driver. -/
def PartitionAction {W : Type} (drv : Driver W) : Action (Remote W) :=
  { Name := "partition"
    Execute := PartitionAction.Execute drv
    Rollback := PartitionAction.Rollback drv }

/-! ## Vocabulary for the rules a partition leaves -/

/-- The node a remote call was made on. -/
def RemoteOp.node : RemoteOp → Option Node
  | RemoteOp.ssh node _ => some node
  | RemoteOp.run node _ _ => some node
  | RemoteOp.close node => some node
  | RemoteOp.leader _ => none

/-- The chain of a drop rule: `INPUT`, matched by source address, or `OUTPUT`, matched
by destination address. -/
inductive Chain where
  | input
  | output
  deriving DecidableEq, Repr

/-- A drop rule of the partition action: its chain and the address it blocks. -/
structure DropRule where
  chain : Chain
  blockIP : String
  deriving DecidableEq, Repr

/-- The command that inserts a drop rule. -/
def DropRule.insertCmd (rule : DropRule) : String :=
  match rule.chain with
  | Chain.input =>
    "iptables -I INPUT -s " ++ rule.blockIP ++ " -j DROP -m comment --comment chaos-partition"
  | Chain.output =>
    "iptables -I OUTPUT -d " ++ rule.blockIP ++ " -j DROP -m comment --comment chaos-partition"

/-- The command that deletes a drop rule. -/
def DropRule.deleteCmd (rule : DropRule) : String :=
  match rule.chain with
  | Chain.input =>
    "iptables -D INPUT -s " ++ rule.blockIP ++ " -j DROP -m comment --comment chaos-partition"
  | Chain.output =>
    "iptables -D OUTPUT -d " ++ rule.blockIP ++ " -j DROP -m comment --comment chaos-partition"

/-- The effect of one remote call on the number of copies of `rule` on `node`: a
command that inserts the rule there and succeeds adds one, a command that deletes it
there and succeeds removes one. -/
def tally (node : Node) (rule : DropRule) (n : Nat) : RemoteOp → Nat
  | RemoteOp.run nd cmd true =>
    if nd = node then
      if cmd = rule.insertCmd then n + 1
      else if cmd = rule.deleteCmd then n - 1
      else n
    else n
  | _ => n

/-- The copies of `rule` that the remote calls `ops` inserted on `node` and did not
delete again. -/
def copies (node : Node) (rule : DropRule) (ops : List RemoteOp) : Nat :=
  ops.foldl (tally node rule) 0

/-- The remote calls of an `addPartitionRules` on `node` against `blockIP` in which
every call succeeds. -/
def inserted (node : Node) (blockIP : String) : List RemoteOp :=
  [RemoteOp.ssh node true,
    RemoteOp.run node (DropRule.insertCmd { chain := Chain.input, blockIP := blockIP }) true,
    RemoteOp.run node (DropRule.insertCmd { chain := Chain.output, blockIP := blockIP }) true,
    RemoteOp.close node]

/-- The remote calls of a `removePartitionRules` on `node` against `blockIP` whose
session opens, with the outcomes of its two commands. -/
def reversed (node : Node) (blockIP : String) (ok1 ok2 : Bool) : List RemoteOp :=
  [RemoteOp.ssh node true,
    RemoteOp.run node (DropRule.deleteCmd { chain := Chain.input, blockIP := blockIP }) ok1,
    RemoteOp.run node (DropRule.deleteCmd { chain := Chain.output, blockIP := blockIP }) ok2,
    RemoteOp.close node]

/-- Two servers. -/
def Demo.server0 : Node :=
  { Name := "server-0", PublicIP := "192.168.122.10", PrivateIP := "10.0.0.10",
    Role := "server", Index := 0, Labels := [] }

def Demo.server1 : Node :=
  { Name := "server-1", PublicIP := "192.168.122.11", PrivateIP := "10.0.0.11",
    Role := "server", Index := 1, Labels := [] }

/-- A cluster of the two servers. -/
def Demo.pair : Cluster := { Name := "demo", Servers := [Demo.server0, Demo.server1], Clients := [] }

/-- A driver over a world that counts the sessions opened and the commands run so far:
the calls whose number (from 0) is in `bad` fail, the opening of a session with an
error and a command with the exit code 4; every other call succeeds. -/
def Demo.failing (bad : List Nat) : Driver Nat :=
  { SSH := fun _ _ w => (if w ∈ bad then some "i/o timeout" else none, w + 1)
    RunWithSudo := fun _ _ _ w =>
      (if w ∈ bad then
          { stdout := "", stderr := "iptables: Resource temporarily unavailable.",
            exitCode := 4, err := none }
        else { stdout := "", stderr := "", exitCode := 0, err := none },
        w + 1)
    Close := fun _ w => w
    GetNomadLeader := fun _ _ w => (Except.ok Demo.server0, w) }

/-- The arguments of a partition between the two servers, bidirectional by default. -/
def Demo.partitionArgs : Dict :=
  [("source", Value.str "server-0"), ("target", Value.str "server-1")]

/-- The remote world before any call. -/
def Demo.untouched : Remote Nat := { world := 0, ops := [] }

/-! ## Vocabulary for the actions a teardown rolls back -/

/-- The `Execute` calls of a trace that returned nil, in order: the address of the
action context and the name of the action. -/
def goodExecs (t : List Op) : List (Nat × String) :=
  ((executeOps t).filter (fun op => op.2.2)).map (fun op => (op.1, op.2.1))

/-- The `Rollback` calls of a trace, in order: the address of the action context and the
name of the action. -/
def rolledBack (t : List Op) : List (Nat × String) :=
  (rollbackOps t).map (fun op => (op.1, op.2.1))

/-- The `Rollback` call the rollback loop makes for the action context an attempt
returned: none for a nil context or one whose state names no registered action. -/
def Runner.named {W : Type} (r : Runner W) (actx : Option ActionContext) :
    List (Nat × String) :=
  match actx with
  | some a => if r.rollsBack a then [(a.addr, a.State.getString "_action_name")] else []
  | none => []

/-- The registered actions leave the key "_action_name" to the runner: an `Execute`
that returns an error on a new action context leaves no name under that key. -/
def Runner.leavesNameKey {W : Type} (r : Runner W) : Prop :=
  ∀ kv ∈ r.actions.entries, ∀ (ctx : Context) (addr : Nat) (args : Dict) (w : W),
    (kv.2.Execute ctx (NewActionContext r.cluster addr) args w).1.2 ≠ none →
      (kv.2.Execute ctx (NewActionContext r.cluster addr) args w).1.1.getString
        "_action_name" = ""

/-- The loop state retains, for rollback, the action contexts of the successful
`Execute` calls of its trace, which holds main-loop entries only. -/
def Retained {W : Type} (r : Runner W) (s : LoopState W) : Prop :=
  (∀ op ∈ s.m.trace, op.isMainOp = true)
    ∧ (s.executedActions.filter r.rollsBack).map
        (fun a => (a.addr, a.State.getString "_action_name")) = goodExecs s.m.trace

/-- The trace of a run that went through its teardown: main-loop entries, the line
"Running cleanup...", the entries of the cleanup steps, and the entries of the rollback
loop, whose `Rollback` calls are the successful `Execute` calls of the main-loop
entries, last first. -/
def RolledBack (cleanup : List Step) (t : List Op) : Prop :=
  ∃ main cl rb, t = main ++ Op.log LogLine.runningCleanup :: (cl ++ rb)
    ∧ (∀ op ∈ main, op.isMainOp = true)
    ∧ (∀ op ∈ cl, op.isCleanupOp = true)
    ∧ cleanupMarks cl = marksFrom 0 cleanup
    ∧ (∀ op ∈ rb, op.isRollbackOp = true)
    ∧ rolledBack t = (goodExecs main).reverse

/-- What the main loop keeps, whichever way it ends. -/
def Flow.Named {W : Type} (r : Runner W) (cleanup : List Step) : Flow W → Prop
  | Flow.next s => Retained r s
  | Flow.brk s => Retained r s
  | Flow.ret res => RolledBack cleanup res.m.trace

/-- The action context a successful partition between the two servers leaves for
rollback: the five keys of `Execute` and the name the runner adds. -/
def Demo.partitioned (bidirectional : Bool) : ActionContext :=
  { addr := 0
    Cluster := Demo.pair
    State := (PartitionAction.record [] Demo.server0 Demo.server1 bidirectional).set
      "_action_name" (Value.str "partition") }

/-! ## kill_leader.go -/

/-- The call `drv.GetNomadLeader(ctx, cluster)`, recorded. -/
def Remote.findLeader {W : Type} (s : Remote W) (drv : Driver W) (ctx : Context)
    (cluster : Cluster) : Except String Node × Remote W :=
  let out := drv.GetNomadLeader ctx cluster s.world
  (out.1, { world := out.2,
            ops := s.ops ++ [RemoteOp.leader (match out.1 with
              | Except.ok _ => true
              | Except.error _ => false)] })

/-- Go `unicode.ToUpper` as far as a comparison with a word of ASCII letters can tell:
the letters `a` to `z`, and the two letters outside ASCII whose upper case is an ASCII
letter (U+0131, the dotless i, with upper case `I`, and U+017F, the long s, with upper
case `S`), are mapped as Go maps them; every other character is left unchanged, where Go
maps it to itself or to another character outside ASCII. -/
def toUpperRune (c : Char) : Char :=
  if 97 ≤ c.toNat ∧ c.toNat ≤ 122 then Char.ofNat (c.toNat - 32)
  else if c.toNat = 305 then 'I'
  else if c.toNat = 383 then 'S'
  else c

/-- Go `strings.ToUpper`: the upper case of each character (see `toUpperRune` for the
characters on which it is Go's). -/
def toUpper (s : String) : String :=
  String.mk (s.toList.map toUpperRune)

/-- The lines "Determine signal to use" of `Execute`: "TERM" unless the argument
"signal" is a string, and then that string in upper case. -/
def KillLeaderAction.signal (args : Dict) : String :=
  match args.get "signal" with
  | some (Value.str sig) => toUpper sig
  | _ => "TERM"

/-- Go `(*KillLeaderAction).Execute`: the state map it leaves in the action context, its
error, and the remote world it leaves. -/
def KillLeaderAction.Execute {W : Type} (drv : Driver W)
    (ctx : Context) (actx : ActionContext) (args : Dict) (s : Remote W) :
    (Dict × Error) × Remote W :=
  let signal := KillLeaderAction.signal args
  if signal ≠ "TERM" ∧ signal ≠ "KILL" then
    ((actx.State, some ("invalid signal " ++ quote signal ++ ": must be TERM or KILL")), s)
  else
    let found := s.findLeader drv ctx actx.Cluster
    match found.1 with
    | Except.error err => ((actx.State, some ("finding leader: " ++ err)), found.2)
    | Except.ok leader =>
      let state := (actx.State.set "killed_node" (Value.str leader.Name)).set "killed_ip"
        (Value.str leader.PublicIP)
      let conn := found.2.dial drv ctx leader
      match conn.1 with
      | some err =>
        ((state, some ("connecting to leader " ++ leader.Name ++ ": " ++ err)), conn.2)
      | none =>
        let out := conn.2.runWithSudo drv ctx leader ("pkill -" ++ signal ++ " nomad")
        let closed := out.2.hangUp drv leader
        match out.1.err with
        | some err => ((state, some ("executing kill command: " ++ err)), closed)
        | none =>
          if out.1.exitCode = 1 then
            ((state, some ("no nomad process found on " ++ leader.Name)), closed)
          else if out.1.exitCode ≠ 0 then
            ((state, some ("pkill failed (exit " ++ toString out.1.exitCode ++ "): stdout="
              ++ out.1.stdout ++ " stderr=" ++ out.1.stderr)), closed)
          else ((state, none), closed)

/-- Go `(*KillLeaderAction).Rollback`. -/
def KillLeaderAction.Rollback {W : Type} (drv : Driver W) (ctx : Context)
    (actx : ActionContext) (s : Remote W) : Error × Remote W :=
  match actx.State.get "killed_node" with
  | some (Value.str nodeName) =>
    match actx.Cluster.ServerByName nodeName with
    | Except.error err => (some ("finding node " ++ nodeName ++ ": " ++ err), s)
    | Except.ok node =>
      let conn := s.dial drv ctx node
      match conn.1 with
      | some err => (some ("connecting to " ++ nodeName ++ ": " ++ err), conn.2)
      | none =>
        let out := conn.2.runWithSudo drv ctx node "systemctl restart nomad"
        let closed := out.2.hangUp drv node
        match out.1.err with
        | some err => (some ("executing restart: " ++ err), closed)
        | none =>
          if out.1.exitCode ≠ 0 then
            (some ("failed to restart nomad (exit " ++ toString out.1.exitCode ++ "): "
              ++ out.1.stderr), closed)
          else (none, closed)
  | _ => (some "no killed node recorded", s)

/-- The kill-leader action as the registry holds it, over a driver. -/
def KillLeaderAction {W : Type} (drv : Driver W) :
    Action (Remote W) :=
  { Name := "kill-leader"
    Execute := KillLeaderAction.Execute drv
    Rollback := KillLeaderAction.Rollback drv }

/-- The default action registry after `init` of the package `actions`: kill-leader
registered first, then partition. -/
def builtinActions {W : Type} (drv : Driver W) :
    Registry (Action (Remote W)) :=
  ((NewRegistry.RegisterAction (KillLeaderAction drv)).2.RegisterAction
    (PartitionAction drv)).2

/-- The character `c` is the letter `u`, an upper-case letter of ASCII, in either case:
`u` itself, its lower-case letter, or one of the two lower-case letters outside ASCII
that Unicode gives `I` and `S` (U+0131 and U+017F). -/
def sameLetter (c u : Char) : Bool :=
  c == u || c.toNat == u.toNat + 32 || (u == 'I' && c.toNat == 305)
    || (u == 'S' && c.toNat == 383)

/-- The characters `s` spell the word `word`, written in upper-case letters of ASCII,
when case is ignored. -/
def spells : List Char → List Char → Bool
  | [], [] => true
  | c :: cs, u :: us => sameLetter c u && spells cs us
  | _, _ => false

/-- The arguments of kill-leader ask for the signal `word` (TERM or KILL): the argument
"signal" is a string that spells it when case is ignored, or the argument is not a
string and the word is TERM. -/
def KillLeaderAction.asksFor (args : Dict) (word : String) : Bool :=
  match args.get "signal" with
  | some (Value.str sig) => spells sig.toList word.toList
  | _ => word == "TERM"

/-! ## api_healthy.go and leader_elected.go -/

/-- What the assertions read of an HTTP response: the status code, and the body decoded
as a JSON string (or the error of `Decode`). -/
structure Response where
  StatusCode : Int
  body : Except String String

/-- The network and the clock as the assertions use them, over a world `W`, with the
functions of the package `time` they call. -/
structure Net (W : Type) where
  /-- A GET of `url` by an `http.Client` with the given timeout, under a context:
  `http.NewRequestWithContext` then `client.Do`, the error of either or the response. -/
  get : Context → Int → String → W → Except String Response × W
  /-- Reading of `time.Now()`. -/
  now : W → Int
  /-- The `select` between `ctx.Done()` and `time.After(pollInterval)`: `none` when the
  timer fires first, `some ctx.Err()` when the context is done first. -/
  waitPoll : Context → Int → W → Error × W
  /-- Go `(time.Duration).String`. -/
  format : Int → String
  /-- Go `time.ParseDuration`. -/
  parseDuration : String → Except String Int

/-- Go `map[string]string` assignment `m[k] = v`. -/
def setStr (m : List (String × String)) (k v : String) : List (String × String) :=
  (k, v) :: m.filter (fun kv => !(kv.1 == k))

/-- Go `checkServerHealth`. -/
def checkServerHealth {W : Type} (net : Net W) (ctx : Context) (publicIP : String) (w : W) :
    (Bool × Error) × W :=
  let out := net.get ctx 5000000000 ("http://" ++ publicIP ++ ":4646/v1/agent/health") w
  match out.1 with
  | Except.error err => ((false, some err), out.2)
  | Except.ok resp => ((resp.StatusCode == 200, none), out.2)

/-- The `serverResult` a goroutine of the health check sends. -/
structure ServerResult where
  name : String
  healthy : Bool
  err : Error
  deriving DecidableEq, Repr

/-- The goroutines of the health check, one per server, up to `wg.Wait()`: the results
they send, in the order the goroutines run, each under its own timeout. The order is
left to the scheduler; the servers are given in that order. -/
def NomadAPIHealthyAssertion.probe {W : Type} (net : Net W) (ctx : Context) (timeout : Int) :
    List Node → W → List ServerResult × W
  | [], w => ([], w)
  | server :: rest, w =>
    let out := checkServerHealth net (WithTimeout ctx timeout) server.PublicIP w
    let more := NomadAPIHealthyAssertion.probe net ctx timeout rest out.2
    ({ name := server.Name, healthy := out.1.1, err := out.1.2 } :: more.1, more.2)

/-- The loop `for sr := range results` of the health check: the healthy count and the
status of each server. -/
def NomadAPIHealthyAssertion.collect :
    List ServerResult → Int × List (String × String) → Int × List (String × String)
  | [], acc => acc
  | sr :: rest, acc =>
    if sr.healthy then
      NomadAPIHealthyAssertion.collect rest (acc.1 + 1, setStr acc.2 sr.name "healthy")
    else
      match sr.err with
      | some err =>
        NomadAPIHealthyAssertion.collect rest (acc.1, setStr acc.2 sr.name ("error: " ++ err))
      | none => NomadAPIHealthyAssertion.collect rest (acc.1, setStr acc.2 sr.name "unhealthy")

/-- The lines "Parse timeout from args" of the health check. -/
def NomadAPIHealthyAssertion.timeout {W : Type} (net : Net W) (args : Dict) : Int :=
  match args.get "timeout" with
  | some (Value.dur t) => t
  | some (Value.str t) =>
    match net.parseDuration t with
    | Except.ok parsed => parsed
    | Except.error _ => 10000000000
  | _ => 10000000000

/-- The lines "Parse minimum healthy count" of the health check. -/
def NomadAPIHealthyAssertion.minHealthy (actx : AssertContext) (args : Dict) : Int :=
  match args.get "min_healthy" with
  | some (Value.int m) => m
  | _ => ((actx.Cluster.Servers.length / 2 : Nat) : Int) + 1

/-- Go `(*NomadAPIHealthyAssertion).Check`; `order` lists the servers of the cluster in
the order their goroutines run. -/
def NomadAPIHealthyAssertion.Check {W : Type} (net : Net W) (order : List Node)
    (ctx : Context) (actx : AssertContext) (args : Dict) (w : W) :
    (AssertResult × Error) × W :=
  let timeout := NomadAPIHealthyAssertion.timeout net args
  let minHealthy := NomadAPIHealthyAssertion.minHealthy actx args
  let total : Int := (actx.Cluster.Servers.length : Nat)
  let details0 : Dict := Dict.set (Dict.set (Dict.set [] "total_servers" (Value.int total))
    "min_healthy" (Value.int minHealthy)) "timeout" (Value.str (net.format timeout))
  let start := net.now w
  let probed := NomadAPIHealthyAssertion.probe net ctx timeout order w
  let collected := NomadAPIHealthyAssertion.collect probed.1 (0, [])
  let details : Dict := Dict.set (Dict.set details0 "healthy_count" (Value.int collected.1))
    "server_statuses" (Value.strs collected.2)
  let duration := net.now probed.2 - start
  if collected.1 ≥ minHealthy then
    (({ Assertion := "nomad-api-healthy", Success := true,
        Message := toString collected.1 ++ "/" ++ toString total
          ++ " servers healthy (quorum: " ++ toString minHealthy ++ ")",
        Duration := duration, Attempts := 1, Details := details }, none), probed.2)
  else
    (({ Assertion := "nomad-api-healthy", Success := false,
        Message := "Only " ++ toString collected.1 ++ "/" ++ toString total
          ++ " servers healthy (need " ++ toString minHealthy ++ " for quorum)",
        Duration := duration, Attempts := 1, Details := details }, none), probed.2)

/-- Go `queryLeader` of the package `asserts`. -/
def queryLeader {W : Type} (net : Net W) (ctx : Context) (addr : String) (w : W) :
    (String × Error) × W :=
  let out := net.get ctx 2000000000 (addr ++ "/v1/status/leader") w
  match out.1 with
  | Except.error err => (("", some err), out.2)
  | Except.ok resp =>
    if resp.StatusCode ≠ 200 then
      (("", some ("unexpected status: " ++ toString resp.StatusCode)), out.2)
    else
      match resp.body with
      | Except.error err => (("", some err), out.2)
      | Except.ok leader => ((leader, none), out.2)

/-- The loop `for _, server := range actx.Cluster.Servers` of one polling round of
leader-elected: the first server that answers with a leader, and its answer. -/
def LeaderElectedAssertion.tryServers {W : Type} (net : Net W) (ctx : Context) :
    List Node → W → Option (String × Node) × W
  | [], w => (none, w)
  | server :: rest, w =>
    let out := queryLeader net ctx ("http://" ++ server.PublicIP ++ ":4646") w
    if out.1.2 = none ∧ out.1.1 ≠ "" then (some (out.1.1, server), out.2)
    else LeaderElectedAssertion.tryServers net ctx rest out.2

/-- The loop `for time.Now().Before(deadline)` of leader-elected, entered with
`attempts` rounds made; `fuel` bounds the rounds the model follows (`none` when it runs
out). -/
def LeaderElectedAssertion.poll {W : Type} (net : Net W) (ctx : Context)
    (servers : List Node) (timeout pollInterval start : Int) (result : AssertResult) :
    Nat → Int → W → Option ((AssertResult × Error) × W)
  | 0, _, _ => none
  | fuel + 1, attempts, w =>
    if net.now w < start + timeout then
      let tried := LeaderElectedAssertion.tryServers net ctx servers w
      match tried.1 with
      | some found =>
        some (({ result with
            Success := true
            Message := "Leader elected: " ++ found.1
            Duration := net.now tried.2 - start
            Attempts := attempts + 1
            Details := (result.Details.set "leader" (Value.str found.1)).set
              "responding_server" (Value.str found.2.Name) }, none), tried.2)
      | none =>
        let sel := net.waitPoll ctx pollInterval tried.2
        match sel.1 with
        | some err =>
          some (({ result with
              Message := "Context cancelled"
              Duration := net.now sel.2 - start
              Attempts := attempts + 1 }, some err), sel.2)
        | none =>
          LeaderElectedAssertion.poll net ctx servers timeout pollInterval start result fuel
            (attempts + 1) sel.2
    else
      some (({ result with
          Message := "No leader elected within " ++ net.format timeout ++ " after "
            ++ toString attempts ++ " attempts"
          Duration := net.now w - start
          Attempts := attempts }, none), w)

/-- The lines "Parse timeout from args" of leader-elected. -/
def LeaderElectedAssertion.timeout {W : Type} (net : Net W) (args : Dict) : Int :=
  match args.get "within" with
  | some (Value.dur t) => t
  | some (Value.str t) =>
    match net.parseDuration t with
    | Except.ok parsed => parsed
    | Except.error _ => 15000000000
  | _ => 15000000000

/-- The lines "Parse poll interval" of leader-elected. -/
def LeaderElectedAssertion.pollInterval (args : Dict) : Int :=
  match args.get "poll" with
  | some (Value.dur p) => p
  | _ => 1000000000

/-- The result leader-elected starts from: `NewResult` with the two details. -/
def LeaderElectedAssertion.initial {W : Type} (net : Net W) (args : Dict) : AssertResult :=
  { Assertion := "leader-elected", Success := false, Message := "", Duration := 0,
    Attempts := 0,
    Details := Dict.set (Dict.set [] "timeout"
        (Value.str (net.format (LeaderElectedAssertion.timeout net args))))
      "poll_interval" (Value.str (net.format (LeaderElectedAssertion.pollInterval args))) }

/-- Go `(*LeaderElectedAssertion).Check`, following at most `fuel` polling rounds. -/
def LeaderElectedAssertion.Check {W : Type} (net : Net W) (fuel : Nat) (ctx : Context)
    (actx : AssertContext) (args : Dict) (w : W) : Option ((AssertResult × Error) × W) :=
  LeaderElectedAssertion.poll net ctx actx.Cluster.Servers
    (LeaderElectedAssertion.timeout net args) (LeaderElectedAssertion.pollInterval args)
    (net.now w) (LeaderElectedAssertion.initial net args) fuel 0 w

/-! ## Vocabulary for the assertions -/

/-- The number of healthy results among the results the goroutines send. -/
def healthyCount (results : List ServerResult) : Int :=
  (results.countP (fun sr => sr.healthy) : Nat)

/-- The answer of a server to the leader query of leader-elected, made in world `w`. -/
def LeaderElectedAssertion.answer {W : Type} (net : Net W) (ctx : Context) (server : Node)
    (w : W) : (String × Error) × W :=
  queryLeader net ctx ("http://" ++ server.PublicIP ++ ":4646") w

/-- The server answers the leader query with a leader: no error and a non-empty
address. -/
def LeaderElectedAssertion.reports {W : Type} (net : Net W) (ctx : Context) (server : Node)
    (w : W) : Bool :=
  (LeaderElectedAssertion.answer net ctx server w).1.2.isNone
    && (LeaderElectedAssertion.answer net ctx server w).1.1 != ""

/-- The world after the servers have been asked for the leader, one after the other. -/
def LeaderElectedAssertion.asked {W : Type} (net : Net W) (ctx : Context)
    (servers : List Node) (w : W) : W :=
  servers.foldl (fun w1 server => (LeaderElectedAssertion.answer net ctx server w1).2) w

/-- The server of index `i`, as discovery names and numbers it. -/
def Demo.server (i : Nat) : Node :=
  { Name := "server-" ++ toString i, PublicIP := "192.168.122.1" ++ toString i,
    PrivateIP := "10.0.0.1" ++ toString i, Role := "server", Index := i, Labels := [] }

/-- A cluster of `n` servers. -/
def Demo.cluster (n : Nat) : Cluster :=
  { Name := "demo", Servers := (List.range n).map Demo.server, Clients := [] }

/-- A network over a world without state: the health endpoint of the addresses in
`healthy` answers 200 and of any other address 503; the leader endpoint of an address
listed in `leader` answers 200 with the leader it is listed with. -/
def Demo.net (healthy : List String) (leader : List (String × String)) : Net Unit :=
  { get := fun _ _ url w =>
      (match leader.find? (fun kv => "http://" ++ kv.1 ++ ":4646/v1/status/leader" == url) with
        | some kv => Except.ok { StatusCode := 200, body := Except.ok kv.2 }
        | none =>
          if healthy.any (fun ip => "http://" ++ ip ++ ":4646/v1/agent/health" == url) then
            Except.ok { StatusCode := 200, body := Except.ok "" }
          else Except.ok { StatusCode := 503, body := Except.ok "" },
        w)
    now := fun _ => 0
    waitPoll := fun _ _ w => (none, w)
    format := fun d => toString d ++ "ns"
    parseDuration := fun _ => Except.error "time: invalid duration" }

/-! ## cli/assert.go: parseAssertArgs -/

/-- Go `unicode.IsSpace`: the characters of the Unicode property White_Space. -/
def isSpace (c : Char) : Bool :=
  let n := c.toNat
  (9 ≤ n && n ≤ 13) || n == 32 || n == 133 || n == 160 || n == 5760
    || (8192 ≤ n && n ≤ 8202) || n == 8232 || n == 8233 || n == 8239 || n == 8287
    || n == 12288

/-- Go `strings.TrimSpace`. -/
def trimSpace (s : String) : String :=
  String.mk ((s.toList.dropWhile isSpace).reverse.dropWhile isSpace).reverse

/-- Go `strings.ToLower` on the letters `A` to `Z`, the other characters unchanged. No
character outside `A` to `Z` has a letter of "true" or "false" as its lower case, so the
comparisons of `parseAssertArgs` with these two words come out as in Go. -/
def toLower (s : String) : String :=
  String.mk (s.toList.map (fun c =>
    if 65 ≤ c.toNat ∧ c.toNat ≤ 90 then Char.ofNat (c.toNat + 32) else c))

/-- Go `strings.SplitN(arg, "=", 2)`: the parts before and after the first "=", or
`none` when there is no "=" (the slice has one part). -/
def splitKeyValue (arg : String) : Option (String × String) :=
  if '=' ∈ arg.toList then
    some (String.mk (arg.toList.takeWhile (fun c => c != '=')),
      String.mk ((arg.toList.dropWhile (fun c => c != '=')).drop 1))
  else none

/-- Go `fmt.Sscanf(value, "%d", &intVal)` on a string that starts with no space: the
integer scanned and a nil error, or `none` for an error. The scan takes an optional
sign and the longest run of decimal digits that follows, which must not be empty and
must fit a 64-bit `int`; what follows the digits is left unread and is no error. -/
def scanInt (value : String) : Option Int :=
  let signed : Bool × List Char :=
    match value.toList with
    | '-' :: rest => (true, rest)
    | '+' :: rest => (false, rest)
    | cs => (false, cs)
  let digits := signed.2.takeWhile Char.isDigit
  if digits = [] then none
  else
    let n : Nat := digits.foldl (fun acc c => 10 * acc + (c.toNat - 48)) 0
    let i : Int := if signed.1 then -(n : Int) else (n : Int)
    if -9223372036854775808 ≤ i ∧ i ≤ 9223372036854775807 then some i else none

/-- Go `parseAssertArgs`: the loop over the arguments, `result` being the map so far.
`parseDuration` is Go `time.ParseDuration`. -/
def parseAssertArgsFrom (parseDuration : String → Except String Int) :
    List String → Dict → Except String Dict
  | [], result => Except.ok result
  | arg :: rest, result =>
    match splitKeyValue arg with
    | none => Except.error ("invalid argument " ++ quote arg ++ ": must be key=value")
    | some parts =>
      let key := trimSpace parts.1
      let value := trimSpace parts.2
      if toLower value = "true" then
        parseAssertArgsFrom parseDuration rest (result.set key (Value.bool true))
      else if toLower value = "false" then
        parseAssertArgsFrom parseDuration rest (result.set key (Value.bool false))
      else
        match scanInt value with
        | some intVal =>
          parseAssertArgsFrom parseDuration rest (result.set key (Value.int intVal))
        | none =>
          match parseDuration value with
          | Except.ok d =>
            parseAssertArgsFrom parseDuration rest (result.set key (Value.dur d))
          | Except.error _ =>
            parseAssertArgsFrom parseDuration rest (result.set key (Value.str value))

/-- Go `parseAssertArgs`. -/
def parseAssertArgs (parseDuration : String → Except String Int) (args : List String) :
    Except String Dict :=
  parseAssertArgsFrom parseDuration args []

/-! ## Vocabulary for the events of a teardown -/

/-- The state in which the run of `scenario` from `w` calls `runCleanup`: the state its
main loop ends in when the steps are exhausted or the loop is left by `break`, and, when
the iteration of a failed step returns from `Run`, the state of that iteration with the
report marked failed. -/
def Runner.EntersTeardown {W : Type} (r : Runner W) (ctx0 : Context) (scenario : Scenario)
    (w : W) (s : LoopState W) : Prop :=
  r.runSteps (Runner.runCtx ctx0 scenario) scenario 0 scenario.Steps (r.enter scenario w)
      = some (Flow.next s)
    ∨ r.runSteps (Runner.runCtx ctx0 scenario) scenario 0 scenario.Steps (r.enter scenario w)
      = some (Flow.brk s)
    ∨ ∃ pre step s0 out, r.Reaches ctx0 scenario w pre step s0
        ∧ (r.poll (Runner.runCtx ctx0 scenario) step s0).runCleanup = false
        ∧ r.attempt (Runner.runCtx ctx0 scenario) pre.length step s0 = some out
        ∧ failed out = true
        ∧ step.OnError ≠ OnErrorContinue ∧ step.OnError ≠ OnErrorCleanup
        ∧ s = { rep := { r.record (r.poll (Runner.runCtx ctx0 scenario) step s0).rep step out
                  with Success := false, Error := out.1.2.2 }
                executedActions :=
                  retain (r.poll (Runner.runCtx ctx0 scenario) step s0).executedActions out.1.2.1
                runCleanup := false
                m := r.log out.2 (LogLine.failedAborting out.1.2.2) }

/-- The event the cleanup-step loop of `runCleanup` hands to `rep.AddEvent` for the result
`out` that `executeStep` returned for `step`. -/
def Runner.cleanupEvent {W : Type} (r : Runner W) (step : Step)
    (out : (StepResult × Option ActionContext × Error) × Mach W) : Event :=
  { Time := r.now out.2.world, Type_ := EventCleanup, Step := step.Name,
    Message := out.1.1.Message, Duration := out.1.1.Duration, Details := [] }

/-! # Theorems -/

/-! ## The report -/

theorem countType_append (t : EventType) (es : List Event) (e : Event) :
    countType t (es ++ [e]) = countType t es + (if e.Type_ = t then 1 else 0) := by
  unfold countType
  rw [List.countP_append]
  by_cases h : e.Type_ = t <;> simp [List.countP_cons, h]

theorem AddEvent_events (r : Report) (e : Event) (now : Int) :
    (r.AddEvent e now).Events
      = r.Events ++ [if e.Time = 0 then { e with Time := now } else e] := by
  simp [Report.AddEvent]

theorem bump_fields (s : Stats) (t : EventType) :
    (s.bump t).TotalSteps = s.TotalSteps + 1
      ∧ (s.bump t).SuccessSteps = s.SuccessSteps + (if t = EventSuccess then 1 else 0)
      ∧ (s.bump t).FailedSteps
          = s.FailedSteps + (if t = EventFailure then 1 else 0) + (if t = EventError then 1 else 0)
      ∧ (s.bump t).CleanupSteps = s.CleanupSteps + (if t = EventCleanup then 1 else 0) := by
  unfold Stats.bump EventSuccess EventFailure EventError EventCleanup
  by_cases h1 : t = "success" <;> by_cases h2 : t = "failure" <;> by_cases h3 : t = "error"
    <;> by_cases h4 : t = "cleanup" <;> simp_all

theorem AddEvent_statsAgree (r : Report) (e : Event) (now : Int) (h : r.StatsAgree) :
    (r.AddEvent e now).StatsAgree := by
  obtain ⟨h1, h2, h3, h4⟩ := h
  have ht : (if e.Time = 0 then { e with Time := now } else e).Type_ = e.Type_ := by
    split <;> rfl
  obtain ⟨b1, b2, b3, b4⟩ := bump_fields r.Stats e.Type_
  unfold Report.StatsAgree
  simp only [Report.AddEvent, countType_append, ht, b1, b2, b3, b4, h1, h2, h3, h4,
    List.length_append, List.length_singleton]
  refine ⟨by push_cast; rfl, ?_⟩
  simp
  ring

theorem addEvents_statsAgree (es : List (Event × Int)) (r : Report) (h : r.StatsAgree) :
    (r.addEvents es).StatsAgree := by
  induction es generalizing r with
  | nil => exact h
  | cons p rest ih => exact ih _ (AddEvent_statsAgree r p.1 p.2 h)

theorem addEvents_length (es : List (Event × Int)) (r : Report) :
    (r.addEvents es).Events.length = r.Events.length + es.length := by
  induction es generalizing r with
  | nil => rfl
  | cons p rest ih =>
    have h := ih (r.AddEvent p.1 p.2)
    simp only [AddEvent_events, List.length_append, List.length_singleton] at h
    simp only [Report.addEvents, List.foldl_cons, List.length_cons] at h ⊢
    omega

/-- C10: after any sequence of `AddEvent` calls on a report made by `NewReport`, the
counters agree with the event list (`TotalSteps` is the number of events,
`SuccessSteps` the number of success events, `FailedSteps` the number of failure and
error events, `CleanupSteps` the number of cleanup events), the list holds one event
per call, and a further `AddEvent` appends exactly one event (stamped with the clock
when its time is zero) after the unchanged earlier events. -/
theorem C10_stats_agree_with_events (scenario : String) (now : Int)
    (es : List (Event × Int)) :
    ((NewReport scenario now).addEvents es).Stats.TotalSteps
        = ((NewReport scenario now).addEvents es).Events.length
      ∧ ((NewReport scenario now).addEvents es).Stats.SuccessSteps
        = countType EventSuccess ((NewReport scenario now).addEvents es).Events
      ∧ ((NewReport scenario now).addEvents es).Stats.FailedSteps
        = countType EventFailure ((NewReport scenario now).addEvents es).Events
          + countType EventError ((NewReport scenario now).addEvents es).Events
      ∧ ((NewReport scenario now).addEvents es).Stats.CleanupSteps
        = countType EventCleanup ((NewReport scenario now).addEvents es).Events
      ∧ ((NewReport scenario now).addEvents es).Events.length = es.length
      ∧ ∀ (e : Event) (t : Int),
          (((NewReport scenario now).addEvents es).AddEvent e t).Events
            = ((NewReport scenario now).addEvents es).Events
              ++ [if e.Time = 0 then { e with Time := t } else e] := by
  have h0 : (NewReport scenario now).StatsAgree := by
    simp [Report.StatsAgree, NewReport, countType]
  obtain ⟨h1, h2, h3, h4⟩ := addEvents_statsAgree es _ h0
  refine ⟨h1, h2, h3, h4, ?_, fun e t => AddEvent_events _ e t⟩
  rw [addEvents_length]
  simp [NewReport]


/-! ## Executing one step -/

theorem Ext.extRefl (P : Op → Bool) (t : List Op) : Ext P t t :=
  ⟨[], by simp, by simp⟩

theorem Ext.extTrans {P : Op → Bool} {t1 t2 t3 : List Op} (h1 : Ext P t1 t2)
    (h2 : Ext P t2 t3) : Ext P t1 t3 := by
  obtain ⟨d1, e1, p1⟩ := h1
  obtain ⟨d2, e2, p2⟩ := h2
  refine ⟨d1 ++ d2, by rw [e2, e1, List.append_assoc], ?_⟩
  intro op hop
  rcases List.mem_append.mp hop with h | h
  · exact p1 op h
  · exact p2 op h

theorem Ext.extEmit {W : Type} {P : Op → Bool} (m : Mach W) (op : Op) (h : P op = true) :
    Ext P m.trace (m.emit op).trace :=
  ⟨[op], rfl, by simpa using h⟩

theorem executeAction_ext {W : Type} (r : Runner W) (ctx : Context) (step : Step)
    (m : Mach W) : Ext Op.isStepOp m.trace (r.executeAction ctx step m).2.trace := by
  unfold Runner.executeAction
  split
  · exact Ext.extRefl _ _
  · dsimp only
    split
    · exact ⟨[_], rfl, by simp [Op.isStepOp]⟩
    · exact ⟨[_], rfl, by simp [Op.isStepOp]⟩

theorem executeAssert_ext {W : Type} (r : Runner W) (ctx : Context) (step : Step)
    (m : Mach W) : Ext Op.isStepOp m.trace (r.executeAssert ctx step m).2.trace := by
  unfold Runner.executeAssert
  split
  · exact Ext.extRefl _ _
  · dsimp only
    split
    · exact ⟨[_], rfl, by simp [Op.isStepOp]⟩
    · exact ⟨[_], rfl, by simp [Op.isStepOp]⟩

theorem executeWait_ext {W : Type} (r : Runner W) (ctx : Context) (step : Step)
    (m : Mach W) : Ext Op.isStepOp m.trace (r.executeWait ctx step m).2.trace := by
  unfold Runner.executeWait
  dsimp only
  split
  · exact ⟨[Op.log (LogLine.waiting step.Wait), Op.wait step.Wait false],
      by simp [Runner.log, Mach.emit], by simp [Op.isStepOp]⟩
  · exact ⟨[Op.log (LogLine.waiting step.Wait), Op.wait step.Wait true],
      by simp [Runner.log, Mach.emit], by simp [Op.isStepOp]⟩

theorem dispatch_ext {W : Type} (r : Runner W) (ctx : Context) (step : Step)
    (v : StepVars) (m : Mach W) :
    Ext Op.isStepOp m.trace (r.dispatch ctx step v m).2.trace := by
  unfold Runner.dispatch
  split_ifs
  · exact executeAction_ext r ctx step m
  · exact executeAssert_ext r ctx step m
  · exact executeWait_ext r ctx step m
  · exact Ext.extRefl _ _

theorem attempts_ext {W : Type} (r : Runner W) (ctx : Context) (step : Step) (retries : Nat)
    (k : Nat) (v : StepVars) (m : Mach W) (out : StepVars × Mach W)
    (h : r.attempts ctx step retries k v m = some out) :
    Ext Op.isStepOp m.trace out.2.trace := by
  induction k generalizing v m with
  | zero =>
    simp only [Runner.attempts, Option.some.injEq] at h
    subst h
    exact Ext.extRefl _ _
  | succ k ih =>
    have hd := dispatch_ext r ctx step v m
    simp only [Runner.attempts] at h
    split at h
    · exact absurd h (by simp)
    · simp only [Option.some.injEq] at h
      subst h
      exact hd
    · split at h
      · refine hd.extTrans (Ext.extTrans ?_ (ih _ _ h))
        exact ⟨[Op.log (LogLine.retry (retries - k) retries), Op.sleep],
          by simp [Runner.log, Mach.emit], by simp [Op.isStepOp]⟩
      · exact hd.extTrans (ih _ _ h)

theorem executeStep_ext {W : Type} (r : Runner W) (ctx : Context) (step : Step)
    (m : Mach W) (out : (StepResult × Option ActionContext × Error) × Mach W)
    (h : r.executeStep ctx step m = some out) : Ext Op.isStepOp m.trace out.2.trace := by
  unfold Runner.executeStep at h
  simp only at h
  split at h
  · exact absurd h (by simp)
  · rename_i o ho
    split at h
    · exact absurd h (by simp)
    · simp only [Option.some.injEq] at h
      subst h
      exact attempts_ext _ _ _ _ _ _ _ _ ho

theorem StepType_cases (s : Step) :
    s.StepType = "action" ∨ s.StepType = "assert" ∨ s.StepType = "wait"
      ∨ s.StepType = "unknown" := by
  unfold Step.StepType
  split_ifs <;> simp

theorem known_iff (s : Step) : s.known = true ↔ s.StepType ≠ "unknown" := by
  simp [Step.known]

theorem validateSteps_known (label : String) (i : Nat) (steps : List Step)
    (h : Scenario.validateSteps label i steps = none) : ∀ s ∈ steps, s.known = true := by
  induction steps generalizing i with
  | nil => simp
  | cons step rest ih =>
    simp only [Scenario.validateSteps] at h
    split at h
    · exact absurd h (by simp)
    · rename_i hv
      intro s hs
      rcases List.mem_cons.mp hs with rfl | hs
      · rw [known_iff]
        intro hu
        simp [Step.Validate, hu] at hv
      · exact ih _ h s hs

/-- Every scenario that passes `Validate` has steps and cleanup steps of a known type
only. -/
theorem Validate_known (sc : Scenario) (h : sc.Validate = none) :
    ∀ s ∈ sc.Steps ++ sc.Cleanup, s.known = true := by
  unfold Scenario.Validate at h
  split_ifs at h
  split at h
  · exact absurd h (by simp)
  · rename_i hsteps
    intro s hs
    rcases List.mem_append.mp hs with h1 | h1
    · exact validateSteps_known _ _ _ hsteps s h1
    · exact validateSteps_known _ _ _ h s h1

theorem dispatch_good {W : Type} (r : Runner W) (ctx : Context) (step : Step)
    (v : StepVars) (m : Mach W) (hv : v.Good step) :
    (r.dispatch ctx step v m).1.Good step := by
  unfold Runner.dispatch
  split_ifs with h1 h2 h3
  · intro res hres
    refine ⟨by rw [h1]; decide, ?_⟩
    revert hres
    unfold Runner.executeAction
    split
    · simp only [Option.some.injEq]
      rintro rfl
      simp
    · dsimp only
      split
      · simp only [Option.some.injEq]
        rintro rfl
        simp
      · simp only [Option.some.injEq]
        rintro rfl
        simp
  · intro res hres
    refine ⟨by rw [h2]; decide, ?_⟩
    revert hres
    unfold Runner.executeAssert
    split
    · simp only [Option.some.injEq]
      rintro rfl
      simp
    · dsimp only
      split
      · simp only [Option.some.injEq]
        rintro rfl
        simp
      · simp only [Option.some.injEq]
        rintro rfl
        simp [h2]
  · intro res hres
    refine ⟨by rw [h3]; decide, ?_⟩
    revert hres
    unfold Runner.executeWait
    dsimp only
    split
    · simp only [Option.some.injEq]
      rintro rfl
      simp
    · simp only [Option.some.injEq]
      rintro rfl
      simp
  · intro res hres
    have hk := (hv res hres).1
    rcases StepType_cases step with h | h | h | h
    · exact absurd h h1
    · exact absurd h h2
    · exact absurd h h3
    · exact absurd h hk

theorem attempts_good {W : Type} (r : Runner W) (ctx : Context) (step : Step) (retries : Nat)
    (k : Nat) (v : StepVars) (m : Mach W) (out : StepVars × Mach W) (hv : v.Good step)
    (h : r.attempts ctx step retries k v m = some out) : out.1.Good step := by
  induction k generalizing v m with
  | zero =>
    simp only [Runner.attempts, Option.some.injEq] at h
    subst h
    exact hv
  | succ k ih =>
    have hd := dispatch_good r ctx step v m hv
    simp only [Runner.attempts] at h
    split at h
    · exact absurd h (by simp)
    · simp only [Option.some.injEq] at h
      subst h
      exact hd
    · split at h
      · exact ih _ _ hd h
      · exact ih _ _ hd h

/-- What `executeStep` returns when it returns: the step type is known, an error comes
with a result without `Success`, and a failure without an error comes only from an
assertion. -/
theorem executeStep_good {W : Type} (r : Runner W) (ctx : Context) (step : Step)
    (m : Mach W) (out : (StepResult × Option ActionContext × Error) × Mach W)
    (h : r.executeStep ctx step m = some out) :
    step.StepType ≠ "unknown"
      ∧ (out.1.2.2 ≠ none → out.1.1.Success = false)
      ∧ (out.1.2.2 = none → out.1.1.Success = false → step.StepType = "assert") := by
  unfold Runner.executeStep at h
  simp only at h
  split at h
  · exact absurd h (by simp)
  · rename_i o ho
    have hg := attempts_good _ _ _ _ _ _ _ _ (by intro res hres; simp at hres) ho
    split at h
    · exact absurd h (by simp)
    · rename_i res hres
      simp only [Option.some.injEq] at h
      subst h
      exact hg res hres

theorem dispatch_known {W : Type} (r : Runner W) (ctx : Context) (step : Step)
    (v : StepVars) (m : Mach W) (hk : step.known = true) :
    (r.dispatch ctx step v m).1.result ≠ none := by
  unfold Runner.dispatch
  split_ifs with h1 h2 h3
  · simp
  · simp
  · simp
  · rcases StepType_cases step with h | h | h | h
    · exact absurd h h1
    · exact absurd h h2
    · exact absurd h h3
    · exact absurd h ((known_iff step).mp hk)

theorem attempts_total {W : Type} (r : Runner W) (ctx : Context) (step : Step) (retries : Nat)
    (hk : step.known = true) (k : Nat) (v : StepVars) (m : Mach W)
    (hv : v.result ≠ none ∨ 0 < k) :
    ∃ out, r.attempts ctx step retries k v m = some out ∧ out.1.result ≠ none := by
  induction k generalizing v m with
  | zero =>
    rcases hv with hv | hv
    · exact ⟨(v, m), rfl, hv⟩
    · exact absurd hv (by decide)
  | succ k ih =>
    have hd := dispatch_known r ctx step v m hk
    simp only [Runner.attempts]
    split
    · rename_i hs
      unfold StepVars.succeeded at hs
      split at hs
      · simp at hs
      · split at hs
        · rename_i hr
          exact absurd hr hd
        · simp at hs
    · exact ⟨_, rfl, hd⟩
    · split
      · exact ih _ _ (Or.inl hd)
      · exact ih _ _ (Or.inl hd)

/-- `executeStep` returns for every step of a known type. -/
theorem executeStep_total {W : Type} (r : Runner W) (ctx : Context) (step : Step)
    (m : Mach W) (hk : step.known = true) : ∃ out, r.executeStep ctx step m = some out := by
  unfold Runner.executeStep
  simp only
  have hpos : 0 < (if step.Retries < 1 then 1 else step.Retries).toNat := by
    split_ifs with h
    · decide
    · omega
  obtain ⟨o, ho, hres⟩ := attempts_total r
    (if step.Timeout > 0 then WithTimeout ctx step.Timeout else ctx) step
    (if step.Retries < 1 then 1 else step.Retries).toNat hk
    (if step.Retries < 1 then 1 else step.Retries).toNat
    { result := none, actx := none, err := none } m (Or.inr hpos)
  rw [ho]
  dsimp only
  split
  · rename_i hn
    exact absurd hn hres
  · exact ⟨_, rfl⟩

/-! ## Teardown -/

theorem Grows.growsRefl (P : EventType → Bool) (a : Report) : Report.Grows P a a :=
  ⟨rfl, rfl, id, [], by simp, by simp⟩

theorem Grows.growsTrans {P : EventType → Bool} {a b c : Report} (h1 : Report.Grows P a b)
    (h2 : Report.Grows P b c) : Report.Grows P a c := by
  obtain ⟨s1, e1, a1, v1, ev1, p1⟩ := h1
  obtain ⟨s2, e2, a2, v2, ev2, p2⟩ := h2
  refine ⟨s2.trans s1, e2.trans e1, fun h => a2 (a1 h), v1 ++ v2,
    by rw [ev2, ev1, List.append_assoc], ?_⟩
  intro e he
  rcases List.mem_append.mp he with h | h
  · exact p1 e h
  · exact p2 e h

theorem Grows.growsMono {P Q : EventType → Bool} {a b : Report}
    (hPQ : ∀ t, P t = true → Q t = true) (h : Report.Grows P a b) : Report.Grows Q a b := by
  obtain ⟨s1, e1, a1, v1, ev1, p1⟩ := h
  exact ⟨s1, e1, a1, v1, ev1, fun e he => hPQ _ (p1 e he)⟩

theorem Grows.growsAddEvent (P : EventType → Bool) (a : Report) (e : Event) (now : Int)
    (h : P e.Type_ = true) : Report.Grows P a (a.AddEvent e now) := by
  refine ⟨rfl, rfl, AddEvent_statsAgree a e now, _, AddEvent_events a e now, ?_⟩
  intro e1 he1
  rw [List.mem_singleton] at he1
  subst he1
  split <;> exact h

theorem cleanupMarks_append (a b : List Op) :
    cleanupMarks (a ++ b) = cleanupMarks a ++ cleanupMarks b := by
  simp [cleanupMarks, List.filterMap_append]

theorem stepMarks_append (a b : List Op) :
    stepMarks (a ++ b) = stepMarks a ++ stepMarks b := by
  simp [stepMarks, List.filterMap_append]

theorem rollbackOps_append (a b : List Op) :
    rollbackOps (a ++ b) = rollbackOps a ++ rollbackOps b := by
  simp [rollbackOps, List.filterMap_append]

theorem cleanupMark_stepOp (op : Op) (h : op.isStepOp = true) : op.cleanupMark = none := by
  cases op with
  | log line => cases line <;> first | rfl | cases h
  | _ => rfl

theorem stepMark_stepOp (op : Op) (h : op.isStepOp = true) : op.stepMark = none := by
  cases op with
  | log line => cases line <;> first | rfl | cases h
  | _ => rfl

theorem cleanupMarks_stepOps (d : List Op) (h : ∀ op ∈ d, op.isStepOp = true) :
    cleanupMarks d = [] := by
  unfold cleanupMarks
  rw [List.filterMap_eq_nil_iff]
  exact fun op hop => cleanupMark_stepOp op (h op hop)

theorem stepMarks_stepOps (d : List Op) (h : ∀ op ∈ d, op.isStepOp = true) :
    stepMarks d = [] := by
  unfold stepMarks
  rw [List.filterMap_eq_nil_iff]
  exact fun op hop => stepMark_stepOp op (h op hop)

theorem isStepOp_cleanup (op : Op) (h : op.isStepOp = true) : op.isCleanupOp = true := by
  cases op with
  | log line => cases line <;> first | rfl | cases h
  | _ => first | rfl | cases h

theorem isStepOp_main (op : Op) (h : op.isStepOp = true) : op.isMainOp = true := by
  cases op with
  | log line => cases line <;> first | rfl | cases h
  | _ => first | rfl | cases h

/-- The cleanup-step loop, when it returns: it wrote one numbered line per step, in
order, around the entries of the steps, and appended only cleanup events. -/
theorem cleanupSteps_shape {W : Type} (r : Runner W) (ctx : Context) (steps : List Step)
    (i : Nat) (rep : Report) (m : Mach W) (out : Report × Mach W)
    (h : r.cleanupSteps ctx i steps rep m = some out) :
    (∃ d, out.2.trace = m.trace ++ d ∧ (∀ op ∈ d, op.isCleanupOp = true)
        ∧ cleanupMarks d = marksFrom i steps)
      ∧ Report.Grows (fun t => t == EventCleanup) rep out.1 := by
  induction steps generalizing i rep m with
  | nil =>
    simp only [Runner.cleanupSteps, Option.some.injEq] at h
    subst h
    exact ⟨⟨[], by simp, by simp, rfl⟩, Grows.growsRefl _ _⟩
  | cons step rest ih =>
    simp only [Runner.cleanupSteps] at h
    split at h
    · exact absurd h (by simp)
    · rename_i o ho
      obtain ⟨d1, hd1, hp1⟩ := executeStep_ext _ _ _ _ _ ho
      obtain ⟨⟨d2, hd2, hp2, hm2⟩, hg⟩ := ih _ _ _ h
      have hlog : ∃ d3, (match o.1.2.2 with
          | some err => r.log o.2 (LogLine.cleanupStepFailed (some err))
          | none => o.2).trace = o.2.trace ++ d3 ∧ (∀ op ∈ d3, op.isCleanupOp = true)
            ∧ cleanupMarks d3 = [] := by
        split
        · exact ⟨[_], rfl, by simp [Op.isCleanupOp], rfl⟩
        · exact ⟨[], by simp, by simp, rfl⟩
      obtain ⟨d3, hd3, hp3, hm3⟩ := hlog
      refine ⟨⟨Op.log (LogLine.cleanupStep (i + 1) step.Name) :: (d1 ++ d3 ++ d2), ?_, ?_, ?_⟩,
        Grows.growsTrans (Grows.growsAddEvent _ _ _ _ (by simp)) hg⟩
      · rw [hd2, hd3, hd1]
        simp [Runner.log, Mach.emit]
      · intro op hop
        simp only [List.mem_cons, List.mem_append] at hop
        rcases hop with rfl | (h1 | h1) | h1
        · simp [Op.isCleanupOp]
        · exact isStepOp_cleanup _ (hp1 op h1)
        · exact hp3 op h1
        · exact hp2 op h1
      · have e1 : cleanupMarks (Op.log (LogLine.cleanupStep (i + 1) step.Name) :: (d1 ++ d3 ++ d2))
            = (i + 1, step.Name) :: cleanupMarks (d1 ++ d3 ++ d2) := rfl
        rw [e1, cleanupMarks_append, cleanupMarks_append, cleanupMarks_stepOps d1 hp1, hm3, hm2]
        rfl

/-- The cleanup-step loop returns when every cleanup step has a known type. -/
theorem cleanupSteps_total {W : Type} (r : Runner W) (ctx : Context) (steps : List Step)
    (hk : ∀ s ∈ steps, s.known = true) (i : Nat) (rep : Report) (m : Mach W) :
    ∃ out, r.cleanupSteps ctx i steps rep m = some out := by
  induction steps generalizing i rep m with
  | nil => exact ⟨_, rfl⟩
  | cons step rest ih =>
    obtain ⟨o, ho⟩ := executeStep_total r ctx step
      (r.log m (LogLine.cleanupStep (i + 1) step.Name)) (hk step (List.mem_cons_self _ _))
    simp only [Runner.cleanupSteps, ho]
    exact ih (fun s hs => hk s (List.mem_cons_of_mem _ hs)) _ _ _

theorem AddEvent_grow_one (a : Report) (e : Event) (now : Int) :
    (a.AddEvent e now).Success = a.Success ∧ (a.AddEvent e now).Error = a.Error
      ∧ (a.StatsAgree → (a.AddEvent e now).StatsAgree)
      ∧ ∃ e1, (a.AddEvent e now).Events = a.Events ++ [e1] ∧ e1.Type_ = e.Type_
          ∧ e1.Step = e.Step ∧ e1.Message = e.Message := by
  refine ⟨rfl, rfl, AddEvent_statsAgree a e now, _, AddEvent_events a e now, ?_⟩
  split <;> exact ⟨rfl, rfl, rfl⟩

/-- The rollback loop over the retained action contexts `actxs` (listed in the order
the loop visits them): it calls `Rollback` once on each context whose state names a
registered action, in that order, whatever the earlier calls returned, and appends one
event per call, a cleanup event for a nil return and an error event otherwise. -/
theorem rollbacks_shape {W : Type} (r : Runner W) (ctx : Context)
    (actxs : List ActionContext) (rep : Report) (m : Mach W) :
    ∃ d evs, (r.rollbacks ctx actxs rep m).2.trace = m.trace ++ d
      ∧ (∀ op ∈ d, op.isRollbackOp = true)
      ∧ (rollbackOps d).map (fun op => (op.1, op.2.1))
          = (actxs.filter r.rollsBack).map
              (fun a => (a.addr, a.State.getString "_action_name"))
      ∧ (r.rollbacks ctx actxs rep m).1.Events = rep.Events ++ evs
      ∧ evs.map (fun e => (e.Type_, e.Step)) = (rollbackOps d).map rollbackEvent
      ∧ (r.rollbacks ctx actxs rep m).1.Success = rep.Success
      ∧ (r.rollbacks ctx actxs rep m).1.Error = rep.Error
      ∧ (rep.StatsAgree → (r.rollbacks ctx actxs rep m).1.StatsAgree) := by
  induction actxs generalizing rep m with
  | nil => exact ⟨[], [], by simp [Runner.rollbacks], by simp, rfl, by simp [Runner.rollbacks],
      rfl, rfl, rfl, id⟩
  | cons actx rest ih =>
    by_cases hname : actx.State.getString "_action_name" = ""
    · have hf : r.rollsBack actx = false := by simp [Runner.rollsBack, hname]
      simp only [Runner.rollbacks, hname, if_true, List.filter_cons, hf]
      exact ih rep m
    · cases hget : r.actions.Get "action" (actx.State.getString "_action_name") with
      | error e =>
        have hf : r.rollsBack actx = false := by simp [Runner.rollsBack, hget]
        simp only [Runner.rollbacks, hname, if_false, hget, List.filter_cons, hf]
        obtain ⟨d, evs, h1, h2, h3, h4, h5, h6, h7, h8⟩ :=
          ih rep (r.log m (LogLine.cannotFind (actx.State.getString "_action_name")))
        refine ⟨Op.log (LogLine.cannotFind (actx.State.getString "_action_name")) :: d, evs,
          ?_, ?_, ?_, h4, ?_, h6, h7, h8⟩
        · rw [h1]
          simp [Runner.log, Mach.emit]
        · intro op hop
          rcases List.mem_cons.mp hop with rfl | hop
          · rfl
          · exact h2 op hop
        · simpa [rollbackOps, Op.rollbackCall] using h3
        · simpa [rollbackOps, Op.rollbackCall] using h5
      | ok action =>
        have ht : r.rollsBack actx = true := by simp [Runner.rollsBack, hget, hname]
        simp only [Runner.rollbacks, hname, if_false, hget, List.filter_cons, ht, if_true]
        split
        · rename_i err herr
          obtain ⟨g1, g2, g3, e1, g4, g5, g6, g7⟩ := AddEvent_grow_one rep
            { Time := r.now (r.log (Mach.emit
                { r.log m (LogLine.rollingBack (actx.State.getString "_action_name")) with
                  world := (action.Rollback ctx actx
                    (r.log m (LogLine.rollingBack
                      (actx.State.getString "_action_name"))).world).2 }
                (Op.rollback actx.addr (actx.State.getString "_action_name") false))
                (LogLine.rollbackFailed err)).world,
              Type_ := EventError,
              Step := "rollback-" ++ actx.State.getString "_action_name",
              Message := err, Duration := 0, Details := [] }
            (r.now (r.log (Mach.emit
                { r.log m (LogLine.rollingBack (actx.State.getString "_action_name")) with
                  world := (action.Rollback ctx actx
                    (r.log m (LogLine.rollingBack
                      (actx.State.getString "_action_name"))).world).2 }
                (Op.rollback actx.addr (actx.State.getString "_action_name") false))
                (LogLine.rollbackFailed err)).world)
          obtain ⟨d, evs, h1, h2, h3, h4, h5, h6, h7, h8⟩ := ih _ _
          refine ⟨Op.log (LogLine.rollingBack (actx.State.getString "_action_name"))
              :: Op.rollback actx.addr (actx.State.getString "_action_name") false
              :: Op.log (LogLine.rollbackFailed err) :: d, e1 :: evs,
            h1.trans ?_, ?_, ?_, h4.trans ?_, ?_, h6.trans g1, h7.trans g2,
            fun h => h8 (g3 h)⟩
          · simp [Runner.log, Mach.emit]
          · intro op hop
            simp only [List.mem_cons] at hop
            rcases hop with rfl | rfl | rfl | hop
            · rfl
            · rfl
            · rfl
            · exact h2 op hop
          · simpa [rollbackOps, Op.rollbackCall] using h3
          · rw [g4]
            simp
          · simp only [List.map_cons, g5, g6]
            simpa [rollbackOps, Op.rollbackCall, rollbackEvent] using h5
        · rename_i herr
          obtain ⟨g1, g2, g3, e1, g4, g5, g6, g7⟩ := AddEvent_grow_one rep
            { Time := r.now (Mach.emit
                { r.log m (LogLine.rollingBack (actx.State.getString "_action_name")) with
                  world := (action.Rollback ctx actx
                    (r.log m (LogLine.rollingBack
                      (actx.State.getString "_action_name"))).world).2 }
                (Op.rollback actx.addr (actx.State.getString "_action_name") true)).world,
              Type_ := EventCleanup,
              Step := "rollback-" ++ actx.State.getString "_action_name",
              Message := "Rollback successful", Duration := 0, Details := [] }
            (r.now (Mach.emit
                { r.log m (LogLine.rollingBack (actx.State.getString "_action_name")) with
                  world := (action.Rollback ctx actx
                    (r.log m (LogLine.rollingBack
                      (actx.State.getString "_action_name"))).world).2 }
                (Op.rollback actx.addr (actx.State.getString "_action_name") true)).world)
          obtain ⟨d, evs, h1, h2, h3, h4, h5, h6, h7, h8⟩ := ih _ _
          refine ⟨Op.log (LogLine.rollingBack (actx.State.getString "_action_name"))
              :: Op.rollback actx.addr (actx.State.getString "_action_name") true :: d,
            e1 :: evs,
            h1.trans ?_, ?_, ?_, h4.trans ?_, ?_, h6.trans g1, h7.trans g2,
            fun h => h8 (g3 h)⟩
          · simp [Runner.log, Mach.emit]
          · intro op hop
            simp only [List.mem_cons] at hop
            rcases hop with rfl | rfl | hop
            · rfl
            · rfl
            · exact h2 op hop
          · simpa [rollbackOps, Op.rollbackCall] using h3
          · rw [g4]
            simp
          · simp only [List.map_cons, g5, g6]
            simpa [rollbackOps, Op.rollbackCall, rollbackEvent] using h5

/-- A teardown, when it returns, has the shape `TeardownFrom`. -/
theorem runCleanup_shape {W : Type} (r : Runner W) (ctx : Context) (cleanup : List Step)
    (executed : List ActionContext) (rep : Report) (m : Mach W) (out : Report × Mach W)
    (h : r.runCleanup ctx cleanup executed rep m = some out) :
    TeardownFrom r cleanup executed rep m.trace out.1 out.2.trace := by
  unfold Runner.runCleanup at h
  dsimp only at h
  split at h
  · exact absurd h (by simp)
  · rename_i o ho
    simp only [Option.some.injEq] at h
    subst h
    obtain ⟨⟨cl, hcl, hclp, hclm⟩, hg⟩ := cleanupSteps_shape _ _ _ _ _ _ _ ho
    obtain ⟨rb, evs, h1, h2, h3, h4, h5, h6, h7, h8⟩ :=
      rollbacks_shape r ctx executed.reverse o.1 o.2
    refine ⟨cl, rb, ?_, hclp, hclm, h2, h3, ?_⟩
    · rw [h1, hcl]
      simp [Runner.log, Mach.emit]
    · refine Grows.growsTrans (Grows.growsMono ?_ hg) ⟨h6, h7, h8, evs, h4, ?_⟩
      · intro t ht
        simp only [teardownType, ht, Bool.true_or]
      · intro e he
        have hmem : (e.Type_, e.Step) ∈ (rollbackOps rb).map rollbackEvent := by
          rw [← h5]
          exact List.mem_map_of_mem (fun e => (e.Type_, e.Step)) he
        obtain ⟨op, hop, hev⟩ := List.mem_map.mp hmem
        have htype : e.Type_ = if op.2.2 then EventCleanup else EventError := by
          have := congrArg Prod.fst hev
          simpa [rollbackEvent] using this.symm
        cases hok : op.2.2 with
        | true =>
          rw [hok] at htype
          simp [teardownType, htype]
        | false =>
          rw [hok] at htype
          have hany : hasFailedRollback rb = true := by
            unfold hasFailedRollback
            rw [List.any_eq_true]
            exact ⟨op, hop, by simp [hok]⟩
          simp [teardownType, htype, hany]

/-- A teardown returns when every cleanup step has a known type. -/
theorem runCleanup_total {W : Type} (r : Runner W) (ctx : Context) (cleanup : List Step)
    (hk : ∀ s ∈ cleanup, s.known = true) (executed : List ActionContext) (rep : Report)
    (m : Mach W) : ∃ out, r.runCleanup ctx cleanup executed rep m = some out := by
  obtain ⟨o, ho⟩ := cleanupSteps_total r ctx cleanup hk 0 rep (r.log m LogLine.runningCleanup)
  unfold Runner.runCleanup
  simp only [ho]
  exact ⟨_, rfl⟩

/-- The end of a run that leaves the main loop without returning: one teardown, then
a report with `Success` set and a nil error. -/
theorem finish_shape {W : Type} (r : Runner W) (ctx : Context) (scenario : Scenario)
    (s : LoopState W) (res : RunResult W) (h : r.finish ctx scenario s = some res) :
    res.rep.Success = true ∧ res.err = none
      ∧ ∃ rep1 t1, TeardownFrom r scenario.Cleanup s.executedActions s.rep s.m.trace rep1 t1
          ∧ res.m.trace = t1 ++ [Op.log LogLine.completed]
          ∧ res.rep = { rep1 with Success := true } := by
  unfold Runner.finish at h
  split at h
  · exact absurd h (by simp)
  · rename_i fin hfin
    simp only [Option.some.injEq] at h
    subst h
    exact ⟨rfl, rfl, fin.1, fin.2.trace, runCleanup_shape _ _ _ _ _ _ _ hfin, rfl, rfl⟩

theorem finish_total {W : Type} (r : Runner W) (ctx : Context) (scenario : Scenario)
    (hk : ∀ s ∈ scenario.Cleanup, s.known = true) (s : LoopState W) :
    ∃ res, r.finish ctx scenario s = some res := by
  obtain ⟨o, ho⟩ := runCleanup_total r ctx scenario.Cleanup hk s.executedActions s.rep s.m
  unfold Runner.finish
  simp only [ho]
  exact ⟨_, rfl⟩

/-! ## One iteration of the main loop -/

theorem poll_flag {W : Type} (r : Runner W) (ctx : Context) (step : Step) (s : LoopState W) :
    (r.poll ctx step s).runCleanup = (s.runCleanup || (r.done ctx s.m.world).1) := by
  unfold Runner.poll
  dsimp only
  split <;> simp [*]

theorem poll_trace {W : Type} (r : Runner W) (ctx : Context) (step : Step) (s : LoopState W) :
    (r.poll ctx step s).m.trace = s.m.trace ++ [Op.done (r.done ctx s.m.world).1] := by
  unfold Runner.poll
  dsimp only
  split <;> rfl

theorem poll_rep {W : Type} (r : Runner W) (ctx : Context) (step : Step) (s : LoopState W)
    (h : (r.done ctx s.m.world).1 = false) : (r.poll ctx step s).rep = s.rep := by
  unfold Runner.poll
  dsimp only
  rw [if_neg (by simp [h])]

theorem poll_grows {W : Type} (r : Runner W) (ctx : Context) (step : Step)
    (s : LoopState W) : Report.Grows isMainType s.rep (r.poll ctx step s).rep := by
  unfold Runner.poll
  dsimp only
  split
  · exact Grows.growsAddEvent _ _ _ _ (by simp [isMainType, EventError])
  · exact Grows.growsRefl _ _

theorem poll_cancelled {W : Type} (r : Runner W) (ctx : Context) (step : Step)
    (s : LoopState W) (h : (r.done ctx s.m.world).1 = true) :
    ∃ e, (r.poll ctx step s).rep.Events = s.rep.Events ++ [e] ∧ e.Type_ = EventError
      ∧ e.Step = step.Name ∧ e.Message = "Context cancelled" := by
  unfold Runner.poll
  dsimp only
  rw [if_pos h]
  obtain ⟨_, _, _, e1, h1, h2, h3, h4⟩ := AddEvent_grow_one s.rep
    { Time := r.now (Mach.emit { s.m with world := (r.done ctx s.m.world).2 }
        (Op.done (r.done ctx s.m.world).1)).world,
      Type_ := EventError, Step := step.Name, Message := "Context cancelled",
      Duration := 0, Details := [] }
    (r.now (Mach.emit { s.m with world := (r.done ctx s.m.world).2 }
        (Op.done (r.done ctx s.m.world).1)).world)
  exact ⟨e1, h1, h2, h3, h4⟩

/-- An iteration entered with `runCleanup` set, or with the context done, leaves the
loop without executing its step. -/
theorem iter_brk {W : Type} (r : Runner W) (ctx : Context) (sc : Scenario) (i : Nat)
    (step : Step) (s : LoopState W) (h : (r.poll ctx step s).runCleanup = true) :
    r.iter ctx sc i step s = some (Flow.brk (r.poll ctx step s)) := by
  unfold Runner.iter
  simp [h]

/-- An iteration whose step succeeds goes on to the next iteration. -/
theorem iter_pass {W : Type} (r : Runner W) (ctx : Context) (sc : Scenario) (i : Nat)
    (step : Step) (s : LoopState W) (out : (StepResult × Option ActionContext × Error) × Mach W)
    (h : (r.poll ctx step s).runCleanup = false) (ho : r.attempt ctx i step s = some out)
    (hf : failed out = false) :
    r.iter ctx sc i step s = some (Flow.next
      { rep := r.record (r.poll ctx step s).rep step out
        executedActions := retain (r.poll ctx step s).executedActions out.1.2.1
        runCleanup := false
        m := out.2 }) := by
  unfold failed at hf
  have h1 : out.1.2.2 = none := by
    cases he : out.1.2.2 with
    | none => rfl
    | some e => simp [he] at hf
  have h2 : out.1.1.Success = true := by
    cases hs : out.1.1.Success with
    | true => rfl
    | false => simp [hs] at hf
  unfold Runner.iter
  simp [h, ho, h1, h2]

/-- An iteration whose step fails under `on_error: continue` goes on to the next
iteration. -/
theorem iter_continue {W : Type} (r : Runner W) (ctx : Context) (sc : Scenario) (i : Nat)
    (step : Step) (s : LoopState W) (out : (StepResult × Option ActionContext × Error) × Mach W)
    (h : (r.poll ctx step s).runCleanup = false) (ho : r.attempt ctx i step s = some out)
    (hf : failed out = true) (hp : step.OnError = OnErrorContinue) :
    r.iter ctx sc i step s = some (Flow.next
      { rep := r.record (r.poll ctx step s).rep step out
        executedActions := retain (r.poll ctx step s).executedActions out.1.2.1
        runCleanup := false
        m := r.log out.2 (LogLine.failedContinuing out.1.2.2) }) := by
  have hc : out.1.2.2 ≠ none ∨ out.1.1.Success = false := by
    unfold failed at hf
    rcases Bool.or_eq_true_iff.mp hf with h1 | h1
    · exact Or.inl (Option.isSome_iff_ne_none.mp h1)
    · exact Or.inr (by simpa using h1)
  unfold Runner.iter
  simp only [h, ho, hp, if_true, if_pos hc]
  simp

/-- An iteration whose step fails under `on_error: cleanup` sets `runCleanup` and hands
over to the next iteration. -/
theorem iter_cleanup {W : Type} (r : Runner W) (ctx : Context) (sc : Scenario) (i : Nat)
    (step : Step) (s : LoopState W) (out : (StepResult × Option ActionContext × Error) × Mach W)
    (h : (r.poll ctx step s).runCleanup = false) (ho : r.attempt ctx i step s = some out)
    (hf : failed out = true) (hp : step.OnError = OnErrorCleanup) :
    r.iter ctx sc i step s = some (Flow.next
      { rep := r.record (r.poll ctx step s).rep step out
        executedActions := retain (r.poll ctx step s).executedActions out.1.2.1
        runCleanup := true
        m := r.log out.2 (LogLine.failedRunningCleanup out.1.2.2) }) := by
  have hc : out.1.2.2 ≠ none ∨ out.1.1.Success = false := by
    unfold failed at hf
    rcases Bool.or_eq_true_iff.mp hf with h1 | h1
    · exact Or.inl (Option.isSome_iff_ne_none.mp h1)
    · exact Or.inr (by simpa using h1)
  have hne : ¬ (OnErrorCleanup = OnErrorContinue) := by decide
  unfold Runner.iter
  simp only [h, ho, hp, if_pos hc, if_neg hne]
  simp

/-- An iteration whose step fails under any other `on_error` marks the report failed
with the step error, runs the teardown and returns the step error. -/
theorem iter_fail {W : Type} (r : Runner W) (ctx : Context) (sc : Scenario) (i : Nat)
    (step : Step) (s : LoopState W) (out : (StepResult × Option ActionContext × Error) × Mach W)
    (fin : Report × Mach W)
    (h : (r.poll ctx step s).runCleanup = false) (ho : r.attempt ctx i step s = some out)
    (hf : failed out = true) (hp1 : step.OnError ≠ OnErrorContinue)
    (hp2 : step.OnError ≠ OnErrorCleanup)
    (hfin : r.runCleanup ctx sc.Cleanup (retain (r.poll ctx step s).executedActions out.1.2.1)
      { r.record (r.poll ctx step s).rep step out with Success := false, Error := out.1.2.2 }
      (r.log out.2 (LogLine.failedAborting out.1.2.2)) = some fin) :
    r.iter ctx sc i step s = some (Flow.ret { rep := fin.1, err := out.1.2.2, m := fin.2 }) := by
  have hc : out.1.2.2 ≠ none ∨ out.1.1.Success = false := by
    unfold failed at hf
    rcases Bool.or_eq_true_iff.mp hf with h1 | h1
    · exact Or.inl (Option.isSome_iff_ne_none.mp h1)
    · exact Or.inr (by simpa using h1)
  unfold Runner.iter
  simp only [h, ho, if_pos hc, if_neg hp1, if_neg hp2, hfin]
  simp

theorem failed_cases {W : Type} (out : (StepResult × Option ActionContext × Error) × Mach W) :
    failed out = true ∨ failed out = false := by
  cases failed out <;> simp

/-- The ways an iteration of the main loop can end. -/
theorem iter_cases {W : Type} (r : Runner W) (ctx : Context) (sc : Scenario) (i : Nat)
    (step : Step) (s : LoopState W) (flow : Flow W)
    (h : r.iter ctx sc i step s = some flow) :
    ((r.poll ctx step s).runCleanup = true ∧ flow = Flow.brk (r.poll ctx step s))
      ∨ ((r.poll ctx step s).runCleanup = false ∧ ∃ out, r.attempt ctx i step s = some out
          ∧ ((failed out = false ∧ flow = Flow.next
                { rep := r.record (r.poll ctx step s).rep step out
                  executedActions := retain (r.poll ctx step s).executedActions out.1.2.1
                  runCleanup := false
                  m := out.2 })
            ∨ (failed out = true ∧ step.OnError = OnErrorContinue ∧ flow = Flow.next
                { rep := r.record (r.poll ctx step s).rep step out
                  executedActions := retain (r.poll ctx step s).executedActions out.1.2.1
                  runCleanup := false
                  m := r.log out.2 (LogLine.failedContinuing out.1.2.2) })
            ∨ (failed out = true ∧ step.OnError = OnErrorCleanup ∧ flow = Flow.next
                { rep := r.record (r.poll ctx step s).rep step out
                  executedActions := retain (r.poll ctx step s).executedActions out.1.2.1
                  runCleanup := true
                  m := r.log out.2 (LogLine.failedRunningCleanup out.1.2.2) })
            ∨ (failed out = true ∧ step.OnError ≠ OnErrorContinue
                ∧ step.OnError ≠ OnErrorCleanup
                ∧ ∃ fin, r.runCleanup ctx sc.Cleanup
                    (retain (r.poll ctx step s).executedActions out.1.2.1)
                    { r.record (r.poll ctx step s).rep step out with
                      Success := false, Error := out.1.2.2 }
                    (r.log out.2 (LogLine.failedAborting out.1.2.2)) = some fin
                  ∧ flow = Flow.ret { rep := fin.1, err := out.1.2.2, m := fin.2 }))) := by
  cases hflag : (r.poll ctx step s).runCleanup with
  | true =>
    rw [iter_brk r ctx sc i step s hflag] at h
    exact Or.inl ⟨rfl, (Option.some.inj h).symm⟩
  | false =>
    right
    refine ⟨rfl, ?_⟩
    cases ho : r.attempt ctx i step s with
    | none =>
      unfold Runner.iter at h
      simp [hflag, ho] at h
    | some out =>
      refine ⟨out, rfl, ?_⟩
      rcases failed_cases out with hf | hf
      · by_cases hp1 : step.OnError = OnErrorContinue
        · rw [iter_continue r ctx sc i step s out hflag ho hf hp1] at h
          exact Or.inr (Or.inl ⟨hf, hp1, (Option.some.inj h).symm⟩)
        · by_cases hp2 : step.OnError = OnErrorCleanup
          · rw [iter_cleanup r ctx sc i step s out hflag ho hf hp2] at h
            exact Or.inr (Or.inr (Or.inl ⟨hf, hp2, (Option.some.inj h).symm⟩))
          · cases hfin : r.runCleanup ctx sc.Cleanup
                (retain (r.poll ctx step s).executedActions out.1.2.1)
                { r.record (r.poll ctx step s).rep step out with
                  Success := false, Error := out.1.2.2 }
                (r.log out.2 (LogLine.failedAborting out.1.2.2)) with
            | none =>
              have hc : out.1.2.2 ≠ none ∨ out.1.1.Success = false := by
                unfold failed at hf
                rcases Bool.or_eq_true_iff.mp hf with h1 | h1
                · exact Or.inl (Option.isSome_iff_ne_none.mp h1)
                · exact Or.inr (by simpa using h1)
              unfold Runner.iter at h
              simp only [hflag, ho, if_pos hc, if_neg hp1, if_neg hp2, hfin] at h
              simp at h
            | some fin =>
              rw [iter_fail r ctx sc i step s out fin hflag ho hf hp1 hp2 hfin] at h
              exact Or.inr (Or.inr (Or.inr ⟨hf, hp1, hp2, fin, rfl, (Option.some.inj h).symm⟩))
      · rw [iter_pass r ctx sc i step s out hflag ho hf] at h
        exact Or.inl ⟨hf, (Option.some.inj h).symm⟩

theorem attempt_trace {W : Type} (r : Runner W) (ctx : Context) (i : Nat) (step : Step)
    (s : LoopState W) (out : (StepResult × Option ActionContext × Error) × Mach W)
    (ho : r.attempt ctx i step s = some out) :
    ∃ d, out.2.trace = s.m.trace ++ Op.done (r.done ctx s.m.world).1
        :: Op.log (LogLine.step (i + 1) step.Name) :: d
      ∧ ∀ op ∈ d, op.isStepOp = true := by
  obtain ⟨d, hd, hp⟩ := executeStep_ext _ _ _ _ _ ho
  refine ⟨d, ?_, hp⟩
  rw [hd]
  simp [Runner.log, Mach.emit, poll_trace]

theorem record_grow {W : Type} (r : Runner W) (rep : Report) (step : Step)
    (out : (StepResult × Option ActionContext × Error) × Mach W) :
    Report.Grows isMainType rep (r.record rep step out)
      ∧ ∃ e, (r.record rep step out).Events = rep.Events ++ [e]
          ∧ e.Type_ = out.1.1.EventType ∧ e.Step = step.Name
          ∧ e.Message = out.1.1.Message := by
  unfold Runner.record
  refine ⟨Grows.growsAddEvent _ _ _ _ ?_, ?_⟩
  · unfold StepResult.EventType
    split <;> simp [isMainType, EventSuccess, EventFailure]
  · obtain ⟨_, _, _, e1, h1, h2, h3, h4⟩ := AddEvent_grow_one rep
      { Time := r.now out.2.world, Type_ := out.1.1.EventType, Step := step.Name,
        Message := out.1.1.Message, Duration := out.1.1.Duration, Details := [] }
      (r.now out.2.world)
    exact ⟨e1, h1, h2, h3, h4⟩

/-- The shape of what one iteration of the main loop leaves. -/
theorem iter_shape {W : Type} (r : Runner W) (ctx : Context) (sc : Scenario) (i : Nat)
    (step : Step) (s : LoopState W) (flow : Flow W)
    (h : r.iter ctx sc i step s = some flow) :
    Flow.Shape r sc.Cleanup s [(i + 1, step.Name)] flow := by
  rcases iter_cases r ctx sc i step s flow h with ⟨hflag, rfl⟩ | ⟨hflag, out, ho, hcase⟩
  · exact ⟨⟨[_], poll_trace r ctx step s, by simp [Op.isMainOp]⟩, poll_grows r ctx step s⟩
  · obtain ⟨d, hd, hp⟩ := attempt_trace r ctx i step s out ho
    have hdone : (r.done ctx s.m.world).1 = false := by
      have := poll_flag r ctx step s
      rw [hflag] at this
      cases hx : (r.done ctx s.m.world).1 with
      | false => rfl
      | true => simp [hx] at this
    have hrep : (r.poll ctx step s).rep = s.rep := poll_rep r ctx step s hdone
    obtain ⟨hg, e, he, _, _, _⟩ := record_grow r s.rep step out
    have hmain : ∀ op ∈ Op.done (r.done ctx s.m.world).1
        :: Op.log (LogLine.step (i + 1) step.Name) :: d, op.isMainOp = true := by
      intro op hop
      simp only [List.mem_cons] at hop
      rcases hop with rfl | rfl | hop
      · rfl
      · rfl
      · exact isStepOp_main _ (hp op hop)
    have hmarks : stepMarks (s.m.trace ++ Op.done (r.done ctx s.m.world).1
        :: Op.log (LogLine.step (i + 1) step.Name) :: d)
          = stepMarks s.m.trace ++ [(i + 1, step.Name)] := by
      rw [stepMarks_append]
      have : stepMarks (Op.done (r.done ctx s.m.world).1
          :: Op.log (LogLine.step (i + 1) step.Name) :: d)
            = (i + 1, step.Name) :: stepMarks d := rfl
      rw [this, stepMarks_stepOps d hp]
    have hlen : (r.record s.rep step out).Events.length = s.rep.Events.length + 1 := by
      rw [he]
      simp
    have hext : Ext Op.isMainOp s.m.trace out.2.trace := ⟨_, hd, hmain⟩
    rcases hcase with ⟨_, rfl⟩ | ⟨_, _, rfl⟩ | ⟨_, _, rfl⟩ | ⟨_, _, _, fin, hfin, rfl⟩
    · refine ⟨hext, ?_, ?_, ?_⟩
      · show stepMarks out.2.trace = _
        rw [hd, hmarks]
      · show Report.Grows isMainType s.rep (r.record (r.poll ctx step s).rep step out)
        rw [hrep]
        exact hg
      · show (r.record (r.poll ctx step s).rep step out).Events.length = _
        rw [hrep, hlen]
        rfl
    · refine ⟨hext.extTrans (Ext.extEmit out.2 (Op.log (LogLine.failedContinuing out.1.2.2)) rfl),
        ?_, ?_, ?_⟩
      · show stepMarks (out.2.trace ++ [Op.log (LogLine.failedContinuing out.1.2.2)]) = _
        rw [stepMarks_append, hd, hmarks]
        simp [stepMarks, Op.stepMark]
      · show Report.Grows isMainType s.rep (r.record (r.poll ctx step s).rep step out)
        rw [hrep]
        exact hg
      · show (r.record (r.poll ctx step s).rep step out).Events.length = _
        rw [hrep, hlen]
        rfl
    · refine ⟨hext.extTrans (Ext.extEmit out.2 (Op.log (LogLine.failedRunningCleanup out.1.2.2)) rfl),
        ?_, ?_, ?_⟩
      · show stepMarks (out.2.trace ++ [Op.log (LogLine.failedRunningCleanup out.1.2.2)]) = _
        rw [stepMarks_append, hd, hmarks]
        simp [stepMarks, Op.stepMark]
      · show Report.Grows isMainType s.rep (r.record (r.poll ctx step s).rep step out)
        rw [hrep]
        exact hg
      · show (r.record (r.poll ctx step s).rep step out).Events.length = _
        rw [hrep, hlen]
        rfl
    · refine ⟨_, _, _, hext.extTrans (Ext.extEmit out.2 (Op.log (LogLine.failedAborting out.1.2.2)) rfl),
        rfl, rfl, ?_, ?_, runCleanup_shape _ _ _ _ _ _ _ hfin⟩
      · intro hs
        rw [hrep]
        exact hg.2.2.1 hs
      · rw [hrep]
        exact ⟨[e], he⟩

theorem Shape.after {W : Type} (r : Runner W) (cleanup : List Step) (s s1 : LoopState W)
    (m1 m2 : List (Nat × String)) (flow : Flow W)
    (h1 : Flow.Shape r cleanup s m1 (Flow.next s1)) (h2 : Flow.Shape r cleanup s1 m2 flow) :
    Flow.Shape r cleanup s (m1 ++ m2) flow := by
  obtain ⟨a1, a2, a3, a4⟩ := h1
  cases flow with
  | next s2 =>
    obtain ⟨b1, b2, b3, b4⟩ := h2
    refine ⟨a1.extTrans b1, ?_, Grows.growsTrans a3 b3, ?_⟩
    · rw [b2, a2, List.append_assoc]
    · rw [b4, a4, List.length_append]
      omega
  | brk s2 =>
    obtain ⟨b1, b3⟩ := h2
    exact ⟨a1.extTrans b1, Grows.growsTrans a3 b3⟩
  | ret res =>
    obtain ⟨ex, rep0, t0, b1, b2, b3, b4, ⟨evs2, b5⟩, b6⟩ := h2
    obtain ⟨_, _, a6, evs1, a5, _⟩ := a3
    exact ⟨ex, rep0, t0, a1.extTrans b1, b2, b3, fun hs => b4 (a6 hs),
      ⟨evs1 ++ evs2, by rw [b5, a5, List.append_assoc]⟩, b6⟩

/-- The shape of what the main loop leaves, whichever way it ends. -/
theorem runSteps_shape {W : Type} (r : Runner W) (ctx : Context) (sc : Scenario)
    (steps : List Step) (i : Nat) (s : LoopState W) (flow : Flow W)
    (h : r.runSteps ctx sc i steps s = some flow) :
    Flow.Shape r sc.Cleanup s (marksFrom i steps) flow := by
  induction steps generalizing i s with
  | nil =>
    simp only [Runner.runSteps, Option.some.injEq] at h
    subst h
    exact ⟨Ext.extRefl _ _, by simp [marksFrom], Grows.growsRefl _ _, by simp [marksFrom]⟩
  | cons step rest ih =>
    simp only [Runner.runSteps] at h
    split at h
    · rename_i s1 h1
      have hs1 := iter_shape r ctx sc i step s _ h1
      have := Shape.after r sc.Cleanup s s1 _ _ flow hs1 (ih _ _ h)
      simpa [marksFrom] using this
    · rename_i hne
      have hs1 := iter_shape r ctx sc i step s flow h
      cases flow with
      | next s1 => exact absurd h (hne s1)
      | brk s1 => exact hs1
      | ret res => exact hs1

/-- The main loop over `pre ++ post` is the main loop over `pre` followed, when that
one exhausts its range, by the main loop over `post`. -/
theorem runSteps_append {W : Type} (r : Runner W) (ctx : Context) (sc : Scenario)
    (pre post : List Step) (i : Nat) (s : LoopState W) :
    r.runSteps ctx sc i (pre ++ post) s
      = match r.runSteps ctx sc i pre s with
        | some (Flow.next s1) => r.runSteps ctx sc (i + pre.length) post s1
        | other => other := by
  induction pre generalizing i s with
  | nil => simp [Runner.runSteps]
  | cons step rest ih =>
    simp only [List.cons_append, Runner.runSteps, List.length_cons]
    cases hiter : r.iter ctx sc i step s with
    | none => rfl
    | some flow =>
      cases flow with
      | next s1 =>
        have h1 := ih (i + 1) s1
        have h2 : i + 1 + rest.length = i + (rest.length + 1) := by omega
        rw [h2] at h1
        exact h1
      | brk s1 => rfl
      | ret res => rfl

/-! ## The whole run -/

theorem iter_total {W : Type} (r : Runner W) (ctx : Context) (sc : Scenario) (i : Nat)
    (step : Step) (s : LoopState W) (hk : step.known = true)
    (hc : ∀ c ∈ sc.Cleanup, c.known = true) : ∃ flow, r.iter ctx sc i step s = some flow := by
  cases hflag : (r.poll ctx step s).runCleanup with
  | true => exact ⟨_, iter_brk r ctx sc i step s hflag⟩
  | false =>
    obtain ⟨out, ho⟩ := executeStep_total r ctx step
      (r.log (r.poll ctx step s).m (LogLine.step (i + 1) step.Name)) hk
    rcases failed_cases out with hf | hf
    · by_cases hp1 : step.OnError = OnErrorContinue
      · exact ⟨_, iter_continue r ctx sc i step s out hflag ho hf hp1⟩
      · by_cases hp2 : step.OnError = OnErrorCleanup
        · exact ⟨_, iter_cleanup r ctx sc i step s out hflag ho hf hp2⟩
        · obtain ⟨fin, hfin⟩ := runCleanup_total r ctx sc.Cleanup hc
            (retain (r.poll ctx step s).executedActions out.1.2.1)
            { r.record (r.poll ctx step s).rep step out with
              Success := false, Error := out.1.2.2 }
            (r.log out.2 (LogLine.failedAborting out.1.2.2))
          exact ⟨_, iter_fail r ctx sc i step s out fin hflag ho hf hp1 hp2 hfin⟩
    · exact ⟨_, iter_pass r ctx sc i step s out hflag ho hf⟩

theorem runSteps_total {W : Type} (r : Runner W) (ctx : Context) (sc : Scenario)
    (steps : List Step) (hk : ∀ s ∈ steps, s.known = true)
    (hc : ∀ c ∈ sc.Cleanup, c.known = true) (i : Nat) (s : LoopState W) :
    ∃ flow, r.runSteps ctx sc i steps s = some flow := by
  induction steps generalizing i s with
  | nil => exact ⟨_, rfl⟩
  | cons step rest ih =>
    obtain ⟨flow, hflow⟩ := iter_total r ctx sc i step s (hk step (List.mem_cons_self _ _)) hc
    simp only [Runner.runSteps, hflow]
    cases flow with
    | next s1 => exact ih (fun x hx => hk x (List.mem_cons_of_mem _ hx)) _ _
    | brk s1 => exact ⟨_, rfl⟩
    | ret res => exact ⟨_, rfl⟩

/-- `Run` returns when every step and cleanup step of the scenario has a known type. -/
theorem Run_total {W : Type} (r : Runner W) (ctx0 : Context) (sc : Scenario) (w : W)
    (hk : ∀ s ∈ sc.Steps ++ sc.Cleanup, s.known = true) :
    ∃ res, r.Run ctx0 sc w = some res := by
  have hc : ∀ c ∈ sc.Cleanup, c.known = true :=
    fun c hc => hk c (List.mem_append_right _ hc)
  obtain ⟨flow, hflow⟩ := runSteps_total r (Runner.runCtx ctx0 sc) sc sc.Steps
    (fun s hs => hk s (List.mem_append_left _ hs)) hc 0 (r.enter sc w)
  unfold Runner.Run
  simp only [hflow]
  cases flow with
  | next s1 => exact finish_total r _ sc hc s1
  | brk s1 => exact finish_total r _ sc hc s1
  | ret res => exact ⟨_, rfl⟩

/-- `Run` as its main loop followed, unless the loop returned, by `finish`. -/
theorem Run_cases {W : Type} (r : Runner W) (ctx0 : Context) (sc : Scenario) (w : W)
    (res : RunResult W) (h : r.Run ctx0 sc w = some res) :
    (r.runSteps (Runner.runCtx ctx0 sc) sc 0 sc.Steps (r.enter sc w) = some (Flow.ret res))
      ∨ ∃ s, (r.runSteps (Runner.runCtx ctx0 sc) sc 0 sc.Steps (r.enter sc w)
              = some (Flow.next s)
            ∨ r.runSteps (Runner.runCtx ctx0 sc) sc 0 sc.Steps (r.enter sc w)
              = some (Flow.brk s))
          ∧ r.finish (Runner.runCtx ctx0 sc) sc s = some res := by
  unfold Runner.Run at h
  dsimp only at h
  split at h
  · exact absurd h (by simp)
  · rename_i res1 h1
    rw [Option.some.inj h] at h1
    exact Or.inl h1
  · rename_i s h1
    exact Or.inr ⟨s, Or.inl h1, h⟩
  · rename_i s h1
    exact Or.inr ⟨s, Or.inr h1, h⟩

theorem Ext.extAll {P : Op → Bool} {t1 t2 : List Op} (h : Ext P t1 t2)
    (h1 : ∀ op ∈ t1, P op = true) : ∀ op ∈ t2, P op = true := by
  obtain ⟨d, hd, hp⟩ := h
  intro op hop
  rw [hd] at hop
  rcases List.mem_append.mp hop with h2 | h2
  · exact h1 op h2
  · exact hp op h2

theorem enter_main {W : Type} (r : Runner W) (sc : Scenario) (w : W) :
    ∀ op ∈ (r.enter sc w).m.trace, op.isMainOp = true := by
  intro op hop
  simp only [Runner.enter, Runner.log, Mach.emit, List.nil_append, List.mem_singleton] at hop
  subst hop
  rfl

theorem TeardownFrom.once {W : Type} {r : Runner W} {cleanup : List Step}
    {executed : List ActionContext} {rep rep1 : Report} {t0 t1 : List Op}
    (h : TeardownFrom r cleanup executed rep t0 rep1 t1)
    (hmain : ∀ op ∈ t0, op.isMainOp = true) : TeardownOnce cleanup t1 := by
  obtain ⟨cl, rb, h1, h2, h3, h4, _, _⟩ := h
  exact ⟨t0, cl, rb, h1, hmain, h2, h3, h4⟩

theorem TeardownFrom.once_completed {W : Type} {r : Runner W} {cleanup : List Step}
    {executed : List ActionContext} {rep rep1 : Report} {t0 t1 : List Op}
    (h : TeardownFrom r cleanup executed rep t0 rep1 t1)
    (hmain : ∀ op ∈ t0, op.isMainOp = true) :
    TeardownOnce cleanup (t1 ++ [Op.log LogLine.completed]) := by
  obtain ⟨cl, rb, h1, h2, h3, h4, _, _⟩ := h
  refine ⟨t0, cl, rb ++ [Op.log LogLine.completed], ?_, hmain, h2, h3, ?_⟩
  · rw [h1]
    simp
  · intro op hop
    rcases List.mem_append.mp hop with h5 | h5
    · exact h4 op h5
    · rw [List.mem_singleton] at h5
      subst h5
      rfl

/-- Every run that returns went through exactly one teardown. -/
theorem Run_teardown {W : Type} (r : Runner W) (ctx0 : Context) (sc : Scenario) (w : W)
    (res : RunResult W) (h : r.Run ctx0 sc w = some res) :
    TeardownOnce sc.Cleanup res.m.trace := by
  rcases Run_cases r ctx0 sc w res h with hret | ⟨s, hs, hfin⟩
  · obtain ⟨ex, rep0, t0, h1, _, _, _, _, h5⟩ := runSteps_shape _ _ _ _ _ _ _ hret
    exact h5.once (h1.extAll (enter_main r sc w))
  · obtain ⟨_, _, rep1, t1, h3, h4, _⟩ := finish_shape _ _ _ _ _ hfin
    have hmain : ∀ op ∈ s.m.trace, op.isMainOp = true := by
      rcases hs with hs | hs
      · exact (runSteps_shape _ _ _ _ _ _ _ hs).1.extAll (enter_main r sc w)
      · exact (runSteps_shape _ _ _ _ _ _ _ hs).1.extAll (enter_main r sc w)
    rw [h4]
    exact h3.once_completed hmain

/-- C2: for every scenario whose steps and cleanup steps have a known type (as
validation requires) and every outcome of its steps, `Run` returns, and its trace
holds exactly one teardown: after the main-loop entries comes one line
"Running cleanup...", then every declared cleanup step exactly once in declared order,
and only after all of them the rollback calls. -/
theorem C2_teardown_exactly_once {W : Type} (r : Runner W) (ctx0 : Context) (sc : Scenario)
    (w : W) (hk : ∀ s ∈ sc.Steps ++ sc.Cleanup, s.known = true) :
    ∃ res, r.Run ctx0 sc w = some res ∧ TeardownOnce sc.Cleanup res.m.trace := by
  obtain ⟨res, hres⟩ := Run_total r ctx0 sc w hk
  exact ⟨res, hres, Run_teardown r ctx0 sc w res hres⟩

/-- C2 at a concrete run: a failing step under `continue`, two cleanup steps (the first
failing) and a rollback. -/
theorem C2_teardown_exactly_once_witness :
    (∀ s ∈ (Demo.scenario [Demo.act "ok" "", Demo.act "bad" "continue"]
          [Demo.act "bad" "", Demo.check "yes" ""]).Steps
        ++ (Demo.scenario [Demo.act "ok" "", Demo.act "bad" "continue"]
          [Demo.act "bad" "", Demo.check "yes" ""]).Cleanup, s.known = true)
      ∧ ∃ res, (Demo.runner false).Run []
            (Demo.scenario [Demo.act "ok" "", Demo.act "bad" "continue"]
              [Demo.act "bad" "", Demo.check "yes" ""]) () = some res
          ∧ TeardownOnce [Demo.act "bad" "", Demo.check "yes" ""] res.m.trace :=
  ⟨by decide, C2_teardown_exactly_once (Demo.runner false) []
    (Demo.scenario [Demo.act "ok" "", Demo.act "bad" "continue"]
      [Demo.act "bad" "", Demo.check "yes" ""]) () (by decide)⟩

/-! ## Reaching a step -/

theorem Run_eq_complete {W : Type} (r : Runner W) (ctx0 : Context) (sc : Scenario) (w : W) :
    r.Run ctx0 sc w = r.complete (Runner.runCtx ctx0 sc) sc
      (r.runSteps (Runner.runCtx ctx0 sc) sc 0 sc.Steps (r.enter sc w)) := by
  unfold Runner.Run Runner.complete
  rfl

/-- The run of a scenario, seen from a step it reaches: the iteration of that step,
then the main loop over the steps after it. -/
theorem Run_from_reach {W : Type} (r : Runner W) (ctx0 : Context) (sc : Scenario) (w : W)
    (pre : List Step) (step : Step) (post : List Step) (s : LoopState W)
    (hsteps : sc.Steps = pre ++ step :: post)
    (hpre : r.runSteps (Runner.runCtx ctx0 sc) sc 0 pre (r.enter sc w) = some (Flow.next s)) :
    r.Run ctx0 sc w = r.complete (Runner.runCtx ctx0 sc) sc
      (match r.iter (Runner.runCtx ctx0 sc) sc pre.length step s with
        | some (Flow.next s1) => r.runSteps (Runner.runCtx ctx0 sc) sc (pre.length + 1) post s1
        | other => other) := by
  rw [Run_eq_complete, hsteps, runSteps_append, hpre]
  simp only [Runner.runSteps, Nat.zero_add]

theorem failsAt_true {W : Type} (r : Runner W) (ctx : Context) (i : Nat) (step : Step)
    (s : LoopState W) (h : r.failsAt ctx i step s = true) :
    (r.poll ctx step s).runCleanup = false
      ∧ ∃ out, r.attempt ctx i step s = some out ∧ failed out = true := by
  unfold Runner.failsAt at h
  rw [Bool.and_eq_true] at h
  obtain ⟨h1, h2⟩ := h
  refine ⟨by simpa using h1, ?_⟩
  cases ho : r.attempt ctx i step s with
  | none => simp [ho] at h2
  | some out =>
    rw [ho] at h2
    exact ⟨out, rfl, h2⟩

theorem failsAt_false {W : Type} (r : Runner W) (ctx : Context) (i : Nat) (step : Step)
    (s : LoopState W) (out : (StepResult × Option ActionContext × Error) × Mach W)
    (h : r.failsAt ctx i step s = false) (hflag : (r.poll ctx step s).runCleanup = false)
    (ho : r.attempt ctx i step s = some out) : failed out = false := by
  unfold Runner.failsAt at h
  rw [hflag, ho] at h
  simpa [failed] using h

theorem attemptErr_eq {W : Type} (r : Runner W) (ctx : Context) (i : Nat) (step : Step)
    (s : LoopState W) (out : (StepResult × Option ActionContext × Error) × Mach W)
    (ho : r.attempt ctx i step s = some out) : r.attemptErr ctx i step s = out.1.2.2 := by
  unfold Runner.attemptErr
  rw [ho]

theorem stepMark_cleanupOp (op : Op) (h : op.isCleanupOp = true) : op.stepMark = none := by
  cases op with
  | log line => cases line <;> first | rfl | cases h
  | _ => rfl

theorem stepMark_rollbackOp (op : Op) (h : op.isRollbackOp = true) : op.stepMark = none := by
  cases op with
  | log line => cases line <;> first | rfl | cases h
  | _ => rfl

/-- A teardown starts no step of the main list. -/
theorem TeardownFrom.stepMarks_eq {W : Type} {r : Runner W} {cleanup : List Step}
    {executed : List ActionContext} {rep rep1 : Report} {t0 t1 : List Op}
    (h : TeardownFrom r cleanup executed rep t0 rep1 t1) : stepMarks t1 = stepMarks t0 := by
  obtain ⟨cl, rb, h1, h2, _, h4, _, _⟩ := h
  have e1 : stepMarks cl = [] := by
    unfold stepMarks
    rw [List.filterMap_eq_nil_iff]
    exact fun op hop => stepMark_cleanupOp op (h2 op hop)
  have e2 : stepMarks rb = [] := by
    unfold stepMarks
    rw [List.filterMap_eq_nil_iff]
    exact fun op hop => stepMark_rollbackOp op (h4 op hop)
  have e3 : stepMarks (Op.log LogLine.runningCleanup :: (cl ++ rb)) = stepMarks (cl ++ rb) := rfl
  rw [h1, stepMarks_append, e3, stepMarks_append, e1, e2]
  simp

/-- A teardown leaves the verdict of the report as it was. -/
theorem TeardownFrom.verdict {W : Type} {r : Runner W} {cleanup : List Step}
    {executed : List ActionContext} {rep rep1 : Report} {t0 t1 : List Op}
    (h : TeardownFrom r cleanup executed rep t0 rep1 t1) :
    rep1.Success = rep.Success ∧ rep1.Error = rep.Error
      ∧ (rep.StatsAgree → rep1.StatsAgree)
      ∧ ∃ evs, rep1.Events = rep.Events ++ evs := by
  obtain ⟨cl, rb, _, _, _, _, _, h1, h2, h3, evs, h4, _⟩ := h
  exact ⟨h1, h2, h3, evs, h4⟩

theorem marksFrom_append (i : Nat) (a b : List Step) :
    marksFrom i (a ++ b) = marksFrom i a ++ marksFrom (i + a.length) b := by
  induction a generalizing i with
  | nil => simp [marksFrom]
  | cons x rest ih =>
    have h1 := ih (i + 1)
    have h2 : i + 1 + rest.length = i + (rest.length + 1) := by omega
    rw [h2] at h1
    show (i + 1, x.Name) :: marksFrom (i + 1) (rest ++ b)
      = (i + 1, x.Name) :: marksFrom (i + 1) rest ++ marksFrom (i + (rest.length + 1)) b
    rw [h1]
    rfl

theorem marksFrom_length (i : Nat) (a : List Step) : (marksFrom i a).length = a.length := by
  induction a generalizing i with
  | nil => rfl
  | cons x rest ih => simp [marksFrom, ih]

theorem enter_marks {W : Type} (r : Runner W) (sc : Scenario) (w : W) :
    stepMarks (r.enter sc w).m.trace = [] := rfl

theorem enter_report {W : Type} (r : Runner W) (sc : Scenario) (w : W) :
    (r.enter sc w).rep.Error = none ∧ (r.enter sc w).rep.Events = []
      ∧ (r.enter sc w).rep.StatsAgree ∧ (r.enter sc w).runCleanup = false := by
  refine ⟨rfl, rfl, ?_, rfl⟩
  simp [Runner.enter, Report.StatsAgree, NewReport, countType]

/-- What is known of a loop state in which the run reaches a step: only main-loop
entries so far, one step line and one event per earlier step, no error recorded. -/
theorem reach_state {W : Type} (r : Runner W) (ctx0 : Context) (sc : Scenario) (w : W)
    (pre : List Step) (s : LoopState W)
    (hpre : r.runSteps (Runner.runCtx ctx0 sc) sc 0 pre (r.enter sc w) = some (Flow.next s)) :
    (∀ op ∈ s.m.trace, op.isMainOp = true)
      ∧ stepMarks s.m.trace = marksFrom 0 pre
      ∧ s.rep.Error = none
      ∧ s.rep.Events.length = pre.length
      ∧ s.rep.StatsAgree := by
  obtain ⟨h1, h2, h3, h4⟩ := runSteps_shape _ _ _ _ _ _ _ hpre
  obtain ⟨e1, e2, e3, _⟩ := enter_report r sc w
  refine ⟨h1.extAll (enter_main r sc w), ?_, h3.2.1.trans e1, ?_, h3.2.2.1 e3⟩
  · rw [h2, enter_marks]
    rfl
  · rw [h4, e2, marksFrom_length]
    simp

theorem policy_fail (p : OnErrorBehavior) (h : p = OnErrorFail ∨ p = "") :
    p ≠ OnErrorContinue ∧ p ≠ OnErrorCleanup := by
  rcases h with h | h <;> rw [h] <;> exact ⟨by decide, by decide⟩

/-- The trace and the report when the iteration of a reached step has executed the
step, before the `on_error` switch. -/
theorem attempt_state {W : Type} (r : Runner W) (ctx0 : Context) (sc : Scenario) (w : W)
    (pre : List Step) (step : Step) (s : LoopState W)
    (out : (StepResult × Option ActionContext × Error) × Mach W)
    (hpre : r.runSteps (Runner.runCtx ctx0 sc) sc 0 pre (r.enter sc w) = some (Flow.next s))
    (hflag : (r.poll (Runner.runCtx ctx0 sc) step s).runCleanup = false)
    (ho : r.attempt (Runner.runCtx ctx0 sc) pre.length step s = some out) :
    (∀ op ∈ out.2.trace, op.isMainOp = true)
      ∧ stepMarks out.2.trace = marksFrom 0 (pre ++ [step])
      ∧ (r.record (r.poll (Runner.runCtx ctx0 sc) step s).rep step out).Error = none
      ∧ (r.record (r.poll (Runner.runCtx ctx0 sc) step s).rep step out).StatsAgree
      ∧ ∃ e, (r.record (r.poll (Runner.runCtx ctx0 sc) step s).rep step out).Events
            = s.rep.Events ++ [e]
          ∧ e.Type_ = out.1.1.EventType ∧ e.Step = step.Name
          ∧ e.Message = out.1.1.Message := by
  obtain ⟨hmain, hmarks, herr, _, hagree⟩ := reach_state r ctx0 sc w pre s hpre
  obtain ⟨d, hd, hp⟩ := attempt_trace r _ _ step s out ho
  have hdone : (r.done (Runner.runCtx ctx0 sc) s.m.world).1 = false := by
    have := poll_flag r (Runner.runCtx ctx0 sc) step s
    rw [hflag] at this
    cases hx : (r.done (Runner.runCtx ctx0 sc) s.m.world).1 with
    | false => rfl
    | true => simp [hx] at this
  rw [poll_rep r _ step s hdone]
  obtain ⟨hg, e, he1, he2, he3, he4⟩ := record_grow r s.rep step out
  refine ⟨?_, ?_, hg.2.1.trans herr, hg.2.2.1 hagree, e, he1, he2, he3, he4⟩
  · intro op hop
    rw [hd] at hop
    simp only [List.mem_append, List.mem_cons] at hop
    rcases hop with h1 | rfl | rfl | h1
    · exact hmain op h1
    · rfl
    · rfl
    · exact isStepOp_main _ (hp op h1)
  · rw [hd, stepMarks_append, hmarks, marksFrom_append]
    have : stepMarks (Op.done (r.done (Runner.runCtx ctx0 sc) s.m.world).1
        :: Op.log (LogLine.step (pre.length + 1) step.Name) :: d)
          = (pre.length + 1, step.Name) :: stepMarks d := rfl
    rw [this, stepMarks_stepOps d hp]
    simp [marksFrom]

theorem all_main_snoc (t : List Op) (op : Op) (h : ∀ o ∈ t, o.isMainOp = true)
    (hop : op.isMainOp = true) : ∀ o ∈ t ++ [op], o.isMainOp = true := by
  intro o ho
  rcases List.mem_append.mp ho with h1 | h1
  · exact h o h1
  · rw [List.mem_singleton] at h1
    subst h1
    exact hop

/-- What `finish` leaves, from a loop state whose trace holds main-loop entries only. -/
theorem finish_facts {W : Type} (r : Runner W) (ctx : Context) (sc : Scenario)
    (s : LoopState W) (res : RunResult W) (h : r.finish ctx sc s = some res)
    (hmain : ∀ op ∈ s.m.trace, op.isMainOp = true) :
    stepMarks res.m.trace = stepMarks s.m.trace
      ∧ TeardownOnce sc.Cleanup res.m.trace
      ∧ res.rep.Success = true ∧ res.err = none ∧ res.rep.Error = s.rep.Error
      ∧ (∃ evs, res.rep.Events = s.rep.Events ++ evs)
      ∧ (s.rep.StatsAgree → res.rep.StatsAgree) := by
  obtain ⟨h1, h2, rep1, t1, h3, h4, h5⟩ := finish_shape _ _ _ _ _ h
  obtain ⟨_, v2, v3, v4⟩ := h3.verdict
  refine ⟨?_, ?_, h1, h2, ?_, ?_, ?_⟩
  · rw [h4, stepMarks_append, h3.stepMarks_eq]
    simp [stepMarks, Op.stepMark]
  · rw [h4]
    exact h3.once_completed hmain
  · rw [h5]
    exact v2
  · rw [h5]
    exact v4
  · rw [h5]
    exact v3

theorem getElem_mid {α : Type} (a : List α) (e : α) (evs : List α) :
    (a ++ [e] ++ evs)[a.length]? = some e := by
  rw [List.append_assoc, List.getElem?_append_right (Nat.le_refl _)]
  simp

/-- The main loop entered with `runCleanup` set executes no further step. -/
theorem runSteps_flagged {W : Type} (r : Runner W) (ctx : Context) (sc : Scenario) (i : Nat)
    (steps : List Step) (s : LoopState W) (hflag : s.runCleanup = true)
    (hmain : ∀ op ∈ s.m.trace, op.isMainOp = true) :
    ∃ s1, (r.runSteps ctx sc i steps s = some (Flow.next s1)
          ∨ r.runSteps ctx sc i steps s = some (Flow.brk s1))
      ∧ (∀ op ∈ s1.m.trace, op.isMainOp = true)
      ∧ stepMarks s1.m.trace = stepMarks s.m.trace
      ∧ s1.rep.Error = s.rep.Error := by
  cases steps with
  | nil => exact ⟨s, Or.inl rfl, hmain, rfl, rfl⟩
  | cons step rest =>
    have hp : (r.poll ctx step s).runCleanup = true := by
      rw [poll_flag, hflag]
      rfl
    refine ⟨r.poll ctx step s, Or.inr ?_, ?_, ?_, (poll_grows r ctx step s).2.1⟩
    · simp only [Runner.runSteps, iter_brk r ctx sc i step s hp]
    · rw [poll_trace]
      exact all_main_snoc _ _ hmain rfl
    · rw [poll_trace, stepMarks_append]
      simp [stepMarks, Op.stepMark]

/-- Induction along the main loop: a property of the loop state that holds on entry
and is kept by every iteration the loop reaches, none of them returning, holds when
the range is exhausted (or the loop was left by `break`, under `Q`). -/
theorem runSteps_induct {W : Type} (r : Runner W) (ctx : Context) (sc : Scenario)
    (Inv : LoopState W → Prop) (Q : Prop) (steps : List Step) (i : Nat) (s : LoopState W)
    (h0 : Inv s)
    (hstep : ∀ pre step post s1, steps = pre ++ step :: post →
      r.runSteps ctx sc i pre s = some (Flow.next s1) → Inv s1 →
        (∃ s2, r.iter ctx sc (i + pre.length) step s1 = some (Flow.next s2) ∧ Inv s2)
          ∨ ((∃ s2, r.iter ctx sc (i + pre.length) step s1 = some (Flow.brk s2)) ∧ Q)) :
    (∃ sEnd, r.runSteps ctx sc i steps s = some (Flow.next sEnd) ∧ Inv sEnd)
      ∨ ((∃ sEnd, r.runSteps ctx sc i steps s = some (Flow.brk sEnd)) ∧ Q) := by
  induction steps generalizing i s with
  | nil => exact Or.inl ⟨s, rfl, h0⟩
  | cons step rest ih =>
    rcases hstep [] step rest s rfl rfl h0 with ⟨s2, h2, hinv2⟩ | ⟨⟨s2, h2⟩, hq⟩
    · simp only [List.length_nil, Nat.add_zero] at h2
      have hrest := ih (i + 1) s2 hinv2 (by
        intro pre step1 post s1 hsteps hpre hinv
        have h := hstep (step :: pre) step1 post s1 (by rw [hsteps]; rfl)
          (by simp only [Runner.runSteps, h2]; exact hpre) hinv
        have e : i + (step :: pre).length = i + 1 + pre.length := by
          simp only [List.length_cons]
          omega
        rw [e] at h
        exact h)
      simp only [Runner.runSteps, h2]
      exact hrest
    · simp only [List.length_nil, Nat.add_zero] at h2
      refine Or.inr ⟨⟨s2, ?_⟩, hq⟩
      simp only [Runner.runSteps, h2]

theorem failsAt_eq {W : Type} (r : Runner W) (ctx : Context) (i : Nat) (step : Step)
    (s : LoopState W) (out : (StepResult × Option ActionContext × Error) × Mach W)
    (hflag : (r.poll ctx step s).runCleanup = false)
    (ho : r.attempt ctx i step s = some out) : r.failsAt ctx i step s = failed out := by
  unfold Runner.failsAt failed
  rw [hflag, ho]
  rfl

/-- A failed result of `executeStep` is recorded as a failure event, a result that did
not fail as a success event. -/
theorem failed_type {W : Type} (r : Runner W) (ctx : Context) (step : Step) (m : Mach W)
    (out : (StepResult × Option ActionContext × Error) × Mach W)
    (ho : r.executeStep ctx step m = some out) :
    (failed out = true → out.1.1.EventType = EventFailure)
      ∧ (failed out = false → out.1.1.EventType = EventSuccess) := by
  have hgood := executeStep_good _ _ _ _ _ ho
  unfold failed StepResult.EventType
  constructor
  · intro hf
    have hs : out.1.1.Success = false := by
      cases he : out.1.2.2 with
      | none => simpa [he] using hf
      | some e => exact hgood.2.1 (by simp [he])
    simp [hs]
  · intro hf
    have hs : out.1.1.Success = true := by
      cases hx : out.1.1.Success with
      | true => rfl
      | false => simp [hx] at hf
    simp [hs]

theorem poll_clear {W : Type} (r : Runner W) (ctx : Context) (step : Step) (s : LoopState W)
    (h1 : s.runCleanup = false) (h2 : (r.done ctx s.m.world).1 = false) :
    (r.poll ctx step s).runCleanup = false := by
  rw [poll_flag, h1, h2]
  rfl

/-- The rest of a run, from any state of its main loop, keeps the events recorded so
far at the head of the report. -/
theorem complete_events {W : Type} (r : Runner W) (ctx : Context) (sc : Scenario) (i : Nat)
    (steps : List Step) (s : LoopState W) (res : RunResult W)
    (h : r.complete ctx sc (r.runSteps ctx sc i steps s) = some res) :
    ∃ evs, res.rep.Events = s.rep.Events ++ evs := by
  cases hflow : r.runSteps ctx sc i steps s with
  | none => simp [hflow, Runner.complete] at h
  | some flow =>
    have hshape := runSteps_shape _ _ _ _ _ _ _ hflow
    rw [hflow] at h
    cases flow with
    | ret res1 =>
      simp only [Runner.complete, Option.some.injEq] at h
      subst h
      obtain ⟨ex, rep0, t0, _, _, _, _, ⟨evs1, h1⟩, h2⟩ := hshape
      obtain ⟨_, _, _, evs2, h3⟩ := h2.verdict
      exact ⟨evs1 ++ evs2, by rw [h3, h1, List.append_assoc]⟩
    | next s1 =>
      obtain ⟨_, _, ⟨_, _, _, evs1, h1, _⟩, _⟩ := hshape
      obtain ⟨_, _, rep1, t1, h3, _, h5⟩ := finish_shape _ _ _ _ _ h
      obtain ⟨_, _, _, evs2, h6⟩ := h3.verdict
      exact ⟨evs1 ++ evs2, by rw [h5, h6, h1, List.append_assoc]⟩
    | brk s1 =>
      obtain ⟨_, ⟨_, _, _, evs1, h1, _⟩⟩ := hshape
      obtain ⟨_, _, rep1, t1, h3, _, h5⟩ := finish_shape _ _ _ _ _ h
      obtain ⟨_, _, _, evs2, h6⟩ := h3.verdict
      exact ⟨evs1 ++ evs2, by rw [h5, h6, h1, List.append_assoc]⟩

/-- The event of a step the run executes is in the report the run returns, at the
position of the step, with the type and the message of the step result. -/
theorem Run_event_at {W : Type} (r : Runner W) (ctx0 : Context) (sc : Scenario) (w : W)
    (pre : List Step) (step : Step) (s : LoopState W) (res : RunResult W)
    (out : (StepResult × Option ActionContext × Error) × Mach W)
    (hreach : r.Reaches ctx0 sc w pre step s)
    (hflag : (r.poll (Runner.runCtx ctx0 sc) step s).runCleanup = false)
    (ho : r.attempt (Runner.runCtx ctx0 sc) pre.length step s = some out)
    (hrun : r.Run ctx0 sc w = some res) :
    ∃ e, res.rep.Events[pre.length]? = some e ∧ e.Type_ = out.1.1.EventType
      ∧ e.Step = step.Name ∧ e.Message = out.1.1.Message := by
  obtain ⟨⟨post, hsteps⟩, hpre⟩ := hreach
  obtain ⟨_, _, _, _, e, he, he1, he2, he3⟩ :=
    attempt_state r ctx0 sc w pre step s out hpre hflag ho
  obtain ⟨_, _, _, hlen, _⟩ := reach_state r ctx0 sc w pre s hpre
  have key : ∃ evs, res.rep.Events = s.rep.Events ++ [e] ++ evs := by
    rw [Run_from_reach r ctx0 sc w pre step post s hsteps hpre] at hrun
    cases hiter : r.iter (Runner.runCtx ctx0 sc) sc pre.length step s with
    | none => simp [hiter, Runner.complete] at hrun
    | some flow =>
      rw [hiter] at hrun
      rcases iter_cases r _ sc _ step s flow hiter with ⟨hf, _⟩ | ⟨_, out1, ho1, hcase⟩
      · rw [hflag] at hf
        exact absurd hf (by decide)
      · rw [ho] at ho1
        have hout : out1 = out := (Option.some.inj ho1).symm
        subst hout
        rcases hcase with ⟨_, rfl⟩ | ⟨_, _, rfl⟩ | ⟨_, _, rfl⟩ | ⟨_, _, _, fin, hfin, rfl⟩
        · obtain ⟨evs, h1⟩ := complete_events r _ sc _ post _ res hrun
          exact ⟨evs, by rw [h1]; exact congrArg (· ++ evs) he⟩
        · obtain ⟨evs, h1⟩ := complete_events r _ sc _ post _ res hrun
          exact ⟨evs, by rw [h1]; exact congrArg (· ++ evs) he⟩
        · obtain ⟨evs, h1⟩ := complete_events r _ sc _ post _ res hrun
          exact ⟨evs, by rw [h1]; exact congrArg (· ++ evs) he⟩
        · simp only [Runner.complete, Option.some.injEq] at hrun
          subst hrun
          obtain ⟨_, _, _, evs, h1⟩ := (runCleanup_shape _ _ _ _ _ _ _ hfin).verdict
          exact ⟨evs, by rw [h1]; exact congrArg (· ++ evs) he⟩
  obtain ⟨evs, hevs⟩ := key
  refine ⟨e, ?_, he1, he2, he3⟩
  rw [hevs, ← hlen]
  exact getElem_mid _ _ _

theorem Runner.Reaches.mem {W : Type} {r : Runner W} {ctx0 : Context} {sc : Scenario} {w : W}
    {pre : List Step} {step : Step} {s : LoopState W} (h : r.Reaches ctx0 sc w pre step s) :
    step ∈ sc.Steps := by
  obtain ⟨⟨post, hsteps⟩, _⟩ := h
  rw [hsteps]
  simp

/-- In a scenario of one step, the only step the run reaches is that step, from the
state in which the main loop is entered. -/
theorem Runner.Reaches.single {W : Type} {r : Runner W} {ctx0 : Context} {sc : Scenario} {w : W}
    {pre : List Step} {step : Step} {s : LoopState W} (x : Step) (hx : sc.Steps = [x])
    (h : r.Reaches ctx0 sc w pre step s) : pre = [] ∧ step = x ∧ s = r.enter sc w := by
  obtain ⟨⟨post, hsteps⟩, hpre⟩ := h
  rw [hx] at hsteps
  cases pre with
  | nil =>
    simp only [List.nil_append, List.cons.injEq] at hsteps
    simp only [Runner.runSteps, Option.some.injEq, Flow.next.injEq] at hpre
    exact ⟨rfl, hsteps.1.symm, hpre.symm⟩
  | cons p rest =>
    simp only [List.cons_append, List.cons.injEq] at hsteps
    have := congrArg List.length hsteps.2
    simp at this
    omega

theorem countType_zero (t : EventType) (es : List Event) (h : ∀ e ∈ es, e.Type_ ≠ t) :
    countType t es = 0 := by
  unfold countType
  have : List.countP (fun e => e.Type_ == t) es = 0 := by
    rw [List.countP_eq_zero]
    intro e he
    simpa using h e he
  rw [this]
  rfl

theorem hasFailedRollback_append (a b : List Op) :
    hasFailedRollback (a ++ b) = (hasFailedRollback a || hasFailedRollback b) := by
  simp [hasFailedRollback, rollbackOps_append, List.any_append]

/-- C1 at the failing input: the scenario executes action "ok" and then action "bad",
whose `Execute` returns an error (under `on_error: continue`). Both `Execute` calls are
made, on the action contexts 0 and 1, but teardown calls `Rollback` only on context 0:
the action whose `Execute` failed is never rolled back. -/
theorem C1_failed_execute_is_not_rolled_back :
    ((Demo.runner false).Run []
        (Demo.scenario [Demo.act "ok" "", Demo.act "bad" "continue"] []) ()).map
      (fun res => (executeOps res.m.trace, rollbackOps res.m.trace))
      = some ([(0, "ok", true), (1, "bad", false)], [(0, "ok", true)]) := by
  decide

/-- C3 as stated fails: an assertion step under the default policy that reports
`Success = false` without an error in both of its attempts fails the run, yet the
report carries a nil `Error` and `Run` returns a nil error. -/
theorem C3_assertion_failure_returns_nil_error :
    (Demo.runner false).failsAt [] 0 (Demo.check "no" "")
        ((Demo.runner false).enter (Demo.scenario [Demo.check "no" ""] []) ()) = true
      ∧ ((Demo.runner false).Run [] (Demo.scenario [Demo.check "no" ""] []) ()).map
          (fun res => (res.rep.Success, res.rep.Error, res.err))
        = some (false, none, none) := by
  decide

/-- C3, amended: when the run reaches a step with `on_error: fail` (or no `on_error`)
and the step fails all its attempts, `Run` returns; no later main step is started (the
step lines of the trace end with this step); the teardown runs, once; the report has
`Success = false`; and the report's `Error` and the returned error are both the error of
the step's last attempt, which is non-nil unless the step is an assertion. -/
theorem C3_fail_policy_aborts_with_step_error {W : Type} (r : Runner W) (ctx0 : Context)
    (sc : Scenario) (w : W) (pre : List Step) (step : Step) (s : LoopState W)
    (hc : ∀ c ∈ sc.Cleanup, c.known = true)
    (hreach : r.Reaches ctx0 sc w pre step s)
    (hfail : r.failsAt (Runner.runCtx ctx0 sc) pre.length step s = true)
    (hpol : step.OnError = OnErrorFail ∨ step.OnError = "") :
    ∃ res, r.Run ctx0 sc w = some res
      ∧ stepMarks res.m.trace = marksFrom 0 (pre ++ [step])
      ∧ TeardownOnce sc.Cleanup res.m.trace
      ∧ res.rep.Success = false
      ∧ res.rep.Error = r.attemptErr (Runner.runCtx ctx0 sc) pre.length step s
      ∧ res.err = r.attemptErr (Runner.runCtx ctx0 sc) pre.length step s
      ∧ (step.StepType ≠ "assert" → res.err ≠ none) := by
  obtain ⟨⟨post, hsteps⟩, hpre⟩ := hreach
  obtain ⟨hflag, out, ho, hf⟩ := failsAt_true _ _ _ _ _ hfail
  obtain ⟨hp1, hp2⟩ := policy_fail _ hpol
  obtain ⟨fin, hfin⟩ := runCleanup_total r (Runner.runCtx ctx0 sc) sc.Cleanup hc
    (retain (r.poll (Runner.runCtx ctx0 sc) step s).executedActions out.1.2.1)
    { r.record (r.poll (Runner.runCtx ctx0 sc) step s).rep step out with
      Success := false, Error := out.1.2.2 }
    (r.log out.2 (LogLine.failedAborting out.1.2.2))
  have hiter := iter_fail r _ sc pre.length step s out fin hflag ho hf hp1 hp2 hfin
  have hrun : r.Run ctx0 sc w = some { rep := fin.1, err := out.1.2.2, m := fin.2 } := by
    rw [Run_from_reach r ctx0 sc w pre step post s hsteps hpre, hiter]
    rfl
  obtain ⟨hmain, hmarks, _, _, _⟩ := attempt_state r ctx0 sc w pre step s out hpre hflag ho
  have hshape := runCleanup_shape _ _ _ _ _ _ _ hfin
  have hgrow := hshape.verdict
  refine ⟨_, hrun, ?_, ?_, hgrow.1, ?_, ?_, ?_⟩
  · rw [hshape.stepMarks_eq]
    show stepMarks (out.2.trace ++ [Op.log (LogLine.failedAborting out.1.2.2)]) = _
    rw [stepMarks_append, hmarks]
    simp [stepMarks, Op.stepMark]
  · exact hshape.once (all_main_snoc _ _ hmain rfl)
  · rw [attemptErr_eq r _ _ step s out ho]
    exact hgrow.2.1
  · exact (attemptErr_eq r _ _ step s out ho).symm
  · intro htype herr
    have hgood := executeStep_good _ _ _ _ _ ho
    have herr1 : out.1.2.2 = none := herr
    have hs : out.1.1.Success = false := by
      unfold failed at hf
      simpa [herr1] using hf
    exact htype (hgood.2.2 herr1 hs)

/-- C3, amended, at a concrete run: the first step is an action whose `Execute` fails
under the default policy, in a scenario with a later step and a cleanup step. -/
theorem C3_fail_policy_aborts_with_step_error_witness :
    ∃ res, (Demo.runner false).Run []
        (Demo.scenario [Demo.act "bad" "", Demo.act "ok" ""] [Demo.check "yes" ""]) ()
          = some res
      ∧ stepMarks res.m.trace = marksFrom 0 ([] ++ [Demo.act "bad" ""])
      ∧ TeardownOnce [Demo.check "yes" ""] res.m.trace
      ∧ res.rep.Success = false
      ∧ res.rep.Error = (Demo.runner false).attemptErr [] 0 (Demo.act "bad" "")
          ((Demo.runner false).enter
            (Demo.scenario [Demo.act "bad" "", Demo.act "ok" ""] [Demo.check "yes" ""]) ())
      ∧ res.err = (Demo.runner false).attemptErr [] 0 (Demo.act "bad" "")
          ((Demo.runner false).enter
            (Demo.scenario [Demo.act "bad" "", Demo.act "ok" ""] [Demo.check "yes" ""]) ())
      ∧ ((Demo.act "bad" "").StepType ≠ "assert" → res.err ≠ none) :=
  C3_fail_policy_aborts_with_step_error (Demo.runner false) []
    (Demo.scenario [Demo.act "bad" "", Demo.act "ok" ""] [Demo.check "yes" ""]) ()
    [] (Demo.act "bad" "") _ (by decide) ⟨⟨[Demo.act "ok" ""], rfl⟩, rfl⟩ (by decide)
    (Or.inr rfl)

/-- C4 as stated fails: with the context done when the main loop starts, `Run` returns
a report with `Success = true` and a nil error. -/
theorem C4_cancelled_run_reports_success :
    ((Demo.runner true).done [] ()).1 = true
      ∧ ((Demo.runner true).Run [] (Demo.scenario [Demo.act "ok" ""] []) ()).map
          (fun res => (res.rep.Success, res.rep.Error, res.err))
        = some (true, none, none) := by
  decide

/-- C4, amended: when the context is found done at the start of the iteration of a
step the run reaches, `Run` appends an error event "Context cancelled" for that step,
starts neither that step nor any later one, runs the teardown once, and returns a
report with `Success = true` and a nil `Error`, together with a nil error. -/
theorem C4_cancelled_context_stops_and_succeeds {W : Type} (r : Runner W) (ctx0 : Context)
    (sc : Scenario) (w : W) (pre : List Step) (step : Step) (s : LoopState W)
    (hc : ∀ c ∈ sc.Cleanup, c.known = true)
    (hreach : r.Reaches ctx0 sc w pre step s)
    (hdone : (r.done (Runner.runCtx ctx0 sc) s.m.world).1 = true) :
    ∃ res, r.Run ctx0 sc w = some res
      ∧ stepMarks res.m.trace = marksFrom 0 pre
      ∧ TeardownOnce sc.Cleanup res.m.trace
      ∧ res.rep.Success = true ∧ res.rep.Error = none ∧ res.err = none
      ∧ ∃ e, res.rep.Events[pre.length]? = some e ∧ e.Type_ = EventError
          ∧ e.Step = step.Name ∧ e.Message = "Context cancelled" := by
  obtain ⟨⟨post, hsteps⟩, hpre⟩ := hreach
  have hp : (r.poll (Runner.runCtx ctx0 sc) step s).runCleanup = true := by
    rw [poll_flag, hdone]
    simp
  obtain ⟨res, hres⟩ := finish_total r (Runner.runCtx ctx0 sc) sc hc
    (r.poll (Runner.runCtx ctx0 sc) step s)
  have hrun : r.Run ctx0 sc w = some res := by
    rw [Run_from_reach r ctx0 sc w pre step post s hsteps hpre, iter_brk r _ sc _ step s hp]
    exact hres
  obtain ⟨hmain, hmarks, herr, hlen, _⟩ := reach_state r ctx0 sc w pre s hpre
  have hmain1 : ∀ op ∈ (r.poll (Runner.runCtx ctx0 sc) step s).m.trace, op.isMainOp = true := by
    rw [poll_trace]
    exact all_main_snoc _ _ hmain rfl
  obtain ⟨f1, f2, f3, f4, f5, ⟨evs, f6⟩, _⟩ := finish_facts r _ sc _ res hres hmain1
  obtain ⟨e, he1, he2, he3, he4⟩ := poll_cancelled r (Runner.runCtx ctx0 sc) step s hdone
  refine ⟨res, hrun, ?_, f2, f3, ?_, f4, e, ?_, he2, he3, he4⟩
  · rw [f1, poll_trace, stepMarks_append, hmarks]
    simp [stepMarks, Op.stepMark]
  · rw [f5, (poll_grows r _ step s).2.1]
    exact herr
  · rw [f6, he1, ← hlen]
    exact getElem_mid _ _ _

/-- C4, amended, at a concrete run whose context is done from the start. -/
theorem C4_cancelled_context_stops_and_succeeds_witness :
    ∃ res, (Demo.runner true).Run []
        (Demo.scenario [Demo.act "ok" "", Demo.act "ok" ""] [Demo.check "yes" ""]) ()
          = some res
      ∧ stepMarks res.m.trace = marksFrom 0 []
      ∧ TeardownOnce [Demo.check "yes" ""] res.m.trace
      ∧ res.rep.Success = true ∧ res.rep.Error = none ∧ res.err = none
      ∧ ∃ e, res.rep.Events[([] : List Step).length]? = some e ∧ e.Type_ = EventError
          ∧ e.Step = (Demo.act "ok" "").Name ∧ e.Message = "Context cancelled" :=
  C4_cancelled_context_stops_and_succeeds (Demo.runner true) []
    (Demo.scenario [Demo.act "ok" "", Demo.act "ok" ""] [Demo.check "yes" ""]) ()
    [] (Demo.act "ok" "") _ (by decide) ⟨⟨[Demo.act "ok" ""], rfl⟩, rfl⟩ rfl

/-- C6: when the run reaches a step with `on_error: cleanup` and the step fails all its
attempts, `Run` returns; none of the steps after it in the main list is started (the
step lines of the trace end with this step); and the run goes through its one teardown,
the cleanup steps and then the rollbacks. -/
theorem C6_cleanup_policy_skips_to_teardown {W : Type} (r : Runner W) (ctx0 : Context)
    (sc : Scenario) (w : W) (pre : List Step) (step : Step) (s : LoopState W)
    (hc : ∀ c ∈ sc.Cleanup, c.known = true)
    (hreach : r.Reaches ctx0 sc w pre step s)
    (hfail : r.failsAt (Runner.runCtx ctx0 sc) pre.length step s = true)
    (hpol : step.OnError = OnErrorCleanup) :
    ∃ res, r.Run ctx0 sc w = some res
      ∧ stepMarks res.m.trace = marksFrom 0 (pre ++ [step])
      ∧ TeardownOnce sc.Cleanup res.m.trace := by
  obtain ⟨⟨post, hsteps⟩, hpre⟩ := hreach
  obtain ⟨hflag, out, ho, hf⟩ := failsAt_true _ _ _ _ _ hfail
  have hiter := iter_cleanup r _ sc pre.length step s out hflag ho hf hpol
  obtain ⟨hmain, hmarks, _, _, _⟩ := attempt_state r ctx0 sc w pre step s out hpre hflag ho
  obtain ⟨s2, hs2, hmain2, hmarks2, _⟩ := runSteps_flagged r (Runner.runCtx ctx0 sc) sc
    (pre.length + 1) post
    { rep := r.record (r.poll (Runner.runCtx ctx0 sc) step s).rep step out
      executedActions := retain (r.poll (Runner.runCtx ctx0 sc) step s).executedActions out.1.2.1
      runCleanup := true
      m := r.log out.2 (LogLine.failedRunningCleanup out.1.2.2) }
    rfl (all_main_snoc _ _ hmain rfl)
  obtain ⟨res, hres⟩ := finish_total r (Runner.runCtx ctx0 sc) sc hc s2
  have hrun : r.Run ctx0 sc w = some res := by
    rw [Run_from_reach r ctx0 sc w pre step post s hsteps hpre, hiter]
    rcases hs2 with h | h
    · simp only [h]
      exact hres
    · simp only [h]
      exact hres
  obtain ⟨f1, f2, _⟩ := finish_facts r _ sc _ res hres hmain2
  refine ⟨res, hrun, ?_, f2⟩
  rw [f1, hmarks2]
  show stepMarks (out.2.trace ++ [Op.log (LogLine.failedRunningCleanup out.1.2.2)]) = _
  rw [stepMarks_append, hmarks]
  simp [stepMarks, Op.stepMark]

/-- C6 at a concrete run: the first step fails under `on_error: cleanup` and a second
step follows it. -/
theorem C6_cleanup_policy_skips_to_teardown_witness :
    ∃ res, (Demo.runner false).Run []
        (Demo.scenario [Demo.act "bad" "cleanup", Demo.act "ok" ""] [Demo.check "yes" ""]) ()
          = some res
      ∧ stepMarks res.m.trace = marksFrom 0 ([] ++ [Demo.act "bad" "cleanup"])
      ∧ TeardownOnce [Demo.check "yes" ""] res.m.trace :=
  C6_cleanup_policy_skips_to_teardown (Demo.runner false) []
    (Demo.scenario [Demo.act "bad" "cleanup", Demo.act "ok" ""] [Demo.check "yes" ""]) ()
    [] (Demo.act "bad" "cleanup") _ (by decide) ⟨⟨[Demo.act "ok" ""], rfl⟩, rfl⟩ (by decide) rfl

/-- C5: when every step that fails in the run has `on_error: continue` and the context
is not found done, `Run` returns `Success = true` with a nil error; it starts every
step of the main list, in order; and for each step that failed the report holds, at the
position of the step, a failure event carrying the name of the step. -/
theorem C5_continue_policy_runs_every_step {W : Type} (r : Runner W) (ctx0 : Context)
    (sc : Scenario) (w : W)
    (hk : ∀ s ∈ sc.Steps ++ sc.Cleanup, s.known = true)
    (hpol : ∀ pre step s, r.Reaches ctx0 sc w pre step s →
      r.failsAt (Runner.runCtx ctx0 sc) pre.length step s = true →
        step.OnError = OnErrorContinue)
    (hctx : ∀ pre step s, r.Reaches ctx0 sc w pre step s →
      (r.done (Runner.runCtx ctx0 sc) s.m.world).1 = false) :
    ∃ res, r.Run ctx0 sc w = some res
      ∧ res.rep.Success = true ∧ res.err = none
      ∧ stepMarks res.m.trace = marksFrom 0 sc.Steps
      ∧ ∀ pre step s, r.Reaches ctx0 sc w pre step s →
          r.failsAt (Runner.runCtx ctx0 sc) pre.length step s = true →
            ∃ e, res.rep.Events[pre.length]? = some e ∧ e.Type_ = EventFailure
              ∧ e.Step = step.Name := by
  have hc : ∀ c ∈ sc.Cleanup, c.known = true :=
    fun c hc => hk c (List.mem_append_right _ hc)
  have hloop := runSteps_induct r (Runner.runCtx ctx0 sc) sc
    (fun s => s.runCleanup = false) False sc.Steps 0 (r.enter sc w) rfl (by
      intro pre step post s1 hsteps hpre hinv
      left
      rw [Nat.zero_add]
      have hreach : r.Reaches ctx0 sc w pre step s1 := ⟨⟨post, hsteps⟩, hpre⟩
      have hflag := poll_clear r (Runner.runCtx ctx0 sc) step s1 hinv (hctx _ _ _ hreach)
      obtain ⟨out, ho⟩ := executeStep_total r (Runner.runCtx ctx0 sc) step
        (r.log (r.poll (Runner.runCtx ctx0 sc) step s1).m (LogLine.step (pre.length + 1) step.Name))
        (hk step (List.mem_append_left _ hreach.mem))
      rcases failed_cases out with hf | hf
      · have hp := hpol _ _ _ hreach (by rw [failsAt_eq r _ _ step s1 out hflag ho, hf])
        exact ⟨_, iter_continue r _ sc _ step s1 out hflag ho hf hp, rfl⟩
      · exact ⟨_, iter_pass r _ sc _ step s1 out hflag ho hf, rfl⟩)
  rcases hloop with ⟨sEnd, hEnd, _⟩ | ⟨_, hq⟩
  · obtain ⟨res, hres⟩ := finish_total r (Runner.runCtx ctx0 sc) sc hc sEnd
    have hrun : r.Run ctx0 sc w = some res := by
      rw [Run_eq_complete, hEnd]
      exact hres
    obtain ⟨h1, h2, _, _⟩ := runSteps_shape _ _ _ _ _ _ _ hEnd
    obtain ⟨f1, _, f3, f4, _⟩ := finish_facts r _ sc _ res hres (h1.extAll (enter_main r sc w))
    refine ⟨res, hrun, f3, f4, ?_, ?_⟩
    · rw [f1, h2, enter_marks]
      rfl
    · intro pre step s hreach hfail
      obtain ⟨hflag, out, ho, hf⟩ := failsAt_true _ _ _ _ _ hfail
      obtain ⟨e, he, he1, he2, _⟩ := Run_event_at r ctx0 sc w pre step s res out hreach hflag ho hrun
      exact ⟨e, he, he1.trans ((failed_type _ _ _ _ _ ho).1 hf), he2⟩
  · exact absurd hq id

/-- C5 at a concrete run: the first step fails under `on_error: continue` and the
second step is executed after it. -/
theorem C5_continue_policy_runs_every_step_witness :
    ∃ res, (Demo.runner false).Run []
        (Demo.scenario [Demo.act "bad" "continue", Demo.act "ok" "continue"]
          [Demo.check "yes" ""]) () = some res
      ∧ res.rep.Success = true ∧ res.err = none
      ∧ stepMarks res.m.trace
          = marksFrom 0 [Demo.act "bad" "continue", Demo.act "ok" "continue"]
      ∧ ∀ pre step s, (Demo.runner false).Reaches []
            (Demo.scenario [Demo.act "bad" "continue", Demo.act "ok" "continue"]
              [Demo.check "yes" ""]) () pre step s →
          (Demo.runner false).failsAt [] pre.length step s = true →
            ∃ e, res.rep.Events[pre.length]? = some e ∧ e.Type_ = EventFailure
              ∧ e.Step = step.Name :=
  C5_continue_policy_runs_every_step (Demo.runner false) []
    (Demo.scenario [Demo.act "bad" "continue", Demo.act "ok" "continue"]
      [Demo.check "yes" ""]) () (by decide)
    (fun _ step _ hreach _ =>
      (by decide : ∀ x ∈ [Demo.act "bad" "continue", Demo.act "ok" "continue"],
        x.OnError = OnErrorContinue) step hreach.mem)
    (fun _ _ _ _ => rfl)

/-- C7: when no step of the main list fails and the context is not found done, `Run`
returns `Success = true` with a nil error, and when no `Rollback` call of the run
returned an error either, the report has `Stats.FailedSteps = 0`. -/
theorem C7_no_failure_gives_success_and_no_failed_steps {W : Type} (r : Runner W)
    (ctx0 : Context) (sc : Scenario) (w : W)
    (hk : ∀ s ∈ sc.Steps ++ sc.Cleanup, s.known = true)
    (hnofail : ∀ pre step s, r.Reaches ctx0 sc w pre step s →
      r.failsAt (Runner.runCtx ctx0 sc) pre.length step s = false)
    (hctx : ∀ pre step s, r.Reaches ctx0 sc w pre step s →
      (r.done (Runner.runCtx ctx0 sc) s.m.world).1 = false) :
    ∃ res, r.Run ctx0 sc w = some res
      ∧ res.rep.Success = true ∧ res.err = none
      ∧ (hasFailedRollback res.m.trace = false → res.rep.Stats.FailedSteps = 0) := by
  have hc : ∀ c ∈ sc.Cleanup, c.known = true :=
    fun c hc => hk c (List.mem_append_right _ hc)
  have hloop := runSteps_induct r (Runner.runCtx ctx0 sc) sc AllPassed False sc.Steps 0
    (r.enter sc w) ⟨rfl, by simp [Runner.enter, NewReport]⟩ (by
      intro pre step post s1 hsteps hpre hinv
      left
      rw [Nat.zero_add]
      have hreach : r.Reaches ctx0 sc w pre step s1 := ⟨⟨post, hsteps⟩, hpre⟩
      have hdone := hctx _ _ _ hreach
      have hflag := poll_clear r (Runner.runCtx ctx0 sc) step s1 hinv.1 hdone
      obtain ⟨out, ho⟩ := executeStep_total r (Runner.runCtx ctx0 sc) step
        (r.log (r.poll (Runner.runCtx ctx0 sc) step s1).m (LogLine.step (pre.length + 1) step.Name))
        (hk step (List.mem_append_left _ hreach.mem))
      have hf := failsAt_false r _ _ step s1 out (hnofail _ _ _ hreach) hflag ho
      refine ⟨_, iter_pass r _ sc _ step s1 out hflag ho hf, rfl, ?_⟩
      show ∀ e ∈ (r.record (r.poll (Runner.runCtx ctx0 sc) step s1).rep step out).Events,
        e.Type_ = EventSuccess
      rw [poll_rep r _ step s1 hdone]
      obtain ⟨_, e1, he, he1, _⟩ := record_grow r s1.rep step out
      intro e hmem
      rw [he] at hmem
      rcases List.mem_append.mp hmem with h1 | h1
      · exact hinv.2 e h1
      · rw [List.mem_singleton] at h1
        subst h1
        exact he1.trans ((failed_type _ _ _ _ _ ho).2 hf))
  rcases hloop with ⟨sEnd, hEnd, _, hsucc⟩ | ⟨_, hq⟩
  · obtain ⟨res, hres⟩ := finish_total r (Runner.runCtx ctx0 sc) sc hc sEnd
    have hrun : r.Run ctx0 sc w = some res := by
      rw [Run_eq_complete, hEnd]
      exact hres
    obtain ⟨h1, _, h3, _⟩ := runSteps_shape _ _ _ _ _ _ _ hEnd
    obtain ⟨f1, f2, rep1, t1, ⟨cl, rb, g1, g2, g3, g4, g5, g6, g7, g8, evs, g9, g10⟩, f4, f5⟩ :=
      finish_shape _ _ _ _ _ hres
    refine ⟨res, hrun, f1, f2, ?_⟩
    intro hno
    have hrb : hasFailedRollback rb = false := by
      rw [f4, g1] at hno
      have e1 : sEnd.m.trace ++ Op.log LogLine.runningCleanup :: (cl ++ rb)
            ++ [Op.log LogLine.completed]
          = (sEnd.m.trace ++ Op.log LogLine.runningCleanup :: cl) ++ (rb
            ++ [Op.log LogLine.completed]) := by simp
      rw [e1, hasFailedRollback_append] at hno
      have h5 := (Bool.or_eq_false_iff.mp hno).2
      rw [hasFailedRollback_append] at h5
      exact (Bool.or_eq_false_iff.mp h5).1
    have hagree : rep1.StatsAgree := g8 (h3.2.2.1 (enter_report r sc w).2.2.1)
    have htypes : ∀ e ∈ rep1.Events, e.Type_ = EventSuccess ∨ e.Type_ = EventCleanup := by
      intro e he
      rw [g9] at he
      rcases List.mem_append.mp he with h5 | h5
      · exact Or.inl (hsucc e h5)
      · have := g10 e h5
        simp only [teardownType, hrb, Bool.and_false, Bool.or_false, beq_iff_eq] at this
        exact Or.inr this
    rw [f5]
    show rep1.Stats.FailedSteps = 0
    rw [hagree.2.2.1, countType_zero EventFailure, countType_zero EventError]
    · rfl
    · intro e he
      rcases htypes e he with h5 | h5 <;> rw [h5] <;> decide
    · intro e he
      rcases htypes e he with h5 | h5 <;> rw [h5] <;> decide
  · exact absurd hq id

/-- C7 at a concrete run: one action step that succeeds, a cleanup step, and a rollback
that succeeds. -/
theorem C7_no_failure_gives_success_and_no_failed_steps_witness :
    ∃ res, (Demo.runner false).Run []
        (Demo.scenario [Demo.act "ok" ""] [Demo.check "yes" ""]) () = some res
      ∧ res.rep.Success = true ∧ res.err = none
      ∧ (hasFailedRollback res.m.trace = false → res.rep.Stats.FailedSteps = 0) :=
  C7_no_failure_gives_success_and_no_failed_steps (Demo.runner false) []
    (Demo.scenario [Demo.act "ok" ""] [Demo.check "yes" ""]) () (by decide)
    (fun _ _ _ hreach => by
      obtain ⟨rfl, rfl, rfl⟩ := hreach.single (Demo.act "ok" "") rfl
      decide)
    (fun _ _ _ _ => rfl)

/-- C8: when no step of the main list fails, `Run` returns `Success = true`, a nil
`Error` and a nil error whatever the cleanup steps and the rollbacks return, and its one
teardown goes through every declared cleanup step, in order, whichever of them fail and
whatever their `on_error`. -/
theorem C8_teardown_failures_do_not_fail_the_run {W : Type} (r : Runner W) (ctx0 : Context)
    (sc : Scenario) (w : W)
    (hk : ∀ s ∈ sc.Steps ++ sc.Cleanup, s.known = true)
    (hnofail : ∀ pre step s, r.Reaches ctx0 sc w pre step s →
      r.failsAt (Runner.runCtx ctx0 sc) pre.length step s = false) :
    ∃ res, r.Run ctx0 sc w = some res
      ∧ res.rep.Success = true ∧ res.rep.Error = none ∧ res.err = none
      ∧ TeardownOnce sc.Cleanup res.m.trace := by
  have hc : ∀ c ∈ sc.Cleanup, c.known = true :=
    fun c hc => hk c (List.mem_append_right _ hc)
  have hloop := runSteps_induct r (Runner.runCtx ctx0 sc) sc
    (fun s => s.runCleanup = false) True sc.Steps 0 (r.enter sc w) rfl (by
      intro pre step post s1 hsteps hpre hinv
      rw [Nat.zero_add]
      have hreach : r.Reaches ctx0 sc w pre step s1 := ⟨⟨post, hsteps⟩, hpre⟩
      cases hflag : (r.poll (Runner.runCtx ctx0 sc) step s1).runCleanup with
      | true => exact Or.inr ⟨⟨_, iter_brk r _ sc _ step s1 hflag⟩, trivial⟩
      | false =>
        obtain ⟨out, ho⟩ := executeStep_total r (Runner.runCtx ctx0 sc) step
          (r.log (r.poll (Runner.runCtx ctx0 sc) step s1).m
            (LogLine.step (pre.length + 1) step.Name))
          (hk step (List.mem_append_left _ hreach.mem))
        have hf := failsAt_false r _ _ step s1 out (hnofail _ _ _ hreach) hflag ho
        exact Or.inl ⟨_, iter_pass r _ sc _ step s1 out hflag ho hf, rfl⟩)
  have key : ∃ sEnd, r.finish (Runner.runCtx ctx0 sc) sc sEnd = r.Run ctx0 sc w
      ∧ (∀ op ∈ sEnd.m.trace, op.isMainOp = true) ∧ sEnd.rep.Error = none := by
    rcases hloop with ⟨sEnd, hEnd, _⟩ | ⟨⟨sEnd, hEnd⟩, _⟩
    · obtain ⟨h1, _, h3, _⟩ := runSteps_shape _ _ _ _ _ _ _ hEnd
      refine ⟨sEnd, ?_, h1.extAll (enter_main r sc w), h3.2.1.trans (enter_report r sc w).1⟩
      rw [Run_eq_complete, hEnd]
      rfl
    · obtain ⟨h1, h3⟩ := runSteps_shape _ _ _ _ _ _ _ hEnd
      refine ⟨sEnd, ?_, h1.extAll (enter_main r sc w), h3.2.1.trans (enter_report r sc w).1⟩
      rw [Run_eq_complete, hEnd]
      rfl
  obtain ⟨sEnd, hfin, hmain, herr⟩ := key
  obtain ⟨res, hres⟩ := finish_total r (Runner.runCtx ctx0 sc) sc hc sEnd
  obtain ⟨_, f2, f3, f4, f5, _⟩ := finish_facts r _ sc _ res hres hmain
  exact ⟨res, hfin ▸ hres, f3, f5.trans herr, f4, f2⟩

/-- C8 at a concrete run: the main step succeeds, the first cleanup step fails under
`on_error: fail`, the second reports no success, and the rollback returns an error. -/
theorem C8_teardown_failures_do_not_fail_the_run_witness :
    ∃ res, (Demo.runner false).Run []
        (Demo.scenario [Demo.act "stuck" ""] [Demo.act "bad" "fail", Demo.check "no" ""]) ()
          = some res
      ∧ res.rep.Success = true ∧ res.rep.Error = none ∧ res.err = none
      ∧ TeardownOnce [Demo.act "bad" "fail", Demo.check "no" ""] res.m.trace :=
  C8_teardown_failures_do_not_fail_the_run (Demo.runner false) []
    (Demo.scenario [Demo.act "stuck" ""] [Demo.act "bad" "fail", Demo.check "no" ""]) ()
    (by decide)
    (fun _ _ _ hreach => by
      obtain ⟨rfl, rfl, rfl⟩ := hreach.single (Demo.act "stuck" "") rfl
      decide)

/-- C9: the rollback loop, over any list of retained action contexts (in the order
the loop visits them) and whatever each `Rollback` returns, calls `Rollback` exactly
once on every context whose state names a registered action, in that order, and
appends one event per call: an error event "rollback-<action>" when the call returned
an error, a cleanup event otherwise. -/
theorem C9_rollback_attempts_are_independent {W : Type} (r : Runner W) (ctx : Context)
    (actxs : List ActionContext) (rep : Report) (m : Mach W) :
    ∃ d evs, (r.rollbacks ctx actxs rep m).2.trace = m.trace ++ d
      ∧ (rollbackOps d).map (fun op => (op.1, op.2.1))
          = (actxs.filter r.rollsBack).map
              (fun a => (a.addr, a.State.getString "_action_name"))
      ∧ (r.rollbacks ctx actxs rep m).1.Events = rep.Events ++ evs
      ∧ evs.map (fun e => (e.Type_, e.Step)) = (rollbackOps d).map rollbackEvent := by
  obtain ⟨d, evs, h1, _, h3, h4, h5, _⟩ := rollbacks_shape r ctx actxs rep m
  exact ⟨d, evs, h1, h3, h4, h5⟩

/-! ## The registries -/

theorem Get_eq_find {α : Type} (r : Registry α) (kind name : String) :
    r.Get kind name
      = match r.entries.find? (fun kv => kv.1 == name) with
        | some kv => Except.ok kv.2
        | none => Except.error (kind ++ " \"" ++ name ++ "\" not found") := rfl

theorem any_key_iff {α : Type} (entries : List (String × α)) (name : String) :
    entries.any (fun kv => kv.1 == name) = true ↔ name ∈ entries.map Prod.fst := by
  simp only [List.any_eq_true, beq_iff_eq, List.mem_map]

theorem find_key_none {α : Type} (entries : List (String × α)) (name : String) :
    entries.find? (fun kv => kv.1 == name) = none ↔ name ∉ entries.map Prod.fst := by
  rw [List.find?_eq_none]
  simp only [beq_iff_eq, List.mem_map, not_exists, not_and]

/-- `Get` fails exactly on the names that are not keys of the registry. -/
theorem Get_error_iff {α : Type} (r : Registry α) (kind name : String) :
    (∃ e, r.Get kind name = Except.error e) ↔ name ∉ r.entries.map Prod.fst := by
  rw [← find_key_none, Get_eq_find]
  cases h : r.entries.find? (fun kv => kv.1 == name) with
  | none => simp
  | some kv => simp

/-- A registration under a name that is already a key returns an error and leaves the
registry as it is. -/
theorem Register_present {α : Type} (r : Registry α) (kind name : String) (x : α)
    (h : name ∈ r.entries.map Prod.fst) :
    (r.Register kind name x).1 = some (kind ++ " \"" ++ name ++ "\" already registered")
      ∧ (r.Register kind name x).2 = r := by
  unfold Registry.Register
  rw [if_pos ((any_key_iff _ _).mpr h)]
  exact ⟨rfl, rfl⟩

/-- A registration under a new name returns nil and adds the capability. -/
theorem Register_absent {α : Type} (r : Registry α) (kind name : String) (x : α)
    (h : name ∉ r.entries.map Prod.fst) :
    (r.Register kind name x).1 = none
      ∧ (r.Register kind name x).2 = { entries := r.entries ++ [(name, x)] } := by
  unfold Registry.Register
  rw [if_neg (fun hc => h ((any_key_iff _ _).mp hc))]
  exact ⟨rfl, rfl⟩

/-- After a registration, successful or not, the name is a key. -/
theorem Register_key {α : Type} (r : Registry α) (kind name : String) (x : α) :
    name ∈ (r.Register kind name x).2.entries.map Prod.fst := by
  by_cases h : name ∈ r.entries.map Prod.fst
  · rw [(Register_present r kind name x h).2]
    exact h
  · rw [(Register_absent r kind name x h).2]
    simp

/-- What `Get` returns after a registration that succeeded. -/
theorem Get_after_Register {α : Type} (r : Registry α) (kind name : String) (x : α)
    (h : (r.Register kind name x).1 = none) :
    (r.Register kind name x).2.Get kind name = Except.ok x := by
  by_cases hk : name ∈ r.entries.map Prod.fst
  · rw [(Register_present r kind name x hk).1] at h
    exact absurd h (by simp)
  · rw [(Register_absent r kind name x hk).2, Get_eq_find]
    have hnone := (find_key_none r.entries name).mpr hk
    simp only [List.find?_append, hnone, Option.none_or]
    simp

/-- A registration removes nothing: what `Get` returned before, it returns after. -/
theorem Get_kept {α : Type} (r : Registry α) (kind name other : String) (x c : α)
    (h : r.Get kind name = Except.ok c) :
    (r.Register kind other x).2.Get kind name = Except.ok c := by
  by_cases hk : other ∈ r.entries.map Prod.fst
  · rw [(Register_present r kind other x hk).2]
    exact h
  · rw [(Register_absent r kind other x hk).2]
    rw [Get_eq_find] at h ⊢
    cases hf : r.entries.find? (fun kv => kv.1 == name) with
    | none => simp [hf] at h
    | some kv =>
      rw [hf] at h
      simp only [List.find?_append, hf]
      exact h

/-- The second of two registrations under one name fails and changes nothing. -/
theorem Register_twice {α : Type} (r : Registry α) (kind name : String) (a b : α) :
    ((r.Register kind name a).2.Register kind name b).1
        = some (kind ++ " \"" ++ name ++ "\" already registered")
      ∧ ((r.Register kind name a).2.Register kind name b).2 = (r.Register kind name a).2 :=
  Register_present _ kind name b (Register_key r kind name a)
theorem registerAll_cons {α : Type} (kind : String) (nameOf : α → String) (r : Registry α)
    (x : α) (rest : List α) :
    registerAll kind nameOf r (x :: rest)
      = registerAll kind nameOf (r.Register kind (nameOf x) x).2 rest := rfl

/-- The keys after a run of registrations: the keys before and the names registered. -/
theorem registerAll_keys {α : Type} (kind : String) (nameOf : α → String) (xs : List α)
    (r : Registry α) (name : String) :
    name ∈ (registerAll kind nameOf r xs).entries.map Prod.fst
      ↔ name ∈ r.entries.map Prod.fst ∨ ∃ x ∈ xs, nameOf x = name := by
  induction xs generalizing r with
  | nil => simp [registerAll]
  | cons x rest ih =>
    rw [registerAll_cons, ih]
    by_cases hk : nameOf x ∈ r.entries.map Prod.fst
    · rw [(Register_present r kind (nameOf x) x hk).2]
      constructor
      · rintro (h | ⟨y, hy, hn⟩)
        · exact Or.inl h
        · exact Or.inr ⟨y, List.mem_cons_of_mem _ hy, hn⟩
      · rintro (h | ⟨y, hy, hn⟩)
        · exact Or.inl h
        · rcases List.mem_cons.mp hy with rfl | hy
          · exact Or.inl (hn ▸ hk)
          · exact Or.inr ⟨y, hy, hn⟩
    · rw [(Register_absent r kind (nameOf x) x hk).2]
      have hkeys : (r.entries ++ [(nameOf x, x)]).map Prod.fst
          = r.entries.map Prod.fst ++ [nameOf x] := by simp
      show name ∈ (r.entries ++ [(nameOf x, x)]).map Prod.fst ∨ _ ↔ _
      rw [hkeys, List.mem_append, List.mem_singleton]
      constructor
      · rintro ((h | h) | ⟨y, hy, hn⟩)
        · exact Or.inl h
        · exact Or.inr ⟨x, List.mem_cons_self _ _, h.symm⟩
        · exact Or.inr ⟨y, List.mem_cons_of_mem _ hy, hn⟩
      · rintro (h | ⟨y, hy, hn⟩)
        · exact Or.inl (Or.inl h)
        · rcases List.mem_cons.mp hy with rfl | hy
          · exact Or.inl (Or.inr hn.symm)
          · exact Or.inr ⟨y, hy, hn⟩

/-- Registrations keep the keys of the registry distinct. -/
theorem registerAll_nodup {α : Type} (kind : String) (nameOf : α → String) (xs : List α)
    (r : Registry α) (h : (r.entries.map Prod.fst).Nodup) :
    ((registerAll kind nameOf r xs).entries.map Prod.fst).Nodup := by
  induction xs generalizing r with
  | nil => exact h
  | cons x rest ih =>
    rw [registerAll_cons]
    apply ih
    by_cases hk : nameOf x ∈ r.entries.map Prod.fst
    · rw [(Register_present r kind (nameOf x) x hk).2]
      exact h
    · rw [(Register_absent r kind (nameOf x) x hk).2]
      simp only [List.map_append, List.map_cons, List.map_nil]
      rw [List.nodup_append]
      refine ⟨h, List.nodup_singleton _, ?_⟩
      intro a ha hb
      rw [List.mem_singleton] at hb
      exact hk (hb ▸ ha)

/-- What `Get` returns after a run of registrations on a registry: the capability
the registry held under the name, or else the first one registered under it. -/
theorem registerAll_get {α : Type} (kind : String) (nameOf : α → String) (xs : List α)
    (r : Registry α) (name : String) :
    (registerAll kind nameOf r xs).Get kind name
      = match r.entries.find? (fun kv => kv.1 == name) with
        | some kv => Except.ok kv.2
        | none =>
          match xs.find? (fun x => nameOf x == name) with
          | some x => Except.ok x
          | none => Except.error (kind ++ " \"" ++ name ++ "\" not found") := by
  induction xs generalizing r with
  | nil =>
    simp only [registerAll, List.foldl_nil, List.find?_nil]
    rw [Get_eq_find]
  | cons x rest ih =>
    rw [registerAll_cons, ih]
    by_cases hk : nameOf x ∈ r.entries.map Prod.fst
    · rw [(Register_present r kind (nameOf x) x hk).2]
      cases hf : r.entries.find? (fun kv => kv.1 == name) with
      | some kv => rfl
      | none =>
        have hn : name ∉ r.entries.map Prod.fst := (find_key_none _ _).mp hf
        have hne : (nameOf x == name) = false := by
          rw [beq_eq_false_iff_ne]
          intro he
          exact hn (he ▸ hk)
        simp only [List.find?_cons, hne]
    · rw [(Register_absent r kind (nameOf x) x hk).2]
      cases hf : r.entries.find? (fun kv => kv.1 == name) with
      | some kv => simp [List.find?_append, hf]
      | none =>
        by_cases he : nameOf x = name
        · have hb : (nameOf x == name) = true := by simpa using he
          simp [List.find?_append, hf, List.find?_cons, hb]
        · have hb : (nameOf x == name) = false := by simpa using he
          simp [List.find?_append, hf, List.find?_cons, hb]

theorem mem_List {α : Type} (r : Registry α) (name : String) :
    name ∈ r.List ↔ name ∈ r.entries.map Prod.fst := by
  unfold Registry.List
  exact (List.perm_insertionSort _ _).mem_iff

/-- `List` of a registry with distinct keys is strictly ascending. -/
theorem List_sorted {α : Type} (r : Registry α) (h : (r.entries.map Prod.fst).Nodup) :
    List.Sorted (fun a b : String => a < b) r.List := by
  haveI : IsTotal String (fun a b => a.toList ≤ b.toList) :=
    ⟨fun a b => le_total a.toList b.toList⟩
  haveI : IsTrans String (fun a b => a.toList ≤ b.toList) :=
    ⟨fun a b c hab hbc => le_trans hab hbc⟩
  have hs : List.Sorted (fun a b : String => a.toList ≤ b.toList) r.List :=
    List.sorted_insertionSort _ _
  have hn : r.List.Nodup := (List.perm_insertionSort _ _).nodup_iff.mpr h
  have hboth := List.Pairwise.and hs hn
  refine List.Pairwise.imp ?_ hboth
  intro a b hab
  rw [String.lt_iff_toList_lt]
  exact lt_of_le_of_ne hab.1 (fun he => hab.2 (String.toList_inj.mp he))
theorem actionsAfter_eq {W : Type} (xs : List (Action W)) :
    actionsAfter xs = registerAll "action" Action.Name NewRegistry xs := rfl

theorem assertsAfter_eq {W : Type} (xs : List (Assertion W)) :
    assertsAfter xs = registerAll "assertion" Assertion.Name NewRegistry xs := rfl

/-- After any run of registrations on a new registry: `List` is strictly ascending
and holds exactly the names registered, which are the names `Get` resolves; `Get`
fails on the other names and returns, for a registered name, the first capability
registered under it. -/
theorem registry_after {α : Type} (kind : String) (nameOf : α → String) (xs : List α) :
    List.Sorted (fun a b : String => a < b) (registerAll kind nameOf NewRegistry xs).List
      ∧ (∀ name, name ∈ (registerAll kind nameOf NewRegistry xs).List
          ↔ ∃ x ∈ xs, nameOf x = name)
      ∧ (∀ name, name ∈ (registerAll kind nameOf NewRegistry xs).List
          ↔ ∃ x, (registerAll kind nameOf NewRegistry xs).Get kind name = Except.ok x)
      ∧ (∀ name, (∃ e, (registerAll kind nameOf NewRegistry xs).Get kind name = Except.error e)
          ↔ ∀ x ∈ xs, nameOf x ≠ name)
      ∧ (∀ name x, xs.find? (fun a => nameOf a == name) = some x →
          (registerAll kind nameOf NewRegistry xs).Get kind name = Except.ok x) := by
  have hkeys : ∀ name, name ∈ (registerAll kind nameOf NewRegistry xs).entries.map Prod.fst
      ↔ ∃ x ∈ xs, nameOf x = name := by
    intro name
    rw [registerAll_keys]
    simp [NewRegistry]
  have hget : ∀ name, (registerAll kind nameOf NewRegistry xs).Get kind name
      = match xs.find? (fun x => nameOf x == name) with
        | some x => Except.ok x
        | none => Except.error (kind ++ " \"" ++ name ++ "\" not found") := by
    intro name
    rw [registerAll_get]
    rfl
  have herr : ∀ name, (∃ e, (registerAll kind nameOf NewRegistry xs).Get kind name
      = Except.error e) ↔ ∀ x ∈ xs, nameOf x ≠ name := by
    intro name
    rw [Get_error_iff, hkeys]
    simp
  refine ⟨List_sorted _ (registerAll_nodup kind nameOf xs NewRegistry (by simp [NewRegistry])),
    fun name => (mem_List _ name).trans (hkeys name), ?_, herr, ?_⟩
  · intro name
    rw [mem_List]
    constructor
    · intro hmem
      cases hg : (registerAll kind nameOf NewRegistry xs).Get kind name with
      | ok x => exact ⟨x, rfl⟩
      | error e => exact absurd hmem ((Get_error_iff _ kind name).mp ⟨e, hg⟩)
    · rintro ⟨x, hx⟩
      by_contra hmem
      obtain ⟨e, he⟩ := (Get_error_iff _ kind name).mpr hmem
      rw [hx] at he
      exact absurd he (by simp)
  · intro name x hx
    rw [hget, hx]

/-- C11: in the action registry and in the assertion registry alike, for every
registry state and every two capabilities with the same name, registering the second
after the first returns an error and leaves the registry as the first registration
left it, so `List` is unchanged; and when the first registration succeeded, `Get` of
the name still returns the first capability. -/
theorem C11_second_registration_fails_and_changes_nothing {W : Type} :
    (∀ (r : Registry (Action W)) (a b : Action W), a.Name = b.Name →
        ((r.RegisterAction a).2.RegisterAction b).1 ≠ none
          ∧ ((r.RegisterAction a).2.RegisterAction b).2 = (r.RegisterAction a).2
          ∧ ((r.RegisterAction a).2.RegisterAction b).2.List = (r.RegisterAction a).2.List
          ∧ ((r.RegisterAction a).1 = none →
              ((r.RegisterAction a).2.RegisterAction b).2.Get "action" a.Name = Except.ok a))
      ∧ (∀ (r : Registry (Assertion W)) (a b : Assertion W), a.Name = b.Name →
        ((r.RegisterAssertion a).2.RegisterAssertion b).1 ≠ none
          ∧ ((r.RegisterAssertion a).2.RegisterAssertion b).2 = (r.RegisterAssertion a).2
          ∧ ((r.RegisterAssertion a).2.RegisterAssertion b).2.List
              = (r.RegisterAssertion a).2.List
          ∧ ((r.RegisterAssertion a).1 = none →
              ((r.RegisterAssertion a).2.RegisterAssertion b).2.Get "assertion" a.Name
                = Except.ok a)) := by
  constructor
  · intro r a b hname
    have h := Register_twice r "action" a.Name a b
    have h1 : ((r.RegisterAction a).2.RegisterAction b).1
        = some ("action" ++ " \"" ++ a.Name ++ "\" already registered") := by
      unfold Registry.RegisterAction
      rw [← hname]
      exact h.1
    have h2 : ((r.RegisterAction a).2.RegisterAction b).2 = (r.RegisterAction a).2 := by
      unfold Registry.RegisterAction
      rw [← hname]
      exact h.2
    refine ⟨by rw [h1]; simp, h2, by rw [h2], ?_⟩
    intro hfirst
    rw [h2]
    exact Get_after_Register r "action" a.Name a hfirst
  · intro r a b hname
    have h := Register_twice r "assertion" a.Name a b
    have h1 : ((r.RegisterAssertion a).2.RegisterAssertion b).1
        = some ("assertion" ++ " \"" ++ a.Name ++ "\" already registered") := by
      unfold Registry.RegisterAssertion
      rw [← hname]
      exact h.1
    have h2 : ((r.RegisterAssertion a).2.RegisterAssertion b).2
        = (r.RegisterAssertion a).2 := by
      unfold Registry.RegisterAssertion
      rw [← hname]
      exact h.2
    refine ⟨by rw [h1]; simp, h2, by rw [h2], ?_⟩
    intro hfirst
    rw [h2]
    exact Get_after_Register r "assertion" a.Name a hfirst

/-- C12: in the action registry and in the assertion registry alike, after any run of
registrations on a new registry, `List` is strictly ascending in the lexicographic order
of strings (so no name is listed twice) and its members are exactly the names that were
registered, which are exactly the names `Get` resolves. -/
theorem C12_list_is_the_sorted_names {W : Type} :
    (∀ xs : List (Action W),
        List.Sorted (fun a b : String => a < b) (actionsAfter xs).List
          ∧ (∀ name, name ∈ (actionsAfter xs).List ↔ ∃ x ∈ xs, x.Name = name)
          ∧ (∀ name, name ∈ (actionsAfter xs).List
              ↔ ∃ x, (actionsAfter xs).Get "action" name = Except.ok x))
      ∧ (∀ xs : List (Assertion W),
        List.Sorted (fun a b : String => a < b) (assertsAfter xs).List
          ∧ (∀ name, name ∈ (assertsAfter xs).List ↔ ∃ x ∈ xs, x.Name = name)
          ∧ (∀ name, name ∈ (assertsAfter xs).List
              ↔ ∃ x, (assertsAfter xs).Get "assertion" name = Except.ok x)) := by
  constructor
  · intro xs
    obtain ⟨h1, h2, h3, _, _⟩ := registry_after "action" Action.Name xs
    exact ⟨h1, h2, h3⟩
  · intro xs
    obtain ⟨h1, h2, h3, _, _⟩ := registry_after "assertion" Assertion.Name xs
    exact ⟨h1, h2, h3⟩

/-- C13: in the action registry and in the assertion registry alike, after any run of
registrations on a new registry, `Get` of a name returns an error exactly when no
capability of that name was registered, and otherwise returns the first capability
registered under the name (the one whose registration succeeded); and a `Register` call,
the only operation that writes the registry, keeps what `Get` returned for every name. -/
theorem C13_get_fails_only_on_unregistered_names {W : Type} :
    (∀ (xs : List (Action W)) (name : String),
        ((∃ e, (actionsAfter xs).Get "action" name = Except.error e)
            ↔ ∀ x ∈ xs, x.Name ≠ name)
          ∧ (∀ x, xs.find? (fun a => a.Name == name) = some x →
              (actionsAfter xs).Get "action" name = Except.ok x))
      ∧ (∀ (r : Registry (Action W)) (b c : Action W) (name : String),
          r.Get "action" name = Except.ok c →
            (r.RegisterAction b).2.Get "action" name = Except.ok c)
      ∧ (∀ (xs : List (Assertion W)) (name : String),
        ((∃ e, (assertsAfter xs).Get "assertion" name = Except.error e)
            ↔ ∀ x ∈ xs, x.Name ≠ name)
          ∧ (∀ x, xs.find? (fun a => a.Name == name) = some x →
              (assertsAfter xs).Get "assertion" name = Except.ok x))
      ∧ (∀ (r : Registry (Assertion W)) (b c : Assertion W) (name : String),
          r.Get "assertion" name = Except.ok c →
            (r.RegisterAssertion b).2.Get "assertion" name = Except.ok c) := by
  refine ⟨?_, ?_, ?_, ?_⟩
  · intro xs name
    obtain ⟨_, _, _, h4, h5⟩ := registry_after "action" Action.Name xs
    exact ⟨h4 name, h5 name⟩
  · intro r b c name h
    exact Get_kept r "action" name b.Name b c h
  · intro xs name
    obtain ⟨_, _, _, h4, h5⟩ := registry_after "assertion" Assertion.Name xs
    exact ⟨h4 name, h5 name⟩
  · intro r b c name h
    exact Get_kept r "assertion" name b.Name b c h

/-- C11 at a concrete registry: "ok" is registered, then a second action that also
calls itself "ok". -/
theorem C11_second_registration_fails_and_changes_nothing_witness :
    ((Registry.RegisterAction (Registry.RegisterAction NewRegistry Demo.okAction).2
          { Demo.badAction with Name := "ok" }).1 ≠ none
      ∧ (Registry.RegisterAction (Registry.RegisterAction NewRegistry Demo.okAction).2
          { Demo.badAction with Name := "ok" }).2
        = (Registry.RegisterAction NewRegistry Demo.okAction).2
      ∧ (Registry.RegisterAction (Registry.RegisterAction NewRegistry Demo.okAction).2
          { Demo.badAction with Name := "ok" }).2.List
        = (Registry.RegisterAction NewRegistry Demo.okAction).2.List
      ∧ ((Registry.RegisterAction NewRegistry Demo.okAction).1 = none →
          (Registry.RegisterAction (Registry.RegisterAction NewRegistry Demo.okAction).2
            { Demo.badAction with Name := "ok" }).2.Get "action" Demo.okAction.Name
            = Except.ok Demo.okAction)) :=
  C11_second_registration_fails_and_changes_nothing.1 NewRegistry Demo.okAction
    { Demo.badAction with Name := "ok" } rfl

/-! ## Validation -/

/-- `Step.Validate` passes exactly the steps of a known type whose `on_error` is
empty, fail, continue or cleanup. -/
theorem Step_Validate_iff (s : Step) :
    s.Validate = none
      ↔ s.StepType ≠ "unknown"
        ∧ (s.OnError = "" ∨ s.OnError = OnErrorFail ∨ s.OnError = OnErrorContinue
            ∨ s.OnError = OnErrorCleanup) := by
  unfold Step.Validate
  dsimp only
  by_cases hu : s.StepType = "unknown"
  · simp [hu]
  · rw [if_neg hu]
    by_cases h1 : s.OnError = ""
    · simp [h1, hu]
    · by_cases h2 : s.OnError = OnErrorFail
      · simp [h2, hu]
      · by_cases h3 : s.OnError = OnErrorContinue
        · simp [h3, hu]
        · by_cases h4 : s.OnError = OnErrorCleanup
          · simp [h4, hu]
          · simp [h1, h2, h3, h4, hu]

/-- The type of a step is unknown exactly when none of its discriminators is set. -/
theorem StepType_unknown_iff (s : Step) :
    s.StepType = "unknown" ↔ s.Action = "" ∧ s.Assert = "" ∧ ¬ s.Wait > 0 := by
  unfold Step.StepType
  by_cases h1 : s.Action = ""
  · by_cases h2 : s.Assert = ""
    · by_cases h3 : s.Wait > 0
      · simp [h1, h2, h3]
      · simp [h1, h2, h3]
    · simp [h1, h2]
  · simp [h1]

theorem validateSteps_iff (label : String) (i : Nat) (steps : List Step) :
    Scenario.validateSteps label i steps = none ↔ ∀ s ∈ steps, s.Validate = none := by
  induction steps generalizing i with
  | nil => simp [Scenario.validateSteps]
  | cons step rest ih =>
    simp only [Scenario.validateSteps, List.mem_cons, forall_eq_or_imp]
    cases hv : step.Validate with
    | some err => simp
    | none => simpa using ih (i + 1)

/-- C14 as stated fails: the step `Demo.crowded`, with an action, an assertion and a
positive wait all set, passes `Step.Validate`; it is taken to be an action step. -/
theorem C14_step_with_three_discriminators_is_accepted :
    Demo.crowded.Validate = none ∧ Demo.crowded.StepType = "action" := by
  decide

/-- C14, amended: `Step.Validate` accepts a step exactly when at least one of its
discriminators (action identifier, assertion identifier, positive wait duration) is set
and its `on_error` is empty, fail, continue or cleanup; in particular it rejects every
step with none set. A step with several set is accepted, and its type is the first set
among action, assertion and wait. -/
theorem C14_validate_requires_at_least_one_discriminator (s : Step) :
    (s.Validate = none
        ↔ (s.Action ≠ "" ∨ s.Assert ≠ "" ∨ s.Wait > 0)
          ∧ (s.OnError = "" ∨ s.OnError = OnErrorFail ∨ s.OnError = OnErrorContinue
              ∨ s.OnError = OnErrorCleanup))
      ∧ (s.Action = "" ∧ s.Assert = "" ∧ ¬ s.Wait > 0 → s.Validate ≠ none)
      ∧ (s.Action ≠ "" → s.StepType = "action")
      ∧ (s.Action = "" → s.Assert ≠ "" → s.StepType = "assert")
      ∧ (s.Action = "" → s.Assert = "" → s.Wait > 0 → s.StepType = "wait") := by
  have hiff := Step_Validate_iff s
  have hu := StepType_unknown_iff s
  refine ⟨?_, ?_, ?_, ?_, ?_⟩
  · rw [hiff, Ne, hu]
    constructor
    · rintro ⟨h1, h2⟩
      refine ⟨?_, h2⟩
      by_contra hc
      push_neg at hc
      exact h1 ⟨hc.1, hc.2.1, not_lt.mpr hc.2.2⟩
    · rintro ⟨h1, h2⟩
      refine ⟨?_, h2⟩
      rintro ⟨a, b, c⟩
      rcases h1 with h | h | h
      · exact h a
      · exact h b
      · exact c h
  · intro hnone hv
    exact (hiff.mp hv).1 (hu.mpr hnone)
  · intro h
    simp [Step.StepType, h]
  · intro h1 h2
    simp [Step.StepType, h1, h2]
  · intro h1 h2 h3
    simp [Step.StepType, h1, h2, h3]

/-- C15: `Scenario.Validate` returns nil exactly when the scenario name is non-empty,
the step list has at least one step, and every step and every cleanup step passes
`Step.Validate`; and a step passes `Step.Validate` exactly when its step type is known
and its `on_error` is empty, fail, continue or cleanup. -/
theorem C15_scenario_validate_iff (sc : Scenario) :
    (sc.Validate = none
        ↔ sc.Name ≠ "" ∧ 1 ≤ sc.Steps.length
          ∧ (∀ s ∈ sc.Steps, s.Validate = none) ∧ (∀ s ∈ sc.Cleanup, s.Validate = none))
      ∧ ∀ s : Step, s.Validate = none
          ↔ s.StepType ≠ "unknown"
            ∧ (s.OnError = "" ∨ s.OnError = OnErrorFail ∨ s.OnError = OnErrorContinue
                ∨ s.OnError = OnErrorCleanup) := by
  refine ⟨?_, Step_Validate_iff⟩
  unfold Scenario.Validate
  by_cases hn : sc.Name = ""
  · simp [hn]
  · rw [if_neg hn]
    by_cases hl : sc.Steps.length = 0
    · simp [hl]
    · rw [if_neg hl]
      have hpos : 1 ≤ sc.Steps.length := Nat.one_le_iff_ne_zero.mpr hl
      cases hs : Scenario.validateSteps "step " 0 sc.Steps with
      | some err =>
        have hnot : ¬ ∀ s ∈ sc.Steps, s.Validate = none := by
          rw [← validateSteps_iff "step " 0]
          rw [hs]
          simp
        simp [hnot]
      | none =>
        have hall := (validateSteps_iff "step " 0 sc.Steps).mp hs
        simp only [validateSteps_iff, hn, hpos, hall, ne_eq, not_false_eq_true, true_and]
        constructor
        · intro h
          exact ⟨fun s hs => hall s hs, h⟩
        · intro h
          exact h.2

/-! ## The attempts of a step -/

theorem budget_pos (step : Step) : 1 ≤ step.budget := by
  unfold Step.budget
  split_ifs with h
  · decide
  · omega

theorem executeStep_eq {W : Type} (r : Runner W) (ctx0 : Context) (step : Step) (m : Mach W) :
    r.executeStep ctx0 step m
      = match r.attempts (step.context ctx0) step step.budget step.budget
            { result := none, actx := none, err := none } m with
        | none => none
        | some out =>
          match out.1.result with
          | none => none
          | some res =>
            some (({ res with Duration := r.now out.2.world - r.now m.world },
              out.1.actx, out.1.err), out.2) := rfl

theorem dispatch_decided {W : Type} (r : Runner W) (ctx : Context) (step : Step)
    (v : StepVars) (m : Mach W) (hk : step.known = true) :
    ∃ b, (r.dispatch ctx step v m).1.succeeded = some b := by
  have h := dispatch_known r ctx step v m hk
  unfold StepVars.succeeded
  cases he : (r.dispatch ctx step v m).1.err with
  | some e => exact ⟨false, rfl⟩
  | none =>
    cases hr : (r.dispatch ctx step v m).1.result with
    | none => exact absurd hr h
    | some res => exact ⟨res.Success, rfl⟩

/-- One turn of the attempt loop, taken where attempt number `j + 1` starts. -/
theorem attempts_step {W : Type} (r : Runner W) (ctx0 : Context) (step : Step) (m : Mach W)
    (j k : Nat) (hjk : j + (k + 1) = step.budget) :
    r.attempts (step.context ctx0) step step.budget (k + 1)
        (r.beforeAttempt ctx0 step m j).1 (r.beforeAttempt ctx0 step m j).2
      = match (r.attemptNo ctx0 step m j).1.succeeded with
        | none => none
        | some true => some (r.attemptNo ctx0 step m j)
        | some false =>
          if k = 0 then some (r.attemptNo ctx0 step m j)
          else r.attempts (step.context ctx0) step step.budget k
            (r.beforeAttempt ctx0 step m (j + 1)).1 (r.beforeAttempt ctx0 step m (j + 1)).2 := by
  have hatt : step.budget - k = j + 1 := by omega
  rw [Runner.attempts]
  simp only [hatt]
  show (match (r.attemptNo ctx0 step m j).1.succeeded with
    | none => none
    | some true => some (r.attemptNo ctx0 step m j)
    | some false => _) = _
  cases hs : (r.attemptNo ctx0 step m j).1.succeeded with
  | none => rfl
  | some b =>
    cases b with
    | true => rfl
    | false =>
      by_cases hk0 : k = 0
      · subst hk0
        have hlt : ¬ j + 1 < step.budget := by omega
        simp only [if_neg hlt, if_true]
        rfl
      · have hlt : j + 1 < step.budget := by omega
        simp only [if_pos hlt, if_neg hk0]
        rfl
/-- The attempt loop, taken where attempt number `j + 1` starts with `k` attempts
left: it runs up to the first attempt that succeeds, or to the last attempt allowed,
and leaves what that attempt left. -/
theorem attempts_first {W : Type} (r : Runner W) (ctx0 : Context) (step : Step) (m : Mach W)
    (hk : step.known = true) (k j : Nat) (hjk : j + (k + 1) = step.budget) :
    ∃ last, j < last ∧ last ≤ step.budget
      ∧ (∀ i, j ≤ i → i + 1 < last → (r.attemptNo ctx0 step m i).1.succeeded = some false)
      ∧ ((r.attemptNo ctx0 step m (last - 1)).1.succeeded = some true
          ∨ (last = step.budget
            ∧ (r.attemptNo ctx0 step m (last - 1)).1.succeeded = some false))
      ∧ r.attempts (step.context ctx0) step step.budget (k + 1)
          (r.beforeAttempt ctx0 step m j).1 (r.beforeAttempt ctx0 step m j).2
          = some (r.attemptNo ctx0 step m (last - 1)) := by
  induction k generalizing j with
  | zero =>
    obtain ⟨b, hb⟩ := dispatch_decided r (step.context ctx0) step
      (r.beforeAttempt ctx0 step m j).1 (r.beforeAttempt ctx0 step m j).2 hk
    have hb1 : (r.attemptNo ctx0 step m j).1.succeeded = some b := hb
    refine ⟨j + 1, Nat.lt_succ_self j, by omega, ?_, ?_, ?_⟩
    · intro i h1 h2
      omega
    · cases b with
      | true => exact Or.inl hb1
      | false => exact Or.inr ⟨by omega, hb1⟩
    · rw [attempts_step r ctx0 step m j 0 hjk, hb1]
      cases b <;> rfl
  | succ k ih =>
    obtain ⟨b, hb⟩ := dispatch_decided r (step.context ctx0) step
      (r.beforeAttempt ctx0 step m j).1 (r.beforeAttempt ctx0 step m j).2 hk
    have hb1 : (r.attemptNo ctx0 step m j).1.succeeded = some b := hb
    cases b with
    | true =>
      refine ⟨j + 1, Nat.lt_succ_self j, by omega, ?_, Or.inl hb1, ?_⟩
      · intro i h1 h2
        omega
      · rw [attempts_step r ctx0 step m j (k + 1) hjk, hb1]
        rfl
    | false =>
      obtain ⟨last, h1, h2, h3, h4, h5⟩ := ih (j + 1) (by omega)
      refine ⟨last, by omega, h2, ?_, h4, ?_⟩
      · intro i hi1 hi2
        by_cases hij : i = j
        · rw [hij]
          exact hb1
        · exact h3 i (by omega) hi2
      · rw [attempts_step r ctx0 step m j (k + 1) hjk, hb1]
        simp only [Nat.add_one_ne_zero, if_false]
        exact h5

theorem sleepCount_emit {W : Type} (m : Mach W) (op : Op) :
    sleepCount (m.emit op).trace = sleepCount m.trace + (if op.isSleep then 1 else 0) := by
  unfold sleepCount Mach.emit
  rw [List.countP_append]
  cases h : op.isSleep <;> simp [List.countP_cons, h]

theorem callCount_emit {W : Type} (m : Mach W) (op : Op) :
    callCount (m.emit op).trace = callCount m.trace + (if op.isCall then 1 else 0) := by
  unfold callCount Mach.emit
  rw [List.countP_append]
  cases h : op.isCall <;> simp [List.countP_cons, h]

/-- An attempt makes no pause, and calls the capability once when the step names
one. -/
theorem dispatch_counts {W : Type} (r : Runner W) (ctx : Context) (step : Step)
    (v : StepVars) (m : Mach W) :
    sleepCount (r.dispatch ctx step v m).2.trace = sleepCount m.trace
      ∧ callCount (r.dispatch ctx step v m).2.trace
          = callCount m.trace + (if r.resolves step then 1 else 0) := by
  unfold Runner.dispatch Runner.resolves
  by_cases h1 : step.StepType = "action"
  · simp only [if_pos h1]
    unfold Runner.executeAction
    cases hg : r.actions.Get "action" step.Action with
    | error e => exact ⟨rfl, rfl⟩
    | ok action =>
      dsimp only
      split
      · simp only [sleepCount_emit, callCount_emit]
        exact ⟨rfl, rfl⟩
      · simp only [sleepCount_emit, callCount_emit]
        exact ⟨rfl, rfl⟩
  · by_cases h2 : step.StepType = "assert"
    · simp only [if_neg h1, if_pos h2]
      unfold Runner.executeAssert
      cases hg : r.asserts.Get "assertion" step.Assert with
      | error e => exact ⟨rfl, rfl⟩
      | ok assertion =>
        dsimp only
        split
        · simp only [sleepCount_emit, callCount_emit]
          exact ⟨rfl, rfl⟩
        · simp only [sleepCount_emit, callCount_emit]
          exact ⟨rfl, rfl⟩
    · by_cases h3 : step.StepType = "wait"
      · simp only [if_neg h1, if_neg h2, if_pos h3]
        unfold Runner.executeWait
        dsimp only
        split
        · simp only [sleepCount_emit, callCount_emit, Runner.log]
          simp [Op.isSleep, Op.isCall, h3]
        · simp only [sleepCount_emit, callCount_emit, Runner.log]
          simp [Op.isSleep, Op.isCall, h3]
      · simp only [if_neg h1, if_neg h2, if_neg h3]
        simp [h3]

theorem pause_counts {W : Type} (r : Runner W) (retries attempt : Nat) (m : Mach W) :
    sleepCount (r.pause retries attempt m).trace = sleepCount m.trace + 1
      ∧ callCount (r.pause retries attempt m).trace = callCount m.trace := by
  unfold Runner.pause
  rw [sleepCount_emit, callCount_emit]
  constructor
  · show sleepCount (m.emit (Op.log (LogLine.retry attempt retries))).trace + 1 = _
    rw [sleepCount_emit]
    rfl
  · show callCount (m.emit (Op.log (LogLine.retry attempt retries))).trace + 0 = _
    rw [callCount_emit]
    rfl

/-- The pauses and the capability calls made when attempt number `j + 1` starts and
when it ends: `j` pauses, and one call per attempt when the step names a capability. -/
theorem attempt_counts {W : Type} (r : Runner W) (ctx0 : Context) (step : Step) (m : Mach W)
    (j : Nat) :
    sleepCount (r.beforeAttempt ctx0 step m j).2.trace = sleepCount m.trace + j
      ∧ callCount (r.beforeAttempt ctx0 step m j).2.trace
          = callCount m.trace + (if r.resolves step then j else 0)
      ∧ sleepCount (r.attemptNo ctx0 step m j).2.trace = sleepCount m.trace + j
      ∧ callCount (r.attemptNo ctx0 step m j).2.trace
          = callCount m.trace + (if r.resolves step then j + 1 else 0) := by
  induction j with
  | zero =>
    obtain ⟨d1, d2⟩ := dispatch_counts r (step.context ctx0) step
      (r.beforeAttempt ctx0 step m 0).1 (r.beforeAttempt ctx0 step m 0).2
    refine ⟨rfl, by simp [Runner.beforeAttempt], d1, ?_⟩
    rw [Runner.attemptNo, d2]
    simp only [Runner.beforeAttempt]
  | succ j ih =>
    obtain ⟨_, _, i3, i4⟩ := ih
    obtain ⟨p1, p2⟩ := pause_counts r step.budget (j + 1) (r.attemptNo ctx0 step m j).2
    have b1 : sleepCount (r.beforeAttempt ctx0 step m (j + 1)).2.trace
        = sleepCount m.trace + (j + 1) := by
      show sleepCount (r.pause step.budget (j + 1) (r.attemptNo ctx0 step m j).2).trace = _
      rw [p1, i3]
      rfl
    have b2 : callCount (r.beforeAttempt ctx0 step m (j + 1)).2.trace
        = callCount m.trace + (if r.resolves step then j + 1 else 0) := by
      show callCount (r.pause step.budget (j + 1) (r.attemptNo ctx0 step m j).2).trace = _
      rw [p2, i4]
    obtain ⟨d1, d2⟩ := dispatch_counts r (step.context ctx0) step
      (r.beforeAttempt ctx0 step m (j + 1)).1 (r.beforeAttempt ctx0 step m (j + 1)).2
    refine ⟨b1, b2, ?_, ?_⟩
    · rw [Runner.attemptNo, d1, b1]
    · rw [Runner.attemptNo, d2, b2]
      split_ifs <;> rfl

/-- What `executeStep` returns once its attempts have ended: the result of the last
attempt with the duration written, its action context and its error. -/
theorem executeStep_of_attempts {W : Type} (r : Runner W) (ctx0 : Context) (step : Step)
    (m : Mach W) (A : StepVars × Mach W) (res : StepResult)
    (h : r.attempts (step.context ctx0) step step.budget step.budget
      { result := none, actx := none, err := none } m = some A)
    (hres : A.1.result = some res) :
    r.executeStep ctx0 step m
      = some (({ res with Duration := r.now A.2.world - r.now m.world }, A.1.actx, A.1.err),
          A.2) := by
  rw [executeStep_eq, h]
  simp only [hres]

/-- The attempts of `executeStep` on a step of a known type: it makes `last` attempts,
where `last` is the number of the first attempt that succeeds when there is one among
the `step.budget` attempts allowed, and `step.budget` otherwise; it returns what attempt
`last` left; it pauses `last - 1` times and calls the capability `last` times. -/
theorem executeStep_attempts {W : Type} (r : Runner W) (ctx0 : Context)
    (step : Step) (m : Mach W) (hk : step.known = true) :
    ∃ last out, 1 ≤ last ∧ last ≤ step.budget
      ∧ (∀ i, i + 1 < last → (r.attemptNo ctx0 step m i).1.succeeded = some false)
      ∧ ((r.attemptNo ctx0 step m (last - 1)).1.succeeded = some true
          ∨ (last = step.budget
            ∧ (r.attemptNo ctx0 step m (last - 1)).1.succeeded = some false))
      ∧ r.executeStep ctx0 step m = some out
      ∧ out.2 = (r.attemptNo ctx0 step m (last - 1)).2
      ∧ (∃ res, (r.attemptNo ctx0 step m (last - 1)).1.result = some res
          ∧ out.1.1 = { res with Duration := r.now out.2.world - r.now m.world })
      ∧ out.1.2.1 = (r.attemptNo ctx0 step m (last - 1)).1.actx
      ∧ out.1.2.2 = (r.attemptNo ctx0 step m (last - 1)).1.err
      ∧ sleepCount out.2.trace = sleepCount m.trace + (last - 1)
      ∧ (r.resolves step = true → callCount out.2.trace = callCount m.trace + last) := by
  obtain ⟨k, hkb⟩ : ∃ k, 0 + (k + 1) = step.budget :=
    ⟨step.budget - 1, by have := budget_pos step; omega⟩
  obtain ⟨last, h1, h2, h3, h4, h5⟩ := attempts_first r ctx0 step m hk k 0 hkb
  have hk1 : k + 1 = step.budget := by omega
  have hres : (r.attemptNo ctx0 step m (last - 1)).1.result ≠ none :=
    dispatch_known r _ step _ _ hk
  obtain ⟨res, hres1⟩ := Option.ne_none_iff_exists'.mp hres
  obtain ⟨_, _, c3, c4⟩ := attempt_counts r ctx0 step m (last - 1)
  rw [hk1] at h5
  have hrun := executeStep_of_attempts r ctx0 step m _ res h5 hres1
  refine ⟨last, _, h1, h2, fun i hi => h3 i (Nat.zero_le i) hi, h4, hrun, rfl, ⟨res, hres1, rfl⟩,
    rfl, rfl, c3, ?_⟩
  intro hr
  show callCount (r.attemptNo ctx0 step m (last - 1)).2.trace = _
  rw [c4, if_pos hr]
  omega

/-- C16: for every step of a known type, whatever the attempts return, `executeStep`
makes exactly `last` attempts, where `last` is the number of the first attempt that
succeeds (no error and `Success`) when there is one among the `max(1, retries)`
attempts allowed, and that maximum otherwise; it returns the result, the action context,
the error and the machine of attempt `last`; it pauses once after each of the failed
attempts before `last` and nowhere else (`last - 1` pauses); and it calls the capability
of the step once per attempt (`last` calls) when the step names a registered action, a
registered assertion, or is a wait. -/
theorem C16_attempts_stop_at_first_success {W : Type} (r : Runner W) (ctx0 : Context)
    (step : Step) (m : Mach W) (hk : step.known = true) :
    ∃ last out, 1 ≤ last ∧ last ≤ step.budget
      ∧ (∀ i, i + 1 < last → (r.attemptNo ctx0 step m i).1.succeeded = some false)
      ∧ ((r.attemptNo ctx0 step m (last - 1)).1.succeeded = some true
          ∨ (last = step.budget
            ∧ (r.attemptNo ctx0 step m (last - 1)).1.succeeded = some false))
      ∧ r.executeStep ctx0 step m = some out
      ∧ out.2 = (r.attemptNo ctx0 step m (last - 1)).2
      ∧ (∃ res, (r.attemptNo ctx0 step m (last - 1)).1.result = some res
          ∧ out.1.1 = { res with Duration := r.now out.2.world - r.now m.world })
      ∧ out.1.2.1 = (r.attemptNo ctx0 step m (last - 1)).1.actx
      ∧ out.1.2.2 = (r.attemptNo ctx0 step m (last - 1)).1.err
      ∧ sleepCount out.2.trace = sleepCount m.trace + (last - 1)
      ∧ (r.resolves step = true → callCount out.2.trace = callCount m.trace + last) :=
  executeStep_attempts r ctx0 step m hk

/-- C16 at a concrete step: the action `flaky` with five attempts allowed, which fails
twice and succeeds at the third attempt. -/
theorem C16_attempts_stop_at_first_success_witness :
    (Demo.retrying "flaky" 5).known = true
      ∧ ∃ last out, 1 ≤ last ∧ last ≤ (Demo.retrying "flaky" 5).budget
        ∧ (∀ i, i + 1 < last → ((Demo.counting false).attemptNo []
            (Demo.retrying "flaky" 5) Demo.fresh i).1.succeeded = some false)
        ∧ (((Demo.counting false).attemptNo [] (Demo.retrying "flaky" 5) Demo.fresh
              (last - 1)).1.succeeded = some true
            ∨ (last = (Demo.retrying "flaky" 5).budget
              ∧ ((Demo.counting false).attemptNo [] (Demo.retrying "flaky" 5) Demo.fresh
                (last - 1)).1.succeeded = some false))
        ∧ (Demo.counting false).executeStep [] (Demo.retrying "flaky" 5) Demo.fresh = some out
        ∧ out.2 = ((Demo.counting false).attemptNo [] (Demo.retrying "flaky" 5) Demo.fresh
            (last - 1)).2
        ∧ (∃ res, ((Demo.counting false).attemptNo [] (Demo.retrying "flaky" 5) Demo.fresh
              (last - 1)).1.result = some res
            ∧ out.1.1 = { res with Duration := (Demo.counting false).now out.2.world
                - (Demo.counting false).now Demo.fresh.world })
        ∧ out.1.2.1 = ((Demo.counting false).attemptNo [] (Demo.retrying "flaky" 5) Demo.fresh
            (last - 1)).1.actx
        ∧ out.1.2.2 = ((Demo.counting false).attemptNo [] (Demo.retrying "flaky" 5) Demo.fresh
            (last - 1)).1.err
        ∧ sleepCount out.2.trace = sleepCount Demo.fresh.trace + (last - 1)
        ∧ ((Demo.counting false).resolves (Demo.retrying "flaky" 5) = true
          → callCount out.2.trace = callCount Demo.fresh.trace + last) :=
  ⟨by decide, C16_attempts_stop_at_first_success (Demo.counting false) []
    (Demo.retrying "flaky" 5) Demo.fresh (by decide)⟩

/-- The attempts at the action `flaky` with five allowed, evaluated: three calls of
`Execute`, a pause after each of the two that fail, and the outcome of the third. -/
theorem flaky_run :
    ((Demo.counting false).executeStep [] (Demo.retrying "flaky" 5) Demo.fresh).map
        (fun out => (out.1.1, out.1.2.2, out.2.trace))
      = some ({ Success := true, Message := "Executed flaky", Duration := 3 }, none,
          [Op.execute 0 "flaky" false, Op.log (LogLine.retry 1 5), Op.sleep,
            Op.execute 1 "flaky" false, Op.log (LogLine.retry 2 5), Op.sleep,
            Op.execute 2 "flaky" true]) := by
  decide
/-! ## Failures that the attempts repeat -/

theorem succeeded_of_err {v : StepVars} (h : v.err ≠ none) : v.succeeded = some false := by
  unfold StepVars.succeeded
  cases he : v.err with
  | none => exact absurd he h
  | some e => rfl

/-- An attempt at a step whose action or assertion is not registered fails with an
error. -/
theorem dispatch_unregistered {W : Type} (r : Runner W) (ctx : Context) (step : Step)
    (v : StepVars) (m : Mach W) (h : r.unregistered step = true) :
    (r.dispatch ctx step v m).1.err ≠ none := by
  unfold Runner.unregistered at h
  unfold Runner.dispatch
  by_cases h1 : step.StepType = "action"
  · simp only [if_pos h1] at h ⊢
    unfold Runner.executeAction
    cases hg : r.actions.Get "action" step.Action with
    | error e => simp
    | ok action => simp [hg] at h
  · by_cases h2 : step.StepType = "assert"
    · simp only [if_neg h1, if_pos h2] at h ⊢
      unfold Runner.executeAssert
      cases hg : r.asserts.Get "assertion" step.Assert with
      | error e => simp
      | ok assertion => simp [hg] at h
    · simp [if_neg h1, if_neg h2] at h

/-- An attempt at a wait step whose context is done fails with an error. -/
theorem dispatch_interrupted {W : Type} (r : Runner W) (ctx : Context) (step : Step)
    (v : StepVars) (m : Mach W) (h : r.interrupted ctx step) :
    (r.dispatch ctx step v m).1.err ≠ none := by
  obtain ⟨h3, hw⟩ := h
  have h1 : ¬ step.StepType = "action" := by rw [h3]; decide
  have h2 : ¬ step.StepType = "assert" := by rw [h3]; decide
  unfold Runner.dispatch
  simp only [if_neg h1, if_neg h2, if_pos h3]
  unfold Runner.executeWait
  dsimp only
  have := hw (r.log m (LogLine.waiting step.Wait)).world
  split
  · simp
  · rename_i hnone
    exact absurd hnone this

/-- C17 (as amended): `executeStep` repeats every failed attempt, whatever made it fail.
For every step of a known type whose attempts all fail (in particular a step naming an
action or an assertion that is not registered, and a wait step whose context is
cancelled), `executeStep` makes all `max(1, retries)` attempts, pauses after each of
them but the last, and returns the failure of the last attempt; with `retries > 1` it
pauses at least once. -/
theorem C17_failed_attempts_are_all_repeated {W : Type} (r : Runner W) (ctx0 : Context)
    (step : Step) (m : Mach W) (hk : step.known = true)
    (hfail : r.unregistered step = true ∨ r.interrupted (step.context ctx0) step
      ∨ ∀ i, i < step.budget → (r.attemptNo ctx0 step m i).1.succeeded = some false) :
    ∃ out, r.executeStep ctx0 step m = some out
      ∧ (∀ i, i < step.budget → (r.attemptNo ctx0 step m i).1.succeeded = some false)
      ∧ out.2 = (r.attemptNo ctx0 step m (step.budget - 1)).2
      ∧ out.1.2.1 = (r.attemptNo ctx0 step m (step.budget - 1)).1.actx
      ∧ out.1.2.2 = (r.attemptNo ctx0 step m (step.budget - 1)).1.err
      ∧ (out.1.2.2 ≠ none ∨ out.1.1.Success = false)
      ∧ (r.unregistered step = true ∨ r.interrupted (step.context ctx0) step
          → out.1.2.2 ≠ none)
      ∧ sleepCount out.2.trace = sleepCount m.trace + (step.budget - 1)
      ∧ (r.resolves step = true → callCount out.2.trace = callCount m.trace + step.budget)
      ∧ (1 < step.Retries → sleepCount m.trace < sleepCount out.2.trace) := by
  have hall : ∀ i, i < step.budget → (r.attemptNo ctx0 step m i).1.succeeded = some false := by
    rcases hfail with h | h | h
    · intro i _
      exact succeeded_of_err (dispatch_unregistered r _ step _ _ h)
    · intro i _
      exact succeeded_of_err (dispatch_interrupted r _ step _ _ h)
    · exact h
  obtain ⟨last, out, h1, h2, _, h4, h5, h6, ⟨res, h7, h8⟩, h9, h10, h11, h12⟩ :=
    executeStep_attempts r ctx0 step m hk
  have hlast : last = step.budget := by
    rcases h4 with h | h
    · have := hall (last - 1) (by omega)
      rw [this] at h
      cases h
    · exact h.1
  subst hlast
  have hf := hall (step.budget - 1) (by omega)
  refine ⟨out, h5, hall, h6, h9, h10, ?_, ?_, h11, h12, ?_⟩
  · rw [h10, h8]
    unfold StepVars.succeeded at hf
    cases he : (r.attemptNo ctx0 step m (step.budget - 1)).1.err with
    | some e => exact Or.inl (by simp)
    | none =>
      rw [he, h7] at hf
      right
      simpa using hf
  · intro h
    rw [h10]
    rcases h with h | h
    · exact dispatch_unregistered r _ step _ _ h
    · exact dispatch_interrupted r _ step _ _ h
  · intro hr
    rw [h11]
    have : 2 ≤ step.budget := by
      unfold Step.budget
      rw [if_neg (by omega)]
      omega
    omega

/-- C17 at a concrete step: an action step with three attempts allowed whose action
"ghost" is not registered. -/
theorem C17_failed_attempts_are_all_repeated_witness :
    (Demo.retrying "ghost" 3).known = true
      ∧ ((Demo.counting true).unregistered (Demo.retrying "ghost" 3) = true
        ∨ (Demo.counting true).interrupted ((Demo.retrying "ghost" 3).context [])
            (Demo.retrying "ghost" 3)
        ∨ ∀ i, i < (Demo.retrying "ghost" 3).budget → ((Demo.counting true).attemptNo []
            (Demo.retrying "ghost" 3) Demo.fresh i).1.succeeded = some false)
      ∧ ∃ out, (Demo.counting true).executeStep [] (Demo.retrying "ghost" 3) Demo.fresh
          = some out
        ∧ (∀ i, i < (Demo.retrying "ghost" 3).budget → ((Demo.counting true).attemptNo []
            (Demo.retrying "ghost" 3) Demo.fresh i).1.succeeded = some false)
        ∧ out.2 = ((Demo.counting true).attemptNo [] (Demo.retrying "ghost" 3) Demo.fresh
            ((Demo.retrying "ghost" 3).budget - 1)).2
        ∧ out.1.2.1 = ((Demo.counting true).attemptNo [] (Demo.retrying "ghost" 3) Demo.fresh
            ((Demo.retrying "ghost" 3).budget - 1)).1.actx
        ∧ out.1.2.2 = ((Demo.counting true).attemptNo [] (Demo.retrying "ghost" 3) Demo.fresh
            ((Demo.retrying "ghost" 3).budget - 1)).1.err
        ∧ (out.1.2.2 ≠ none ∨ out.1.1.Success = false)
        ∧ ((Demo.counting true).unregistered (Demo.retrying "ghost" 3) = true
            ∨ (Demo.counting true).interrupted ((Demo.retrying "ghost" 3).context [])
              (Demo.retrying "ghost" 3)
            → out.1.2.2 ≠ none)
        ∧ sleepCount out.2.trace
            = sleepCount Demo.fresh.trace + ((Demo.retrying "ghost" 3).budget - 1)
        ∧ ((Demo.counting true).resolves (Demo.retrying "ghost" 3) = true
            → callCount out.2.trace
              = callCount Demo.fresh.trace + (Demo.retrying "ghost" 3).budget)
        ∧ (1 < (Demo.retrying "ghost" 3).Retries
            → sleepCount Demo.fresh.trace < sleepCount out.2.trace) :=
  ⟨by decide, Or.inl (by decide),
    C17_failed_attempts_are_all_repeated (Demo.counting true) [] (Demo.retrying "ghost" 3)
      Demo.fresh (by decide) (Or.inl (by decide))⟩

/-- C17 as stated fails: with three attempts allowed, a step whose action "ghost" is
not registered is attempted three times (two retry lines, two pauses) before the "not
found" error is returned, and so is a wait step under a cancelled context (three
interrupted waits, two pauses) before the context error is returned. -/
theorem C17_unregistered_and_cancelled_steps_are_retried :
    (Demo.counting true).unregistered (Demo.retrying "ghost" 3) = true
      ∧ (Demo.retrying "ghost" 3).Retries = 3
      ∧ ((Demo.counting true).executeStep [] (Demo.retrying "ghost" 3) Demo.fresh).map
          (fun out => (out.1.1.Success, out.1.2.2, out.2.trace))
        = some (false, some "action \"ghost\" not found",
            [Op.log (LogLine.retry 1 3), Op.sleep, Op.log (LogLine.retry 2 3), Op.sleep])
      ∧ (Demo.counting true).interrupted (Demo.pausing.context []) Demo.pausing
      ∧ ((Demo.counting true).done [] 0).1 = true
      ∧ Demo.pausing.Retries = 3
      ∧ ((Demo.counting true).executeStep [] Demo.pausing Demo.fresh).map
          (fun out => (out.1.1.Success, out.1.2.2, out.2.trace))
        = some (false, some "context canceled",
            [Op.log (LogLine.waiting 5000000000), Op.wait 5000000000 false,
              Op.log (LogLine.retry 1 3), Op.sleep,
              Op.log (LogLine.waiting 5000000000), Op.wait 5000000000 false,
              Op.log (LogLine.retry 2 3), Op.sleep,
              Op.log (LogLine.waiting 5000000000), Op.wait 5000000000 false]) :=
  ⟨by decide, by decide, by decide, ⟨by decide, fun _ => by simp [Demo.counting]⟩, by decide,
    by decide, by decide⟩

/-! ## The state of an action context -/

/-- Writing a key of a map leaves the other keys as they were. -/
theorem Dict.get_set_other (d : Dict) (k k1 : String) (v : Value) (h : k1 ≠ k) :
    (d.set k v).get k1 = d.get k1 := by
  unfold Dict.get Dict.set
  have hk : ((k, v).1 == k1) = false := by
    simp only [beq_eq_false_iff_ne, ne_eq]
    exact fun e => h e.symm
  rw [List.find?_cons_of_neg _ (by simp [hk]), List.find?_filter]
  congr 2
  funext kv
  by_cases h1 : kv.1 = k1
  · have : ¬ kv.1 = k := fun e => h (h1.symm.trans e)
    simp [h1, this]
    exact fun e => h e
  · simp [h1]

/-- Reading back the key just written. -/
theorem Dict.get_set_same (d : Dict) (k : String) (v : Value) :
    (d.set k v).get k = some v := by
  simp [Dict.get, Dict.set]
/-- C18 as stated fails: the action `probe` leaves the one key "touched" in its state,
but the state its `Rollback` receives in the run also holds the key "_action_name",
written by the runner; and the runner reads that key, since the same retained context
is rolled back when its state holds the key and skipped when it does not. -/
theorem C18_runner_writes_and_reads_the_action_state :
    (Demo.probeAction.Execute [] (NewActionContext Demo.probing.cluster 0) [] []).1.1
        = [("touched", Value.str "server-0")]
      ∧ (Demo.probing.Run [] (Demo.scenario [Demo.act "probe" ""] []) []).map
          (fun res => res.m.world)
        = some [[("_action_name", Value.str "probe"), ("touched", Value.str "server-0")]]
      ∧ (Demo.probing.rollbacks []
            [Demo.retained [("_action_name", Value.str "probe"),
              ("touched", Value.str "server-0")]]
            (NewReport "demo" 0) { world := [], heap := 1, trace := [] }).2.world
        = [[("_action_name", Value.str "probe"), ("touched", Value.str "server-0")]]
      ∧ (Demo.probing.rollbacks [] [Demo.retained [("touched", Value.str "server-0")]]
            (NewReport "demo" 0) { world := [], heap := 1, trace := [] }).2.world
        = [] := by
  decide

/-- C18 (as amended): of the state of an action context the runner writes and reads
exactly one key, "_action_name". For a step naming a registered action, `executeAction`
retains the context with the state `Execute` left, in which it has set "_action_name" to
the name of the action when `Execute` returned no error and which it has not touched
otherwise; every other key reads as `Execute` left it. The rollback loop skips a
retained context whose "_action_name" is not a non-empty string, and otherwise passes
the retained context itself (its state with that key) to the `Rollback` of the action
registered under that name. -/
theorem C18_runner_touches_only_the_action_name_key {W : Type} (r : Runner W)
    (ctx : Context) (step : Step) (m : Mach W) (action : Action W)
    (hget : r.actions.Get "action" step.Action = Except.ok action) :
    (∃ actx, (r.executeAction ctx step m).1.2.1 = some actx
        ∧ actx.addr = m.heap ∧ actx.Cluster = r.cluster
        ∧ (r.executeAction ctx step m).1.2.2
          = (action.Execute ctx (NewActionContext r.cluster m.heap) step.Args m.world).1.2
        ∧ ((action.Execute ctx (NewActionContext r.cluster m.heap) step.Args m.world).1.2
            = none
          → actx.State
            = (action.Execute ctx (NewActionContext r.cluster m.heap) step.Args
                m.world).1.1.set "_action_name" (Value.str step.Action))
        ∧ ((action.Execute ctx (NewActionContext r.cluster m.heap) step.Args m.world).1.2
            ≠ none
          → actx.State
            = (action.Execute ctx (NewActionContext r.cluster m.heap) step.Args
                m.world).1.1)
        ∧ ∀ k, k ≠ "_action_name" → actx.State.get k
            = (action.Execute ctx (NewActionContext r.cluster m.heap) step.Args
                m.world).1.1.get k)
      ∧ ∀ (actx : ActionContext) (rest : List ActionContext) (rep : Report) (m1 : Mach W),
          (actx.State.getString "_action_name" = ""
            → r.rollbacks ctx (actx :: rest) rep m1 = r.rollbacks ctx rest rep m1)
          ∧ ∀ a, actx.State.getString "_action_name" ≠ ""
            → r.actions.Get "action" (actx.State.getString "_action_name") = Except.ok a
            → ∃ rep1 m2, r.rollbacks ctx (actx :: rest) rep m1 = r.rollbacks ctx rest rep1 m2
                ∧ m2.world = (a.Rollback ctx actx m1.world).2
                ∧ m2.heap = m1.heap
                ∧ Op.rollback actx.addr (actx.State.getString "_action_name")
                    ((a.Rollback ctx actx m1.world).1 == none) ∈ m2.trace := by
  constructor
  · unfold Runner.executeAction
    rw [hget]
    dsimp only
    cases he : (action.Execute ctx (NewActionContext r.cluster m.heap) step.Args
        m.world).1.2 with
    | some e =>
      refine ⟨_, rfl, rfl, rfl, rfl, fun h => Option.noConfusion h, fun _ => rfl, fun k _ => rfl⟩
    | none =>
      refine ⟨_, rfl, rfl, rfl, rfl, fun _ => rfl, fun h => absurd rfl h, fun k hk => ?_⟩
      exact Dict.get_set_other _ _ _ _ hk
  · intro actx rest rep m1
    constructor
    · intro h
      simp only [Runner.rollbacks, h, if_true]
    · intro a hne hga
      simp only [Runner.rollbacks, hne, if_false, hga]
      cases hr : (a.Rollback ctx actx (r.log m1
          (LogLine.rollingBack (actx.State.getString "_action_name"))).world).1 with
      | some e =>
        refine ⟨_, _, rfl, rfl, rfl, ?_⟩
        have hr1 : (a.Rollback ctx actx m1.world).1 = some e := hr
        simp [Runner.log, Mach.emit, hr1]
      | none =>
        refine ⟨_, _, rfl, rfl, rfl, ?_⟩
        have hr1 : (a.Rollback ctx actx m1.world).1 = none := hr
        simp [Runner.log, Mach.emit, hr1]

/-- C18 at a concrete step: the action `probe` of the recording runner. -/
theorem C18_runner_touches_only_the_action_name_key_witness :
    Demo.probing.actions.Get "action" (Demo.act "probe" "").Action
        = Except.ok Demo.probeAction
      ∧ ∃ actx, (Demo.probing.executeAction [] (Demo.act "probe" "")
            { world := [], heap := 0, trace := [] }).1.2.1 = some actx
          ∧ actx.State
            = [("_action_name", Value.str "probe"), ("touched", Value.str "server-0")] :=
  ⟨rfl, by
    obtain ⟨⟨actx, h1, _, _, _, h5, _, _⟩, _⟩ :=
      C18_runner_touches_only_the_action_name_key Demo.probing [] (Demo.act "probe" "")
        { world := [], heap := 0, trace := [] } Demo.probeAction rfl
    exact ⟨actx, h1, h5 rfl⟩⟩

/-! ## The partition action -/

/-- The four commands against one address are pairwise distinct. -/
theorem rule_cmds_distinct (ip : String) :
    DropRule.insertCmd { chain := Chain.input, blockIP := ip }
        ≠ DropRule.insertCmd { chain := Chain.output, blockIP := ip }
      ∧ DropRule.insertCmd { chain := Chain.input, blockIP := ip }
        ≠ DropRule.deleteCmd { chain := Chain.input, blockIP := ip }
      ∧ DropRule.insertCmd { chain := Chain.input, blockIP := ip }
        ≠ DropRule.deleteCmd { chain := Chain.output, blockIP := ip }
      ∧ DropRule.insertCmd { chain := Chain.output, blockIP := ip }
        ≠ DropRule.deleteCmd { chain := Chain.input, blockIP := ip }
      ∧ DropRule.insertCmd { chain := Chain.output, blockIP := ip }
        ≠ DropRule.deleteCmd { chain := Chain.output, blockIP := ip }
      ∧ DropRule.deleteCmd { chain := Chain.input, blockIP := ip }
        ≠ DropRule.deleteCmd { chain := Chain.output, blockIP := ip } := by
  refine ⟨?_, ?_, ?_, ?_, ?_, ?_⟩ <;>
  · intro h
    have := congrArg String.data h
    simp [DropRule.insertCmd, DropRule.deleteCmd] at this

theorem copies_append (node : Node) (rule : DropRule) (a b : List RemoteOp) :
    copies node rule (a ++ b) = b.foldl (tally node rule) (copies node rule a) := by
  simp [copies, List.foldl_append]

/-- Calls made on other nodes leave the copies on `node` as they are. -/
theorem tally_elsewhere (node other : Node) (rule : DropRule) (h : other ≠ node)
    (d : List RemoteOp) (hd : ∀ op ∈ d, op.node = some other) (n : Nat) :
    d.foldl (tally node rule) n = n := by
  induction d generalizing n with
  | nil => rfl
  | cons op rest ih =>
    have hop := hd op (List.mem_cons_self _ _)
    have hrest : ∀ op ∈ rest, op.node = some other :=
      fun o ho => hd o (List.mem_cons_of_mem _ ho)
    rw [List.foldl_cons]
    have : tally node rule n op = n := by
      cases op with
      | run nd cmd ok =>
        have hnd : nd = other := by simpa [RemoteOp.node] using hop
        cases ok
        · rfl
        · simp [tally, hnd, h]
      | ssh nd ok => rfl
      | close nd => rfl
      | leader ok => rfl
    rw [this]
    exact ih hrest n

/-- The calls of the loop of `addPartitionRules` are made on its node; when it returns
no error they are its commands, each one successful. -/
theorem addLoop_ops {W : Type} (drv : Driver W) (ctx : Context) (node : Node)
    (rules : List String) (s : Remote W) :
    (∃ d, (PartitionAction.addLoop drv ctx node rules s).2.ops = s.ops ++ d
        ∧ ∀ op ∈ d, op.node = some node)
      ∧ ((PartitionAction.addLoop drv ctx node rules s).1 = none
        → (PartitionAction.addLoop drv ctx node rules s).2.ops
          = s.ops ++ rules.map (fun cmd => RemoteOp.run node cmd true)) := by
  induction rules generalizing s with
  | nil => exact ⟨⟨[], by simp [PartitionAction.addLoop], by simp⟩,
      fun _ => by simp [PartitionAction.addLoop]⟩
  | cons rule rest ih =>
    unfold PartitionAction.addLoop
    dsimp only
    have hops : (s.runWithSudo drv ctx node rule).2.ops
        = s.ops ++ [RemoteOp.run node rule ((s.runWithSudo drv ctx node rule).1.err.isNone
            && (s.runWithSudo drv ctx node rule).1.exitCode == 0)] := rfl
    cases herr : (s.runWithSudo drv ctx node rule).1.err with
    | some err =>
      refine ⟨⟨_, hops, ?_⟩, fun h => by simp at h⟩
      intro op hop
      rw [List.mem_singleton] at hop
      rw [hop]
      rfl
    | none =>
      dsimp only
      by_cases hexit : (s.runWithSudo drv ctx node rule).1.exitCode = 0
      · rw [if_neg (by simpa using hexit)]
        obtain ⟨⟨d, h1, h2⟩, h3⟩ := ih (s.runWithSudo drv ctx node rule).2
        have hok : ((s.runWithSudo drv ctx node rule).1.err.isNone
            && (s.runWithSudo drv ctx node rule).1.exitCode == 0) = true := by
          simp [herr, hexit]
        rw [hok] at hops
        refine ⟨⟨RemoteOp.run node rule true :: d, ?_, ?_⟩, ?_⟩
        · rw [h1, hops]
          simp
        · intro op hop
          rcases List.mem_cons.mp hop with h | h
          · rw [h]
            rfl
          · exact h2 op h
        · intro h
          rw [h3 h, hops]
          simp
      · rw [if_pos hexit]
        refine ⟨⟨_, hops, ?_⟩, fun h => by simp at h⟩
        intro op hop
        rw [List.mem_singleton] at hop
        rw [hop]
        rfl

/-- The calls of `addPartitionRules` are made on its node; when it returns no error they
are the opening of the session, the two inserts, each one successful, and the closing. -/
theorem addPartitionRules_ops {W : Type} (drv : Driver W) (ctx : Context) (node : Node)
    (blockIP : String) (s : Remote W) :
    (∃ d, (PartitionAction.addPartitionRules drv ctx node blockIP s).2.ops = s.ops ++ d
        ∧ ∀ op ∈ d, op.node = some node)
      ∧ ((PartitionAction.addPartitionRules drv ctx node blockIP s).1 = none
        → (PartitionAction.addPartitionRules drv ctx node blockIP s).2.ops
          = s.ops ++ inserted node blockIP) := by
  unfold PartitionAction.addPartitionRules
  dsimp only
  have hdial : (s.dial drv ctx node).2.ops
      = s.ops ++ [RemoteOp.ssh node (s.dial drv ctx node).1.isNone] := rfl
  cases hconn : (s.dial drv ctx node).1 with
  | some err =>
    refine ⟨⟨_, hdial, ?_⟩, fun h => by simp at h⟩
    intro op hop
    rw [List.mem_singleton] at hop
    rw [hop]
    rfl
  | none =>
    dsimp only
    rw [hconn] at hdial
    obtain ⟨⟨d, h1, h2⟩, h3⟩ := addLoop_ops drv ctx node
      ["iptables -I INPUT -s " ++ blockIP ++ " -j DROP -m comment --comment chaos-partition",
        "iptables -I OUTPUT -d " ++ blockIP ++ " -j DROP -m comment --comment chaos-partition"]
      (s.dial drv ctx node).2
    refine ⟨⟨RemoteOp.ssh node true :: (d ++ [RemoteOp.close node]), ?_, ?_⟩, ?_⟩
    · show _ ++ [RemoteOp.close node] = _
      rw [h1, hdial]
      simp
    · intro op hop
      rcases List.mem_cons.mp hop with h | h
      · rw [h]
        rfl
      · rcases List.mem_append.mp h with h | h
        · exact h2 op h
        · rw [List.mem_singleton] at h
          rw [h]
          rfl
    · intro h
      show _ ++ [RemoteOp.close node] = _
      rw [h3 h, hdial]
      simp [inserted, DropRule.insertCmd]

/-- The calls of the loop of `removePartitionRules`: one per command, whatever the
earlier ones returned; it returns no error exactly when it started with none and every
command succeeded. -/
theorem removeLoop_ops {W : Type} (drv : Driver W) (ctx : Context) (node : Node)
    (rules : List String) (lastErr : Error) (s : Remote W) :
    ∃ oks : List Bool, oks.length = rules.length
      ∧ (PartitionAction.removeLoop drv ctx node rules lastErr s).2.ops
          = s.ops ++ List.zipWith (fun cmd ok => RemoteOp.run node cmd ok) rules oks
      ∧ ((PartitionAction.removeLoop drv ctx node rules lastErr s).1 = none
          ↔ lastErr = none ∧ ∀ ok ∈ oks, ok = true) := by
  induction rules generalizing lastErr s with
  | nil => exact ⟨[], rfl, by simp [PartitionAction.removeLoop], by
      simp [PartitionAction.removeLoop]⟩
  | cons rule rest ih =>
    unfold PartitionAction.removeLoop
    dsimp only
    have hops : (s.runWithSudo drv ctx node rule).2.ops
        = s.ops ++ [RemoteOp.run node rule ((s.runWithSudo drv ctx node rule).1.err.isNone
            && (s.runWithSudo drv ctx node rule).1.exitCode == 0)] := rfl
    cases herr : (s.runWithSudo drv ctx node rule).1.err with
    | some err =>
      dsimp only
      obtain ⟨oks, h1, h2, h3⟩ := ih (some ("executing " ++ quote rule ++ ": " ++ err))
        (s.runWithSudo drv ctx node rule).2
      have hok : ((s.runWithSudo drv ctx node rule).1.err.isNone
          && (s.runWithSudo drv ctx node rule).1.exitCode == 0) = false := by
        simp [herr]
      rw [hok] at hops
      refine ⟨false :: oks, by simp [h1], ?_, ?_⟩
      · rw [h2, hops]
        simp
      · rw [h3]
        simp
    | none =>
      dsimp only
      by_cases hexit : (s.runWithSudo drv ctx node rule).1.exitCode = 0
      · rw [if_neg (by simpa using hexit)]
        obtain ⟨oks, h1, h2, h3⟩ := ih lastErr (s.runWithSudo drv ctx node rule).2
        have hok : ((s.runWithSudo drv ctx node rule).1.err.isNone
            && (s.runWithSudo drv ctx node rule).1.exitCode == 0) = true := by
          simp [herr, hexit]
        rw [hok] at hops
        refine ⟨true :: oks, by simp [h1], ?_, ?_⟩
        · rw [h2, hops]
          simp
        · rw [h3]
          simp
      · rw [if_pos hexit]
        obtain ⟨oks, h1, h2, h3⟩ := ih
          (some ("iptables failed (exit "
            ++ toString (s.runWithSudo drv ctx node rule).1.exitCode ++ "): "
            ++ (s.runWithSudo drv ctx node rule).1.stderr))
          (s.runWithSudo drv ctx node rule).2
        have hok : ((s.runWithSudo drv ctx node rule).1.err.isNone
            && (s.runWithSudo drv ctx node rule).1.exitCode == 0) = false := by
          simp [herr, hexit]
        rw [hok] at hops
        refine ⟨false :: oks, by simp [h1], ?_, ?_⟩
        · rw [h2, hops]
          simp
        · rw [h3]
          simp

/-- The calls of `removePartitionRules`: when the session does not open, that failed
opening alone, and an error; when it opens, the opening, the two deletes, the second
whatever the first returned, and the closing, and no error exactly when both deletes
succeeded. -/
theorem removePartitionRules_ops {W : Type} (drv : Driver W) (ctx : Context) (node : Node)
    (blockIP : String) (s : Remote W) :
    ((drv.SSH ctx node s.world).1 ≠ none
        → (PartitionAction.removePartitionRules drv ctx node blockIP s).2.ops
            = s.ops ++ [RemoteOp.ssh node false]
          ∧ (PartitionAction.removePartitionRules drv ctx node blockIP s).1 ≠ none)
      ∧ ((drv.SSH ctx node s.world).1 = none
        → ∃ ok1 ok2, (PartitionAction.removePartitionRules drv ctx node blockIP s).2.ops
            = s.ops ++ reversed node blockIP ok1 ok2
          ∧ ((PartitionAction.removePartitionRules drv ctx node blockIP s).1 = none
            ↔ ok1 = true ∧ ok2 = true)) := by
  unfold PartitionAction.removePartitionRules
  dsimp only
  have hdial : (s.dial drv ctx node).2.ops
      = s.ops ++ [RemoteOp.ssh node (s.dial drv ctx node).1.isNone] := rfl
  have hd1 : (s.dial drv ctx node).1 = (drv.SSH ctx node s.world).1 := rfl
  constructor
  · intro h
    cases hconn : (s.dial drv ctx node).1 with
    | none => exact absurd (hd1 ▸ hconn) h
    | some err =>
      rw [hconn] at hdial
      exact ⟨hdial, by simp⟩
  · intro h
    rw [← hd1] at h
    rw [h] at hdial
    rw [h]
    dsimp only
    obtain ⟨oks, h1, h2, h3⟩ := removeLoop_ops drv ctx node
      ["iptables -D INPUT -s " ++ blockIP ++ " -j DROP -m comment --comment chaos-partition",
        "iptables -D OUTPUT -d " ++ blockIP ++ " -j DROP -m comment --comment chaos-partition"]
      none (s.dial drv ctx node).2
    match oks, h1 with
    | [ok1, ok2], _ =>
      refine ⟨ok1, ok2, ?_, ?_⟩
      · show _ ++ [RemoteOp.close node] = _
        rw [h2, hdial]
        simp [reversed, DropRule.deleteCmd]
      · rw [h3]
        simp
/-- `Execute` on arguments that name two servers: the state it stores and the rules it
applies. -/
theorem Execute_eq {W : Type} (drv : Driver W) (ctx : Context) (actx : ActionContext)
    (args : Dict) (s : Remote W) (sourceArg targetArg : String) (source target : Node)
    (hs : args.get "source" = some (Value.str sourceArg))
    (ht : args.get "target" = some (Value.str targetArg))
    (hsrc : actx.Cluster.ServerByName sourceArg = Except.ok source)
    (htgt : actx.Cluster.ServerByName targetArg = Except.ok target) :
    PartitionAction.Execute drv ctx actx args s
      = ((PartitionAction.record actx.State source target (PartitionAction.bidirectional args),
          (PartitionAction.apply drv ctx source target (PartitionAction.bidirectional args)
            s).1),
        (PartitionAction.apply drv ctx source target (PartitionAction.bidirectional args)
          s).2) := by
  unfold PartitionAction.Execute
  simp only [hs, ht, hsrc, htgt]

/-- The two rules inserted on a node and deleted there again, with calls on another
node in between, leave no copy on the node. -/
theorem copies_reversed (node other : Node) (ip : String) (d : List RemoteOp)
    (hne : other ≠ node) (hd : ∀ op ∈ d, op.node = some other) :
    copies node { chain := Chain.input, blockIP := ip }
        (inserted node ip ++ d ++ reversed node ip true true) = 0
      ∧ copies node { chain := Chain.output, blockIP := ip }
        (inserted node ip ++ d ++ reversed node ip true true) = 0 := by
  obtain ⟨h1, h2, h3, h4, h5, h6⟩ := rule_cmds_distinct ip
  constructor
  · rw [copies_append, copies_append, tally_elsewhere node other _ hne d hd]
    simp [copies, inserted, reversed, tally, h1, h1.symm, h2, h2.symm, h3, h3.symm, h4,
      h4.symm, h5, h5.symm, h6, h6.symm]
  · rw [copies_append, copies_append, tally_elsewhere node other _ hne d hd]
    simp [copies, inserted, reversed, tally, h1, h1.symm, h2, h2.symm, h3, h3.symm, h4,
      h4.symm, h5, h5.symm, h6, h6.symm]

/-- The two rules inserted on a node and not deleted there, with calls on another node
after them, are left on the node. -/
theorem copies_inserted (node other : Node) (ip : String) (d : List RemoteOp)
    (hne : other ≠ node) (hd : ∀ op ∈ d, op.node = some other) :
    copies node { chain := Chain.input, blockIP := ip } (inserted node ip ++ d) = 1
      ∧ copies node { chain := Chain.output, blockIP := ip } (inserted node ip ++ d) = 1 := by
  obtain ⟨h1, h2, h3, h4, h5, h6⟩ := rule_cmds_distinct ip
  constructor
  · rw [copies_append, tally_elsewhere node other _ hne d hd]
    simp [copies, inserted, tally, h1, h1.symm, h2, h2.symm, h3, h3.symm, h4,
      h4.symm, h5, h5.symm, h6, h6.symm]
  · rw [copies_append, tally_elsewhere node other _ hne d hd]
    simp [copies, inserted, tally, h1, h1.symm, h2, h2.symm, h3, h3.symm, h4,
      h4.symm, h5, h5.symm, h6, h6.symm]
/-- C19 as stated fails: in a bidirectional partition between two servers, the second
insert on the target fails and the session to the source then cannot be opened again
(as when the context has expired). `Execute` returns the error of the target side
having issued no delete command at all, and both drop rules it inserted on the source
remain. -/
theorem C19_source_rules_remain_when_the_source_cannot_be_reached :
    PartitionAction.bidirectional Demo.partitionArgs = true
      ∧ (PartitionAction.addPartitionRules (Demo.failing [5, 6]) [] Demo.server1 "10.0.0.10"
          (PartitionAction.addPartitionRules (Demo.failing [5, 6]) [] Demo.server0 "10.0.0.11"
            Demo.untouched).2).1
        = some "iptables failed (exit 4): iptables: Resource temporarily unavailable."
      ∧ (PartitionAction.Execute (Demo.failing [5, 6]) [] (NewActionContext Demo.pair 0)
          Demo.partitionArgs Demo.untouched).1.2
        = some ("adding rules on server-1: iptables failed (exit 4): "
            ++ "iptables: Resource temporarily unavailable.")
      ∧ (PartitionAction.Execute (Demo.failing [5, 6]) [] (NewActionContext Demo.pair 0)
          Demo.partitionArgs Demo.untouched).2.ops
        = [RemoteOp.ssh Demo.server0 true,
            RemoteOp.run Demo.server0
              "iptables -I INPUT -s 10.0.0.11 -j DROP -m comment --comment chaos-partition" true,
            RemoteOp.run Demo.server0
              "iptables -I OUTPUT -d 10.0.0.11 -j DROP -m comment --comment chaos-partition" true,
            RemoteOp.close Demo.server0,
            RemoteOp.ssh Demo.server1 true,
            RemoteOp.run Demo.server1
              "iptables -I INPUT -s 10.0.0.10 -j DROP -m comment --comment chaos-partition" true,
            RemoteOp.run Demo.server1
              "iptables -I OUTPUT -d 10.0.0.10 -j DROP -m comment --comment chaos-partition"
              false,
            RemoteOp.close Demo.server1,
            RemoteOp.ssh Demo.server0 false]
      ∧ copies Demo.server0 { chain := Chain.input, blockIP := "10.0.0.11" }
          (PartitionAction.Execute (Demo.failing [5, 6]) [] (NewActionContext Demo.pair 0)
            Demo.partitionArgs Demo.untouched).2.ops = 1
      ∧ copies Demo.server0 { chain := Chain.output, blockIP := "10.0.0.11" }
          (PartitionAction.Execute (Demo.failing [5, 6]) [] (NewActionContext Demo.pair 0)
            Demo.partitionArgs Demo.untouched).2.ops = 1 := by
  decide

/-- C19 (as amended): for every bidirectional partition `Execute` between two servers in
which installing the rules on the source succeeds and installing them on the target
fails, `Execute` makes no call after the target side other than opening a new session
to the source and, when that session opens, issuing on it the delete command for each
of the two drop rules it inserted on the source (same chain, same blocked address), the
second whatever the first returned, before it returns the error of the target side.
When both delete commands succeed and the target is another node than the source, no
drop rule of this `Execute` remains on the source. When the session does not open, no
delete command is issued and both rules remain on the source. -/
theorem C19_target_failure_reverses_the_source_rules {W : Type} (drv : Driver W)
    (ctx : Context) (actx : ActionContext) (args : Dict) (s : Remote W)
    (sourceArg targetArg : String) (source target : Node) (e : String)
    (hs : args.get "source" = some (Value.str sourceArg))
    (ht : args.get "target" = some (Value.str targetArg))
    (hb : PartitionAction.bidirectional args = true)
    (hsrc : actx.Cluster.ServerByName sourceArg = Except.ok source)
    (htgt : actx.Cluster.ServerByName targetArg = Except.ok target)
    (hadd1 : (PartitionAction.addPartitionRules drv ctx source target.PrivateIP s).1 = none)
    (hadd2 : (PartitionAction.addPartitionRules drv ctx target source.PrivateIP
        (PartitionAction.addPartitionRules drv ctx source target.PrivateIP s).2).1 = some e) :
    ∃ d, (∀ op ∈ d, op.node = some target)
      ∧ (PartitionAction.addPartitionRules drv ctx target source.PrivateIP
          (PartitionAction.addPartitionRules drv ctx source target.PrivateIP s).2).2.ops
        = s.ops ++ inserted source target.PrivateIP ++ d
      ∧ (PartitionAction.Execute drv ctx actx args s).1.2
        = some ("adding rules on " ++ target.Name ++ ": " ++ e)
      ∧ ((drv.SSH ctx source (PartitionAction.addPartitionRules drv ctx target
            source.PrivateIP (PartitionAction.addPartitionRules drv ctx source
              target.PrivateIP s).2).2.world).1 = none
        → ∃ ok1 ok2, (PartitionAction.Execute drv ctx actx args s).2.ops
            = s.ops ++ (inserted source target.PrivateIP ++ d
                ++ reversed source target.PrivateIP ok1 ok2)
          ∧ (ok1 = true → ok2 = true → target ≠ source
            → copies source { chain := Chain.input, blockIP := target.PrivateIP }
                  (inserted source target.PrivateIP ++ d
                    ++ reversed source target.PrivateIP ok1 ok2) = 0
              ∧ copies source { chain := Chain.output, blockIP := target.PrivateIP }
                  (inserted source target.PrivateIP ++ d
                    ++ reversed source target.PrivateIP ok1 ok2) = 0))
      ∧ ((drv.SSH ctx source (PartitionAction.addPartitionRules drv ctx target
            source.PrivateIP (PartitionAction.addPartitionRules drv ctx source
              target.PrivateIP s).2).2.world).1 ≠ none
        → (PartitionAction.Execute drv ctx actx args s).2.ops
            = s.ops ++ (inserted source target.PrivateIP ++ d
                ++ [RemoteOp.ssh source false])
          ∧ (target ≠ source
            → copies source { chain := Chain.input, blockIP := target.PrivateIP }
                  (inserted source target.PrivateIP ++ d ++ [RemoteOp.ssh source false]) = 1
              ∧ copies source { chain := Chain.output, blockIP := target.PrivateIP }
                  (inserted source target.PrivateIP ++ d ++ [RemoteOp.ssh source false])
                = 1)) := by
  obtain ⟨_, h1ok⟩ := addPartitionRules_ops drv ctx source target.PrivateIP s
  have h1 := h1ok hadd1
  obtain ⟨⟨d, h2, h2node⟩, _⟩ := addPartitionRules_ops drv ctx target source.PrivateIP
    (PartitionAction.addPartitionRules drv ctx source target.PrivateIP s).2
  rw [h1] at h2
  obtain ⟨hfail, hopen⟩ := removePartitionRules_ops drv ctx source target.PrivateIP
    (PartitionAction.addPartitionRules drv ctx target source.PrivateIP
      (PartitionAction.addPartitionRules drv ctx source target.PrivateIP s).2).2
  have hex := Execute_eq drv ctx actx args s sourceArg targetArg source target hs ht hsrc htgt
  have happ : PartitionAction.apply drv ctx source target (PartitionAction.bidirectional args) s
      = (some ("adding rules on " ++ target.Name ++ ": " ++ e),
          (PartitionAction.removePartitionRules drv ctx source target.PrivateIP
            (PartitionAction.addPartitionRules drv ctx target source.PrivateIP
              (PartitionAction.addPartitionRules drv ctx source target.PrivateIP
                s).2).2).2) := by
    unfold PartitionAction.apply
    simp only [hadd1, hb, if_true, hadd2]
  rw [happ] at hex
  refine ⟨d, h2node, h2, by rw [hex], ?_, ?_⟩
  · intro hssh
    obtain ⟨ok1, ok2, hops, _⟩ := hopen hssh
    refine ⟨ok1, ok2, ?_, ?_⟩
    · rw [hex]
      show (PartitionAction.removePartitionRules drv ctx source target.PrivateIP _).2.ops = _
      rw [hops, h2]
      simp
    · intro ho1 ho2 hne
      rw [ho1, ho2]
      exact copies_reversed source target target.PrivateIP d hne h2node
  · intro hssh
    obtain ⟨hops, _⟩ := hfail hssh
    refine ⟨?_, ?_⟩
    · rw [hex]
      show (PartitionAction.removePartitionRules drv ctx source target.PrivateIP _).2.ops = _
      rw [hops, h2]
      simp
    · intro hne
      obtain ⟨c1, c2⟩ := copies_inserted source target target.PrivateIP d hne h2node
      constructor
      · rw [copies_append, c1]
        rfl
      · rw [copies_append, c2]
        rfl

/-- C19 at a concrete call: a bidirectional partition between two servers in which the
second insert on the target fails and every other call succeeds; the two rules inserted
on the source are deleted again. -/
theorem C19_target_failure_reverses_the_source_rules_witness :
    (PartitionAction.Execute (Demo.failing [5]) [] (NewActionContext Demo.pair 0)
        Demo.partitionArgs Demo.untouched).1.2
      = some ("adding rules on " ++ Demo.server1.Name ++ ": "
          ++ "iptables failed (exit 4): iptables: Resource temporarily unavailable.")
      ∧ copies Demo.server0 { chain := Chain.input, blockIP := "10.0.0.11" }
          (PartitionAction.Execute (Demo.failing [5]) [] (NewActionContext Demo.pair 0)
            Demo.partitionArgs Demo.untouched).2.ops = 0 := by
  obtain ⟨d, _, _, h3, h4, _⟩ :=
    C19_target_failure_reverses_the_source_rules (Demo.failing [5]) []
      (NewActionContext Demo.pair 0) Demo.partitionArgs Demo.untouched "server-0" "server-1"
      Demo.server0 Demo.server1
      "iptables failed (exit 4): iptables: Resource temporarily unavailable."
      (by decide) (by decide) (by decide) rfl rfl (by decide) (by decide)
  exact ⟨h3, by decide⟩

/-- C20 at the failing inputs, bidirectional partitions between two servers. When the
second insert on the target fails and every other call succeeds, `Execute` returns the
error after deleting the two rules of the source, and no delete command is issued on the
target, where the rule inserted by the first command remains. When the second insert on
the source fails, `Execute` returns the error at once, and the rule inserted by the
first command remains on the source. -/
theorem C20_failed_execute_leaves_inserted_rules :
    ((PartitionAction.Execute (Demo.failing [5]) [] (NewActionContext Demo.pair 0)
          Demo.partitionArgs Demo.untouched).1.2
        = some ("adding rules on server-1: iptables failed (exit 4): "
            ++ "iptables: Resource temporarily unavailable.")
      ∧ (PartitionAction.Execute (Demo.failing [5]) [] (NewActionContext Demo.pair 0)
          Demo.partitionArgs Demo.untouched).2.ops
        = inserted Demo.server0 "10.0.0.11"
          ++ [RemoteOp.ssh Demo.server1 true,
            RemoteOp.run Demo.server1
              "iptables -I INPUT -s 10.0.0.10 -j DROP -m comment --comment chaos-partition" true,
            RemoteOp.run Demo.server1
              "iptables -I OUTPUT -d 10.0.0.10 -j DROP -m comment --comment chaos-partition"
              false,
            RemoteOp.close Demo.server1]
          ++ reversed Demo.server0 "10.0.0.11" true true
      ∧ copies Demo.server1 { chain := Chain.input, blockIP := "10.0.0.10" }
          (PartitionAction.Execute (Demo.failing [5]) [] (NewActionContext Demo.pair 0)
            Demo.partitionArgs Demo.untouched).2.ops = 1)
      ∧ ((PartitionAction.Execute (Demo.failing [2]) [] (NewActionContext Demo.pair 0)
            Demo.partitionArgs Demo.untouched).1.2
          = some ("adding rules on server-0: iptables failed (exit 4): "
              ++ "iptables: Resource temporarily unavailable.")
        ∧ (PartitionAction.Execute (Demo.failing [2]) [] (NewActionContext Demo.pair 0)
            Demo.partitionArgs Demo.untouched).2.ops
          = [RemoteOp.ssh Demo.server0 true,
              RemoteOp.run Demo.server0
                "iptables -I INPUT -s 10.0.0.11 -j DROP -m comment --comment chaos-partition"
                true,
              RemoteOp.run Demo.server0
                "iptables -I OUTPUT -d 10.0.0.11 -j DROP -m comment --comment chaos-partition"
                false,
              RemoteOp.close Demo.server0]
        ∧ copies Demo.server0 { chain := Chain.input, blockIP := "10.0.0.11" }
            (PartitionAction.Execute (Demo.failing [2]) [] (NewActionContext Demo.pair 0)
              Demo.partitionArgs Demo.untouched).2.ops = 1) := by
  decide

/-! ## Nil results and the verdict of a run -/

/-- The attempts on a step of unknown type never assign `result`. -/
theorem attempts_unknown {W : Type} (r : Runner W) (ctx : Context) (step : Step)
    (retries : Nat) (hu : step.StepType = "unknown") (k : Nat) (v : StepVars) (m : Mach W)
    (hv : v.result = none) :
    ∃ out, r.attempts ctx step retries k v m = some out ∧ out.1.result = none := by
  have h1 : ¬ step.StepType = "action" := by rw [hu]; decide
  have h2 : ¬ step.StepType = "assert" := by rw [hu]; decide
  have h3 : ¬ step.StepType = "wait" := by rw [hu]; decide
  have hd : r.dispatch ctx step v m = ({ v with err := some "unknown step type" }, m) := by
    unfold Runner.dispatch
    simp only [if_neg h1, if_neg h2, if_neg h3]
  induction k generalizing v m with
  | zero => exact ⟨(v, m), rfl, hv⟩
  | succ k ih =>
    have hd : r.dispatch ctx step v m = ({ v with err := some "unknown step type" }, m) := by
      unfold Runner.dispatch
      simp only [if_neg h1, if_neg h2, if_neg h3]
    simp only [Runner.attempts, hd, StepVars.succeeded]
    split
    · exact ih _ _ hv (by
        unfold Runner.dispatch
        simp only [if_neg h1, if_neg h2, if_neg h3])
    · exact ih _ _ hv (by
        unfold Runner.dispatch
        simp only [if_neg h1, if_neg h2, if_neg h3])

/-- `executeStep` on a step of unknown type ends in the nil dereference. -/
theorem executeStep_unknown {W : Type} (r : Runner W) (ctx0 : Context) (step : Step)
    (m : Mach W) (hu : step.StepType = "unknown") : r.executeStep ctx0 step m = none := by
  rw [executeStep_eq]
  obtain ⟨out, h1, h2⟩ := attempts_unknown r (step.context ctx0) step step.budget hu
    step.budget { result := none, actx := none, err := none } m rfl
  rw [h1]
  simp only [h2]

/-- C29: for every step that passes `Step.Validate` (its `StepType` is action, assert or
wait), every attempt of `executeStep` assigns a non-nil `StepResult`, the test
`err == nil && result.Success` is decided at every attempt, and `executeStep` returns:
nothing dereferences nil. `executeStep` ends in the nil dereference exactly for the steps
whose `StepType` is unknown, which `Step.Validate` rejects; there the test is decided too
(the error is non-nil) and it is the assignment of `result.Duration` that dereferences
nil. -/
theorem C29_only_unknown_steps_dereference_nil {W : Type} (r : Runner W) (ctx0 : Context)
    (step : Step) (m : Mach W) :
    (step.Validate = none →
        (step.StepType = "action" ∨ step.StepType = "assert" ∨ step.StepType = "wait")
          ∧ (∀ j, (r.attemptNo ctx0 step m j).1.result ≠ none)
          ∧ (∀ j, (r.attemptNo ctx0 step m j).1.succeeded ≠ none)
          ∧ ∃ out, r.executeStep ctx0 step m = some out)
      ∧ (r.executeStep ctx0 step m = none ↔ step.StepType = "unknown")
      ∧ (step.StepType = "unknown" →
          step.Validate ≠ none
            ∧ (∀ j, (r.attemptNo ctx0 step m j).1.result = none)
            ∧ ∀ j, (r.attemptNo ctx0 step m j).1.succeeded = some false) := by
  refine ⟨?_, ?_, ?_⟩
  · intro hv
    have hne : step.StepType ≠ "unknown" := ((Step_Validate_iff step).mp hv).1
    have hk : step.known = true := (known_iff step).mpr hne
    refine ⟨?_, fun j => dispatch_known r _ step _ _ hk, ?_, executeStep_total r ctx0 step m hk⟩
    · rcases StepType_cases step with h | h | h | h
      · exact Or.inl h
      · exact Or.inr (Or.inl h)
      · exact Or.inr (Or.inr h)
      · exact absurd h hne
    · intro j
      obtain ⟨b, hb⟩ := dispatch_decided r (step.context ctx0) step
        (r.beforeAttempt ctx0 step m j).1 (r.beforeAttempt ctx0 step m j).2 hk
      have hb1 : (r.attemptNo ctx0 step m j).1.succeeded = some b := hb
      rw [hb1]
      simp
  · constructor
    · intro h
      by_contra hne
      obtain ⟨out, ho⟩ := executeStep_total r ctx0 step m ((known_iff step).mpr hne)
      rw [ho] at h
      cases h
    · exact executeStep_unknown r ctx0 step m
  · intro hu
    have h1 : ¬ step.StepType = "action" := by rw [hu]; decide
    have h2 : ¬ step.StepType = "assert" := by rw [hu]; decide
    have h3 : ¬ step.StepType = "wait" := by rw [hu]; decide
    have hd : ∀ v (m1 : Mach W), r.dispatch (step.context ctx0) step v m1
        = ({ v with err := some "unknown step type" }, m1) := by
      intro v m1
      unfold Runner.dispatch
      simp only [if_neg h1, if_neg h2, if_neg h3]
    have hbefore : ∀ j, (r.beforeAttempt ctx0 step m j).1.result = none := by
      intro j
      induction j with
      | zero => rfl
      | succ j ih =>
        show (r.dispatch (step.context ctx0) step _ _).1.result = none
        rw [hd]
        exact ih
    refine ⟨?_, ?_, ?_⟩
    · intro hv
      exact ((Step_Validate_iff step).mp hv).1 hu
    · intro j
      show (r.dispatch (step.context ctx0) step _ _).1.result = none
      rw [hd]
      exact hbefore j
    · intro j
      show (r.dispatch (step.context ctx0) step _ _).1.succeeded = some false
      rw [hd]
      rfl
/-- A main loop that returns from `Run` does so in the iteration of one of its steps,
after exhausting the steps before it. -/
theorem runSteps_ret {W : Type} (r : Runner W) (ctx : Context) (sc : Scenario)
    (steps : List Step) (i : Nat) (s : LoopState W) (res : RunResult W)
    (h : r.runSteps ctx sc i steps s = some (Flow.ret res)) :
    ∃ pre step post s1, steps = pre ++ step :: post
      ∧ r.runSteps ctx sc i pre s = some (Flow.next s1)
      ∧ r.iter ctx sc (i + pre.length) step s1 = some (Flow.ret res) := by
  induction steps generalizing i s with
  | nil => simp [Runner.runSteps] at h
  | cons step rest ih =>
    simp only [Runner.runSteps] at h
    cases hit : r.iter ctx sc i step s with
    | none => simp [hit] at h
    | some flow =>
      cases flow with
      | next s1 =>
        rw [hit] at h
        obtain ⟨pre, st, post, s2, h1, h2, h3⟩ := ih (i + 1) s1 h
        refine ⟨step :: pre, st, post, s2, by rw [h1]; rfl, ?_, ?_⟩
        · simp only [Runner.runSteps, hit]
          exact h2
        · rw [List.length_cons, ← h3]
          congr 1
          omega
      | brk s1 =>
        rw [hit] at h
        simp at h
      | ret res1 =>
        rw [hit] at h
        refine ⟨[], step, rest, s, rfl, rfl, ?_⟩
        rw [List.length_nil, Nat.add_zero, hit]
        exact h

/-- C30: for every scenario whose steps and cleanup steps have a known type, `Run`
returns; the error it returns is the `Error` of the report it returns; the report has
`Success = false` exactly when the main loop reached a step that failed (in a state
where the context was not done and no cleanup was pending) and whose `on_error` is
neither continue nor cleanup, whatever else it is; and in every other case, a failure
under the cleanup policy included, `Success` is true and the returned error is nil. -/
theorem C30_returned_error_is_the_report_error {W : Type} (r : Runner W) (ctx0 : Context)
    (sc : Scenario) (w : W) (hk : ∀ s ∈ sc.Steps ++ sc.Cleanup, s.known = true) :
    ∃ res, r.Run ctx0 sc w = some res
      ∧ res.err = res.rep.Error
      ∧ (res.rep.Success = false
          ↔ ∃ pre step s, r.Reaches ctx0 sc w pre step s
              ∧ r.failsAt (Runner.runCtx ctx0 sc) pre.length step s = true
              ∧ step.OnError ≠ OnErrorContinue ∧ step.OnError ≠ OnErrorCleanup)
      ∧ (res.rep.Success = true → res.err = none ∧ res.rep.Error = none)
      ∧ (res.rep.Success = false
          → ∃ pre step s, r.Reaches ctx0 sc w pre step s
              ∧ res.err = r.attemptErr (Runner.runCtx ctx0 sc) pre.length step s) := by
  obtain ⟨res, hres⟩ := Run_total r ctx0 sc w hk
  have henter : (r.enter sc w).rep.Error = none := rfl
  -- the two ways the run ends
  have hends : (res.rep.Success = true ∧ res.err = none ∧ res.rep.Error = none
        ∧ ¬ ∃ pre step s, r.Reaches ctx0 sc w pre step s
              ∧ r.failsAt (Runner.runCtx ctx0 sc) pre.length step s = true
              ∧ step.OnError ≠ OnErrorContinue ∧ step.OnError ≠ OnErrorCleanup)
      ∨ (res.rep.Success = false ∧ res.err = res.rep.Error
        ∧ ∃ pre step s, r.Reaches ctx0 sc w pre step s
              ∧ r.failsAt (Runner.runCtx ctx0 sc) pre.length step s = true
              ∧ step.OnError ≠ OnErrorContinue ∧ step.OnError ≠ OnErrorCleanup
              ∧ res.err = r.attemptErr (Runner.runCtx ctx0 sc) pre.length step s) := by
    rcases Run_cases r ctx0 sc w res hres with hret | ⟨s, hs, hfin⟩
    · right
      obtain ⟨pre, step, post, s1, h1, h2, h3⟩ := runSteps_ret r _ sc sc.Steps 0 _ res hret
      rw [Nat.zero_add] at h3
      rcases iter_cases r _ sc pre.length step s1 _ h3 with ⟨_, hb⟩ | ⟨hflag, out, ho, hc⟩
      · cases hb
      · rcases hc with ⟨_, hb⟩ | ⟨_, _, hb⟩ | ⟨_, _, hb⟩ | ⟨hf, hp1, hp2, fin, hfin, hb⟩
        · cases hb
        · cases hb
        · cases hb
        · have hshape := runCleanup_shape _ _ _ _ _ _ _ hfin
          have hgrow := hshape.verdict
          have hres1 : res = { rep := fin.1, err := out.1.2.2, m := fin.2 } :=
            Flow.ret.inj hb
          refine ⟨?_, ?_, pre, step, s1, ⟨⟨post, h1⟩, h2⟩, ?_, hp1, hp2, ?_⟩
          · rw [hres1]
            exact hgrow.1
          · rw [hres1]
            exact hgrow.2.1.symm
          · rw [failsAt_eq r _ _ step s1 out hflag ho]
            exact hf
          · rw [hres1, attemptErr_eq r _ _ step s1 out ho]
    · left
      obtain ⟨hsucc, herr, rep1, t1, htd, _, hrep⟩ := finish_shape r _ sc s res hfin
      have hs1 : s.rep.Error = none := by
        rcases hs with hs | hs
        · have := (runSteps_shape r _ sc sc.Steps 0 _ _ hs).2.2.1
          rw [this.2.1]
          exact henter
        · have := (runSteps_shape r _ sc sc.Steps 0 _ _ hs).2
          rw [this.2.1]
          exact henter
      refine ⟨hsucc, herr, ?_, ?_⟩
      · rw [hrep]
        show rep1.Error = none
        rw [htd.verdict.2.1]
        exact hs1
      · rintro ⟨pre, step, s1, ⟨⟨post, hsteps⟩, hpre⟩, hfail, hp1, hp2⟩
        obtain ⟨hflag, out, ho, hf⟩ := failsAt_true _ _ _ _ _ hfail
        have hc : ∀ c ∈ sc.Cleanup, c.known = true :=
          fun c hc => hk c (List.mem_append_right _ hc)
        obtain ⟨fin, hfin1⟩ := runCleanup_total r (Runner.runCtx ctx0 sc) sc.Cleanup hc
          (retain (r.poll (Runner.runCtx ctx0 sc) step s1).executedActions out.1.2.1)
          { r.record (r.poll (Runner.runCtx ctx0 sc) step s1).rep step out with
            Success := false, Error := out.1.2.2 }
          (r.log out.2 (LogLine.failedAborting out.1.2.2))
        have hiter := iter_fail r _ sc pre.length step s1 out fin hflag ho hf hp1 hp2 hfin1
        have hrun : r.Run ctx0 sc w = some { rep := fin.1, err := out.1.2.2, m := fin.2 } := by
          rw [Run_from_reach r ctx0 sc w pre step post s1 hsteps hpre, hiter]
          rfl
        rw [hres] at hrun
        have hres1 := Option.some.inj hrun
        have hgrow := (runCleanup_shape _ _ _ _ _ _ _ hfin1).verdict
        rw [hres1] at hsucc
        rw [hgrow.1] at hsucc
        cases hsucc
  refine ⟨res, hres, ?_, ?_, ?_, ?_⟩
  · rcases hends with ⟨_, h2, h3, _⟩ | ⟨_, h2, _⟩
    · rw [h2, h3]
    · exact h2
  · constructor
    · intro hf
      rcases hends with ⟨h1, _⟩ | ⟨_, _, pre, step, s, h1, h2, h3, h4, _⟩
      · rw [h1] at hf
        cases hf
      · exact ⟨pre, step, s, h1, h2, h3, h4⟩
    · intro hex
      rcases hends with ⟨_, _, _, h4⟩ | ⟨h1, _⟩
      · exact absurd hex h4
      · exact h1
  · intro ht
    rcases hends with ⟨_, h2, h3, _⟩ | ⟨h1, _⟩
    · exact ⟨h2, h3⟩
    · rw [h1] at ht
      cases ht
  · intro hf
    rcases hends with ⟨h1, _⟩ | ⟨_, _, pre, step, s, h1, _, _, _, h5⟩
    · rw [h1] at hf
      cases hf
    · exact ⟨pre, step, s, h1, h5⟩
/-- C30 at a concrete run: a step that fails under an `on_error` value that is none of
fail, continue and cleanup. -/
theorem C30_returned_error_is_the_report_error_witness :
    (∀ s ∈ (Demo.scenario [Demo.act "ok" "", Demo.act "bad" "abort"] []).Steps
        ++ (Demo.scenario [Demo.act "ok" "", Demo.act "bad" "abort"] []).Cleanup,
        s.known = true)
      ∧ ∃ res, (Demo.runner false).Run []
            (Demo.scenario [Demo.act "ok" "", Demo.act "bad" "abort"] []) () = some res
          ∧ res.err = res.rep.Error :=
  ⟨by decide, by
    obtain ⟨res, h1, h2, _⟩ := C30_returned_error_is_the_report_error (Demo.runner false) []
      (Demo.scenario [Demo.act "ok" "", Demo.act "bad" "abort"] []) () (by decide)
    exact ⟨res, h1, h2⟩⟩

/-! ## The events of retried steps -/

/-- C27 as stated fails: the action `flaky` fails its first two attempts and succeeds at
the third, and the report of the run holds one event for the step, a success event, and
no failure event; the assertion `no` fails both of its attempts, and the report holds
one failure event for the step, not two. -/
theorem C27_failed_attempts_leave_no_event_of_their_own :
    ((Demo.counting false).Run [] (Demo.scenario [Demo.retrying "flaky" 5] []) 0).map
        (fun res => (executeOps res.m.trace,
          res.rep.Events.map (fun e => (e.Type_, e.Step, e.Message))))
      = some ([(0, "flaky", false), (1, "flaky", false), (2, "flaky", true)],
          [("success", "retry-flaky", "Executed flaky"),
            ("cleanup", "rollback-flaky", "Rollback successful")])
      ∧ ((Demo.runner false).Run [] (Demo.scenario [Demo.check "no" "continue"] []) ()).map
          (fun res => (res.m.trace.filter (fun op => op == Op.check "no" false),
            res.rep.Events.map (fun e => (e.Type_, e.Step, e.Message))))
        = some ([Op.check "no" false, Op.check "no" false],
            [("failure", "check-no", "not yet")]) := by
  decide

/-- A step of the main list that the run executes produces exactly one event, whatever
the number of its attempts. When the run reaches a step of a known type and executes it,
the iteration appends one event to the events recorded so far (one per earlier step), and
this is the event of the returned report at the position of the step: it carries the name
of the step and the message of the last attempt made, and it is a success event when that
attempt succeeded and a failure event otherwise. -/
theorem main_step_event {W : Type} (r : Runner W) (ctx0 : Context)
    (sc : Scenario) (w : W) (pre : List Step) (step : Step) (s : LoopState W)
    (res : RunResult W) (hk : step.known = true)
    (hreach : r.Reaches ctx0 sc w pre step s)
    (hflag : (r.poll (Runner.runCtx ctx0 sc) step s).runCleanup = false)
    (hrun : r.Run ctx0 sc w = some res) :
    ∃ last out lastRes e, 1 ≤ last ∧ last ≤ step.budget
      ∧ r.attempt (Runner.runCtx ctx0 sc) pre.length step s = some out
      ∧ (∀ i, i + 1 < last → (r.attemptNo (Runner.runCtx ctx0 sc) step
          (r.log (r.poll (Runner.runCtx ctx0 sc) step s).m
            (LogLine.step (pre.length + 1) step.Name)) i).1.succeeded = some false)
      ∧ (r.attemptNo (Runner.runCtx ctx0 sc) step
          (r.log (r.poll (Runner.runCtx ctx0 sc) step s).m
            (LogLine.step (pre.length + 1) step.Name)) (last - 1)).1.result = some lastRes
      ∧ s.rep.Events.length = pre.length
      ∧ (r.record (r.poll (Runner.runCtx ctx0 sc) step s).rep step out).Events
          = s.rep.Events ++ [e]
      ∧ res.rep.Events[pre.length]? = some e
      ∧ e.Step = step.Name
      ∧ e.Message = lastRes.Message
      ∧ e.Type_ = (if lastRes.Success then EventSuccess else EventFailure) := by
  obtain ⟨last, out, h1, h2, h3, _, h5, _, ⟨lastRes, h7, h8⟩, _⟩ :=
    executeStep_attempts r (Runner.runCtx ctx0 sc) step
      (r.log (r.poll (Runner.runCtx ctx0 sc) step s).m
        (LogLine.step (pre.length + 1) step.Name)) hk
  have ho : r.attempt (Runner.runCtx ctx0 sc) pre.length step s = some out := h5
  obtain ⟨_, _, _, _, e, he1, he2, he3, he4⟩ :=
    attempt_state r ctx0 sc w pre step s out hreach.2 hflag ho
  obtain ⟨e1, hg1, _⟩ := Run_event_at r ctx0 sc w pre step s res out hreach hflag ho hrun
  obtain ⟨_, _, _, hlen, _⟩ := reach_state r ctx0 sc w pre s hreach.2
  -- the event of the report at the position of the step is the one the iteration appended
  obtain ⟨post, hsteps⟩ := hreach.1
  have hsame : res.rep.Events[pre.length]? = some e := by
    have hrun1 := hrun
    rw [Run_from_reach r ctx0 sc w pre step post s hsteps hreach.2] at hrun1
    cases hit : r.iter (Runner.runCtx ctx0 sc) sc pre.length step s with
    | none =>
      rw [hit] at hrun1
      cases hrun1
    | some flow =>
      rw [hit] at hrun1
      have hev : ∀ s2 : LoopState W, s2.rep
          = r.record (r.poll (Runner.runCtx ctx0 sc) step s).rep step out →
          ∀ res2 : RunResult W, (∃ evs, res2.rep.Events = s2.rep.Events ++ evs) →
          res2.rep.Events[pre.length]? = some e := by
        intro s2 hs2 res2 ⟨evs, hevs⟩
        rw [hevs, hs2, he1, List.append_assoc, List.getElem?_append_right (by omega)]
        simp [hlen]
      rcases iter_cases r _ sc pre.length step s flow hit with ⟨hb, _⟩ | ⟨_, out1, ho1, hc⟩
      · rw [hflag] at hb
        cases hb
      · rw [ho] at ho1
        have hout : out1 = out := (Option.some.inj ho1).symm
        subst hout
        rcases hc with ⟨_, hb⟩ | ⟨_, _, hb⟩ | ⟨_, _, hb⟩ | ⟨_, _, _, fin, hfin, hb⟩
        · subst hb
          exact hev _ rfl res (complete_events r _ sc _ post _ res hrun1)
        · subst hb
          exact hev _ rfl res (complete_events r _ sc _ post _ res hrun1)
        · subst hb
          exact hev _ rfl res (complete_events r _ sc _ post _ res hrun1)
        · subst hb
          have hres : res = { rep := fin.1, err := out1.1.2.2, m := fin.2 } :=
            (Option.some.inj hrun1).symm
          obtain ⟨_, _, _, evs, hevs⟩ := (runCleanup_shape _ _ _ _ _ _ _ hfin).verdict
          rw [hres]
          show fin.1.Events[pre.length]? = some e
          rw [hevs]
          show ((r.record (r.poll (Runner.runCtx ctx0 sc) step s).rep step out1).Events
            ++ evs)[pre.length]? = some e
          rw [he1, List.append_assoc, List.getElem?_append_right (by omega)]
          simp [hlen]
  refine ⟨last, out, lastRes, e, h1, h2, ho, h3, h7, hlen, he1, hsame, he3, ?_, ?_⟩
  · rw [he4, h8]
  · rw [he2, h8]
    rfl

/-! ## The actions a teardown rolls back -/

theorem goodExecs_append (a b : List Op) : goodExecs (a ++ b) = goodExecs a ++ goodExecs b := by
  simp [goodExecs, executeOps, List.filterMap_append]

theorem goodExecs_emit {W : Type} (m : Mach W) (op : Op) :
    goodExecs (m.emit op).trace = goodExecs m.trace ++ goodExecs [op] := by
  unfold Mach.emit
  exact goodExecs_append _ _

/-- Entries of a trace that are no `Execute` call add nothing to `goodExecs`. -/
theorem goodExecs_none (d : List Op) (h : ∀ op ∈ d, op.executeCall = none) :
    goodExecs d = [] := by
  unfold goodExecs executeOps
  rw [List.filterMap_eq_nil_iff.mpr h]
  rfl

theorem Get_mem {α : Type} (reg : Registry α) (kind name : String) (x : α)
    (h : reg.Get kind name = Except.ok x) : (name, x) ∈ reg.entries := by
  unfold Registry.Get at h
  split at h
  · rename_i kv hf
    have hm := List.mem_of_find?_eq_some hf
    have hk := List.find?_some hf
    simp only [beq_iff_eq] at hk
    cases h
    rw [← hk]
    exact hm
  · cases h

/-- One attempt: the successful `Execute` calls it adds to the trace are the `Rollback`
call the rollback loop would make for the action context it assigns. -/
theorem dispatch_named {W : Type} (r : Runner W) (ctx : Context) (step : Step)
    (v : StepVars) (m : Mach W) (hplain : r.leavesNameKey)
    (hv : step.StepType ≠ "action" → v.actx = none) :
    goodExecs (r.dispatch ctx step v m).2.trace
        = goodExecs m.trace ++ r.named (r.dispatch ctx step v m).1.actx
      ∧ (step.StepType ≠ "action" → (r.dispatch ctx step v m).1.actx = none)
      ∧ ((r.dispatch ctx step v m).1.succeeded = some false
          → r.named (r.dispatch ctx step v m).1.actx = [])
      ∧ (step.StepType = "action" → (r.dispatch ctx step v m).1.err = none
          → ∃ a, (r.dispatch ctx step v m).1.actx = some a
              ∧ r.named (some a) = [(a.addr, step.Action)])
      ∧ ((r.dispatch ctx step v m).1.err ≠ none
          → r.named (r.dispatch ctx step v m).1.actx = []) := by
  unfold Runner.dispatch
  by_cases h1 : step.StepType = "action"
  · simp only [if_pos h1]
    have hact : step.Action ≠ "" := by
      intro h
      unfold Step.StepType at h1
      rw [if_neg (by simp [h])] at h1
      split_ifs at h1 <;> simp at h1
    unfold Runner.executeAction
    cases hg : r.actions.Get "action" step.Action with
    | error e =>
      refine ⟨by simp [Runner.named], fun h => absurd h1 h, fun _ => rfl, ?_, fun _ => rfl⟩
      intro _ h
      simp at h
    | ok action =>
      dsimp only
      have hmem := Get_mem r.actions "action" step.Action action hg
      cases he : (action.Execute ctx (NewActionContext r.cluster m.heap) step.Args
          m.world).1.2 with
      | some err =>
        have hname := hplain _ hmem ctx m.heap step.Args m.world (by rw [he]; simp)
        have hroll : r.rollsBack
            { NewActionContext r.cluster m.heap with
              State := (action.Execute ctx (NewActionContext r.cluster m.heap) step.Args
                m.world).1.1 } = false := by
          simp [Runner.rollsBack, hname]
        have hnamed : r.named (some
            { NewActionContext r.cluster m.heap with
              State := (action.Execute ctx (NewActionContext r.cluster m.heap) step.Args
                m.world).1.1 }) = [] := by
          simp [Runner.named, hroll]
        refine ⟨?_, fun h => absurd h1 h, fun _ => hnamed, ?_, fun _ => hnamed⟩
        · rw [goodExecs_emit, hnamed]
          rfl
        · intro _ h
          simp at h
      | none =>
        have hstate : (((action.Execute ctx (NewActionContext r.cluster m.heap) step.Args
            m.world).1.1).set "_action_name" (Value.str step.Action)).getString "_action_name"
            = step.Action := by
          simp [Dict.getString, Dict.get_set_same]
        have hroll : r.rollsBack
            { NewActionContext r.cluster m.heap with
              State := ((action.Execute ctx (NewActionContext r.cluster m.heap) step.Args
                m.world).1.1).set "_action_name" (Value.str step.Action) } = true := by
          simp [Runner.rollsBack, hstate, hg, hact]
        have hnamed : r.named (some
            { NewActionContext r.cluster m.heap with
              State := ((action.Execute ctx (NewActionContext r.cluster m.heap) step.Args
                m.world).1.1).set "_action_name" (Value.str step.Action) })
            = [(m.heap, step.Action)] := by
          simp only [Runner.named, hroll, if_true, hstate]
          rfl
        refine ⟨?_, fun h => absurd h1 h, ?_, fun _ _ => ⟨_, rfl, hnamed⟩, ?_⟩
        · rw [goodExecs_emit, hnamed]
          rfl
        · intro h
          simp [StepVars.succeeded] at h
        · intro h
          simp at h
  · have hv1 := hv h1
    have hn : r.named v.actx = [] := by rw [hv1]; rfl
    by_cases h2 : step.StepType = "assert"
    · simp only [if_neg h1, if_pos h2]
      refine ⟨?_, fun _ => hv1, fun _ => hn, fun h => absurd h h1, fun _ => hn⟩
      show _ = _ ++ r.named v.actx
      rw [hn, List.append_nil]
      unfold Runner.executeAssert
      cases hg : r.asserts.Get "assertion" step.Assert with
      | error e => rfl
      | ok assertion =>
        dsimp only
        split
        · rw [goodExecs_emit]
          simp [goodExecs, executeOps, Op.executeCall]
        · rw [goodExecs_emit]
          simp [goodExecs, executeOps, Op.executeCall]
    · by_cases h3 : step.StepType = "wait"
      · simp only [if_neg h1, if_neg h2, if_pos h3]
        refine ⟨?_, fun _ => hv1, fun _ => hn, fun h => absurd h h1, fun _ => hn⟩
        show _ = _ ++ r.named v.actx
        rw [hn, List.append_nil]
        unfold Runner.executeWait
        dsimp only
        split
        · rw [goodExecs_emit]
          simp [goodExecs, executeOps, Op.executeCall, Runner.log, Mach.emit]
        · rw [goodExecs_emit]
          simp [goodExecs, executeOps, Op.executeCall, Runner.log, Mach.emit]
      · simp only [if_neg h1, if_neg h2, if_neg h3]
        refine ⟨?_, fun _ => hv1, fun _ => hn, fun h => absurd h h1, fun _ => hn⟩
        show _ = _ ++ r.named v.actx
        rw [hn, List.append_nil]
theorem pause_named {W : Type} (r : Runner W) (retries attempt : Nat) (m : Mach W) :
    goodExecs (r.pause retries attempt m).trace = goodExecs m.trace := by
  unfold Runner.pause
  rw [goodExecs_emit]
  show goodExecs (m.emit (Op.log (LogLine.retry attempt retries))).trace ++ _ = _
  rw [goodExecs_emit]
  simp [goodExecs, executeOps, Op.executeCall]

/-- While the attempts fail, the trace gains no successful `Execute` call. -/
theorem before_named {W : Type} (r : Runner W) (ctx0 : Context) (step : Step) (m : Mach W)
    (hplain : r.leavesNameKey) (j : Nat)
    (hfail : ∀ i, i < j → (r.attemptNo ctx0 step m i).1.succeeded = some false) :
    goodExecs (r.beforeAttempt ctx0 step m j).2.trace = goodExecs m.trace
      ∧ (step.StepType ≠ "action" → (r.beforeAttempt ctx0 step m j).1.actx = none) := by
  induction j with
  | zero => exact ⟨rfl, fun _ => rfl⟩
  | succ j ih =>
    obtain ⟨i1, i2⟩ := ih (fun i hi => hfail i (by omega))
    obtain ⟨d1, d2, d3, _, _⟩ := dispatch_named r (step.context ctx0) step
      (r.beforeAttempt ctx0 step m j).1 (r.beforeAttempt ctx0 step m j).2 hplain i2
    have hf := hfail j (Nat.lt_succ_self j)
    constructor
    · show goodExecs (r.pause step.budget (j + 1) (r.attemptNo ctx0 step m j).2).trace = _
      rw [pause_named]
      show goodExecs (r.dispatch (step.context ctx0) step _ _).2.trace = _
      rw [d1, d3 hf, i1, List.append_nil]
    · exact d2

/-- The successful `Execute` calls that `executeStep` adds to the trace: none, or the
one of its last attempt, which is then the `Rollback` call the rollback loop would make
for the action context it returns. -/
theorem executeStep_named {W : Type} (r : Runner W) (ctx0 : Context) (step : Step)
    (m : Mach W) (out : (StepResult × Option ActionContext × Error) × Mach W)
    (hplain : r.leavesNameKey) (h : r.executeStep ctx0 step m = some out) :
    goodExecs out.2.trace = goodExecs m.trace ++ r.named out.1.2.1
      ∧ (step.StepType = "action" ∧ out.1.2.2 = none
          → ∃ a, out.1.2.1 = some a ∧ r.named out.1.2.1 = [(a.addr, step.Action)])
      ∧ (¬ (step.StepType = "action" ∧ out.1.2.2 = none) → r.named out.1.2.1 = []) := by
  have hk : step.known = true := (known_iff step).mpr (executeStep_good _ _ _ _ _ h).1
  obtain ⟨last, out1, h1, _, h3, _, h5, h6, _, h8, h9, _⟩ :=
    executeStep_attempts r ctx0 step m hk
  rw [h] at h5
  have hout : out = out1 := Option.some.inj h5
  subst hout
  obtain ⟨b1, b2⟩ := before_named r ctx0 step m hplain (last - 1)
    (fun i hi => h3 i (by omega))
  obtain ⟨d1, d2, _, d4, d5⟩ := dispatch_named r (step.context ctx0) step
    (r.beforeAttempt ctx0 step m (last - 1)).1 (r.beforeAttempt ctx0 step m (last - 1)).2
    hplain b2
  have hactx : out.1.2.1 = (r.dispatch (step.context ctx0) step
      (r.beforeAttempt ctx0 step m (last - 1)).1
      (r.beforeAttempt ctx0 step m (last - 1)).2).1.actx := h8
  have herr : out.1.2.2 = (r.dispatch (step.context ctx0) step
      (r.beforeAttempt ctx0 step m (last - 1)).1
      (r.beforeAttempt ctx0 step m (last - 1)).2).1.err := h9
  refine ⟨?_, ?_, ?_⟩
  · rw [h6, hactx]
    show goodExecs (r.dispatch (step.context ctx0) step _ _).2.trace = _
    rw [d1, b1]
  · rintro ⟨ha, he⟩
    rw [herr] at he
    obtain ⟨a, ha1, ha2⟩ := d4 ha he
    refine ⟨a, by rw [hactx, ha1], ?_⟩
    rw [hactx, ha1]
    exact ha2
  · intro hn
    rw [hactx]
    by_cases ha : step.StepType = "action"
    · have he : out.1.2.2 ≠ none := fun he => hn ⟨ha, he⟩
      rw [herr] at he
      exact d5 he
    · rw [d2 ha]
      rfl
theorem rollbackCall_main (op : Op) (h : op.isMainOp = true) : op.rollbackCall = none := by
  cases op with
  | rollback a n ok => cases h
  | _ => rfl

theorem rollbackCall_cleanup (op : Op) (h : op.isCleanupOp = true) :
    op.rollbackCall = none := by
  cases op with
  | rollback a n ok => cases h
  | _ => rfl

theorem rolledBack_append (a b : List Op) : rolledBack (a ++ b) = rolledBack a ++ rolledBack b := by
  simp [rolledBack, rollbackOps_append]

theorem rolledBack_none (d : List Op) (h : ∀ op ∈ d, op.rollbackCall = none) :
    rolledBack d = [] := by
  unfold rolledBack rollbackOps
  rw [List.filterMap_eq_nil_iff.mpr h]
  rfl

/-- A teardown that starts from main-loop entries and from the retained contexts of
their successful `Execute` calls rolls back exactly those, last first. -/
theorem TeardownFrom.undoes {W : Type} {r : Runner W} {cleanup : List Step}
    {executed : List ActionContext} {rep rep1 : Report} {t0 t1 : List Op}
    (h : TeardownFrom r cleanup executed rep t0 rep1 t1)
    (hmain : ∀ op ∈ t0, op.isMainOp = true)
    (hnamed : (executed.filter r.rollsBack).map
        (fun a => (a.addr, a.State.getString "_action_name")) = goodExecs t0) :
    RolledBack cleanup t1 ∧ RolledBack cleanup (t1 ++ [Op.log LogLine.completed]) := by
  obtain ⟨cl, rb, h1, h2, h3, h4, h5, _⟩ := h
  have e0 : rolledBack t0 = [] :=
    rolledBack_none t0 (fun op hop => rollbackCall_main op (hmain op hop))
  have e1 : rolledBack cl = [] :=
    rolledBack_none cl (fun op hop => rollbackCall_cleanup op (h2 op hop))
  have e2 : rolledBack rb = (goodExecs t0).reverse := by
    unfold rolledBack
    rw [h5, ← hnamed, List.filter_reverse, List.map_reverse]
  constructor
  · refine ⟨t0, cl, rb, h1, hmain, h2, h3, h4, ?_⟩
    rw [h1, rolledBack_append, e0]
    show rolledBack ([Op.log LogLine.runningCleanup] ++ (cl ++ rb)) = _
    rw [rolledBack_append, rolledBack_append, e1, e2]
    rfl
  · refine ⟨t0, cl, rb ++ [Op.log LogLine.completed], ?_, hmain, h2, h3, ?_, ?_⟩
    · rw [h1]
      simp
    · intro op hop
      rcases List.mem_append.mp hop with h6 | h6
      · exact h4 op h6
      · rw [List.mem_singleton] at h6
        subst h6
        rfl
    · rw [h1, rolledBack_append, rolledBack_append, e0]
      show rolledBack ([Op.log LogLine.runningCleanup] ++ (cl ++ rb)) ++ _ = _
      rw [rolledBack_append, rolledBack_append, e1, e2]
      simp [rolledBack, rollbackOps, Op.rollbackCall]

theorem retain_named {W : Type} (r : Runner W) (xs : List ActionContext)
    (a : Option ActionContext) :
    ((retain xs a).filter r.rollsBack).map
        (fun a => (a.addr, a.State.getString "_action_name"))
      = (xs.filter r.rollsBack).map (fun a => (a.addr, a.State.getString "_action_name"))
        ++ r.named a := by
  cases a with
  | none => simp [retain, Runner.named]
  | some a =>
    simp only [retain, Runner.named, List.filter_append, List.map_append]
    cases hr : r.rollsBack a <;> simp [List.filter, hr]

theorem poll_executed {W : Type} (r : Runner W) (ctx : Context) (step : Step)
    (s : LoopState W) : (r.poll ctx step s).executedActions = s.executedActions := by
  unfold Runner.poll
  dsimp only
  split <;> rfl

/-- The state in which an iteration has executed its step still retains the contexts of
the successful `Execute` calls of its trace. -/
theorem attempt_named {W : Type} (r : Runner W) (ctx : Context) (i : Nat) (step : Step)
    (s : LoopState W) (out : (StepResult × Option ActionContext × Error) × Mach W)
    (hplain : r.leavesNameKey) (hs : Retained r s)
    (ho : r.attempt ctx i step s = some out) :
    (∀ op ∈ out.2.trace, op.isMainOp = true)
      ∧ ((retain (r.poll ctx step s).executedActions out.1.2.1).filter r.rollsBack).map
          (fun a => (a.addr, a.State.getString "_action_name")) = goodExecs out.2.trace
      ∧ goodExecs out.2.trace = goodExecs s.m.trace ++ r.named out.1.2.1 := by
  obtain ⟨d, hd, hp⟩ := attempt_trace r ctx i step s out ho
  obtain ⟨n1, _, _⟩ := executeStep_named r ctx step _ out hplain ho
  have hstart : goodExecs (r.log (r.poll ctx step s).m (LogLine.step (i + 1) step.Name)).trace
      = goodExecs s.m.trace := by
    unfold Runner.log
    rw [goodExecs_emit, poll_trace, goodExecs_append]
    simp [goodExecs, executeOps, Op.executeCall]
  rw [hstart] at n1
  refine ⟨?_, ?_, n1⟩
  · intro op hop
    rw [hd] at hop
    rcases List.mem_append.mp hop with h | h
    · exact hs.1 op h
    · rcases List.mem_cons.mp h with h | h
      · subst h
        rfl
      · rcases List.mem_cons.mp h with h | h
        · subst h
          rfl
        · exact isStepOp_main op (hp op h)
  · rw [retain_named, poll_executed, hs.2, n1]

theorem Retained.afterLog {W : Type} {r : Runner W} (rep : Report)
    (xs : List ActionContext)
    (flag : Bool) (m : Mach W) (line : LogLine)
    (hline : (Op.log line).isMainOp = true)
    (hmain : ∀ op ∈ m.trace, op.isMainOp = true)
    (hnamed : (xs.filter r.rollsBack).map
        (fun a => (a.addr, a.State.getString "_action_name")) = goodExecs m.trace) :
    Retained r { rep := rep, executedActions := xs, runCleanup := flag, m := r.log m line } := by
  constructor
  · exact all_main_snoc _ _ hmain hline
  · show _ = goodExecs (m.emit (Op.log line)).trace
    rw [goodExecs_emit, hnamed]
    simp [goodExecs, executeOps, Op.executeCall]

/-- One iteration of the main loop keeps `Retained`, and when it returns from `Run` the
teardown it ran rolled back the successful `Execute` calls, last first. -/
theorem iter_named {W : Type} (r : Runner W) (ctx : Context) (sc : Scenario) (i : Nat)
    (step : Step) (s : LoopState W) (flow : Flow W) (hplain : r.leavesNameKey)
    (hs : Retained r s) (h : r.iter ctx sc i step s = some flow) :
    Flow.Named r sc.Cleanup flow := by
  rcases iter_cases r ctx sc i step s flow h with ⟨_, hb⟩ | ⟨_, out, ho, hc⟩
  · subst hb
    constructor
    · rw [poll_trace]
      exact all_main_snoc _ _ hs.1 rfl
    · rw [poll_executed, poll_trace, goodExecs_append, hs.2]
      simp [goodExecs, executeOps, Op.executeCall]
  · obtain ⟨a1, a2, _⟩ := attempt_named r ctx i step s out hplain hs ho
    rcases hc with ⟨_, hb⟩ | ⟨_, _, hb⟩ | ⟨_, _, hb⟩ | ⟨_, _, _, fin, hfin, hb⟩
    · subst hb
      exact ⟨a1, a2⟩
    · subst hb
      exact Retained.afterLog _ _ _ _ _ rfl a1 a2
    · subst hb
      exact Retained.afterLog _ _ _ _ _ rfl a1 a2
    · subst hb
      have hshape := runCleanup_shape _ _ _ _ _ _ _ hfin
      refine (hshape.undoes (all_main_snoc _ _ a1 rfl) ?_).1
      show _ = goodExecs (out.2.emit (Op.log (LogLine.failedAborting out.1.2.2))).trace
      rw [goodExecs_emit, a2]
      simp [goodExecs, executeOps, Op.executeCall]

/-- The main loop keeps `Retained`, whichever way it ends. -/
theorem runSteps_named {W : Type} (r : Runner W) (ctx : Context) (sc : Scenario)
    (steps : List Step) (i : Nat) (s : LoopState W) (flow : Flow W)
    (hplain : r.leavesNameKey) (hs : Retained r s)
    (h : r.runSteps ctx sc i steps s = some flow) : Flow.Named r sc.Cleanup flow := by
  induction steps generalizing i s with
  | nil =>
    simp only [Runner.runSteps, Option.some.injEq] at h
    subst h
    exact hs
  | cons step rest ih =>
    simp only [Runner.runSteps] at h
    cases hit : r.iter ctx sc i step s with
    | none => simp [hit] at h
    | some f =>
      have hf := iter_named r ctx sc i step s f hplain hs hit
      rw [hit] at h
      cases f with
      | next s1 => exact ih (i + 1) s1 hf h
      | brk s1 =>
        simp only [Option.some.injEq] at h
        subst h
        exact hf
      | ret res =>
        simp only [Option.some.injEq] at h
        subst h
        exact hf
theorem enter_retained {W : Type} (r : Runner W) (sc : Scenario) (w : W) :
    Retained r (r.enter sc w) :=
  ⟨enter_main r sc w, rfl⟩

/-- C28: for every run that returns, over registered actions that leave the key
"_action_name" to the runner, the trace is main-loop entries followed by one teardown,
and the `Rollback` calls of the teardown are exactly the `Execute` calls of the main loop
that returned nil, on the same action contexts under the same action names, last first;
no `Execute` call made by a cleanup step is among them. A main step adds at most one
successful `Execute` call: the one of its last attempt when the step is an action step
whose `executeStep` returned a nil error, made on the action context `executeStep`
returned; an action step whose last attempt failed, the failed attempts before the last,
and every other step add none. -/
theorem C28_rollbacks_are_the_successful_main_executes {W : Type} (r : Runner W)
    (ctx0 : Context) (sc : Scenario) (w : W) (res : RunResult W)
    (hplain : r.leavesNameKey) (hrun : r.Run ctx0 sc w = some res) :
    (∃ main cl rb, res.m.trace = main ++ Op.log LogLine.runningCleanup :: (cl ++ rb)
        ∧ (∀ op ∈ main, op.isMainOp = true)
        ∧ (∀ op ∈ cl, op.isCleanupOp = true)
        ∧ cleanupMarks cl = marksFrom 0 sc.Cleanup
        ∧ (∀ op ∈ rb, op.isRollbackOp = true)
        ∧ rolledBack res.m.trace = (goodExecs main).reverse)
      ∧ ∀ pre step s out, r.Reaches ctx0 sc w pre step s
          → (r.poll (Runner.runCtx ctx0 sc) step s).runCleanup = false
          → r.attempt (Runner.runCtx ctx0 sc) pre.length step s = some out
          → (step.StepType = "action" ∧ out.1.2.2 = none
              → ∃ a, out.1.2.1 = some a
                  ∧ goodExecs out.2.trace = goodExecs s.m.trace ++ [(a.addr, step.Action)])
            ∧ (¬ (step.StepType = "action" ∧ out.1.2.2 = none)
              → goodExecs out.2.trace = goodExecs s.m.trace) := by
  constructor
  · rcases Run_cases r ctx0 sc w res hrun with hret | ⟨s, hs, hfin⟩
    · exact runSteps_named r _ sc sc.Steps 0 _ _ hplain (enter_retained r sc w) hret
    · have hret : Retained r s := by
        rcases hs with hs | hs
        · exact runSteps_named r _ sc sc.Steps 0 _ _ hplain (enter_retained r sc w) hs
        · exact runSteps_named r _ sc sc.Steps 0 _ _ hplain (enter_retained r sc w) hs
      obtain ⟨_, _, rep1, t1, htd, htrace, _⟩ := finish_shape r _ sc s res hfin
      rw [htrace]
      exact (htd.undoes hret.1 hret.2).2
  · intro pre step s out hreach _ ho
    have hs : Retained r s :=
      runSteps_named r _ sc pre 0 _ _ hplain (enter_retained r sc w) hreach.2
    obtain ⟨_, _, a3⟩ := attempt_named r _ pre.length step s out hplain hs ho
    obtain ⟨_, n2, n3⟩ := executeStep_named r _ step _ out hplain ho
    constructor
    · intro h
      obtain ⟨a, ha1, ha2⟩ := n2 h
      exact ⟨a, ha1, by rw [a3, ha2]⟩
    · intro h
      rw [a3, n3 h, List.append_nil]

/-- The registered actions of the demonstration runner leave the key "_action_name" to
the runner. -/
theorem Demo.runner_leavesNameKey (cancelled : Bool) : (Demo.runner cancelled).leavesNameKey := by
  intro kv hkv ctx addr args w h
  simp only [Demo.runner, List.mem_cons, List.mem_singleton, List.not_mem_nil, or_false] at hkv
  rcases hkv with rfl | rfl | rfl
  · exact absurd rfl h
  · rfl
  · exact absurd rfl h

/-- C28 at a concrete run: the action "ok" succeeds, the action "bad" fails under
`on_error: continue`, and the cleanup step executes the action "ok" again. -/
theorem C28_rollbacks_are_the_successful_main_executes_witness :
    (Demo.runner false).leavesNameKey
      ∧ ∃ res, (Demo.runner false).Run []
            (Demo.scenario [Demo.act "ok" "", Demo.act "bad" "continue"] [Demo.act "ok" ""]) ()
            = some res
          ∧ ∃ main cl rb, res.m.trace = main ++ Op.log LogLine.runningCleanup :: (cl ++ rb)
              ∧ rolledBack res.m.trace = (goodExecs main).reverse := by
  refine ⟨Demo.runner_leavesNameKey false, ?_⟩
  obtain ⟨res, hres⟩ := Run_total (Demo.runner false) []
    (Demo.scenario [Demo.act "ok" "", Demo.act "bad" "continue"] [Demo.act "ok" ""]) ()
    (by decide)
  obtain ⟨⟨main, cl, rb, h1, _, _, _, _, h6⟩, _⟩ :=
    C28_rollbacks_are_the_successful_main_executes (Demo.runner false) []
      (Demo.scenario [Demo.act "ok" "", Demo.act "bad" "continue"] [Demo.act "ok" ""]) () res
      (Demo.runner_leavesNameKey false) hres
  exact ⟨res, hres, main, cl, rb, h1, h6⟩

/-- The run of that scenario, evaluated: three `Execute` calls, the second failing
and the third made by the cleanup step, and one `Rollback` call, on the action context
of the first. -/
theorem cleanup_action_run :
    ((Demo.runner false).Run []
        (Demo.scenario [Demo.act "ok" "", Demo.act "bad" "continue"] [Demo.act "ok" ""]) ()).map
      (fun res => (executeOps res.m.trace, rolledBack res.m.trace))
      = some ([(0, "ok", true), (1, "bad", false), (2, "ok", true)], [(0, "ok")]) := by
  decide

/-! ## Rolling a partition back -/

/-- What `Rollback` reads in a state map that agrees, outside the key of the runner, with
the one `Execute` recorded. -/
theorem record_reads (state st : Dict) (source target : Node) (b : Bool)
    (hkeep : ∀ k, k ≠ "_action_name" →
      st.get k = (PartitionAction.record state source target b).get k) :
    st.getString "source_node" = source.Name
      ∧ st.getString "target_node" = target.Name
      ∧ st.getString "source_ip" = source.PrivateIP
      ∧ st.getString "target_ip" = target.PrivateIP
      ∧ st.get "bidirectional" = some (Value.bool b) := by
  have h1 := hkeep "source_node" (by decide)
  have h2 := hkeep "target_node" (by decide)
  have h3 := hkeep "source_ip" (by decide)
  have h4 := hkeep "target_ip" (by decide)
  have h5 := hkeep "bidirectional" (by decide)
  unfold PartitionAction.record at h1 h2 h3 h4 h5
  rw [Dict.get_set_other _ _ _ _ (by decide), Dict.get_set_other _ _ _ _ (by decide),
    Dict.get_set_other _ _ _ _ (by decide), Dict.get_set_other _ _ _ _ (by decide),
    Dict.get_set_same] at h1
  rw [Dict.get_set_other _ _ _ _ (by decide), Dict.get_set_other _ _ _ _ (by decide),
    Dict.get_set_other _ _ _ _ (by decide), Dict.get_set_same] at h2
  rw [Dict.get_set_other _ _ _ _ (by decide), Dict.get_set_other _ _ _ _ (by decide),
    Dict.get_set_same] at h3
  rw [Dict.get_set_other _ _ _ _ (by decide), Dict.get_set_same] at h4
  rw [Dict.get_set_same] at h5
  refine ⟨?_, ?_, ?_, ?_, h5⟩
  · simp [Dict.getString, h1]
  · simp [Dict.getString, h2]
  · simp [Dict.getString, h3]
  · simp [Dict.getString, h4]

theorem ServerByName_name (c : Cluster) (name : String) (node : Node)
    (h : c.ServerByName name = Except.ok node) : node.Name = name := by
  unfold Cluster.ServerByName at h
  split at h
  · rename_i n hf
    have hk := List.find?_some hf
    simp only [beq_iff_eq] at hk
    cases h
    exact hk
  · cases h

/-- The remote calls of a successful `apply`: the inserts on the source, then the
inserts on the target when the partition is bidirectional. -/
theorem apply_ok {W : Type} (drv : Driver W) (ctx : Context) (source target : Node)
    (b : Bool) (s : Remote W)
    (h : (PartitionAction.apply drv ctx source target b s).1 = none) :
    (PartitionAction.apply drv ctx source target b s).2.ops
      = s.ops ++ (inserted source target.PrivateIP
          ++ (if b then inserted target source.PrivateIP else [])) := by
  unfold PartitionAction.apply at h ⊢
  dsimp only at h ⊢
  obtain ⟨_, h1ok⟩ := addPartitionRules_ops drv ctx source target.PrivateIP s
  cases h1 : (PartitionAction.addPartitionRules drv ctx source target.PrivateIP s).1 with
  | some err =>
    rw [h1] at h
    cases h
  | none =>
    rw [h1] at h
    simp only [h1]
    have e1 := h1ok h1
    cases b with
    | false =>
      simp only [Bool.false_eq_true, if_false, List.append_nil]
      exact e1
    | true =>
      simp only [if_true] at h ⊢
      obtain ⟨_, h2ok⟩ := addPartitionRules_ops drv ctx target source.PrivateIP
        (PartitionAction.addPartitionRules drv ctx source target.PrivateIP s).2
      cases h2 : (PartitionAction.addPartitionRules drv ctx target source.PrivateIP
          (PartitionAction.addPartitionRules drv ctx source target.PrivateIP s).2).1 with
      | some err =>
        rw [h2] at h
        cases h
      | none =>
        simp only [h2]
        rw [h2ok h2, e1, List.append_assoc]
/-- `Rollback` on a state that names two servers of the cluster: the deletes on the
source, then, when they return no error and the partition is recorded as bidirectional,
the deletes on the target. -/
theorem Rollback_eq {W : Type} (drv : Driver W) (ctx : Context) (actx : ActionContext)
    (s : Remote W) (source target : Node) (b : Bool)
    (h1 : actx.State.getString "source_node" = source.Name)
    (h2 : actx.State.getString "target_node" = target.Name)
    (h3 : actx.State.getString "source_ip" = source.PrivateIP)
    (h4 : actx.State.getString "target_ip" = target.PrivateIP)
    (h5 : actx.State.get "bidirectional" = some (Value.bool b))
    (hs0 : source.Name ≠ "") (ht0 : target.Name ≠ "")
    (hsrc : actx.Cluster.ServerByName source.Name = Except.ok source)
    (htgt : actx.Cluster.ServerByName target.Name = Except.ok target) :
    PartitionAction.Rollback drv ctx actx s
      = match (PartitionAction.removePartitionRules drv ctx source target.PrivateIP s).1 with
        | some err =>
          (some ("removing rules on " ++ source.Name ++ ": " ++ err),
            (PartitionAction.removePartitionRules drv ctx source target.PrivateIP s).2)
        | none =>
          if b then
            match (PartitionAction.removePartitionRules drv ctx target source.PrivateIP
                (PartitionAction.removePartitionRules drv ctx source target.PrivateIP s).2).1 with
            | some err =>
              (some ("removing rules on " ++ target.Name ++ ": " ++ err),
                (PartitionAction.removePartitionRules drv ctx target source.PrivateIP
                  (PartitionAction.removePartitionRules drv ctx source target.PrivateIP s).2).2)
            | none =>
              (none, (PartitionAction.removePartitionRules drv ctx target source.PrivateIP
                (PartitionAction.removePartitionRules drv ctx source target.PrivateIP s).2).2)
          else (none, (PartitionAction.removePartitionRules drv ctx source target.PrivateIP
            s).2) := by
  unfold PartitionAction.Rollback
  simp only [h1, h2, h3, h4, h5, hs0, ht0, or_self, if_false, hsrc, htgt]

/-- The remote calls of `Rollback` on such a state, by cases on what the driver
returns. -/
theorem Rollback_ops {W : Type} (drv : Driver W) (ctx : Context) (actx : ActionContext)
    (s : Remote W) (source target : Node) (b : Bool)
    (h1 : actx.State.getString "source_node" = source.Name)
    (h2 : actx.State.getString "target_node" = target.Name)
    (h3 : actx.State.getString "source_ip" = source.PrivateIP)
    (h4 : actx.State.getString "target_ip" = target.PrivateIP)
    (h5 : actx.State.get "bidirectional" = some (Value.bool b))
    (hs0 : source.Name ≠ "") (ht0 : target.Name ≠ "")
    (hsrc : actx.Cluster.ServerByName source.Name = Except.ok source)
    (htgt : actx.Cluster.ServerByName target.Name = Except.ok target) :
    ∃ d, (PartitionAction.Rollback drv ctx actx s).2.ops = s.ops ++ d
      ∧ ((d = [RemoteOp.ssh source false]
            ∧ (PartitionAction.Rollback drv ctx actx s).1 ≠ none)
          ∨ (∃ ok1 ok2, d = reversed source target.PrivateIP ok1 ok2
              ∧ (ok1 = false ∨ ok2 = false)
              ∧ (PartitionAction.Rollback drv ctx actx s).1 ≠ none)
          ∨ (b = false ∧ d = reversed source target.PrivateIP true true
              ∧ (PartitionAction.Rollback drv ctx actx s).1 = none)
          ∨ (b = true
              ∧ d = reversed source target.PrivateIP true true ++ [RemoteOp.ssh target false]
              ∧ (PartitionAction.Rollback drv ctx actx s).1 ≠ none)
          ∨ (∃ ok3 ok4, b = true
              ∧ d = reversed source target.PrivateIP true true
                  ++ reversed target source.PrivateIP ok3 ok4
              ∧ ((PartitionAction.Rollback drv ctx actx s).1 = none
                  ↔ ok3 = true ∧ ok4 = true))) := by
  rw [Rollback_eq drv ctx actx s source target b h1 h2 h3 h4 h5 hs0 ht0 hsrc htgt]
  obtain ⟨hfail, hopen⟩ := removePartitionRules_ops drv ctx source target.PrivateIP s
  by_cases hssh : (drv.SSH ctx source s.world).1 = none
  · obtain ⟨ok1, ok2, hops, hiff⟩ := hopen hssh
    cases hr : (PartitionAction.removePartitionRules drv ctx source target.PrivateIP s).1 with
    | some err =>
      refine ⟨_, hops, Or.inr (Or.inl ⟨ok1, ok2, rfl, ?_, by simp⟩)⟩
      have : ¬ (ok1 = true ∧ ok2 = true) := fun h => by
        rw [hiff.mpr h] at hr
        cases hr
      cases ok1 <;> cases ok2 <;> simp at this ⊢
    | none =>
      obtain ⟨ho1, ho2⟩ := hiff.mp hr
      subst ho1
      subst ho2
      cases b with
      | false =>
        exact ⟨_, hops, Or.inr (Or.inr (Or.inl ⟨rfl, rfl, rfl⟩))⟩
      | true =>
        simp only [if_true]
        obtain ⟨hfail2, hopen2⟩ := removePartitionRules_ops drv ctx target source.PrivateIP
          (PartitionAction.removePartitionRules drv ctx source target.PrivateIP s).2
        by_cases hssh2 : (drv.SSH ctx target (PartitionAction.removePartitionRules drv ctx
            source target.PrivateIP s).2.world).1 = none
        · obtain ⟨ok3, ok4, hops2, hiff2⟩ := hopen2 hssh2
          refine ⟨reversed source target.PrivateIP true true
            ++ reversed target source.PrivateIP ok3 ok4, ?_,
            Or.inr (Or.inr (Or.inr (Or.inr ⟨ok3, ok4, trivial, rfl, ?_⟩)))⟩
          · cases hr2 : (PartitionAction.removePartitionRules drv ctx target source.PrivateIP
                (PartitionAction.removePartitionRules drv ctx source target.PrivateIP
                  s).2).1 <;>
            · simp only []
              rw [hops2, hops, List.append_assoc]
          · rw [← hiff2]
            cases hr2 : (PartitionAction.removePartitionRules drv ctx target source.PrivateIP
                (PartitionAction.removePartitionRules drv ctx source target.PrivateIP
                  s).2).1 <;> simp
        · obtain ⟨hops2, herr2⟩ := hfail2 hssh2
          refine ⟨reversed source target.PrivateIP true true ++ [RemoteOp.ssh target false], ?_,
            Or.inr (Or.inr (Or.inr (Or.inl ⟨trivial, rfl, ?_⟩)))⟩
          · cases hr2 : (PartitionAction.removePartitionRules drv ctx target source.PrivateIP
                (PartitionAction.removePartitionRules drv ctx source target.PrivateIP
                  s).2).1 <;>
            · simp only []
              rw [hops2, hops, List.append_assoc]
          · cases hr2 : (PartitionAction.removePartitionRules drv ctx target source.PrivateIP
                (PartitionAction.removePartitionRules drv ctx source target.PrivateIP
                  s).2).1 with
            | none => exact absurd hr2 herr2
            | some err => simp
  · obtain ⟨hops, herr⟩ := hfail hssh
    cases hr : (PartitionAction.removePartitionRules drv ctx source target.PrivateIP s).1 with
    | none => exact absurd hr herr
    | some err => exact ⟨_, hops, Or.inl ⟨rfl, by simp⟩⟩
theorem inserted_node (node : Node) (ip : String) :
    ∀ op ∈ inserted node ip, op.node = some node := by
  intro op hop
  simp only [inserted, List.mem_cons, List.mem_singleton, List.not_mem_nil, or_false] at hop
  rcases hop with h | h | h | h <;> rw [h] <;> rfl

theorem reversed_node (node : Node) (ip : String) (ok1 ok2 : Bool) :
    ∀ op ∈ reversed node ip ok1 ok2, op.node = some node := by
  intro op hop
  simp only [reversed, List.mem_cons, List.mem_singleton, List.not_mem_nil, or_false] at hop
  rcases hop with h | h | h | h <;> rw [h] <;> rfl

theorem copies_elsewhere (node other : Node) (rule : DropRule) (hne : other ≠ node)
    (d : List RemoteOp) (hd : ∀ op ∈ d, op.node = some other) : copies node rule d = 0 :=
  tally_elsewhere node other rule hne d hd 0

/-- The calls of a successful `Execute` followed by those of a successful `Rollback`
leave no copy of any of the four rules, on either node. -/
theorem copies_round_trip (source target : Node) (b : Bool) (hne : target ≠ source) :
    copies source { chain := Chain.input, blockIP := target.PrivateIP }
        ((inserted source target.PrivateIP
            ++ (if b then inserted target source.PrivateIP else []))
          ++ (reversed source target.PrivateIP true true
            ++ (if b then reversed target source.PrivateIP true true else []))) = 0
      ∧ copies source { chain := Chain.output, blockIP := target.PrivateIP }
        ((inserted source target.PrivateIP
            ++ (if b then inserted target source.PrivateIP else []))
          ++ (reversed source target.PrivateIP true true
            ++ (if b then reversed target source.PrivateIP true true else []))) = 0
      ∧ copies target { chain := Chain.input, blockIP := source.PrivateIP }
        ((inserted source target.PrivateIP
            ++ (if b then inserted target source.PrivateIP else []))
          ++ (reversed source target.PrivateIP true true
            ++ (if b then reversed target source.PrivateIP true true else []))) = 0
      ∧ copies target { chain := Chain.output, blockIP := source.PrivateIP }
        ((inserted source target.PrivateIP
            ++ (if b then inserted target source.PrivateIP else []))
          ++ (reversed source target.PrivateIP true true
            ++ (if b then reversed target source.PrivateIP true true else []))) = 0 := by
  cases b with
  | false =>
    simp only [Bool.false_eq_true, if_false, List.append_nil]
    obtain ⟨c1, c2⟩ := copies_reversed source target target.PrivateIP [] hne (by simp)
    rw [List.append_nil] at c1 c2
    have hall : ∀ op ∈ inserted source target.PrivateIP
        ++ reversed source target.PrivateIP true true, op.node = some source := by
      intro op hop
      rcases List.mem_append.mp hop with h | h
      · exact inserted_node _ _ op h
      · exact reversed_node _ _ _ _ op h
    exact ⟨c1, c2, copies_elsewhere target source _ hne.symm _ hall,
      copies_elsewhere target source _ hne.symm _ hall⟩
  | true =>
    simp only [if_true]
    have e : (inserted source target.PrivateIP ++ inserted target source.PrivateIP)
        ++ (reversed source target.PrivateIP true true
          ++ reversed target source.PrivateIP true true)
        = (inserted source target.PrivateIP ++ inserted target source.PrivateIP
            ++ reversed source target.PrivateIP true true)
          ++ reversed target source.PrivateIP true true := by
      simp
    have e2 : (inserted source target.PrivateIP ++ inserted target source.PrivateIP)
        ++ (reversed source target.PrivateIP true true
          ++ reversed target source.PrivateIP true true)
        = inserted source target.PrivateIP ++ (inserted target source.PrivateIP
            ++ reversed source target.PrivateIP true true
            ++ reversed target source.PrivateIP true true) := by
      simp
    obtain ⟨c1, c2⟩ := copies_reversed source target target.PrivateIP
      (inserted target source.PrivateIP) hne (inserted_node _ _)
    obtain ⟨c3, c4⟩ := copies_reversed target source source.PrivateIP
      (reversed source target.PrivateIP true true) hne.symm (reversed_node _ _ _ _)
    refine ⟨?_, ?_, ?_, ?_⟩
    · rw [e, copies_append, c1]
      exact tally_elsewhere source target _ hne _ (reversed_node _ _ _ _) 0
    · rw [e, copies_append, c2]
      exact tally_elsewhere source target _ hne _ (reversed_node _ _ _ _) 0
    · rw [e2, copies_append, copies_elsewhere target source _ hne.symm _ (inserted_node _ _)]
      exact c3
    · rw [e2, copies_append, copies_elsewhere target source _ hne.symm _ (inserted_node _ _)]
      exact c4

/-- C21: for every state recorded by a successful partition `Execute` between two named
servers (with or without the key the runner adds), `Rollback` issues no command other
than delete commands for the drop rules `Execute` inserted. It first opens a session to
the source and issues there the two deletes against the target address; when these
return no error it goes on, exactly when the partition was recorded as bidirectional, to
the target and issues there the two deletes against the source address. When every call
succeeds (`Rollback` returns nil) its calls are exactly these, and the calls of `Execute`
followed by those of `Rollback` leave no copy of any inserted rule on either node. -/
theorem C21_rollback_deletes_the_rules_execute_inserted {W : Type} (drv : Driver W)
    (ctx ctx1 : Context) (actx : ActionContext) (args : Dict) (s s1 : Remote W)
    (sourceArg targetArg : String) (source target : Node) (st : Dict)
    (hs : args.get "source" = some (Value.str sourceArg))
    (ht : args.get "target" = some (Value.str targetArg))
    (hs0 : sourceArg ≠ "") (ht0 : targetArg ≠ "")
    (hsrc : actx.Cluster.ServerByName sourceArg = Except.ok source)
    (htgt : actx.Cluster.ServerByName targetArg = Except.ok target)
    (hex : (PartitionAction.Execute drv ctx actx args s).1.2 = none)
    (hkeep : ∀ k, k ≠ "_action_name" →
      st.get k = (PartitionAction.Execute drv ctx actx args s).1.1.get k) :
    (PartitionAction.Execute drv ctx actx args s).2.ops
        = s.ops ++ (inserted source target.PrivateIP
            ++ (if PartitionAction.bidirectional args then inserted target source.PrivateIP
              else []))
      ∧ (∃ d, (PartitionAction.Rollback drv ctx1 { actx with State := st } s1).2.ops
            = s1.ops ++ d
          ∧ ((d = [RemoteOp.ssh source false]
                ∧ (PartitionAction.Rollback drv ctx1 { actx with State := st } s1).1 ≠ none)
            ∨ (∃ ok1 ok2, d = reversed source target.PrivateIP ok1 ok2
                ∧ (ok1 = false ∨ ok2 = false)
                ∧ (PartitionAction.Rollback drv ctx1 { actx with State := st } s1).1 ≠ none)
            ∨ (PartitionAction.bidirectional args = false
                ∧ d = reversed source target.PrivateIP true true
                ∧ (PartitionAction.Rollback drv ctx1 { actx with State := st } s1).1 = none)
            ∨ (PartitionAction.bidirectional args = true
                ∧ d = reversed source target.PrivateIP true true
                    ++ [RemoteOp.ssh target false]
                ∧ (PartitionAction.Rollback drv ctx1 { actx with State := st } s1).1 ≠ none)
            ∨ (∃ ok3 ok4, PartitionAction.bidirectional args = true
                ∧ d = reversed source target.PrivateIP true true
                    ++ reversed target source.PrivateIP ok3 ok4
                ∧ ((PartitionAction.Rollback drv ctx1 { actx with State := st } s1).1 = none
                    ↔ ok3 = true ∧ ok4 = true))))
      ∧ ((PartitionAction.Rollback drv ctx1 { actx with State := st } s1).1 = none
          → (PartitionAction.Rollback drv ctx1 { actx with State := st } s1).2.ops
              = s1.ops ++ (reversed source target.PrivateIP true true
                  ++ (if PartitionAction.bidirectional args
                    then reversed target source.PrivateIP true true else []))
            ∧ (target ≠ source
              → copies source { chain := Chain.input, blockIP := target.PrivateIP }
                    ((inserted source target.PrivateIP
                        ++ (if PartitionAction.bidirectional args
                          then inserted target source.PrivateIP else []))
                      ++ (reversed source target.PrivateIP true true
                        ++ (if PartitionAction.bidirectional args
                          then reversed target source.PrivateIP true true else []))) = 0
                ∧ copies source { chain := Chain.output, blockIP := target.PrivateIP }
                    ((inserted source target.PrivateIP
                        ++ (if PartitionAction.bidirectional args
                          then inserted target source.PrivateIP else []))
                      ++ (reversed source target.PrivateIP true true
                        ++ (if PartitionAction.bidirectional args
                          then reversed target source.PrivateIP true true else []))) = 0
                ∧ copies target { chain := Chain.input, blockIP := source.PrivateIP }
                    ((inserted source target.PrivateIP
                        ++ (if PartitionAction.bidirectional args
                          then inserted target source.PrivateIP else []))
                      ++ (reversed source target.PrivateIP true true
                        ++ (if PartitionAction.bidirectional args
                          then reversed target source.PrivateIP true true else []))) = 0
                ∧ copies target { chain := Chain.output, blockIP := source.PrivateIP }
                    ((inserted source target.PrivateIP
                        ++ (if PartitionAction.bidirectional args
                          then inserted target source.PrivateIP else []))
                      ++ (reversed source target.PrivateIP true true
                        ++ (if PartitionAction.bidirectional args
                          then reversed target source.PrivateIP true true else []))) = 0)) := by
  have hexeq := Execute_eq drv ctx actx args s sourceArg targetArg source target hs ht hsrc htgt
  rw [hexeq] at hex hkeep ⊢
  have hn1 := ServerByName_name _ _ _ hsrc
  have hn2 := ServerByName_name _ _ _ htgt
  obtain ⟨r1, r2, r3, r4, r5⟩ := record_reads actx.State st source target
    (PartitionAction.bidirectional args) hkeep
  have hops := Rollback_ops drv ctx1 { actx with State := st } s1 source target
    (PartitionAction.bidirectional args) r1 r2 r3 r4 r5 (by rw [hn1]; exact hs0)
    (by rw [hn2]; exact ht0) (by rw [hn1]; exact hsrc) (by rw [hn2]; exact htgt)
  refine ⟨apply_ok drv ctx source target _ s hex, hops, ?_⟩
  intro hnil
  refine ⟨?_, fun hne => copies_round_trip source target _ hne⟩
  obtain ⟨d, hd, hc⟩ := hops
  rw [hd]
  rcases hc with ⟨_, h⟩ | ⟨_, _, _, _, h⟩ | ⟨hb, hd1, _⟩ | ⟨_, _, h⟩ | ⟨ok3, ok4, hb, hd1, hiff⟩
  · exact absurd hnil h
  · exact absurd hnil h
  · rw [hd1, hb]
    simp
  · exact absurd hnil h
  · obtain ⟨h3, h4⟩ := hiff.mp hnil
    rw [hd1, hb, h3, h4]
    simp
/-- C21 at a concrete state: the bidirectional partition between two servers, every call
succeeding, rolled back in the remote world `Execute` left. -/
theorem C21_rollback_deletes_the_rules_execute_inserted_witness :
    (PartitionAction.Execute (Demo.failing []) [] (NewActionContext Demo.pair 0)
        Demo.partitionArgs Demo.untouched).1.2 = none
      ∧ (PartitionAction.Rollback (Demo.failing []) [] (Demo.partitioned true)
          (PartitionAction.Execute (Demo.failing []) [] (NewActionContext Demo.pair 0)
            Demo.partitionArgs Demo.untouched).2).1 = none
      ∧ (PartitionAction.Rollback (Demo.failing []) [] (Demo.partitioned true)
          (PartitionAction.Execute (Demo.failing []) [] (NewActionContext Demo.pair 0)
            Demo.partitionArgs Demo.untouched).2).2.ops
        = (PartitionAction.Execute (Demo.failing []) [] (NewActionContext Demo.pair 0)
            Demo.partitionArgs Demo.untouched).2.ops
          ++ (reversed Demo.server0 "10.0.0.11" true true
            ++ reversed Demo.server1 "10.0.0.10" true true) := by
  have hnil : (PartitionAction.Rollback (Demo.failing []) [] (Demo.partitioned true)
      (PartitionAction.Execute (Demo.failing []) [] (NewActionContext Demo.pair 0)
        Demo.partitionArgs Demo.untouched).2).1 = none := by decide
  obtain ⟨_, _, h3⟩ := C21_rollback_deletes_the_rules_execute_inserted (Demo.failing []) [] []
    (NewActionContext Demo.pair 0) Demo.partitionArgs Demo.untouched
    (PartitionAction.Execute (Demo.failing []) [] (NewActionContext Demo.pair 0)
      Demo.partitionArgs Demo.untouched).2
    "server-0" "server-1" Demo.server0 Demo.server1 (Demo.partitioned true).State
    (by decide) (by decide) (by decide) (by decide) rfl rfl (by decide)
    (fun k hk => Dict.get_set_other _ _ _ _ hk)
  exact ⟨by decide, hnil, (h3 hnil).1⟩

/-- C22 at the failing inputs: `Rollback` of a recorded bidirectional partition between
two servers. When the first delete on the source fails, `Rollback` issues the second
delete on the source and returns the error; when the session to the source does not
open, it returns the error at once. In both cases it makes no call on the target, where
the rules of the partition stay. -/
theorem C22_rollback_stops_when_the_source_side_fails :
    ((PartitionAction.Rollback (Demo.failing [1]) [] (Demo.partitioned true)
          Demo.untouched).1
        = some ("removing rules on server-0: iptables failed (exit 4): "
            ++ "iptables: Resource temporarily unavailable.")
      ∧ (PartitionAction.Rollback (Demo.failing [1]) [] (Demo.partitioned true)
          Demo.untouched).2.ops = reversed Demo.server0 "10.0.0.11" false true
      ∧ ∀ op ∈ (PartitionAction.Rollback (Demo.failing [1]) [] (Demo.partitioned true)
          Demo.untouched).2.ops, op.node ≠ some Demo.server1)
      ∧ ((PartitionAction.Rollback (Demo.failing [0]) [] (Demo.partitioned true)
            Demo.untouched).1
          = some "removing rules on server-0: connecting to server-0: i/o timeout"
        ∧ (PartitionAction.Rollback (Demo.failing [0]) [] (Demo.partitioned true)
            Demo.untouched).2.ops = [RemoteOp.ssh Demo.server0 false]) := by
  decide
/-! ## The kill-leader action -/

theorem toNat_inj (c d : Char) (h : c.toNat = d.toNat) : c = d := by
  rw [← Char.ofNat_toNat c, ← Char.ofNat_toNat d, h]

/-- The upper case of a character is a letter of TERM or KILL exactly when the character is
that letter in either case. -/
theorem toUpperRune_eq (c u : Char) (hu : u ∈ ['T', 'E', 'R', 'M', 'K', 'I', 'L']) :
    toUpperRune c = u ↔ sameLetter c u = true := by
  by_cases h1 : 97 ≤ c.toNat ∧ c.toNat ≤ 122
  · obtain ⟨ha, hb⟩ := h1
    have hc : c = Char.ofNat c.toNat := (Char.ofNat_toNat c).symm
    generalize c.toNat = n at ha hb hc
    subst hc
    simp only [List.mem_cons, List.mem_singleton, List.not_mem_nil, or_false] at hu
    interval_cases n <;> rcases hu with rfl | rfl | rfl | rfl | rfl | rfl | rfl <;> decide
  · by_cases h2 : c.toNat = 305
    · have hc : c = Char.ofNat 305 := toNat_inj _ _ h2
      subst hc
      simp only [List.mem_cons, List.mem_singleton, List.not_mem_nil, or_false] at hu
      rcases hu with rfl | rfl | rfl | rfl | rfl | rfl | rfl <;> decide
    · by_cases h3 : c.toNat = 383
      · have hc : c = Char.ofNat 383 := toNat_inj _ _ h3
        subst hc
        simp only [List.mem_cons, List.mem_singleton, List.not_mem_nil, or_false] at hu
        rcases hu with rfl | rfl | rfl | rfl | rfl | rfl | rfl <;> decide
      · have hup : toUpperRune c = c := by
          unfold toUpperRune
          rw [if_neg h1, if_neg h2, if_neg h3]
        rw [hup]
        have hlow : ¬ c.toNat = u.toNat + 32 := by
          intro h
          apply h1
          simp only [List.mem_cons, List.mem_singleton, List.not_mem_nil, or_false] at hu
          rcases hu with rfl | rfl | rfl | rfl | rfl | rfl | rfl <;>
            (rw [h]; decide)
        unfold sameLetter
        simp [h2, h3, hlow]

theorem map_upper_eq (l w : List Char) (hw : ∀ u ∈ w, u ∈ ['T', 'E', 'R', 'M', 'K', 'I', 'L']) :
    l.map toUpperRune = w ↔ spells l w = true := by
  induction l generalizing w with
  | nil =>
    cases w with
    | nil => simp [spells]
    | cons u us => simp [spells]
  | cons c cs ih =>
    cases w with
    | nil => simp [spells]
    | cons u us =>
      simp only [List.map_cons, List.cons.injEq, spells, Bool.and_eq_true]
      rw [toUpperRune_eq c u (hw u (List.mem_cons_self _ _)),
        ih us (fun x hx => hw x (List.mem_cons_of_mem _ hx))]

/-- The upper case of a string is TERM, or KILL, exactly when the string spells that word
with each letter in either case. -/
theorem toUpper_eq (sig word : String) (hw : word = "TERM" ∨ word = "KILL") :
    toUpper sig = word ↔ spells sig.toList word.toList = true := by
  have hword : ∀ u ∈ word.toList, u ∈ ['T', 'E', 'R', 'M', 'K', 'I', 'L'] := by
    rcases hw with rfl | rfl <;> decide
  rw [← map_upper_eq sig.toList word.toList hword]
  unfold toUpper
  constructor
  · intro h
    rw [← h]
    rfl
  · intro h
    rw [h]
    cases word
    rfl

/-- The signal `Execute` uses is TERM, or KILL, exactly when the arguments ask for it. -/
theorem signal_eq (args : Dict) (word : String) (hw : word = "TERM" ∨ word = "KILL") :
    KillLeaderAction.signal args = word ↔ KillLeaderAction.asksFor args word = true := by
  unfold KillLeaderAction.signal KillLeaderAction.asksFor
  split
  · exact toUpper_eq _ _ hw
  · rcases hw with rfl | rfl <;> decide

/-- Kill-leader `Execute` by the signal it determined: any signal other than TERM and
KILL returns the "invalid signal" error at once, with the state and the remote world as
they were; for TERM or KILL it resolves the leader, opens a session to it, and the only
command it issues is `pkill -S nomad`, on that session, returning nil exactly when that
command returned no error and the exit code 0. -/
theorem kill_leader_cases {W : Type}
    (drv : Driver W) (ctx : Context) (actx : ActionContext) (args : Dict) (s : Remote W) :
    (KillLeaderAction.signal args ≠ "TERM"
        → KillLeaderAction.signal args ≠ "KILL"
        → KillLeaderAction.Execute drv ctx actx args s
          = ((actx.State, some ("invalid signal " ++ quote (KillLeaderAction.signal args)
              ++ ": must be TERM or KILL")), s))
      ∧ (KillLeaderAction.signal args = "TERM"
          ∨ KillLeaderAction.signal args = "KILL"
        → ∃ d, (KillLeaderAction.Execute drv ctx actx args s).2.ops = s.ops ++ d
            ∧ ((d = [RemoteOp.leader false]
                  ∧ (KillLeaderAction.Execute drv ctx actx args s).1.1 = actx.State
                  ∧ (KillLeaderAction.Execute drv ctx actx args s).1.2 ≠ none)
              ∨ ∃ leader, (drv.GetNomadLeader ctx actx.Cluster s.world).1 = Except.ok leader
                  ∧ ((d = [RemoteOp.leader true, RemoteOp.ssh leader false]
                      ∧ (KillLeaderAction.Execute drv ctx actx args s).1.2 ≠ none)
                    ∨ ∃ ok, d = [RemoteOp.leader true, RemoteOp.ssh leader true,
                          RemoteOp.run leader
                            ("pkill -" ++ KillLeaderAction.signal args ++ " nomad") ok,
                          RemoteOp.close leader]
                        ∧ ((KillLeaderAction.Execute drv ctx actx args s).1.2 = none
                            ↔ ok = true)))) := by
  refine ⟨?_, ?_⟩
  · intro h1 h2
    unfold KillLeaderAction.Execute
    simp only [h1, h2, ne_eq, not_false_eq_true, and_self, if_true]
  · intro hv
    have hvalid : ¬ (KillLeaderAction.signal args ≠ "TERM"
        ∧ KillLeaderAction.signal args ≠ "KILL") := by
      rintro ⟨h1, h2⟩
      rcases hv with h | h
      · exact h1 h
      · exact h2 h
    unfold KillLeaderAction.Execute
    simp only [if_neg hvalid]
    have hfound : (s.findLeader drv ctx actx.Cluster).1
        = (drv.GetNomadLeader ctx actx.Cluster s.world).1 := rfl
    cases hl : (drv.GetNomadLeader ctx actx.Cluster s.world).1 with
    | error err =>
      have hops : (s.findLeader drv ctx actx.Cluster).2.ops
          = s.ops ++ [RemoteOp.leader false] := by
        simp [Remote.findLeader, hl]
      rw [hfound, hl]
      exact ⟨_, hops, Or.inl ⟨rfl, rfl, by simp⟩⟩
    | ok leader =>
      have hops : (s.findLeader drv ctx actx.Cluster).2.ops
          = s.ops ++ [RemoteOp.leader true] := by
        simp [Remote.findLeader, hl]
      rw [hfound, hl]
      dsimp only
      have hdial : ((s.findLeader drv ctx actx.Cluster).2.dial drv ctx leader).2.ops
          = s.ops ++ [RemoteOp.leader true, RemoteOp.ssh leader
              ((s.findLeader drv ctx actx.Cluster).2.dial drv ctx leader).1.isNone] := by
        show (s.findLeader drv ctx actx.Cluster).2.ops ++ _ = _
        rw [hops]
        simp
        rfl
      cases hconn : ((s.findLeader drv ctx actx.Cluster).2.dial drv ctx leader).1 with
      | some err =>
        rw [hconn] at hdial
        exact ⟨_, hdial, Or.inr ⟨leader, rfl, Or.inl ⟨rfl, by simp⟩⟩⟩
      | none =>
        rw [hconn] at hdial
        dsimp only
        have hrun : ((((s.findLeader drv ctx actx.Cluster).2.dial drv ctx leader).2.runWithSudo
            drv ctx leader ("pkill -" ++ KillLeaderAction.signal args ++ " nomad")).2.hangUp
            drv leader).ops
            = s.ops ++ [RemoteOp.leader true, RemoteOp.ssh leader true,
                RemoteOp.run leader ("pkill -" ++ KillLeaderAction.signal args ++ " nomad")
                  ((((s.findLeader drv ctx actx.Cluster).2.dial drv ctx leader).2.runWithSudo
                    drv ctx leader ("pkill -" ++ KillLeaderAction.signal args
                      ++ " nomad")).1.err.isNone
                    && (((s.findLeader drv ctx actx.Cluster).2.dial drv ctx
                      leader).2.runWithSudo drv ctx leader ("pkill -"
                        ++ KillLeaderAction.signal args ++ " nomad")).1.exitCode == 0),
                RemoteOp.close leader] := by
          show (((s.findLeader drv ctx actx.Cluster).2.dial drv ctx leader).2.ops ++ _) ++ _ = _
          rw [hdial]
          simp
          rfl
        generalize (((s.findLeader drv ctx actx.Cluster).2.dial drv ctx leader).2.runWithSudo
            drv ctx leader ("pkill -" ++ KillLeaderAction.signal args ++ " nomad")) = out
            at hrun ⊢
        cases herr : out.1.err with
        | some err =>
          rw [herr] at hrun
          exact ⟨_, hrun, Or.inr ⟨leader, rfl, Or.inr ⟨_, rfl, by simp⟩⟩⟩
        | none =>
          rw [herr] at hrun
          dsimp only
          by_cases h1 : out.1.exitCode = 1
          · rw [if_pos h1]
            refine ⟨_, hrun, Or.inr ⟨leader, rfl, Or.inr ⟨_, rfl, ?_⟩⟩⟩
            simp [h1]
          · rw [if_neg h1]
            by_cases h0 : out.1.exitCode = 0
            · rw [if_neg (by simpa using h0)]
              refine ⟨_, hrun, Or.inr ⟨leader, rfl, Or.inr ⟨_, rfl, ?_⟩⟩⟩
              simp [h0]
            · rw [if_pos h0]
              refine ⟨_, hrun, Or.inr ⟨leader, rfl, Or.inr ⟨_, rfl, ?_⟩⟩⟩
              simp [h0]

/-- C26: kill-leader `Execute` accepts exactly the arguments that ask for TERM or for
KILL, where the argument "signal", when it is a string, is compared with these two words
letter by letter without regard to case (the code compares its upper case; beside `a` to
`z`, the dotless i of Unicode has the upper case `I`), and arguments without a string
under "signal" ask for TERM. When the arguments ask for neither word, `Execute` returns
an error at once: the state of the action context is as it was (empty for a new
context), the remote world is untouched, and no call is made, neither to resolve the
leader nor to open a session. When they ask for the word S, TERM or KILL, it resolves
the leader, opens a session to it, and the only command it issues is `pkill -S nomad`,
on that session; it returns nil exactly when that command returned no error and the
exit code 0. -/
theorem C26_kill_leader_accepts_only_term_and_kill {W : Type} (drv : Driver W)
    (ctx : Context) (actx : ActionContext) (args : Dict) (s : Remote W) :
    (KillLeaderAction.asksFor args "TERM" = false
        → KillLeaderAction.asksFor args "KILL" = false
        → (∃ msg, KillLeaderAction.Execute drv ctx actx args s
              = ((actx.State, some msg), s))
          ∧ ∀ cluster addr, ∃ msg,
              KillLeaderAction.Execute drv ctx (NewActionContext cluster addr) args s
                = (([], some msg), s))
      ∧ (∀ word, word = "TERM" ∨ word = "KILL"
        → KillLeaderAction.asksFor args word = true
        → ∃ d, (KillLeaderAction.Execute drv ctx actx args s).2.ops = s.ops ++ d
            ∧ ((d = [RemoteOp.leader false]
                  ∧ (KillLeaderAction.Execute drv ctx actx args s).1.1 = actx.State
                  ∧ (KillLeaderAction.Execute drv ctx actx args s).1.2 ≠ none)
              ∨ ∃ leader, (drv.GetNomadLeader ctx actx.Cluster s.world).1 = Except.ok leader
                  ∧ ((d = [RemoteOp.leader true, RemoteOp.ssh leader false]
                      ∧ (KillLeaderAction.Execute drv ctx actx args s).1.2 ≠ none)
                    ∨ ∃ ok, d = [RemoteOp.leader true, RemoteOp.ssh leader true,
                          RemoteOp.run leader ("pkill -" ++ word ++ " nomad") ok,
                          RemoteOp.close leader]
                        ∧ ((KillLeaderAction.Execute drv ctx actx args s).1.2 = none
                            ↔ ok = true)))) := by
  refine ⟨?_, ?_⟩
  · intro h1 h2
    have g1 : KillLeaderAction.signal args ≠ "TERM" := by
      intro h
      rw [(signal_eq args "TERM" (Or.inl rfl)).mp h] at h1
      cases h1
    have g2 : KillLeaderAction.signal args ≠ "KILL" := by
      intro h
      rw [(signal_eq args "KILL" (Or.inr rfl)).mp h] at h2
      cases h2
    exact ⟨⟨_, (kill_leader_cases drv ctx actx args s).1 g1 g2⟩,
      fun cluster addr =>
        ⟨_, (kill_leader_cases drv ctx (NewActionContext cluster addr) args s).1 g1 g2⟩⟩
  · intro word hw h
    have hsig : KillLeaderAction.signal args = word := (signal_eq args word hw).mpr h
    have hv : KillLeaderAction.signal args = "TERM" ∨ KillLeaderAction.signal args = "KILL" := by
      rw [hsig]
      exact hw
    have hc := (kill_leader_cases drv ctx actx args s).2 hv
    rw [hsig] at hc
    exact hc

/-- C26 at concrete arguments: the signal "kill" asks for KILL and gives the command
`pkill -KILL nomad` on the leader; the signal "hup" asks for neither word and is refused
before any call. -/
theorem C26_kill_leader_accepts_only_term_and_kill_witness :
    (KillLeaderAction.asksFor [("signal", Value.str "hup")] "TERM" = false
        ∧ KillLeaderAction.asksFor [("signal", Value.str "hup")] "KILL" = false
        ∧ ∃ msg, KillLeaderAction.Execute (Demo.failing []) [] (NewActionContext Demo.pair 0)
            [("signal", Value.str "hup")] Demo.untouched = (([], some msg), Demo.untouched))
      ∧ (KillLeaderAction.asksFor [("signal", Value.str "kill")] "KILL" = true
        ∧ ∃ d, (KillLeaderAction.Execute (Demo.failing []) [] (NewActionContext Demo.pair 0)
            [("signal", Value.str "kill")] Demo.untouched).2.ops = Demo.untouched.ops ++ d) := by
  refine ⟨⟨by decide, by decide, ?_⟩, by decide, ?_⟩
  · exact ((C26_kill_leader_accepts_only_term_and_kill (Demo.failing []) []
      (NewActionContext Demo.pair 0) [("signal", Value.str "hup")] Demo.untouched).1
        (by decide) (by decide)).2 Demo.pair 0
  · obtain ⟨d, hd, _⟩ := (C26_kill_leader_accepts_only_term_and_kill (Demo.failing []) []
      (NewActionContext Demo.pair 0) [("signal", Value.str "kill")] Demo.untouched).2
        "KILL" (Or.inr rfl) (by decide)
    exact ⟨d, hd⟩

/-- The kill-leader action at concrete arguments: the signal "kill" gives the command
`pkill -KILL nomad` on the leader; the signal "hup" is refused before any call. -/
theorem kill_leader_runs :
    (KillLeaderAction.Execute (Demo.failing []) [] (NewActionContext Demo.pair 0)
        [("signal", Value.str "kill")] Demo.untouched).2.ops
      = [RemoteOp.leader true, RemoteOp.ssh Demo.server0 true,
          RemoteOp.run Demo.server0 "pkill -KILL nomad" true, RemoteOp.close Demo.server0]
      ∧ (KillLeaderAction.Execute (Demo.failing []) [] (NewActionContext Demo.pair 0)
          [("signal", Value.str "hup")] Demo.untouched).1
        = ([], some "invalid signal \"HUP\": must be TERM or KILL")
      ∧ (KillLeaderAction.Execute (Demo.failing []) [] (NewActionContext Demo.pair 0)
          [("signal", Value.str "hup")] Demo.untouched).2.ops = [] := by
  decide
/-! ## The built-in actions and the key of the runner -/

theorem getString_set_other (d : Dict) (k k1 : String) (v : Value) (h : k1 ≠ k) :
    (d.set k v).getString k1 = d.getString k1 := by
  unfold Dict.getString
  rw [Dict.get_set_other d k k1 v h]

/-- Partition `Execute` leaves the key "_action_name" as it was. -/
theorem partition_keeps_name_key {W : Type} (drv : Driver W) (ctx : Context)
    (actx : ActionContext) (args : Dict) (s : Remote W) :
    (PartitionAction.Execute drv ctx actx args s).1.1.getString "_action_name"
      = actx.State.getString "_action_name" := by
  have hrec : ∀ source target b,
      (PartitionAction.record actx.State source target b).getString "_action_name"
        = actx.State.getString "_action_name" := by
    intro source target b
    unfold PartitionAction.record
    rw [getString_set_other _ _ _ _ (by decide), getString_set_other _ _ _ _ (by decide),
      getString_set_other _ _ _ _ (by decide), getString_set_other _ _ _ _ (by decide),
      getString_set_other _ _ _ _ (by decide)]
  unfold PartitionAction.Execute
  split
  · split
    · dsimp only
      split
      · rfl
      · split
        · rfl
        · exact hrec _ _ _
    · rfl
  · rfl

/-- Kill-leader `Execute` leaves the key "_action_name" as it was. -/
theorem kill_leader_keeps_name_key {W : Type} (drv : Driver W)
    (ctx : Context) (actx : ActionContext) (args : Dict) (s : Remote W) :
    (KillLeaderAction.Execute drv ctx actx args s).1.1.getString "_action_name"
      = actx.State.getString "_action_name" := by
  have hrec : ∀ leader : Node,
      ((actx.State.set "killed_node" (Value.str leader.Name)).set "killed_ip"
        (Value.str leader.PublicIP)).getString "_action_name"
        = actx.State.getString "_action_name" := by
    intro leader
    rw [getString_set_other _ _ _ _ (by decide), getString_set_other _ _ _ _ (by decide)]
  unfold KillLeaderAction.Execute
  dsimp only
  split
  · rfl
  · split
    · rfl
    · split
      · exact hrec _
      · split
        · exact hrec _
        · split
          · exact hrec _
          · split
            · exact hrec _
            · exact hrec _

theorem builtinActions_entries {W : Type} (drv : Driver W) :
    (builtinActions drv).entries
      = [("kill-leader", KillLeaderAction drv), ("partition", PartitionAction drv)] := by
  rfl

/-- A runner over the default action registry satisfies `leavesNameKey`: neither
built-in action writes the key "_action_name". -/
theorem builtin_leavesNameKey {W : Type} (r : Runner (Remote W))
    (drv : Driver W) (h : r.actions = builtinActions drv) : r.leavesNameKey := by
  intro kv hkv ctx addr args w _
  rw [h, builtinActions_entries] at hkv
  simp only [List.mem_cons, List.mem_singleton, List.not_mem_nil, or_false] at hkv
  rcases hkv with rfl | rfl
  · exact kill_leader_keeps_name_key drv ctx _ args w
  · exact partition_keeps_name_key drv ctx _ args w

/-! ## nomad-api-healthy -/

theorem collect_count (results : List ServerResult) (acc : Int × List (String × String)) :
    (NomadAPIHealthyAssertion.collect results acc).1 = acc.1 + healthyCount results := by
  induction results generalizing acc with
  | nil => simp [NomadAPIHealthyAssertion.collect, healthyCount]
  | cons sr rest ih =>
    unfold NomadAPIHealthyAssertion.collect
    cases hh : sr.healthy with
    | true =>
      simp only [if_true]
      rw [ih]
      simp only [healthyCount, List.countP_cons, hh, if_true]
      push_cast
      ring
    | false =>
      simp only [Bool.false_eq_true, if_false]
      cases sr.err with
      | some err =>
        simp only []
        rw [ih]
        simp [healthyCount, List.countP_cons, hh]
      | none =>
        simp only []
        rw [ih]
        simp [healthyCount, List.countP_cons, hh]

/-- The goroutines send one result per server, under the name of the server. -/
theorem probe_names {W : Type} (net : Net W) (ctx : Context) (timeout : Int)
    (order : List Node) (w : W) :
    (NomadAPIHealthyAssertion.probe net ctx timeout order w).1.map (fun sr => sr.name)
      = order.map (fun server => server.Name) := by
  induction order generalizing w with
  | nil => rfl
  | cons server rest ih =>
    simp only [NomadAPIHealthyAssertion.probe, List.map_cons]
    rw [ih]

/-- C23: nomad-api-healthy `Check` returns no error, and `Success = true` exactly when
the number of servers reported healthy (the healthy ones among the results the
goroutines send, one per server) is at least the threshold; the threshold is the
argument "min_healthy" when it is an integer and `floor(N/2) + 1` for `N` servers
otherwise; and the details hold that number under "healthy_count" and the threshold
under "min_healthy", whatever the outcome. -/
theorem C23_api_healthy_succeeds_iff_quorum {W : Type} (net : Net W) (order : List Node)
    (ctx : Context) (actx : AssertContext) (args : Dict) (w : W) :
    (NomadAPIHealthyAssertion.Check net order ctx actx args w).1.2 = none
      ∧ ((NomadAPIHealthyAssertion.Check net order ctx actx args w).1.1.Success = true
          ↔ healthyCount (NomadAPIHealthyAssertion.probe net ctx
                (NomadAPIHealthyAssertion.timeout net args) order w).1
              ≥ NomadAPIHealthyAssertion.minHealthy actx args)
      ∧ (NomadAPIHealthyAssertion.Check net order ctx actx args w).1.1.Details.get
            "healthy_count"
          = some (Value.int (healthyCount (NomadAPIHealthyAssertion.probe net ctx
              (NomadAPIHealthyAssertion.timeout net args) order w).1))
      ∧ (NomadAPIHealthyAssertion.Check net order ctx actx args w).1.1.Details.get
            "min_healthy"
          = some (Value.int (NomadAPIHealthyAssertion.minHealthy actx args))
      ∧ (∀ m, args.get "min_healthy" = some (Value.int m)
          → NomadAPIHealthyAssertion.minHealthy actx args = m)
      ∧ ((∀ m, args.get "min_healthy" ≠ some (Value.int m))
          → NomadAPIHealthyAssertion.minHealthy actx args
            = ((actx.Cluster.Servers.length / 2 : Nat) : Int) + 1)
      ∧ (NomadAPIHealthyAssertion.probe net ctx (NomadAPIHealthyAssertion.timeout net args)
            order w).1.map (fun sr => sr.name)
          = order.map (fun server => server.Name) := by
  have hc := collect_count (NomadAPIHealthyAssertion.probe net ctx
    (NomadAPIHealthyAssertion.timeout net args) order w).1 (0, [])
  simp only [zero_add] at hc
  have hd : ∀ (d : Dict) (v1 v2 v3 v4 v5 : Value),
      (Dict.set (Dict.set (Dict.set (Dict.set (Dict.set d "total_servers" v1) "min_healthy" v2)
        "timeout" v3) "healthy_count" v4) "server_statuses" v5).get "healthy_count" = some v4
      ∧ (Dict.set (Dict.set (Dict.set (Dict.set (Dict.set d "total_servers" v1) "min_healthy"
        v2) "timeout" v3) "healthy_count" v4) "server_statuses" v5).get "min_healthy"
        = some v2 := by
    intro d v1 v2 v3 v4 v5
    constructor
    · rw [Dict.get_set_other _ _ _ _ (by decide), Dict.get_set_same]
    · rw [Dict.get_set_other _ _ _ _ (by decide), Dict.get_set_other _ _ _ _ (by decide),
        Dict.get_set_other _ _ _ _ (by decide), Dict.get_set_same]
  refine ⟨?_, ?_, ?_, ?_, ?_, ?_, probe_names net ctx _ order w⟩
  · unfold NomadAPIHealthyAssertion.Check
    dsimp only
    split <;> rfl
  · unfold NomadAPIHealthyAssertion.Check
    dsimp only
    rw [hc]
    split
    · rename_i h
      simp [h]
    · rename_i h
      simp [h]
  · unfold NomadAPIHealthyAssertion.Check
    dsimp only
    rw [hc]
    split <;> exact (hd _ _ _ _ _ _).1
  · unfold NomadAPIHealthyAssertion.Check
    dsimp only
    split <;> exact (hd _ _ _ _ _ _).2
  · intro m hm
    unfold NomadAPIHealthyAssertion.minHealthy
    rw [hm]
  · intro h
    unfold NomadAPIHealthyAssertion.minHealthy
    split
    · rename_i m hm
      exact absurd hm (h m)
    · rfl

/-- The health check evaluated on five servers with the default quorum of three: it
passes with three healthy servers and fails with two, and with "min_healthy" set to 2 it
passes with two; the details hold the count in each case. -/
theorem api_healthy_quorum_of_five :
    ((NomadAPIHealthyAssertion.Check
          (Demo.net ["192.168.122.10", "192.168.122.12", "192.168.122.14"] [])
          (Demo.cluster 5).Servers [] (NewAssertContext (Demo.cluster 5)) [] ()).1.1.Success,
        (NomadAPIHealthyAssertion.Check
          (Demo.net ["192.168.122.10", "192.168.122.12", "192.168.122.14"] [])
          (Demo.cluster 5).Servers [] (NewAssertContext (Demo.cluster 5)) []
            ()).1.1.Details.get "healthy_count") = (true, some (Value.int 3))
      ∧ ((NomadAPIHealthyAssertion.Check (Demo.net ["192.168.122.11", "192.168.122.13"] [])
            (Demo.cluster 5).Servers [] (NewAssertContext (Demo.cluster 5)) [] ()).1.1.Success,
          (NomadAPIHealthyAssertion.Check (Demo.net ["192.168.122.11", "192.168.122.13"] [])
            (Demo.cluster 5).Servers [] (NewAssertContext (Demo.cluster 5)) []
              ()).1.1.Details.get "healthy_count") = (false, some (Value.int 2))
      ∧ (NomadAPIHealthyAssertion.Check (Demo.net ["192.168.122.11", "192.168.122.13"] [])
          (Demo.cluster 5).Servers [] (NewAssertContext (Demo.cluster 5))
          [("min_healthy", Value.int 2)] ()).1.1.Success = true := by
  decide
/-! ## leader-elected -/

/-- The loop over the servers stops at the first server that answers with a leader:
the servers before it did not, each asked in the world the earlier queries left. -/
theorem tryServers_first {W : Type} (net : Net W) (ctx : Context) (pre post : List Node)
    (server : Node) (w : W)
    (hpre : ∀ p1 x p2, pre = p1 ++ x :: p2 →
      LeaderElectedAssertion.reports net ctx x (LeaderElectedAssertion.asked net ctx p1 w)
        = false)
    (hans : LeaderElectedAssertion.reports net ctx server
      (LeaderElectedAssertion.asked net ctx pre w) = true) :
    LeaderElectedAssertion.tryServers net ctx (pre ++ server :: post) w
      = (some ((LeaderElectedAssertion.answer net ctx server
            (LeaderElectedAssertion.asked net ctx pre w)).1.1, server),
          (LeaderElectedAssertion.answer net ctx server
            (LeaderElectedAssertion.asked net ctx pre w)).2) := by
  induction pre generalizing w with
  | nil =>
    have h : (queryLeader net ctx ("http://" ++ server.PublicIP ++ ":4646") w).1.2 = none
        ∧ (queryLeader net ctx ("http://" ++ server.PublicIP ++ ":4646") w).1.1 ≠ "" := by
      simpa [LeaderElectedAssertion.reports, LeaderElectedAssertion.answer,
        LeaderElectedAssertion.asked] using hans
    simp only [List.nil_append, LeaderElectedAssertion.tryServers, if_pos h]
    rfl
  | cons x rest ih =>
    have hx := hpre [] x rest rfl
    have h : ¬ ((queryLeader net ctx ("http://" ++ x.PublicIP ++ ":4646") w).1.2 = none
        ∧ (queryLeader net ctx ("http://" ++ x.PublicIP ++ ":4646") w).1.1 ≠ "") := by
      intro hc
      have : LeaderElectedAssertion.reports net ctx x
          (LeaderElectedAssertion.asked net ctx [] w) = true := by
        simpa [LeaderElectedAssertion.reports, LeaderElectedAssertion.answer,
          LeaderElectedAssertion.asked] using hc
      rw [this] at hx
      cases hx
    simp only [List.cons_append, LeaderElectedAssertion.tryServers, if_neg h]
    exact ih (queryLeader net ctx ("http://" ++ x.PublicIP ++ ":4646") w).2
      (fun p1 y p2 hp => hpre (x :: p1) y p2 (by rw [hp]; rfl)) hans

/-- C24: in every polling round of leader-elected (the loop is entered before the
deadline, whatever the rounds made so far) in which some server answers the leader query
with no error and a non-empty address, the servers before it in cluster order not doing
so, `Check` returns in that round, with a nil error, `Success = true`, the address that
server reported under "leader" and the name of that server under "responding_server";
and `Check` is this loop entered with no round made. -/
theorem C24_first_answering_server_is_reported {W : Type} (net : Net W) (ctx : Context)
    (pre post : List Node) (server : Node) (timeout pollInterval start : Int)
    (result : AssertResult) (fuel : Nat) (attempts : Int) (w : W)
    (hround : net.now w < start + timeout)
    (hpre : ∀ p1 x p2, pre = p1 ++ x :: p2 →
      LeaderElectedAssertion.reports net ctx x (LeaderElectedAssertion.asked net ctx p1 w)
        = false)
    (hans : LeaderElectedAssertion.reports net ctx server
      (LeaderElectedAssertion.asked net ctx pre w) = true) :
    (∃ res w1, LeaderElectedAssertion.poll net ctx (pre ++ server :: post) timeout
          pollInterval start result (fuel + 1) attempts w = some ((res, none), w1)
        ∧ res.Success = true
        ∧ res.Details.get "leader" = some (Value.str (LeaderElectedAssertion.answer net ctx
            server (LeaderElectedAssertion.asked net ctx pre w)).1.1)
        ∧ (LeaderElectedAssertion.answer net ctx server
            (LeaderElectedAssertion.asked net ctx pre w)).1.1 ≠ ""
        ∧ res.Details.get "responding_server" = some (Value.str server.Name)
        ∧ res.Attempts = attempts + 1
        ∧ res.Message = "Leader elected: " ++ (LeaderElectedAssertion.answer net ctx server
            (LeaderElectedAssertion.asked net ctx pre w)).1.1)
      ∧ ∀ (actx : AssertContext) (args : Dict) (w0 : W),
          LeaderElectedAssertion.Check net (fuel + 1) ctx actx args w0
            = LeaderElectedAssertion.poll net ctx actx.Cluster.Servers
                (LeaderElectedAssertion.timeout net args)
                (LeaderElectedAssertion.pollInterval args) (net.now w0)
                (LeaderElectedAssertion.initial net args) (fuel + 1) 0 w0 := by
  refine ⟨?_, fun _ _ _ => rfl⟩
  have htry := tryServers_first net ctx pre post server w hpre hans
  have hne : (LeaderElectedAssertion.answer net ctx server
      (LeaderElectedAssertion.asked net ctx pre w)).1.1 ≠ "" := by
    have := hans
    simp only [LeaderElectedAssertion.reports, Bool.and_eq_true, bne_iff_ne] at this
    exact this.2
  have hpoll : LeaderElectedAssertion.poll net ctx (pre ++ server :: post) timeout
      pollInterval start result (fuel + 1) attempts w
      = some (({ result with
          Success := true
          Message := "Leader elected: " ++ (LeaderElectedAssertion.answer net ctx server
            (LeaderElectedAssertion.asked net ctx pre w)).1.1
          Duration := net.now (LeaderElectedAssertion.answer net ctx server
            (LeaderElectedAssertion.asked net ctx pre w)).2 - start
          Attempts := attempts + 1
          Details := (result.Details.set "leader" (Value.str
            (LeaderElectedAssertion.answer net ctx server
              (LeaderElectedAssertion.asked net ctx pre w)).1.1)).set "responding_server"
            (Value.str server.Name) }, none),
        (LeaderElectedAssertion.answer net ctx server
          (LeaderElectedAssertion.asked net ctx pre w)).2) := by
    simp only [LeaderElectedAssertion.poll, if_pos hround, htry]
  refine ⟨_, _, hpoll, rfl, ?_, hne, ?_, rfl, rfl⟩
  · show (Dict.set (Dict.set result.Details "leader" _) "responding_server" _).get "leader" = _
    rw [Dict.get_set_other _ _ _ _ (by decide), Dict.get_set_same]
  · show (Dict.set (Dict.set result.Details "leader" _) "responding_server" _).get
      "responding_server" = _
    rw [Dict.get_set_same]

/-- C24 at the fixture of three servers in which the server of index 2 reports the leader
10.0.0.5:4647 and the others report none. -/
theorem C24_first_answering_server_is_reported_witness :
    ∃ res w1, LeaderElectedAssertion.Check
          (Demo.net [] [("192.168.122.10", ""), ("192.168.122.11", ""),
            ("192.168.122.12", "10.0.0.5:4647")])
          1 [] (NewAssertContext (Demo.cluster 3)) [] () = some ((res, none), w1)
        ∧ res.Success = true
        ∧ res.Details.get "leader" = some (Value.str "10.0.0.5:4647")
        ∧ res.Details.get "responding_server" = some (Value.str "server-2")
        ∧ res.Attempts = 1 := by
  obtain ⟨⟨res, w1, h1, h2, h3, _, h5, h6, _⟩, hcheck⟩ :=
    C24_first_answering_server_is_reported
      (Demo.net [] [("192.168.122.10", ""), ("192.168.122.11", ""),
        ("192.168.122.12", "10.0.0.5:4647")])
      [] [Demo.server 0, Demo.server 1] [] (Demo.server 2) 15000000000 1000000000 0
      (LeaderElectedAssertion.initial (Demo.net [] [("192.168.122.10", ""),
        ("192.168.122.11", ""), ("192.168.122.12", "10.0.0.5:4647")]) [])
      0 0 () (by decide)
      (fun p1 x p2 hp => by
        rcases p1 with _ | ⟨a, _ | ⟨b, p1⟩⟩
        · simp only [List.nil_append, List.cons.injEq] at hp
          obtain ⟨rfl, _⟩ := hp
          decide
        · simp only [List.cons_append, List.nil_append, List.cons.injEq] at hp
          obtain ⟨rfl, rfl, _⟩ := hp
          decide
        · simp at hp)
      (by decide)
  refine ⟨res, w1, ?_, h2, ?_, ?_, ?_⟩
  · rw [hcheck]
    exact h1
  · rw [h3]
    decide
  · rw [h5]
    decide
  · rw [h6]
    rfl
/-! ## parseAssertArgs -/

/-- C25 at the failing inputs, whatever `time.ParseDuration` does: the integer scan
accepts the leading digits of a duration and leaves the unit unread, so `within=15s`,
`timeout=500ms` and `within=30s` are stored as the integers 15, 500 and 30, not as
durations (`min_healthy=2` is stored as the integer 2, a value without leading digits
such as `poll=.5s` reaches the duration parse); and leader-elected, given the integer 30
under "within", waits its default 15s. -/
theorem C25_durations_with_leading_digits_are_stored_as_integers
    (parseDuration : String → Except String Int) :
    parseAssertArgs parseDuration ["within=15s"] = Except.ok [("within", Value.int 15)]
      ∧ parseAssertArgs parseDuration ["timeout=500ms"]
        = Except.ok [("timeout", Value.int 500)]
      ∧ parseAssertArgs parseDuration ["min_healthy=2"]
        = Except.ok [("min_healthy", Value.int 2)]
      ∧ parseAssertArgs parseDuration ["within=30s"] = Except.ok [("within", Value.int 30)]
      ∧ (∀ d, parseDuration ".5s" = Except.ok d
          → parseAssertArgs parseDuration ["poll=.5s"] = Except.ok [("poll", Value.dur d)])
      ∧ ∀ {W : Type} (net : Net W),
          LeaderElectedAssertion.timeout net [("within", Value.int 30)] = 15000000000 := by
  refine ⟨?_, ?_, ?_, ?_, ?_, ?_⟩
  · rfl
  · rfl
  · rfl
  · rfl
  · intro d hd
    have h1 : splitKeyValue "poll=.5s" = some ("poll", ".5s") := by decide
    have h2 : trimSpace "poll" = "poll" := by decide
    have h3 : trimSpace ".5s" = ".5s" := by decide
    have h4 : ¬ toLower ".5s" = "true" := by decide
    have h5 : ¬ toLower ".5s" = "false" := by decide
    have h6 : scanInt ".5s" = none := by decide
    simp only [parseAssertArgs, parseAssertArgsFrom, h1, h2, h3, if_neg h4, if_neg h5, h6, hd]
    rfl
  · intro W net
    rfl

/-! ## The events of cleanup steps -/

/-- Every run that returns called `runCleanup` once, in the state `EntersTeardown`
describes, and the events of its report are those of the report `runCleanup` returned. -/
theorem Run_enters {W : Type} (r : Runner W) (ctx0 : Context) (sc : Scenario) (w : W)
    (res : RunResult W) (h : r.Run ctx0 sc w = some res) :
    ∃ s fin, r.EntersTeardown ctx0 sc w s
      ∧ r.runCleanup (Runner.runCtx ctx0 sc) sc.Cleanup s.executedActions s.rep s.m = some fin
      ∧ res.rep.Events = fin.1.Events := by
  have hfinish : ∀ s, r.finish (Runner.runCtx ctx0 sc) sc s = some res →
      ∃ fin, r.runCleanup (Runner.runCtx ctx0 sc) sc.Cleanup s.executedActions s.rep s.m
          = some fin ∧ res.rep.Events = fin.1.Events := by
    intro s hfin
    unfold Runner.finish at hfin
    split at hfin
    · exact absurd hfin (by simp)
    · rename_i fin hf
      refine ⟨fin, hf, ?_⟩
      rw [← Option.some.inj hfin]
  rcases Run_cases r ctx0 sc w res h with hret | ⟨s, hs, hfin⟩
  · obtain ⟨pre, step, post, s1, h1, h2, h3⟩ := runSteps_ret r _ sc sc.Steps 0 _ res hret
    rw [Nat.zero_add] at h3
    rcases iter_cases r _ sc pre.length step s1 _ h3 with ⟨_, hb⟩ | ⟨hflag, out, ho, hc⟩
    · cases hb
    · rcases hc with ⟨_, hb⟩ | ⟨_, _, hb⟩ | ⟨_, _, hb⟩ | ⟨hf, hp1, hp2, fin, hfin, hb⟩
      · cases hb
      · cases hb
      · cases hb
      · have hres1 : res = { rep := fin.1, err := out.1.2.2, m := fin.2 } := Flow.ret.inj hb
        refine ⟨_, fin, Or.inr (Or.inr ⟨pre, step, s1, out, ⟨⟨post, h1⟩, h2⟩, hflag, ho, hf,
          hp1, hp2, rfl⟩), hfin, ?_⟩
        rw [hres1]
  · obtain ⟨fin, hf, hev⟩ := hfinish s hfin
    rcases hs with hs | hs
    · exact ⟨s, fin, Or.inl hs, hf, hev⟩
    · exact ⟨s, fin, Or.inr (Or.inl hs), hf, hev⟩

/-- A teardown that returns ran its cleanup-step loop to the end, and the rollback loop
after it kept the events of that loop. -/
theorem runCleanup_loops {W : Type} (r : Runner W) (ctx : Context) (cleanup : List Step)
    (executed : List ActionContext) (rep : Report) (m : Mach W) (fin : Report × Mach W)
    (h : r.runCleanup ctx cleanup executed rep m = some fin) :
    ∃ o, r.cleanupSteps ctx 0 cleanup rep (r.log m LogLine.runningCleanup) = some o
      ∧ ∃ evs, fin.1.Events = o.1.Events ++ evs := by
  unfold Runner.runCleanup at h
  dsimp only at h
  split at h
  · exact absurd h (by simp)
  · rename_i o ho
    obtain ⟨_, evs, _, _, _, h4, _⟩ := rollbacks_shape r ctx executed.reverse o.1 o.2
    refine ⟨o, ho, evs, ?_⟩
    rw [← Option.some.inj h]
    exact h4

/-- The cleanup-step loop at one of its steps: it went through the steps before it,
appending one event for each, called `executeStep` on the step after the numbered line,
appended the cleanup event of the result, and kept it to the end. -/
theorem cleanupSteps_at {W : Type} (r : Runner W) (ctx : Context) (pre : List Step)
    (step : Step) (post : List Step) (i : Nat) (rep : Report) (m : Mach W)
    (o : Report × Mach W)
    (h : r.cleanupSteps ctx i (pre ++ step :: post) rep m = some o) :
    ∃ mid out, r.cleanupSteps ctx i pre rep m = some mid
      ∧ r.executeStep ctx step
          (r.log mid.2 (LogLine.cleanupStep (i + pre.length + 1) step.Name)) = some out
      ∧ mid.1.Events.length = rep.Events.length + pre.length
      ∧ ∃ evs, o.1.Events
          = (mid.1.AddEvent (r.cleanupEvent step out) (r.now out.2.world)).Events ++ evs := by
  induction pre generalizing i rep m with
  | nil =>
    simp only [List.nil_append, Runner.cleanupSteps] at h
    split at h
    · exact absurd h (by simp)
    · rename_i out ho
      obtain ⟨_, _, _, _, evs, hevs, _⟩ := cleanupSteps_shape _ _ _ _ _ _ _ h
      exact ⟨(rep, m), out, rfl, ho, rfl, evs, hevs⟩
  | cons p pre ih =>
    simp only [List.cons_append, Runner.cleanupSteps] at h
    split at h
    · exact absurd h (by simp)
    · rename_i out0 ho0
      obtain ⟨mid, out, h1, h2, h3, h4⟩ := ih _ _ _ h
      refine ⟨mid, out, ?_, ?_, ?_, h4⟩
      · simp only [Runner.cleanupSteps, ho0]
        exact h1
      · rw [List.length_cons, ← h2]
        congr 4
        omega
      · rw [h3, AddEvent_events, List.length_append, List.length_cons, List.length_nil,
          List.length_cons]
        omega

/-- A cleanup step produces exactly one event, whatever the number of its attempts and
whatever their outcome. In a run that returns, the teardown reaches every cleanup step
(of a known type) after appending one event per earlier cleanup step, executes it, and
appends one event, which is the event of the returned report at that position: a cleanup
event with the name of the step and the message of the last attempt made. -/
theorem cleanup_step_event {W : Type} (r : Runner W) (ctx0 : Context) (sc : Scenario) (w : W)
    (res : RunResult W) (pre : List Step) (step : Step) (post : List Step)
    (hrun : r.Run ctx0 sc w = some res) (hsplit : sc.Cleanup = pre ++ step :: post)
    (hk : step.known = true) :
    ∃ s mid last out lastRes e, r.EntersTeardown ctx0 sc w s
      ∧ r.cleanupSteps (Runner.runCtx ctx0 sc) 0 pre s.rep (r.log s.m LogLine.runningCleanup)
          = some mid
      ∧ 1 ≤ last ∧ last ≤ step.budget
      ∧ r.executeStep (Runner.runCtx ctx0 sc) step
          (r.log mid.2 (LogLine.cleanupStep (pre.length + 1) step.Name)) = some out
      ∧ (∀ i, i + 1 < last → (r.attemptNo (Runner.runCtx ctx0 sc) step
          (r.log mid.2 (LogLine.cleanupStep (pre.length + 1) step.Name)) i).1.succeeded
            = some false)
      ∧ (r.attemptNo (Runner.runCtx ctx0 sc) step
          (r.log mid.2 (LogLine.cleanupStep (pre.length + 1) step.Name)) (last - 1)).1.result
            = some lastRes
      ∧ mid.1.Events.length = s.rep.Events.length + pre.length
      ∧ (mid.1.AddEvent (r.cleanupEvent step out) (r.now out.2.world)).Events
          = mid.1.Events ++ [e]
      ∧ res.rep.Events[mid.1.Events.length]? = some e
      ∧ e.Step = step.Name
      ∧ e.Message = lastRes.Message
      ∧ e.Type_ = EventCleanup := by
  obtain ⟨s, fin, hs, hfin, hev⟩ := Run_enters r ctx0 sc w res hrun
  obtain ⟨o, ho, evs2, hevs2⟩ := runCleanup_loops _ _ _ _ _ _ _ hfin
  rw [hsplit] at ho
  obtain ⟨mid, out, h1, h2, h3, evs1, hevs1⟩ := cleanupSteps_at _ _ _ _ _ _ _ _ _ ho
  rw [Nat.zero_add] at h2
  obtain ⟨last, out1, g1, g2, g3, _, g5, _, ⟨lastRes, g7, g8⟩, _⟩ :=
    executeStep_attempts r (Runner.runCtx ctx0 sc) step
      (r.log mid.2 (LogLine.cleanupStep (pre.length + 1) step.Name)) hk
  rw [h2] at g5
  have hout : out1 = out := (Option.some.inj g5).symm
  subst hout
  obtain ⟨_, _, _, e, he1, he2, he3, he4⟩ :=
    AddEvent_grow_one mid.1 (r.cleanupEvent step out1) (r.now out1.2.world)
  refine ⟨s, mid, last, out1, lastRes, e, hs, h1, g1, g2, h2, g3, g7, h3, he1, ?_, he3, ?_, he2⟩
  · rw [hev, hevs2, hevs1, he1, List.append_assoc, List.append_assoc,
      List.getElem?_append_right (Nat.le_refl _)]
    simp
  · rw [he4]
    show out1.1.1.Message = lastRes.Message
    rw [g8]

/-- C27 (as amended): a step that the run executes produces exactly one event, whatever
the number of its attempts; the failed attempts before the last produce no event. For a
step of the main list: when the run reaches a step of a known type and executes it, the
iteration appends one event to the events recorded so far (one per earlier step), and this
is the event of the returned report at the position of the step; it carries the name of
the step and the message of the last attempt made, and it is a success event when that
attempt succeeded and a failure event otherwise. For a cleanup step: the teardown of the
run reaches every cleanup step of a known type after appending one event per earlier
cleanup step, executes it, and appends one event, the event of the returned report at
that position; it carries the name of the step and the message of the last attempt made,
and it is a cleanup event whatever the outcome of that attempt. -/
theorem C27_one_event_per_executed_step {W : Type} (r : Runner W) (ctx0 : Context)
    (sc : Scenario) (w : W) (res : RunResult W) (hrun : r.Run ctx0 sc w = some res) :
    (∀ pre step s, step.known = true → r.Reaches ctx0 sc w pre step s
        → (r.poll (Runner.runCtx ctx0 sc) step s).runCleanup = false
        → ∃ last out lastRes e, 1 ≤ last ∧ last ≤ step.budget
          ∧ r.attempt (Runner.runCtx ctx0 sc) pre.length step s = some out
          ∧ (∀ i, i + 1 < last → (r.attemptNo (Runner.runCtx ctx0 sc) step
              (r.log (r.poll (Runner.runCtx ctx0 sc) step s).m
                (LogLine.step (pre.length + 1) step.Name)) i).1.succeeded = some false)
          ∧ (r.attemptNo (Runner.runCtx ctx0 sc) step
              (r.log (r.poll (Runner.runCtx ctx0 sc) step s).m
                (LogLine.step (pre.length + 1) step.Name)) (last - 1)).1.result = some lastRes
          ∧ s.rep.Events.length = pre.length
          ∧ (r.record (r.poll (Runner.runCtx ctx0 sc) step s).rep step out).Events
              = s.rep.Events ++ [e]
          ∧ res.rep.Events[pre.length]? = some e
          ∧ e.Step = step.Name
          ∧ e.Message = lastRes.Message
          ∧ e.Type_ = (if lastRes.Success then EventSuccess else EventFailure))
      ∧ (∀ pre step post, sc.Cleanup = pre ++ step :: post → step.known = true
        → ∃ s mid last out lastRes e, r.EntersTeardown ctx0 sc w s
          ∧ r.cleanupSteps (Runner.runCtx ctx0 sc) 0 pre s.rep
              (r.log s.m LogLine.runningCleanup) = some mid
          ∧ 1 ≤ last ∧ last ≤ step.budget
          ∧ r.executeStep (Runner.runCtx ctx0 sc) step
              (r.log mid.2 (LogLine.cleanupStep (pre.length + 1) step.Name)) = some out
          ∧ (∀ i, i + 1 < last → (r.attemptNo (Runner.runCtx ctx0 sc) step
              (r.log mid.2 (LogLine.cleanupStep (pre.length + 1) step.Name)) i).1.succeeded
                = some false)
          ∧ (r.attemptNo (Runner.runCtx ctx0 sc) step
              (r.log mid.2 (LogLine.cleanupStep (pre.length + 1) step.Name))
                (last - 1)).1.result = some lastRes
          ∧ mid.1.Events.length = s.rep.Events.length + pre.length
          ∧ (mid.1.AddEvent (r.cleanupEvent step out) (r.now out.2.world)).Events
              = mid.1.Events ++ [e]
          ∧ res.rep.Events[mid.1.Events.length]? = some e
          ∧ e.Step = step.Name
          ∧ e.Message = lastRes.Message
          ∧ e.Type_ = EventCleanup) :=
  ⟨fun pre step s hk hreach hflag => main_step_event r ctx0 sc w pre step s res hk hreach hflag hrun,
    fun pre step post hsplit hk => cleanup_step_event r ctx0 sc w res pre step post hrun hsplit hk⟩

/-- C27 at a concrete run: the assertion `no`, which fails both of its attempts, as the
step of the main list (under `continue`) and as the cleanup step. The report holds one
event for the first, at position 0, and one cleanup event for the second. -/
theorem C27_one_event_per_executed_step_witness :
    ∃ res, (Demo.runner false).Run []
          (Demo.scenario [Demo.check "no" "continue"] [Demo.check "no" ""]) () = some res
      ∧ (∃ e, res.rep.Events[0]? = some e ∧ e.Step = "check-no")
      ∧ (∃ (e : Event) (k : Nat), res.rep.Events[k]? = some e ∧ e.Step = "check-no"
          ∧ e.Type_ = EventCleanup) := by
  obtain ⟨res, hres⟩ := Run_total (Demo.runner false) []
    (Demo.scenario [Demo.check "no" "continue"] [Demo.check "no" ""]) () (by decide)
  have h := C27_one_event_per_executed_step (Demo.runner false) []
    (Demo.scenario [Demo.check "no" "continue"] [Demo.check "no" ""]) () res hres
  obtain ⟨_, _, _, e, _, _, _, _, _, _, _, hsame, hstep, _⟩ :=
    h.1 [] (Demo.check "no" "continue")
      ((Demo.runner false).enter
        (Demo.scenario [Demo.check "no" "continue"] [Demo.check "no" ""]) ())
      (by decide) ⟨⟨[], rfl⟩, rfl⟩ (by decide)
  obtain ⟨_, mid, _, _, _, e2, _, _, _, _, _, _, _, _, _, hsame2, hstep2, _, htype2⟩ :=
    h.2 [] (Demo.check "no" "") [] rfl (by decide)
  exact ⟨res, hres, ⟨e, hsame, hstep⟩, ⟨e2, _, hsame2, hstep2, htype2⟩⟩

end Chaos
